import Mathlib

/-! # hyp_core_ctl: the CPU reservation controller

A shallow embedding of `drivers/soc/qcom/hyp_core_ctl.c` and the properties of its
reservation engine.  CPU masks are finite sets of CPU numbers, the vcpu table is a list
of records, and every call that leaves the driver (scheduler isolation, the
`vcpu_affinity_set` hypercall, the frequency QoS update) is answered by an environment
whose answers may depend on everything that happened before.  Each such call is recorded
in a trace, so that "no hypercall is made" is a statement about the trace.
-/

namespace HypCoreCtl

/-! ## CPU masks -/

/-- A `cpumask_t`: the set of CPU numbers whose bit is set.  Valid bits are below
`nr_cpu_ids`. -/
abbrev cpumask := Finset Nat

/-- The constants of the machine the driver runs on. -/
structure Machine where
  nr_cpu_ids : Nat
  cpu_possible_mask : cpumask

/-- `num_possible_cpus()`. -/
def num_possible_cpus (M : Machine) : Nat := M.cpu_possible_mask.card

/-- `#define MAX_RESERVE_CPUS (num_possible_cpus()/2)`. -/
def MAX_RESERVE_CPUS (M : Machine) : Nat := num_possible_cpus M / 2

/-- The CPUs visited by `for_each_cpu(i, mask)`, in the order of the visit: the set bits
below `nr_cpu_ids`, ascending. -/
def for_each_cpu (M : Machine) (mask : cpumask) : List Nat :=
  (List.range M.nr_cpu_ids).filter (fun c => decide (c ∈ mask))

/-- `cpumask_first(mask)`: the lowest set bit, `nr_cpu_ids` when there is none. -/
def cpumask_first (M : Machine) (mask : cpumask) : Nat :=
  ((List.range M.nr_cpu_ids).find? (fun c => decide (c ∈ mask))).getD M.nr_cpu_ids

/-- Modelled from the spec: the macro `cpumask_any` of `linux/cpumask.h` is not among the
sources; the spec calls it any-element selection with lowest-id as the deterministic
choice, which is `cpumask_first`. -/
def cpumask_any (M : Machine) (mask : cpumask) : Nat := cpumask_first M mask

/-! ## Calls that leave the driver -/

/-- One call out of the driver, with the value it returned. -/
inductive Event where
  | isolate (cpu : Nat) (ret : Int)
  | unisolate (cpu : Nat) (ret : Int)
  | unisolate_unlocked (cpu : Nat)
  | affinity_set (cap_id : Nat) (pcpu : Nat) (err : Int)
  | qos_update (cpu : Nat) (value : Nat) (ret : Int)
  | wake_up_process
  | del_timer
  | mod_timer (timeout_ms : Nat)
  deriving DecidableEq, Repr

/-- `HH_ERROR_OK`. -/
def HH_ERROR_OK : Int := 0

/-- `FREQ_QOS_MIN_DEFAULT_VALUE`. -/
def FREQ_QOS_MIN_DEFAULT_VALUE : Nat := 0

/-- What the rest of the kernel and the hypervisor present to one engine pass: the online
CPUs, the CPUs at their maximum cooling level, and the answer to each call, which may
depend on the calls made so far. -/
structure Env where
  cpu_online_mask : cpumask
  thermal_cpus : cpumask
  sched_isolate_cpu : List Event → Nat → Int
  sched_unisolate_cpu : List Event → Nat → Int
  hh_hcall_vcpu_affinity_set : List Event → Nat → Nat → Int
  freq_qos_update_request : List Event → Nat → Nat → Int

/-! ## The data of the driver -/

/-- `struct hyp_core_ctl_cpu_map`. -/
structure hyp_core_ctl_cpu_map where
  cap_id : Nat
  pcpu : Nat
  curr_pcpu : Nat
  deriving DecidableEq, Repr

/-- `struct hyp_core_ctl_data` together with the file-scope and per-CPU variables of the
driver.  `cpumap` holds the slots of the table in order; the slots after its end are
zero (`kzalloc`).  `qos_min_req c` is the value currently requested by the min-frequency
request of CPU `c`.  `trace` is the record of the calls made so far, oldest first. -/
structure State where
  pending : Bool
  reservation_enabled : Bool
  reserve_cpus : cpumask
  our_isolated_cpus : cpumask
  final_reserved_cpus : cpumask
  cpumap : List hyp_core_ctl_cpu_map
  hh_cpumap : List hyp_core_ctl_cpu_map
  is_vcpu_info_populated : Bool
  init_done : Bool
  freq_qos_init_done : Bool
  is_vpm_group_info_populated : Bool
  hh_suspend_timer_pending : Bool
  sysctl_hh_suspend_timeout_ms : Nat
  qos_min_freq : Nat → Nat
  qos_min_req : Nat → Nat
  trace : List Event

/-- Appends one call to the trace. -/
def State.log (s : State) (e : Event) : State := { s with trace := s.trace ++ [e] }

/-! ## finalize_reservation -/

/-- The local variables of `finalize_reservation` that its two loops update, and the
trace. -/
structure FinLocals where
  temp : cpumask
  vcpu_adjust_mask : cpumask
  trace : List Event

/-- The body of the first loop of `finalize_reservation` for slot `i` holding `m`
(after the `cap_id == 0` test): the new contents of the slot and the locals. -/
def finalize_pass1_body (E : Env) (final_reserved_cpus : cpumask) (i : Nat)
    (m : hyp_core_ctl_cpu_map) (L : FinLocals) : hyp_core_ctl_cpu_map × FinLocals :=
  let orig_cpu := m.pcpu
  let curr_cpu := m.curr_pcpu
  if orig_cpu ∈ final_reserved_cpus then
    let L1 := { L with temp := L.temp.erase orig_cpu }
    if orig_cpu = curr_cpu then (m, L1)
    else
      let err := E.hh_hcall_vcpu_affinity_set L1.trace m.cap_id orig_cpu
      let L2 := { L1 with trace := L1.trace ++ [Event.affinity_set m.cap_id orig_cpu err] }
      if err ≠ HH_ERROR_OK then (m, L2)
      else ({ m with curr_pcpu := orig_cpu }, L2)
  else if curr_cpu ∈ final_reserved_cpus then
    (m, { L with temp := L.temp.erase curr_cpu })
  else
    (m, { L with vcpu_adjust_mask := insert i L.vcpu_adjust_mask })

/-- The first loop of `finalize_reservation`, from slot `i` on, `ms` being the slots from
`i` to the end of the table: `for (i = 0; i < MAX_RESERVE_CPUS; i++)`, left at the first
slot whose `cap_id` is 0 (a slot after the end of the table is zero). -/
def finalize_pass1 (M : Machine) (E : Env) (final_reserved_cpus : cpumask) :
    Nat → List hyp_core_ctl_cpu_map → FinLocals → List hyp_core_ctl_cpu_map × FinLocals
  | _, [], L => ([], L)
  | i, m :: ms, L =>
    if MAX_RESERVE_CPUS M ≤ i then (m :: ms, L)
    else if m.cap_id = 0 then (m :: ms, L)
    else
      let b := finalize_pass1_body E final_reserved_cpus i m L
      let r := finalize_pass1 M E final_reserved_cpus (i + 1) ms b.2
      (b.1 :: r.1, r.2)

/-- The body of the second loop of `finalize_reservation` for slot `i` holding `m`. -/
def finalize_pass2_body (M : Machine) (E : Env) (m : hyp_core_ctl_cpu_map)
    (L : FinLocals) : hyp_core_ctl_cpu_map × FinLocals :=
  let replacement_cpu := cpumask_any M L.temp
  let L1 := { L with temp := L.temp.erase replacement_cpu }
  let err := E.hh_hcall_vcpu_affinity_set L1.trace m.cap_id replacement_cpu
  let L2 := { L1 with trace := L1.trace ++ [Event.affinity_set m.cap_id replacement_cpu err] }
  if err ≠ HH_ERROR_OK then (m, L2)
  else ({ m with curr_pcpu := replacement_cpu }, L2)

/-- The second loop of `finalize_reservation`, `for_each_cpu(i, &vcpu_adjust_mask)`, from
slot `i` on: the slots are visited in ascending order and the body runs for those whose
bit is set in `vcpu_adjust_mask`.  Only numbers of slots of the table are ever set in
that mask, so the walk stops at the end of the table. -/
def finalize_pass2 (M : Machine) (E : Env) :
    Nat → List hyp_core_ctl_cpu_map → FinLocals → List hyp_core_ctl_cpu_map × FinLocals
  | _, [], L => ([], L)
  | i, m :: ms, L =>
    if i < M.nr_cpu_ids ∧ i ∈ L.vcpu_adjust_mask then
      let b := finalize_pass2_body M E m L
      let r := finalize_pass2 M E (i + 1) ms b.2
      (b.1 :: r.1, r.2)
    else
      let r := finalize_pass2 M E (i + 1) ms L
      (m :: r.1, r.2)

/-- `finalize_reservation(hcd, temp)`: the state afterwards and the final contents of
`*temp` (the `WARN_ON` at the end fires when it is not empty). -/
def finalize_reservation (M : Machine) (E : Env) (s : State) (temp : cpumask) :
    State × cpumask :=
  if temp = s.final_reserved_cpus then (s, temp)
  else if temp.card < s.reserve_cpus.card then (s, temp)
  else
    let s1 := { s with final_reserved_cpus := temp }
    let p1 := finalize_pass1 M E s1.final_reserved_cpus 0 s1.cpumap
      { temp := temp, vcpu_adjust_mask := ∅, trace := s1.trace }
    let p2 := finalize_pass2 M E 0 p1.1 p1.2
    ({ s1 with cpumap := p2.1, trace := p2.2.trace }, p2.2.temp)

/-! ## Frequency floors -/

/-- Modelled from the spec: `freq_qos_update_request` of `kernel/power/qos.c` is not among
the sources; section 4.8 has the engine raise the floor of a CPU to the configured value
and reset it to the default through this call.  A negative return leaves the request as
it was, any other return leaves it at `value`. -/
def freq_qos_update_request (E : Env) (s : State) (cpu value : Nat) : State × Int :=
  let ret := E.freq_qos_update_request s.trace cpu value
  let s1 := s.log (Event.qos_update cpu value ret)
  if ret < 0 then (s1, ret)
  else ({ s1 with qos_min_req := Function.update s1.qos_min_req cpu value }, ret)

/-- The statements that follow a successful `sched_isolate_cpu(i)` in
`hyp_core_ctl_do_reservation`: `min_freq = per_cpu(qos_min_freq, i)` and, when it is not
zero and the requests exist, the update of the request of CPU `i`. -/
def apply_min_freq (E : Env) (s : State) (i : Nat) : State :=
  let min_freq := s.qos_min_freq i
  if min_freq ≠ 0 ∧ s.freq_qos_init_done = true then
    (freq_qos_update_request E s i min_freq).1
  else s

/-- The statements that follow a successful un-isolation of `cpu`: when the requests
exist, the request of `cpu` goes back to `FREQ_QOS_MIN_DEFAULT_VALUE`. -/
def reset_min_freq (E : Env) (s : State) (cpu : Nat) : State :=
  if s.freq_qos_init_done = true then
    (freq_qos_update_request E s cpu FREQ_QOS_MIN_DEFAULT_VALUE).1
  else s

/-- The statements after a successful `sched_isolate_cpu(i)`: the bit of `i` is set in
`our_isolated_cpus` and the min-frequency floor of `i` is applied. -/
def isolate_done (E : Env) (s : State) (i : Nat) : State :=
  apply_min_freq E { s with our_isolated_cpus := insert i s.our_isolated_cpus } i

/-- The statements after a successful `sched_unisolate_cpu(i)`: the bit of `i` is cleared
in `our_isolated_cpus` and the min-frequency floor of `i` is reset. -/
def unisolate_done (E : Env) (s : State) (i : Nat) : State :=
  reset_min_freq E { s with our_isolated_cpus := s.our_isolated_cpus.erase i } i

/-! ## undo_reservation -/

/-- The loop of `hyp_core_ctl_undo_reservation` over the CPUs still to visit. -/
def undo_reservation_loop (E : Env) : List Nat → State → State
  | [], s => s
  | cpu :: cpus, s =>
    let ret := E.sched_unisolate_cpu s.trace cpu
    let s1 := s.log (Event.unisolate cpu ret)
    if ret < 0 then undo_reservation_loop E cpus s1
    else undo_reservation_loop E cpus (unisolate_done E s1 cpu)

/-- `hyp_core_ctl_undo_reservation(hcd)`.  The loop clears only the bit of the CPU it is
visiting, so the CPUs visited are those set at the start. -/
def hyp_core_ctl_undo_reservation (M : Machine) (E : Env) (s : State) : State :=
  undo_reservation_loop E (for_each_cpu M s.our_isolated_cpus) s

/-! ## do_reservation -/

/-- The first loop of `hyp_core_ctl_do_reservation`: the reserve CPUs that are neither
isolated by us nor throttled are isolated, or noted in `offline_cpus` when offline. -/
def isolate_reserve_loop (E : Env) : List Nat → State → cpumask → State × cpumask
  | [], s, offline_cpus => (s, offline_cpus)
  | i :: cpus, s, offline_cpus =>
    if i ∉ E.cpu_online_mask then isolate_reserve_loop E cpus s (insert i offline_cpus)
    else
      let ret := E.sched_isolate_cpu s.trace i
      let s1 := s.log (Event.isolate i ret)
      if ret < 0 then isolate_reserve_loop E cpus s1 offline_cpus
      else isolate_reserve_loop E cpus (isolate_done E s1 i) offline_cpus

/-- The loop of the shortfall branch that picks the offline candidates: the new
`offline_cpus`, the new `isolate_need`, and whether the loop left through `goto done`. -/
def pick_offline_loop (E : Env) : List Nat → cpumask → Int → cpumask × Int × Bool
  | [], offline_cpus, isolate_need => (offline_cpus, isolate_need, false)
  | i :: cpus, offline_cpus, isolate_need =>
    if i ∉ E.cpu_online_mask then
      if isolate_need - 1 = 0 then (insert i offline_cpus, isolate_need - 1, true)
      else pick_offline_loop E cpus (insert i offline_cpus) (isolate_need - 1)
    else pick_offline_loop E cpus offline_cpus isolate_need

/-- The loop of the shortfall branch that isolates replacement CPUs until
`isolate_need` reaches 0. -/
def isolate_replacement_loop (E : Env) : List Nat → State → Int → State
  | [], s, _ => s
  | i :: cpus, s, isolate_need =>
    let ret := E.sched_isolate_cpu s.trace i
    let s1 := s.log (Event.isolate i ret)
    if ret < 0 then isolate_replacement_loop E cpus s1 isolate_need
    else
      let s2 := isolate_done E s1 i
      if isolate_need - 1 = 0 then s2
      else isolate_replacement_loop E cpus s2 (isolate_need - 1)

/-- The loop of the overshoot branch that un-isolates CPUs outside `reserve_cpus` until
`unisolate_need` reaches 0. -/
def unisolate_excess_loop (E : Env) : List Nat → State → Int → State
  | [], s, _ => s
  | i :: cpus, s, unisolate_need =>
    let ret := E.sched_unisolate_cpu s.trace i
    let s1 := s.log (Event.unisolate i ret)
    if ret < 0 then unisolate_excess_loop E cpus s1 unisolate_need
    else
      let s2 := unisolate_done E s1 i
      if unisolate_need - 1 = 0 then s2
      else unisolate_excess_loop E cpus s2 (unisolate_need - 1)

/-- `hyp_core_ctl_do_reservation(hcd)` up to the label `done`: the state and
`offline_cpus` there. -/
def do_reservation_isolation (M : Machine) (E : Env) (s : State) : State × cpumask :=
  let thermal_cpus := E.thermal_cpus
  let iter_cpus := (s.reserve_cpus \ s.our_isolated_cpus) \ thermal_cpus
  let l1 := isolate_reserve_loop E (for_each_cpu M iter_cpus) s ∅
  let s1 := l1.1
  let offline_cpus := l1.2
  let iter_cpus := s1.reserve_cpus \ offline_cpus
  let iso_required : Int := iter_cpus.card
  let iso_done : Int := s1.our_isolated_cpus.card
  if iso_done < iso_required then
    let isolate_need := iso_required - iso_done
    let iter_cpus := ((M.cpu_possible_mask \ s1.our_isolated_cpus) \ thermal_cpus) \ offline_cpus
    let l2 := pick_offline_loop E (for_each_cpu M iter_cpus) offline_cpus isolate_need
    if l2.2.2 = true then (s1, l2.1)
    else
      let iter_cpus := iter_cpus \ l2.1
      (isolate_replacement_loop E (for_each_cpu M iter_cpus) s1 l2.2.1, l2.1)
  else if iso_done > iso_required then
    let unisolate_need := iso_done - iso_required
    let iter_cpus := s1.our_isolated_cpus \ s1.reserve_cpus
    (unisolate_excess_loop E (for_each_cpu M iter_cpus) s1 unisolate_need, offline_cpus)
  else (s1, offline_cpus)

/-- The mask `temp_reserved_cpus` that `hyp_core_ctl_do_reservation` hands to
`finalize_reservation`. -/
def do_reservation_temp (M : Machine) (E : Env) (s : State) : cpumask :=
  (do_reservation_isolation M E s).1.our_isolated_cpus ∪ (do_reservation_isolation M E s).2

/-- `hyp_core_ctl_do_reservation(hcd)`. -/
def hyp_core_ctl_do_reservation (M : Machine) (E : Env) (s : State) : State :=
  (finalize_reservation M E (do_reservation_isolation M E s).1 (do_reservation_temp M E s)).1

/-! ## The worker, the thermal notifier, enable -/

/-- One round of the loop of `hyp_core_ctl_thread` once the thread runs: `pending` is
cleared and the engine is entered according to `reservation_enabled`. -/
def hyp_core_ctl_thread (M : Machine) (E : Env) (s : State) : State :=
  let s1 := { s with pending := false }
  if s1.reservation_enabled = true then hyp_core_ctl_do_reservation M E s1
  else hyp_core_ctl_undo_reservation M E s1

/-- `hyp_core_ctl_handle_thermal(hcd, cpu, throttled)`. -/
def hyp_core_ctl_handle_thermal (M : Machine) (E : Env) (s : State) (cpu : Nat)
    (throttled : Bool) : State :=
  let thermal_cpus := E.thermal_cpus
  let temp_mask := s.final_reserved_cpus
  if throttled = true then
    let iter_cpus := (M.cpu_possible_mask \ thermal_cpus) \ s.final_reserved_cpus
    let replacement_cpu := cpumask_any M iter_cpus
    if replacement_cpu < M.nr_cpu_ids then
      (finalize_reservation M E s (insert replacement_cpu (temp_mask.erase cpu))).1
    else s
  else
    let iter_cpus := s.final_reserved_cpus \ s.reserve_cpus
    let replacement_cpu := cpumask_any M iter_cpus
    if replacement_cpu < M.nr_cpu_ids then
      (finalize_reservation M E s (insert cpu (temp_mask.erase replacement_cpu))).1
    else s

/-- The end of `hyp_core_ctl_cpu_cooling_cb`, reached when the event is relevant: the
worker is woken when the reservation is enabled, else the CPUs are re-assigned here. -/
def cooling_cb_kick (M : Machine) (E : Env) (s : State) (cpu : Nat) (val : Bool) : State :=
  if s.reservation_enabled = true then
    { s with pending := true }.log Event.wake_up_process
  else hyp_core_ctl_handle_thermal M E s cpu val

/-- `hyp_core_ctl_cpu_cooling_cb(nb, val, data)` with `cpu = (long) data`, the driver
being probed (`the_hcd` set).  The return value of `sched_unisolate_cpu` is not looked
at. -/
def hyp_core_ctl_cpu_cooling_cb (M : Machine) (E : Env) (s : State) (val : Bool)
    (cpu : Nat) : State :=
  if val = true then
    if cpu ∉ s.final_reserved_cpus then s
    else if cpu ∈ s.our_isolated_cpus then
      let ret := E.sched_unisolate_cpu s.trace cpu
      let s1 := s.log (Event.unisolate cpu ret)
      cooling_cb_kick M E (unisolate_done E s1 cpu) cpu val
    else cooling_cb_kick M E s cpu val
  else
    if cpu ∉ s.reserve_cpus ∧ ¬ (s.final_reserved_cpus ∩ E.thermal_cpus).Nonempty then s
    else cooling_cb_kick M E s cpu val

/-- `hh_del_suspend_timer()`. -/
def hh_del_suspend_timer (s : State) : State :=
  { s with hh_suspend_timer_pending := false }.log Event.del_timer

/-- `hh_start_suspend_timer()`. -/
def hh_start_suspend_timer (s : State) : State :=
  { s with hh_suspend_timer_pending := true }.log
    (Event.mod_timer s.sysctl_hh_suspend_timeout_ms)

/-- `hyp_core_ctl_enable(enable)`. -/
def hyp_core_ctl_enable (s : State) (enable : Bool) : State :=
  if s.is_vcpu_info_populated = false then s
  else if enable = s.reservation_enabled then s
  else
    let s1 :=
      if s.is_vpm_group_info_populated = true then
        if enable = true then hh_del_suspend_timer s else hh_start_suspend_timer s
      else s
    { s1 with reservation_enabled := enable, pending := true }.log Event.wake_up_process

/-! ## Conditions on the machine, the environment and the state -/

/-- The possible CPUs are numbered below `nr_cpu_ids`. -/
def Machine.ok (M : Machine) : Prop := M.cpu_possible_mask ⊆ Finset.range M.nr_cpu_ids

/-- Every `sched_isolate_cpu` call succeeds. -/
def IsolateOK (E : Env) : Prop := ∀ tr cpu, 0 ≤ E.sched_isolate_cpu tr cpu

/-- Every `sched_unisolate_cpu` call succeeds. -/
def UnisolateOK (E : Env) : Prop := ∀ tr cpu, 0 ≤ E.sched_unisolate_cpu tr cpu

/-- Every `vcpu_affinity_set` hypercall returns `HH_ERROR_OK`. -/
def HcallOK (E : Env) : Prop :=
  ∀ tr cap_id cpu, E.hh_hcall_vcpu_affinity_set tr cap_id cpu = HH_ERROR_OK

/-- Every `freq_qos_update_request` call succeeds. -/
def QosOK (E : Env) : Prop := ∀ tr cpu value, 0 ≤ E.freq_qos_update_request tr cpu value

/-- No condition on the environment. -/
def AnyEnv (_ : Env) : Prop := True

/-- The state right after the vcpu table is populated: at most `MAX_RESERVE_CPUS` slots,
each with a non-zero `cap_id`, pinned to its original CPU, which is a possible CPU; the
original CPUs pairwise distinct; `reserve_cpus` their set and `final_reserved_cpus` a
copy of it; nothing isolated and the reservation not enabled. -/
def Populated (M : Machine) (s : State) : Prop :=
  M.ok ∧ s.cpumap.length ≤ MAX_RESERVE_CPUS M ∧
  (∀ m ∈ s.cpumap, m.cap_id ≠ 0 ∧ m.curr_pcpu = m.pcpu ∧ m.pcpu ∈ M.cpu_possible_mask) ∧
  (s.cpumap.map hyp_core_ctl_cpu_map.pcpu).Nodup ∧
  s.reserve_cpus = (s.cpumap.map hyp_core_ctl_cpu_map.pcpu).toFinset ∧
  s.final_reserved_cpus = s.reserve_cpus ∧
  s.our_isolated_cpus = ∅ ∧ s.reservation_enabled = false ∧
  s.is_vcpu_info_populated = true

/-- Two slots of the vcpu table are apart: their original CPUs differ, their current CPUs
differ, and neither is currently on the original CPU of the other. -/
def Apart (a b : hyp_core_ctl_cpu_map) : Prop :=
  a.pcpu ≠ b.pcpu ∧ a.curr_pcpu ≠ b.curr_pcpu ∧ a.curr_pcpu ≠ b.pcpu ∧ b.curr_pcpu ≠ a.pcpu

/-- The masks of the state hold possible CPUs only. -/
def MasksOK (M : Machine) (s : State) : Prop :=
  M.ok ∧ s.reserve_cpus ⊆ M.cpu_possible_mask ∧
  s.our_isolated_cpus ⊆ M.cpu_possible_mask ∧
  s.final_reserved_cpus ⊆ M.cpu_possible_mask

/-- The vcpu table is well formed: non-zero `cap_id`s, at most `MAX_RESERVE_CPUS` slots,
as many slots as `reserve_cpus` has CPUs, and the slots pairwise apart. -/
def TableOK (M : Machine) (s : State) : Prop :=
  (∀ m ∈ s.cpumap, m.cap_id ≠ 0) ∧ s.cpumap.length ≤ MAX_RESERVE_CPUS M ∧
  s.reserve_cpus.card = s.cpumap.length ∧ s.cpumap.Pairwise Apart

/-! ## A machine with eight CPUs and a guest with two vcpus -/

/-- Eight possible CPUs, 0 to 7. -/
def M8 : Machine := { nr_cpu_ids := 8, cpu_possible_mask := Finset.range 8 }

/-- An environment that gives the same answer to every call of a kind. -/
def constEnv (online thermal : cpumask) (iso uniso hcall : Int) : Env :=
  { cpu_online_mask := online, thermal_cpus := thermal,
    sched_isolate_cpu := fun _ _ => iso, sched_unisolate_cpu := fun _ _ => uniso,
    hh_hcall_vcpu_affinity_set := fun _ _ _ => hcall,
    freq_qos_update_request := fun _ _ _ => 0 }

/-- All CPUs online, `thermal` throttled, every call succeeds. -/
def okEnv (thermal : cpumask) : Env := constEnv (Finset.range 8) thermal 0 0 0

/-- Scenario 1 of the spec before enable: vcpu 0 on CPU 4 and vcpu 1 on CPU 5, freshly
populated. -/
def fresh45 : State :=
  { pending := false, reservation_enabled := false, reserve_cpus := {4, 5},
    our_isolated_cpus := ∅, final_reserved_cpus := {4, 5},
    cpumap := [⟨101, 4, 4⟩, ⟨102, 5, 5⟩], hh_cpumap := [⟨101, 4, 4⟩, ⟨102, 5, 5⟩],
    is_vcpu_info_populated := true, init_done := true, freq_qos_init_done := false,
    is_vpm_group_info_populated := false, hh_suspend_timer_pending := false,
    sysctl_hh_suspend_timeout_ms := 1000, qos_min_freq := fun _ => 0,
    qos_min_req := fun _ => 0, trace := [] }


/-! ## The matching when every hypercall succeeds -/

/-- Neither the original nor the current CPU of the slot is in `F`: the first loop of
`finalize_reservation` notes the slot in `vcpu_adjust_mask`. -/
def marked (F : cpumask) (m : hyp_core_ctl_cpu_map) : Prop :=
  m.pcpu ∉ F ∧ m.curr_pcpu ∉ F

instance (F : cpumask) (m : hyp_core_ctl_cpu_map) : Decidable (marked F m) := by
  unfold marked; infer_instance

/-- The CPU that the first loop clears from `temp` for the slot, if any. -/
def claim (F : cpumask) (m : hyp_core_ctl_cpu_map) : Option Nat :=
  if m.pcpu ∈ F then some m.pcpu else if m.curr_pcpu ∈ F then some m.curr_pcpu else none

/-- The slot after the first loop when every hypercall succeeds. -/
def restore (F : cpumask) (m : hyp_core_ctl_cpu_map) : hyp_core_ctl_cpu_map :=
  if m.pcpu ∈ F then { m with curr_pcpu := m.pcpu } else m

/-- The table after the second loop when every hypercall succeeds, `t` being the CPUs
left in `temp`. -/
def assign (M : Machine) (F : cpumask) :
    List hyp_core_ctl_cpu_map → cpumask → List hyp_core_ctl_cpu_map
  | [], _ => []
  | m :: ms, t =>
    if marked F m then
      { m with curr_pcpu := cpumask_any M t } :: assign M F ms (t.erase (cpumask_any M t))
    else m :: assign M F ms t

/-- The slots from `i` on are all visited by the first loop: their `cap_id` is not zero
and they lie below `MAX_RESERVE_CPUS`. -/
def SlotsOK (M : Machine) (i : Nat) (ms : List hyp_core_ctl_cpu_map) : Prop :=
  (∀ m ∈ ms, m.cap_id ≠ 0) ∧ i + ms.length ≤ MAX_RESERVE_CPUS M

/-- What the matching does to a slot when every hypercall succeeds: the original CPU is
taken when it is in `T`, else the current CPU is kept when it is in `T`, and in every case
the slot ends on a CPU of `T`. -/
def Matched (T : cpumask) (m o : hyp_core_ctl_cpu_map) : Prop :=
  o.cap_id = m.cap_id ∧ o.pcpu = m.pcpu ∧ o.curr_pcpu ∈ T ∧
  (m.pcpu ∈ T → o.curr_pcpu = m.pcpu) ∧
  (m.pcpu ∉ T → m.curr_pcpu ∈ T → o.curr_pcpu = m.curr_pcpu)

/-- The state `t` differs from `s` at most in `pending`, `our_isolated_cpus`, the
min-frequency requests and the trace. -/
def Frame (s t : State) : Prop :=
  t = { s with pending := t.pending, our_isolated_cpus := t.our_isolated_cpus,
               qos_min_req := t.qos_min_req, trace := t.trace }

/-- The call is a `vcpu_affinity_set` hypercall. -/
def Event.is_affinity_set : Event → Bool
  | Event.affinity_set _ _ _ => true
  | _ => false

/-- The call is a `sched_isolate_cpu` call. -/
def Event.is_isolate : Event → Bool
  | Event.isolate _ _ => true
  | _ => false

/-- The trace of `t` is the trace of `s` followed by calls none of which is a
`vcpu_affinity_set` hypercall. -/
def NoHcall (s t : State) : Prop :=
  ∃ new, t.trace = s.trace ++ new ∧ ∀ e ∈ new, Event.is_affinity_set e = false

/-- The invariant of the vcpu table: it is well formed and every vcpu is on a CPU of
`final_reserved_cpus`. -/
def TableInv (M : Machine) (s : State) : Prop :=
  TableOK M s ∧ ∀ m ∈ s.cpumap, m.curr_pcpu ∈ s.final_reserved_cpus

/-! ## The statements of the invariants -/

/-- Any two distinct vcpus have different `pcpu_current`. -/
def DistinctCurrent (s : State) : Prop :=
  ∀ (i j : Nat) (a b : hyp_core_ctl_cpu_map),
    s.cpumap[i]? = some a → s.cpumap[j]? = some b → i ≠ j →
    a.curr_pcpu ≠ b.curr_pcpu

/-- Every vcpu's `pcpu_current` is a member of `final_reserved_cpus`. -/
def CurrentReserved (s : State) : Prop :=
  ∀ m ∈ s.cpumap, m.curr_pcpu ∈ s.final_reserved_cpus

/-! ## Environments and states of the counterexamples -/

/-- All CPUs online, `thermal` throttled, every call succeeds except the hypercall, which
fails. -/
def hcallFailEnv (thermal : cpumask) : Env := constEnv (Finset.range 8) thermal 0 0 1

/-- All CPUs online, CPU 5 throttled, every call succeeds except the hypercalls on the
vcpu with `cap_id` 101. -/
def hcallFail101Env : Env :=
  { okEnv {5} with
    hh_hcall_vcpu_affinity_set := fun _ cap_id _ => if cap_id = 101 then 1 else 0 }

/-- CPU 4 is throttled and vcpu 0 is moved to CPU 0; CPU 4 is unthrottled and the
hypercall that should move vcpu 0 back fails; CPU 5 is throttled, the hypercall for
vcpu 0 fails again and vcpu 1 is moved to CPU 0. -/
def twoOnCpu0 : State :=
  hyp_core_ctl_handle_thermal M8 hcallFail101Env
    (hyp_core_ctl_handle_thermal M8 (hcallFailEnv ∅)
      (hyp_core_ctl_handle_thermal M8 (okEnv {4}) fresh45 4 true) 4 false) 5 true

/-- All CPUs online, all CPUs but CPU 0 throttled, every call succeeds. -/
def onlyCpu0CoolEnv : Env := okEnv {1, 2, 3, 4, 5, 6, 7}

/-- The slot `o` holds the vcpu of the slot `m`, on the same CPU or on a CPU for which a
`vcpu_affinity_set` hypercall on its `cap_id` returned OK among the calls `new`. -/
def Moved (new : List Event) (m o : hyp_core_ctl_cpu_map) : Prop :=
  o.cap_id = m.cap_id ∧ o.pcpu = m.pcpu ∧
  (o.curr_pcpu = m.curr_pcpu ∨ Event.affinity_set m.cap_id o.curr_pcpu HH_ERROR_OK ∈ new)

/-- All CPUs online, nothing throttled, every call succeeds except `sched_unisolate_cpu`,
which fails. -/
def unisolateFailEnv : Env := constEnv (Finset.range 8) ∅ 0 (-1) 0

/-- Scenario 1: the reservation is enabled on the fresh table and the worker has run. -/
def enabled45 : State :=
  hyp_core_ctl_thread M8 (okEnv ∅) (hyp_core_ctl_enable fresh45 true)

/-- Scenario 2: CPU 4 is throttled and the worker has run; vcpu 0 is on CPU 0. -/
def throttled4 : State :=
  hyp_core_ctl_thread M8 (okEnv {4}) (hyp_core_ctl_cpu_cooling_cb M8 (okEnv {4}) enabled45 true 4)

/-- Scenario 3 before the worker runs: CPU 4 has been unthrottled and the notifier has
set `pending`. -/
def unthrottled4 : State :=
  hyp_core_ctl_cpu_cooling_cb M8 (okEnv ∅) throttled4 false 4

/-- Scenario 1 with a min-frequency floor of 1000 configured for every CPU: the
reservation is enabled and the worker has run, so that CPUs 4 and 5 are isolated with
their floor raised. -/
def floorsEnabled45 : State :=
  hyp_core_ctl_thread M8 (okEnv ∅)
    (hyp_core_ctl_enable
      { fresh45 with freq_qos_init_done := true, qos_min_freq := fun _ => 1000 } true)

/-- Every vcpu whose original CPU is in `final_reserved_cpus` is on it. -/
def OnOriginal (s : State) : Prop :=
  ∀ m ∈ s.cpumap, m.pcpu ∈ s.final_reserved_cpus → m.curr_pcpu = m.pcpu

/-- The slot `o` holds the vcpu of the slot `m`. -/
def SameVcpu (m o : hyp_core_ctl_cpu_map) : Prop :=
  o.cap_id = m.cap_id ∧ o.pcpu = m.pcpu

/-- Every isolate, un-isolate and hypercall call succeeds and every possible CPU is
online. -/
def AllOK (M : Machine) (E : Env) : Prop :=
  IsolateOK E ∧ UnisolateOK E ∧ HcallOK E ∧ M.cpu_possible_mask ⊆ E.cpu_online_mask

/-- The thermal round trip on CPU `c`: the notifier is told that `c` is throttled and the
worker runs, in the environment `Et`; then the notifier is told that `c` is unthrottled
and the worker runs, in the environment `Eu`. -/
def thermal_round_trip (M : Machine) (Et Eu : Env) (s : State) (c : Nat) : State :=
  hyp_core_ctl_thread M Eu
    (hyp_core_ctl_cpu_cooling_cb M Eu
      (hyp_core_ctl_thread M Et (hyp_core_ctl_cpu_cooling_cb M Et s true c)) false c)

/-- The hypercalls of the second loop when every hypercall succeeds, `t` being the CPUs
left in `temp`. -/
def assign_calls (M : Machine) (F : cpumask) : List hyp_core_ctl_cpu_map → cpumask → List Event
  | [], _ => []
  | m :: ms, t =>
    if marked F m then
      Event.affinity_set m.cap_id (cpumask_any M t) HH_ERROR_OK ::
        assign_calls M F ms (t.erase (cpumask_any M t))
    else assign_calls M F ms t

/-- The reservation is disabled, nothing is isolated, `reserve_cpus` is `R`, which has one
possible CPU per vcpu and holds neither the original nor the current CPU of any vcpu, and
`final_reserved_cpus` is not `R`. -/
def Retargeted (M : Machine) (s : State) (R : cpumask) : Prop :=
  M.ok ∧ (∀ m ∈ s.cpumap, m.cap_id ≠ 0) ∧ s.cpumap.length ≤ MAX_RESERVE_CPUS M ∧
  s.is_vcpu_info_populated = true ∧ s.reservation_enabled = false ∧
  s.our_isolated_cpus = ∅ ∧ s.reserve_cpus = R ∧ R.card = s.cpumap.length ∧
  R ⊆ M.cpu_possible_mask ∧ (∀ m ∈ s.cpumap, m.pcpu ∉ R ∧ m.curr_pcpu ∉ R) ∧
  s.final_reserved_cpus ≠ R

/-- Every call succeeds, and the CPUs of `R` are online and not throttled. -/
def RetargetEnv (E : Env) (R : cpumask) : Prop :=
  IsolateOK E ∧ UnisolateOK E ∧ HcallOK E ∧ R ⊆ E.cpu_online_mask ∧
  Disjoint R E.thermal_cpus

/-- The reservation is enabled and the worker runs once. -/
def enable_and_pass (M : Machine) (E : Env) (s : State) : State :=
  hyp_core_ctl_thread M E (hyp_core_ctl_enable s true)

/-! ## The enable/disable round trip -/

/-- Every isolate and un-isolate call succeeds, and the CPUs of `R` are online and not
throttled. -/
def CalmEnv (E : Env) (R : cpumask) : Prop :=
  IsolateOK E ∧ UnisolateOK E ∧ R ⊆ E.cpu_online_mask ∧ Disjoint R E.thermal_cpus

/-- The masks and flags right after population: the vcpu info is populated, the
reservation is not enabled, nothing is isolated, `final_reserved_cpus` is the copy of
`reserve_cpus`, whose CPUs are numbered below `nr_cpu_ids`. -/
def FreshlyPopulated (M : Machine) (s : State) : Prop :=
  s.is_vcpu_info_populated = true ∧ s.reservation_enabled = false ∧
  s.our_isolated_cpus = ∅ ∧ s.final_reserved_cpus = s.reserve_cpus ∧
  s.reserve_cpus ⊆ Finset.range M.nr_cpu_ids

/-- Enable, worker pass (in `E1`), disable, worker pass (in `E2`), enable, worker pass
(in `E3`). -/
def enable_disable_enable (M : Machine) (E1 E2 E3 : Env) (s : State) : State :=
  hyp_core_ctl_thread M E3
    (hyp_core_ctl_enable
      (hyp_core_ctl_thread M E2
        (hyp_core_ctl_enable (hyp_core_ctl_thread M E1 (hyp_core_ctl_enable s true)) false))
      true)

/-! ## Population of the vcpu table -/

/-- `ENXIO`. -/
def ENXIO : Int := 6

/-- `nr_vcpus`: the number of records written to `hh_cpumap` so far.
`hh_vcpu_populate_affinity_info` writes the slot `nr_vcpus` and increments it; the slots
of the static array from `nr_vcpus` on are zero. -/
def nr_vcpus (s : State) : Nat := s.hh_cpumap.length

/-- `hh_vcpu_populate_affinity_info(cpu_idx, cap_id)`: the state afterwards and the value
returned. -/
def hh_vcpu_populate_affinity_info (s : State) (cpu_idx cap_id : Nat) : State × Int :=
  if s.init_done = false then (s, - ENXIO)
  else if s.is_vcpu_info_populated = false then
    ({ s with hh_cpumap := s.hh_cpumap ++ [⟨cap_id, cpu_idx, cpu_idx⟩] }, 0)
  else (s, 0)

/-- The loop of `hyp_core_ctl_init_reserve_cpus` from slot `i` on, `hs` being the records
of `hh_cpumap` from `i` on: the records copied to `hcd->cpumap` and `reserve_cpus`.  The
loop is left at `MAX_RESERVE_CPUS` or at the first slot whose `cap_id` is 0 (the slot
after the last record written is zero). -/
def init_reserve_cpus_loop (M : Machine) :
    Nat → List hyp_core_ctl_cpu_map → cpumask → List hyp_core_ctl_cpu_map × cpumask
  | _, [], reserve_cpus => ([], reserve_cpus)
  | i, h :: hs, reserve_cpus =>
    if MAX_RESERVE_CPUS M ≤ i then ([], reserve_cpus)
    else if h.cap_id = 0 then ([], reserve_cpus)
    else
      let r := init_reserve_cpus_loop M (i + 1) hs (insert h.pcpu reserve_cpus)
      (⟨h.cap_id, h.pcpu, h.curr_pcpu⟩ :: r.1, r.2)

/-- `hyp_core_ctl_init_reserve_cpus(hcd)`: `reserve_cpus` is cleared, the records of
`hh_cpumap` are copied over the first slots of `hcd->cpumap` with the bit of each `pcpu`
set in `reserve_cpus`, and `final_reserved_cpus` becomes a copy of `reserve_cpus`. -/
def hyp_core_ctl_init_reserve_cpus (M : Machine) (s : State) : State :=
  let r := init_reserve_cpus_loop M 0 s.hh_cpumap ∅
  { s with reserve_cpus := r.2, cpumap := r.1 ++ s.cpumap.drop r.1.length,
           final_reserved_cpus := r.2 }

/-- `hh_vcpu_done_populate_affinity_info(nb, cmd, data)`; `running` says that `cmd` is
`HH_RM_NOTIF_VM_STATUS` and the status of the payload is `HH_RM_VM_STATUS_RUNNING`. -/
def hh_vcpu_done_populate_affinity_info (M : Machine) (s : State) (running : Bool) : State :=
  if running = true ∧ s.is_vcpu_info_populated = false then
    { hyp_core_ctl_init_reserve_cpus M s with is_vcpu_info_populated := true }
  else s

/-- The calls `hh_vcpu_populate_affinity_info(cpu_idx, cap_id)` for the pairs
`(cpu_idx, cap_id)` of the list, in order. -/
def populate_all (s : State) (pairs : List (Nat × Nat)) : State :=
  pairs.foldl (fun t p => (hh_vcpu_populate_affinity_info t p.1 p.2).1) s

/-- The state that `hyp_core_ctl_probe` leaves: the controller is zeroed (`kzalloc`),
`init_done` is set, no vcpu is known. -/
def probed : State :=
  { pending := false, reservation_enabled := false, reserve_cpus := ∅,
    our_isolated_cpus := ∅, final_reserved_cpus := ∅, cpumap := [], hh_cpumap := [],
    is_vcpu_info_populated := false, init_done := true, freq_qos_init_done := false,
    is_vpm_group_info_populated := false, hh_suspend_timer_pending := false,
    sysctl_hh_suspend_timeout_ms := 1000, qos_min_freq := fun _ => 0,
    qos_min_req := fun _ => 0, trace := [] }

/-- Five vcpus, on CPUs 0 to 4, for the 8 possible CPUs of `M8`, where
`MAX_RESERVE_CPUS` is 4. -/
def fiveVcpus : List (Nat × Nat) := [(0, 101), (1, 102), (2, 103), (3, 104), (4, 105)]

/-! ## The text surface: `reserve_cpus` and `enable` -/

/-- `EPERM`. -/
def EPERM : Int := 1

/-- `EINVAL`. -/
def EINVAL : Int := 22

/-- What the library calls of `write_reserve_cpus` make of the bytes written:
`copied` is the return value of `simple_write_to_buffer` (negative on error),
`parse_ret` the return value of `cpulist_parse` (negative when the list is malformed) and
`temp_mask` the mask it parsed. -/
structure CpulistWrite where
  copied : Int
  parse_ret : Int
  temp_mask : cpumask

/-- `write_reserve_cpus(file, ubuf, count, ppos)`: the state afterwards and the value
returned.  On the path `count = -EPERM; return count` the value returned is `-EPERM`;
on the successful path it is `count`. -/
def write_reserve_cpus (s : State) (w : CpulistWrite) (count : Nat) : State × Int :=
  if s.is_vcpu_info_populated = false then (s, -EPERM)
  else if w.copied < 0 then (s, w.copied)
  else if w.parse_ret < 0 then (s, w.parse_ret)
  else if w.temp_mask.card ≠ s.reserve_cpus.card then (s, -EINVAL)
  else if s.reservation_enabled = true then (s, -EPERM)
  else ({ s with reserve_cpus := w.temp_mask }, count)

/-- `enable_store(dev, attr, buf, count)`: the state afterwards and the value returned;
`kstrtobool_ret` is the return value of `kstrtobool(buf, &enable)` and `enable` the
value it parsed. -/
def enable_store (s : State) (kstrtobool_ret : Int) (enable : Bool) (count : Nat) :
    State × Int :=
  if kstrtobool_ret < 0 then (s, -EINVAL)
  else (hyp_core_ctl_enable s enable, count)

/-- A well-formed CPU list that parses to `mask`. -/
def cpulist (mask : cpumask) : CpulistWrite := { copied := 0, parse_ret := 0, temp_mask := mask }

/-! ## Locking -/

/-- The operations on the two locks of the driver: `mutex_lock` and `mutex_unlock` on
`reservation_mutex`, `spin_lock_irqsave` and `spin_unlock_irqrestore` on `lock`. -/
inductive LockOp where
  | mutex_lock
  | mutex_unlock
  | spin_lock_irqsave
  | spin_unlock_irqrestore
  deriving DecidableEq, Repr

/-- The lock operations of `hyp_core_ctl_init_reserve_cpus`, in order. -/
def hyp_core_ctl_init_reserve_cpus_locks : List LockOp :=
  [LockOp.spin_lock_irqsave, LockOp.spin_unlock_irqrestore]

/-- The lock operations of `hh_vcpu_done_populate_affinity_info`, in order. -/
def hh_vcpu_done_populate_affinity_info_locks (s : State) (running : Bool) : List LockOp :=
  if running = true ∧ s.is_vcpu_info_populated = false then
    [LockOp.mutex_lock] ++ hyp_core_ctl_init_reserve_cpus_locks ++ [LockOp.mutex_unlock]
  else []

/-- The lock operations of one round of the loop of `hyp_core_ctl_thread`, in order;
`should_stop` is the value of `kthread_should_stop()`.  The engine
(`hyp_core_ctl_do_reservation`, `hyp_core_ctl_undo_reservation`, `finalize_reservation`)
has no lock operation. -/
def hyp_core_ctl_thread_locks (s : State) (should_stop : Bool) : List LockOp :=
  [LockOp.spin_lock_irqsave] ++
  (if s.pending = false then [LockOp.spin_unlock_irqrestore, LockOp.spin_lock_irqsave]
   else []) ++
  [LockOp.spin_unlock_irqrestore] ++
  (if should_stop = true then [] else [LockOp.mutex_lock, LockOp.mutex_unlock])

/-- The lock operations of `hyp_core_ctl_cpu_cooling_cb`, in order, the driver being
probed.  `hyp_core_ctl_handle_thermal` has no lock operation. -/
def hyp_core_ctl_cpu_cooling_cb_locks (E : Env) (s : State) (val : Bool) (cpu : Nat) :
    List LockOp :=
  [LockOp.mutex_lock] ++
  (if val = true ∧ cpu ∉ s.final_reserved_cpus then []
   else if val = false ∧ cpu ∉ s.reserve_cpus ∧
      ¬ (s.final_reserved_cpus ∩ E.thermal_cpus).Nonempty then []
   else if s.reservation_enabled = true then
     [LockOp.spin_lock_irqsave, LockOp.spin_unlock_irqrestore]
   else []) ++
  [LockOp.mutex_unlock]

/-- The lock operations of `hyp_core_ctl_hp_offline`, in order, the driver being probed:
there is none on any path. -/
def hyp_core_ctl_hp_offline_locks (s : State) (cpu : Nat) : List LockOp :=
  if s.reservation_enabled = false then []
  else if cpu ∈ s.our_isolated_cpus then []
  else []

/-- The lock operations of `hyp_core_ctl_hp_online`, in order, the driver being probed. -/
def hyp_core_ctl_hp_online_locks (s : State) : List LockOp :=
  if s.reservation_enabled = false then []
  else [LockOp.spin_lock_irqsave, LockOp.spin_unlock_irqrestore]

/-- The lock operations of `hh_susp_res_irq_handler`, in order; `err` is the value
returned by `hh_hcall_vpm_group_get_state`. -/
def hh_susp_res_irq_handler_locks (err : Int) : List LockOp :=
  if err ≠ HH_ERROR_OK then []
  else [LockOp.spin_lock_irqsave, LockOp.spin_unlock_irqrestore]

/-- The lock operations of `hyp_core_ctl_enable`, in order. -/
def hyp_core_ctl_enable_locks (s : State) : List LockOp :=
  [LockOp.mutex_lock] ++
  (if s.is_vcpu_info_populated = false then []
   else [LockOp.spin_lock_irqsave, LockOp.spin_unlock_irqrestore]) ++
  [LockOp.mutex_unlock]

/-- The lock operations of `enable_store`, in order. -/
def enable_store_locks (s : State) (kstrtobool_ret : Int) : List LockOp :=
  if kstrtobool_ret < 0 then [] else hyp_core_ctl_enable_locks s

/-- The lock operations of `status_show`, in order. -/
def status_show_locks : List LockOp := [LockOp.mutex_lock, LockOp.mutex_unlock]

/-- The lock operations of `hcc_min_freq_store`, in order: on every path the mutex is
taken at the start and released before the return. -/
def hcc_min_freq_store_locks : List LockOp := [LockOp.mutex_lock, LockOp.mutex_unlock]

/-- The lock operations of `write_reserve_cpus`, in order. -/
def write_reserve_cpus_locks (s : State) (w : CpulistWrite) : List LockOp :=
  [LockOp.mutex_lock] ++
  (if s.is_vcpu_info_populated = false then []
   else if w.copied < 0 then []
   else if w.parse_ret < 0 then []
   else if w.temp_mask.card ≠ s.reserve_cpus.card then []
   else [LockOp.spin_lock_irqsave, LockOp.spin_unlock_irqrestore]) ++
  [LockOp.mutex_unlock]

/-- Whether, in the sequence of lock operations, the mutex is acquired while the spinlock
is held; `held` says whether the spinlock is held at the start. -/
def mutex_under_spinlock : Bool → List LockOp → Bool
  | _, [] => false
  | _, LockOp.spin_lock_irqsave :: ops => mutex_under_spinlock true ops
  | _, LockOp.spin_unlock_irqrestore :: ops => mutex_under_spinlock false ops
  | held, LockOp.mutex_lock :: ops => held || mutex_under_spinlock held ops
  | held, LockOp.mutex_unlock :: ops => mutex_under_spinlock held ops

/-- The lock order reservation mutex, then spinlock: the mutex is never acquired while
the spinlock is held. -/
def LockOrder (ops : List LockOp) : Prop := mutex_under_spinlock false ops = false

/-! ## The matching of `finalize_reservation` -/

/-- The table is consistent: the original CPUs are pairwise distinct, the current CPUs
are pairwise distinct, and the current CPU of each vcpu is its own original CPU or is the
original CPU of no vcpu. -/
def ConsistentTable (ms : List hyp_core_ctl_cpu_map) : Prop :=
  (ms.map hyp_core_ctl_cpu_map.pcpu).Nodup ∧
  (ms.map hyp_core_ctl_cpu_map.curr_pcpu).Nodup ∧
  ∀ m ∈ ms, m.curr_pcpu = m.pcpu ∨ ∀ m' ∈ ms, m.curr_pcpu ≠ m'.pcpu

/-- The call is a `vcpu_affinity_set` hypercall that names a CPU of `S`. -/
def IsPick (S : cpumask) (e : Event) : Prop :=
  ∃ cap_id pcpu err, e = Event.affinity_set cap_id pcpu err ∧ pcpu ∈ S

/-- What the first loop of `finalize_reservation` can do to a slot, whatever the
hypercalls return: the vcpu stays where it is or, its original CPU being in `F`, goes
back to it. -/
def Settled (F : cpumask) (m o : hyp_core_ctl_cpu_map) : Prop :=
  o.cap_id = m.cap_id ∧ o.pcpu = m.pcpu ∧
  (o.curr_pcpu = m.curr_pcpu ∨ (m.pcpu ∈ F ∧ o.curr_pcpu = m.pcpu))

/-- The hypercall that takes the vcpu of the slot from where `p.1` has it to where `p.2`
has it, when every hypercall succeeds: none when the vcpu has not moved. -/
def calls_of (p : hyp_core_ctl_cpu_map × hyp_core_ctl_cpu_map) : List Event :=
  if p.2.curr_pcpu = p.1.curr_pcpu then []
  else [Event.affinity_set p.1.cap_id p.2.curr_pcpu HH_ERROR_OK]

/-- The hypercalls of the first loop when every hypercall succeeds: one for each slot
whose original CPU is in `F` and is not its current CPU. -/
def restore_calls (F : cpumask) : List hyp_core_ctl_cpu_map → List Event
  | [] => []
  | m :: ms =>
    if m.pcpu ∈ F ∧ m.pcpu ≠ m.curr_pcpu then
      Event.affinity_set m.cap_id m.pcpu HH_ERROR_OK :: restore_calls F ms
    else restore_calls F ms

/-! ## The steps of `do_reservation`, the thermal notifier and the hotplug callbacks -/

/-- The state and `offline_cpus` after the first loop of `hyp_core_ctl_do_reservation`,
where `iso_required` and `iso_done` are computed. -/
def do_reservation_first_loop (M : Machine) (E : Env) (s : State) : State × cpumask :=
  isolate_reserve_loop E
    (for_each_cpu M ((s.reserve_cpus \ s.our_isolated_cpus) \ E.thermal_cpus)) s ∅

/-- The call is a `freq_qos_update_request` call. -/
def Event.is_qos_update : Event → Bool
  | Event.qos_update _ _ _ => true
  | _ => false

/-- `hyp_core_ctl_hp_offline(cpu)`, the driver being probed (`the_hcd` set).  The return
value of `sched_unisolate_cpu_unlocked` is not looked at; the function returns 0 on every
path. -/
def hyp_core_ctl_hp_offline (E : Env) (s : State) (cpu : Nat) : State :=
  if s.reservation_enabled = false then s
  else if cpu ∈ s.our_isolated_cpus then
    reset_min_freq E
      ({ s with our_isolated_cpus := s.our_isolated_cpus.erase cpu }.log
        (Event.unisolate_unlocked cpu)) cpu
  else s

/-- `hyp_core_ctl_hp_online(cpu)`, the driver being probed (`the_hcd` set); the function
returns 0 on every path. -/
def hyp_core_ctl_hp_online (s : State) (cpu : Nat) : State :=
  if s.reservation_enabled = false then s
  else if cpu ∈ s.final_reserved_cpus then
    { s with pending := true }.log Event.wake_up_process
  else s

/-- CPU 5 of the enabled reservation of CPUs 4 and 5 goes offline, CPU 4 is throttled and
CPU 5 comes back online, before the worker has run. -/
def back_online5 : State :=
  hyp_core_ctl_hp_online
    (hyp_core_ctl_cpu_cooling_cb M8 (okEnv {4})
      (hyp_core_ctl_hp_offline (okEnv ∅) enabled45 5) true 4) 5

/-- The `replacement_cpu` that `hyp_core_ctl_handle_thermal` computes when a CPU is
throttled. -/
def throttle_replacement_cpu (M : Machine) (E : Env) (s : State) : Nat :=
  cpumask_any M ((M.cpu_possible_mask \ E.thermal_cpus) \ s.final_reserved_cpus)

/-- The `replacement_cpu` that `hyp_core_ctl_handle_thermal` computes when a CPU is
unthrottled. -/
def unthrottle_replacement_cpu (M : Machine) (s : State) : Nat :=
  cpumask_any M (s.final_reserved_cpus \ s.reserve_cpus)

/-- The freshly populated table of scenario 1 after CPU 4 was throttled with the
reservation disabled: vcpu 101 is on CPU 0 and `final_reserved_cpus` is 0,5. -/
def displaced0 : State := hyp_core_ctl_handle_thermal M8 (okEnv {4}) fresh45 4 true

/-- Scenario 3 when the worker runs and the un-isolate call fails: CPUs 0, 4 and 5 are
isolated and `final_reserved_cpus` is 0,4,5. -/
def overshot045 : State := hyp_core_ctl_do_reservation M8 unisolateFailEnv unthrottled4

instance (a b : hyp_core_ctl_cpu_map) : Decidable (Apart a b) := by
  unfold Apart; infer_instance

/-! ## The states the driver reaches -/

/-- A CPU list as `cpulist_parse` accepts it: its CPU ids are below `nr_cpu_ids`. -/
def CpuList (M : Machine) (R : cpumask) : Prop := R ⊆ Finset.range M.nr_cpu_ids

/-- A CPU list that names possible CPUs only. -/
def PossibleList (M : Machine) (R : cpumask) : Prop := R ⊆ M.cpu_possible_mask

/-- The masks of the state hold CPU ids below `nr_cpu_ids` only. -/
def RangeOK (M : Machine) (s : State) : Prop :=
  M.ok ∧ s.reserve_cpus ⊆ Finset.range M.nr_cpu_ids ∧
  s.our_isolated_cpus ⊆ Finset.range M.nr_cpu_ids ∧
  s.final_reserved_cpus ⊆ Finset.range M.nr_cpu_ids

/-- The states the driver reaches from a freshly populated table through the engine
(`do_reservation`, `undo_reservation`, `handle_thermal`), the worker, the thermal
notifier, enable/disable, the writes to `reserve_cpus` and the hotplug callbacks, in any
order, each step in an environment that satisfies `good`, the CPU lists written to
`reserve_cpus` satisfying `lists`.  The CPU of a thermal event is a possible CPU. -/
inductive Reachable (M : Machine) (good : Env → Prop) (lists : cpumask → Prop) :
    State → Prop where
  | populated {s : State} : Populated M s → Reachable M good lists s
  | enable {s : State} (b : Bool) : Reachable M good lists s →
      Reachable M good lists (hyp_core_ctl_enable s b)
  | do_reservation {s : State} (E : Env) : good E → Reachable M good lists s →
      Reachable M good lists (hyp_core_ctl_do_reservation M E s)
  | undo_reservation {s : State} (E : Env) : good E → Reachable M good lists s →
      Reachable M good lists (hyp_core_ctl_undo_reservation M E s)
  | handle_thermal {s : State} (E : Env) (cpu : Nat) (throttled : Bool) : good E →
      cpu ∈ M.cpu_possible_mask → Reachable M good lists s →
      Reachable M good lists (hyp_core_ctl_handle_thermal M E s cpu throttled)
  | cooling_cb {s : State} (E : Env) (val : Bool) (cpu : Nat) : good E →
      cpu ∈ M.cpu_possible_mask → Reachable M good lists s →
      Reachable M good lists (hyp_core_ctl_cpu_cooling_cb M E s val cpu)
  | thread {s : State} (E : Env) : good E → Reachable M good lists s →
      Reachable M good lists (hyp_core_ctl_thread M E s)
  | write_reserve_cpus {s : State} (w : CpulistWrite) (count : Nat) :
      lists w.temp_mask → Reachable M good lists s →
      Reachable M good lists (write_reserve_cpus s w count).1
  | hp_offline {s : State} (E : Env) (cpu : Nat) : good E → Reachable M good lists s →
      Reachable M good lists (hyp_core_ctl_hp_offline E s cpu)
  | hp_online {s : State} (cpu : Nat) : Reachable M good lists s →
      Reachable M good lists (hyp_core_ctl_hp_online s cpu)

/-- The states the driver reaches from a freshly populated table through its entry points
only: enable/disable, the worker, the thermal notifier, the writes to `reserve_cpus` and
the hotplug callbacks.  The engine runs where the driver calls it: `do_reservation` and
`undo_reservation` in the worker, `handle_thermal` in the notifier. -/
inductive Driven (M : Machine) (good : Env → Prop) (lists : cpumask → Prop) :
    State → Prop where
  | populated {s : State} : Populated M s → Driven M good lists s
  | enable {s : State} (b : Bool) : Driven M good lists s →
      Driven M good lists (hyp_core_ctl_enable s b)
  | cooling_cb {s : State} (E : Env) (val : Bool) (cpu : Nat) : good E →
      cpu ∈ M.cpu_possible_mask → Driven M good lists s →
      Driven M good lists (hyp_core_ctl_cpu_cooling_cb M E s val cpu)
  | thread {s : State} (E : Env) : good E → Driven M good lists s →
      Driven M good lists (hyp_core_ctl_thread M E s)
  | write_reserve_cpus {s : State} (w : CpulistWrite) (count : Nat) :
      lists w.temp_mask → Driven M good lists s →
      Driven M good lists (write_reserve_cpus s w count).1
  | hp_offline {s : State} (E : Env) (cpu : Nat) : good E → Driven M good lists s →
      Driven M good lists (hyp_core_ctl_hp_offline E s cpu)
  | hp_online {s : State} (cpu : Nat) : Driven M good lists s →
      Driven M good lists (hyp_core_ctl_hp_online s cpu)

/-! ## A machine with a CPU id that is not possible, and further states -/

/-- Eight CPU ids, 0 to 7, of which CPU 6 is not a possible CPU. -/
def M8gap : Machine := { nr_cpu_ids := 8, cpu_possible_mask := {0, 1, 2, 3, 4, 5, 7} }

/-- The possible CPUs of `M8gap` online, nothing throttled, every call succeeds. -/
def gapEnv : Env := constEnv {0, 1, 2, 3, 4, 5, 7} ∅ 0 0 0

/-- Scenario 3 when the worker runs and the un-isolate call fails, after which CPUs 4 and
5 go offline: CPU 0 is the only CPU isolated and `final_reserved_cpus` is 0,4,5. -/
def overshotOffline : State :=
  hyp_core_ctl_hp_offline (okEnv ∅)
    (hyp_core_ctl_hp_offline (okEnv ∅)
      (hyp_core_ctl_thread M8 unisolateFailEnv unthrottled4) 4) 5

/-- All CPUs online, nothing throttled, every call succeeds except `sched_isolate_cpu`,
which fails. -/
def isolateFailEnv : Env := constEnv (Finset.range 8) ∅ (-1) 0 0

/-! ## CPU masks: iteration and first bit -/

theorem mem_for_each_cpu {M : Machine} {S : cpumask} {c : Nat} :
    c ∈ for_each_cpu M S ↔ c < M.nr_cpu_ids ∧ c ∈ S := by
  simp [for_each_cpu, List.mem_filter, List.mem_range]

theorem find_range_spec (p : Nat → Bool) (n : Nat) :
    ((List.range n).find? p = none ∧ ∀ c, c < n → p c = false) ∨
    ∃ a, (List.range n).find? p = some a ∧ a < n ∧ p a = true ∧ ∀ c, p c = true → a ≤ c := by
  induction n with
  | zero => left; simp
  | succ n ih =>
    rw [List.range_succ, List.find?_append]
    rcases ih with ⟨h1, h2⟩ | ⟨a, h1, h2, h3, h4⟩
    · rw [h1]
      by_cases hp : p n = true
      · right
        refine ⟨n, by simp [hp], by omega, hp, ?_⟩
        intro c hc
        by_contra hlt
        have := h2 c (by omega)
        simp [this] at hc
      · left
        simp only [Bool.not_eq_true] at hp
        refine ⟨by simp [hp], ?_⟩
        intro c hc
        rcases Nat.lt_succ_iff_lt_or_eq.mp hc with h | h
        · exact h2 c h
        · subst h; exact hp
    · right
      exact ⟨a, by simp [h1], by omega, h3, h4⟩

theorem cpumask_first_spec (M : Machine) (S : cpumask) :
    (cpumask_first M S = M.nr_cpu_ids ∧ ∀ c, c < M.nr_cpu_ids → c ∉ S) ∨
    (cpumask_first M S < M.nr_cpu_ids ∧ cpumask_first M S ∈ S ∧
      ∀ c ∈ S, cpumask_first M S ≤ c) := by
  unfold cpumask_first
  rcases find_range_spec (fun c => decide (c ∈ S)) M.nr_cpu_ids with ⟨h1, h2⟩ | ⟨a, h1, h2, h3, h4⟩
  · left
    rw [h1]
    exact ⟨rfl, fun c hc => by simpa using h2 c hc⟩
  · right
    rw [h1]
    refine ⟨h2, by simpa using h3, fun c hc => h4 c (by simpa using hc)⟩

theorem cpumask_any_mem {M : Machine} {S : cpumask} (hS : S ⊆ Finset.range M.nr_cpu_ids)
    (hne : S.Nonempty) : cpumask_any M S ∈ S := by
  rcases cpumask_first_spec M S with ⟨_, h⟩ | ⟨_, h, _⟩
  · obtain ⟨c, hc⟩ := hne
    exact absurd hc (h c (Finset.mem_range.mp (hS hc)))
  · exact h

/-- Replacing a member of a mask by a non-member keeps the weight. -/
theorem card_insert_erase_swap (F : cpumask) (a b : Nat) (ha : a ∈ F) (hb : b ∉ F) :
    (insert b (F.erase a)).card = F.card := by
  rw [Finset.card_insert_of_not_mem (fun h => hb (Finset.mem_of_mem_erase h)),
    Finset.card_erase_of_mem ha]
  have : 0 < F.card := Finset.card_pos.mpr ⟨a, ha⟩
  omega

theorem forall2_mem_right {α β : Type} {R : α → β → Prop} {l₁ : List α} {l₂ : List β}
    (h : List.Forall₂ R l₁ l₂) {b : β} (hb : b ∈ l₂) : ∃ a ∈ l₁, R a b := by
  induction h with
  | nil => simp at hb
  | cons hab _ ih =>
    rcases List.mem_cons.mp hb with rfl | hb
    · exact ⟨_, List.mem_cons_self _ _, hab⟩
    · obtain ⟨a, ha, hr⟩ := ih hb
      exact ⟨a, List.mem_cons_of_mem _ ha, hr⟩

/-! ## The first loop of finalize_reservation -/

theorem SlotsOK.tail {M : Machine} {i : Nat} {m : hyp_core_ctl_cpu_map}
    {ms : List hyp_core_ctl_cpu_map} (h : SlotsOK M i (m :: ms)) : SlotsOK M (i + 1) ms := by
  refine ⟨fun x hx => h.1 x (List.mem_cons_of_mem _ hx), ?_⟩
  have := h.2
  simp only [List.length_cons] at this
  omega

theorem finalize_pass1_cons {M : Machine} (E : Env) (F : cpumask) {i : Nat}
    {m : hyp_core_ctl_cpu_map} {ms : List hyp_core_ctl_cpu_map} (L : FinLocals)
    (h : SlotsOK M i (m :: ms)) :
    finalize_pass1 M E F i (m :: ms) L =
      ((finalize_pass1_body E F i m L).1 ::
        (finalize_pass1 M E F (i + 1) ms (finalize_pass1_body E F i m L).2).1,
       (finalize_pass1 M E F (i + 1) ms (finalize_pass1_body E F i m L).2).2) := by
  have h1 : ¬ MAX_RESERVE_CPUS M ≤ i := by
    have := h.2
    simp only [List.length_cons] at this
    omega
  have h2 : m.cap_id ≠ 0 := h.1 m (List.mem_cons_self _ _)
  simp [finalize_pass1, h1, h2]

theorem pass1_body_temp_eq (E : Env) (F : cpumask) (i : Nat) (m : hyp_core_ctl_cpu_map)
    (L : FinLocals) :
    (finalize_pass1_body E F i m L).2.temp =
      if m.pcpu ∈ F then L.temp.erase m.pcpu
      else if m.curr_pcpu ∈ F then L.temp.erase m.curr_pcpu else L.temp := by
  simp only [finalize_pass1_body]
  split_ifs <;> rfl

theorem pass1_body_adjust_eq (E : Env) (F : cpumask) (i : Nat) (m : hyp_core_ctl_cpu_map)
    (L : FinLocals) :
    (finalize_pass1_body E F i m L).2.vcpu_adjust_mask =
      if marked F m then insert i L.vcpu_adjust_mask else L.vcpu_adjust_mask := by
  simp only [finalize_pass1_body, marked]
  split_ifs <;> first | rfl | tauto

theorem pass1_body_temp (E : Env) (F : cpumask) (i : Nat) (m : hyp_core_ctl_cpu_map)
    (L : FinLocals) (c : Nat) :
    c ∈ (finalize_pass1_body E F i m L).2.temp ↔ c ∈ L.temp ∧ claim F m ≠ some c := by
  rw [pass1_body_temp_eq]
  unfold claim
  split_ifs <;> simp [Finset.mem_erase] <;> tauto

theorem pass1_body_adjust (E : Env) (F : cpumask) (i : Nat) (m : hyp_core_ctl_cpu_map)
    (L : FinLocals) (j : Nat) :
    j ∈ (finalize_pass1_body E F i m L).2.vcpu_adjust_mask ↔
      j ∈ L.vcpu_adjust_mask ∨ (j = i ∧ marked F m) := by
  rw [pass1_body_adjust_eq]
  split_ifs with h <;> simp [h]; tauto

theorem pass1_body_slot (E : Env) (hE : HcallOK E) (F : cpumask) (i : Nat)
    (m : hyp_core_ctl_cpu_map) (L : FinLocals) :
    (finalize_pass1_body E F i m L).1 = restore F m := by
  simp only [finalize_pass1_body, restore]
  have := hE L.trace m.cap_id m.pcpu
  split_ifs with h1 h2 h3 <;> first | rfl | (cases m; simp_all)

theorem pass1_temp (M : Machine) (E : Env) (F : cpumask) (c : Nat) :
    ∀ (ms : List hyp_core_ctl_cpu_map) (i : Nat) (L : FinLocals), SlotsOK M i ms →
      (c ∈ (finalize_pass1 M E F i ms L).2.temp ↔
        c ∈ L.temp ∧ ∀ m ∈ ms, claim F m ≠ some c) := by
  intro ms
  induction ms with
  | nil => intro i L _; simp [finalize_pass1]
  | cons m ms ih =>
    intro i L h
    rw [finalize_pass1_cons E F L h]
    simp only [ih _ _ h.tail, pass1_body_temp, List.mem_cons, forall_eq_or_imp]
    tauto

theorem pass1_adjust (M : Machine) (E : Env) (F : cpumask) (j : Nat) :
    ∀ (ms : List hyp_core_ctl_cpu_map) (i : Nat) (L : FinLocals), SlotsOK M i ms →
      (j ∈ (finalize_pass1 M E F i ms L).2.vcpu_adjust_mask ↔
        j ∈ L.vcpu_adjust_mask ∨ ∃ k m, ms[k]? = some m ∧ j = i + k ∧ marked F m) := by
  intro ms
  induction ms with
  | nil => intro i L _; simp [finalize_pass1]
  | cons m ms ih =>
    intro i L h
    rw [finalize_pass1_cons E F L h]
    simp only [ih _ _ h.tail, pass1_body_adjust]
    constructor
    · rintro ((h1 | ⟨h1, h2⟩) | ⟨k, m', h1, h2, h3⟩)
      · exact Or.inl h1
      · exact Or.inr ⟨0, m, by simp, by omega, h2⟩
      · exact Or.inr ⟨k + 1, m', by simpa using h1, by omega, h3⟩
    · rintro (h1 | ⟨k, m', h1, h2, h3⟩)
      · exact Or.inl (Or.inl h1)
      · cases k with
        | zero =>
          simp only [List.getElem?_cons_zero, Option.some.injEq] at h1
          subst h1
          exact Or.inl (Or.inr ⟨by omega, h3⟩)
        | succ k =>
          simp only [List.getElem?_cons_succ] at h1
          exact Or.inr ⟨k, m', h1, by omega, h3⟩

theorem pass1_table (M : Machine) (E : Env) (hE : HcallOK E) (F : cpumask) :
    ∀ (ms : List hyp_core_ctl_cpu_map) (i : Nat) (L : FinLocals), SlotsOK M i ms →
      (finalize_pass1 M E F i ms L).1 = ms.map (restore F) := by
  intro ms
  induction ms with
  | nil => intro i L _; simp [finalize_pass1]
  | cons m ms ih =>
    intro i L h
    rw [finalize_pass1_cons E F L h]
    simp [ih _ _ h.tail, pass1_body_slot E hE]

theorem pass1_card (M : Machine) (E : Env) (F : cpumask) :
    ∀ (ms : List hyp_core_ctl_cpu_map) (i : Nat) (L : FinLocals), SlotsOK M i ms →
      L.temp.card + ms.countP (fun m => decide (marked F m)) ≤
        (finalize_pass1 M E F i ms L).2.temp.card + ms.length := by
  intro ms
  induction ms with
  | nil => intro i L _; simp [finalize_pass1]
  | cons m ms ih =>
    intro i L h
    rw [finalize_pass1_cons E F L h]
    have h1 := ih (i + 1) (finalize_pass1_body E F i m L).2 h.tail
    have h2 : L.temp.card + (if marked F m then 1 else 0) ≤
        (finalize_pass1_body E F i m L).2.temp.card + 1 := by
      rw [pass1_body_temp_eq]
      unfold marked
      have e1 := Finset.pred_card_le_card_erase (s := L.temp) (a := m.pcpu)
      have e2 := Finset.pred_card_le_card_erase (s := L.temp) (a := m.curr_pcpu)
      split_ifs <;> first | omega | tauto
    simp only [List.countP_cons, List.length_cons, decide_eq_true_eq]
    omega

/-! ## The second loop of finalize_reservation -/

theorem finalize_pass2_body_ok (M : Machine) (E : Env) (hE : HcallOK E)
    (m : hyp_core_ctl_cpu_map) (L : FinLocals) :
    (finalize_pass2_body M E m L).1 = { m with curr_pcpu := cpumask_any M L.temp } ∧
    (finalize_pass2_body M E m L).2.temp = L.temp.erase (cpumask_any M L.temp) ∧
    (finalize_pass2_body M E m L).2.vcpu_adjust_mask = L.vcpu_adjust_mask := by
  simp only [finalize_pass2_body]
  have := hE L.trace m.cap_id (cpumask_any M L.temp)
  split_ifs with h
  · exact absurd this h
  · exact ⟨rfl, rfl, rfl⟩

theorem pass2_eq_assign (M : Machine) (E : Env) (hE : HcallOK E) (F : cpumask) :
    ∀ (ms : List hyp_core_ctl_cpu_map) (i : Nat) (L : FinLocals),
      (∀ k m, ms[k]? = some m →
        ((i + k < M.nr_cpu_ids ∧ i + k ∈ L.vcpu_adjust_mask) ↔ marked F m)) →
      (finalize_pass2 M E i ms L).1 = assign M F ms L.temp := by
  intro ms
  induction ms with
  | nil => intro i L _; simp [finalize_pass2, assign]
  | cons m ms ih =>
    intro i L h
    have h0 := h 0 m (by simp)
    simp only [Nat.add_zero] at h0
    have hs : ∀ (L' : FinLocals), L'.vcpu_adjust_mask = L.vcpu_adjust_mask →
        ∀ k m', ms[k]? = some m' →
          ((i + 1 + k < M.nr_cpu_ids ∧ i + 1 + k ∈ L'.vcpu_adjust_mask) ↔ marked F m') := by
      intro L' hL' k m' hk
      have := h (k + 1) m' (by simpa using hk)
      rw [hL']
      have e : i + (k + 1) = i + 1 + k := by omega
      rwa [e] at this
    obtain ⟨b1, b2, b3⟩ := finalize_pass2_body_ok M E hE m L
    by_cases hm : marked F m
    · have hc := h0.mpr hm
      simp only [finalize_pass2, hc, and_self, if_true, assign, hm]
      rw [ih (i + 1) _ (hs _ b3), b1, b2]
    · have hc : ¬ (i < M.nr_cpu_ids ∧ i ∈ L.vcpu_adjust_mask) := fun hc => hm (h0.mp hc)
      simp only [finalize_pass2, hc, if_false, assign, hm]
      rw [ih (i + 1) _ (hs _ rfl)]

theorem assign_spec (M : Machine) (F : cpumask) (hF : F ⊆ Finset.range M.nr_cpu_ids) :
    ∀ (ms : List hyp_core_ctl_cpu_map) (t : cpumask),
      ms.Pairwise Apart →
      (∀ m ∈ ms, m.pcpu ∈ F → m.curr_pcpu = m.pcpu) →
      t ⊆ F → (∀ m ∈ ms, m.curr_pcpu ∉ t ∧ m.pcpu ∉ t) →
      ms.countP (fun m => decide (marked F m)) ≤ t.card →
      (assign M F ms t).Pairwise Apart ∧
      List.Forall₂ (fun m o => o.cap_id = m.cap_id ∧ o.pcpu = m.pcpu ∧ o.curr_pcpu ∈ F ∧
          ((¬ marked F m ∧ o = m) ∨ (marked F m ∧ o.curr_pcpu ∈ t))) ms (assign M F ms t) := by
  intro ms
  induction ms with
  | nil => intro t _ _ _ _ _; simp [assign]
  | cons m ms ih =>
    intro t hP hR ht hnt hc
    have hP' := List.pairwise_cons.mp hP
    have hR' : ∀ m' ∈ ms, m'.pcpu ∈ F → m'.curr_pcpu = m'.pcpu :=
      fun m' hm' => hR m' (List.mem_cons_of_mem _ hm')
    have hm0 := hnt m (List.mem_cons_self _ _)
    by_cases hm : marked F m
    · -- a replacement is taken from `t`
      have hcard : 0 < t.card := by
        simp only [List.countP_cons, hm, decide_True, if_true] at hc
        omega
      have hr : cpumask_any M t ∈ t :=
        cpumask_any_mem (ht.trans hF) (Finset.card_pos.mp hcard)
      have hc' : ms.countP (fun m => decide (marked F m)) ≤
          (t.erase (cpumask_any M t)).card := by
        simp only [List.countP_cons, hm, decide_True, if_true] at hc
        rw [Finset.card_erase_of_mem hr]
        omega
      have hnt' : ∀ m' ∈ ms, m'.curr_pcpu ∉ t.erase (cpumask_any M t) ∧
          m'.pcpu ∉ t.erase (cpumask_any M t) := by
        intro m' hm'
        have := hnt m' (List.mem_cons_of_mem _ hm')
        exact ⟨fun h => this.1 (Finset.mem_of_mem_erase h),
          fun h => this.2 (Finset.mem_of_mem_erase h)⟩
      obtain ⟨ih1, ih2⟩ := ih (t.erase (cpumask_any M t)) hP'.2 hR'
        ((Finset.erase_subset _ _).trans ht) hnt' hc'
      simp only [assign, hm, if_true]
      refine ⟨List.pairwise_cons.mpr ⟨?_, ih1⟩, List.Forall₂.cons ?_ ?_⟩
      · intro o ho
        obtain ⟨m', hm', e1, e2, _, e4⟩ := forall2_mem_right ih2 ho
        have hA := hP'.1 m' hm'
        have hn := hnt m' (List.mem_cons_of_mem _ hm')
        refine ⟨by rw [e2]; exact hA.1, ?_, ?_, ?_⟩
        · rcases e4 with ⟨_, rfl⟩ | ⟨_, e4⟩
          · intro h; exact hn.1 (h ▸ hr)
          · intro h
            simp only at h
            rw [← h] at e4
            exact (Finset.not_mem_erase _ _) e4
        · intro h
          simp only at h
          rw [e2] at h
          exact hn.2 (h ▸ hr)
        · rcases e4 with ⟨_, rfl⟩ | ⟨_, e4⟩
          · exact hA.2.2.2
          · intro h
            simp only at h
            exact hm0.2 (h ▸ Finset.mem_of_mem_erase e4)
      · exact ⟨rfl, rfl, ht hr, Or.inr ⟨hm, hr⟩⟩
      · exact ih2.imp (fun a b h => ⟨h.1, h.2.1, h.2.2.1,
          h.2.2.2.imp id (fun h' => ⟨h'.1, Finset.mem_of_mem_erase h'.2⟩)⟩)
    · -- the slot keeps its CPU
      have hc' : ms.countP (fun m => decide (marked F m)) ≤ t.card := by
        simp only [List.countP_cons, hm, decide_False] at hc
        simpa using hc
      obtain ⟨ih1, ih2⟩ := ih t hP'.2 hR' ht
        (fun m' hm' => hnt m' (List.mem_cons_of_mem _ hm')) hc'
      simp only [assign, hm, if_false]
      refine ⟨List.pairwise_cons.mpr ⟨?_, ih1⟩, List.Forall₂.cons ?_ ih2⟩
      · intro o ho
        obtain ⟨m', hm', e1, e2, _, e4⟩ := forall2_mem_right ih2 ho
        have hA := hP'.1 m' hm'
        rcases e4 with ⟨_, rfl⟩ | ⟨_, e4⟩
        · exact hA
        · refine ⟨by rw [e2]; exact hA.1, ?_, by rw [e2]; exact hA.2.2.1, ?_⟩
          · intro h; exact hm0.1 (h ▸ e4)
          · intro h; exact hm0.2 (h ▸ e4)
      · refine ⟨rfl, rfl, ?_, Or.inl ⟨hm, rfl⟩⟩
        unfold marked at hm
        by_cases h1 : m.pcpu ∈ F
        · rw [hR m (List.mem_cons_self _ _) h1]; exact h1
        · by_contra h2; exact hm ⟨h1, h2⟩

/-! ## finalize_reservation when every hypercall succeeds -/

theorem max_reserve_le (M : Machine) (hM : M.ok) : MAX_RESERVE_CPUS M ≤ M.nr_cpu_ids := by
  have h := Finset.card_le_card hM
  rw [Finset.card_range] at h
  unfold MAX_RESERVE_CPUS num_possible_cpus
  omega

theorem apart_restore (F : cpumask) {a b : hyp_core_ctl_cpu_map} (h : Apart a b) :
    Apart (restore F a) (restore F b) := by
  obtain ⟨h1, h2, h3, h4⟩ := h
  unfold restore Apart
  split_ifs <;> refine ⟨h1, ?_, ?_, ?_⟩ <;>
    first | exact h1 | exact h2 | exact h3 | exact h4 | exact Ne.symm h1 | exact Ne.symm h4

theorem marked_restore (F : cpumask) (m : hyp_core_ctl_cpu_map) :
    marked F (restore F m) ↔ marked F m := by
  unfold restore marked
  split_ifs with h <;> simp [h]

theorem finalize_noop (M : Machine) (E : Env) (s : State) (T : cpumask)
    (h : T = s.final_reserved_cpus ∨ T.card < s.reserve_cpus.card) :
    finalize_reservation M E s T = (s, T) := by
  unfold finalize_reservation
  rcases h with h | h
  · simp [h]
  · simp [h]

/-- The fields that `finalize_reservation` never writes. -/
theorem finalize_frame (M : Machine) (E : Env) (s : State) (T : cpumask) :
    (finalize_reservation M E s T).1.reserve_cpus = s.reserve_cpus ∧
    (finalize_reservation M E s T).1.our_isolated_cpus = s.our_isolated_cpus ∧
    (finalize_reservation M E s T).1.pending = s.pending ∧
    (finalize_reservation M E s T).1.reservation_enabled = s.reservation_enabled ∧
    (finalize_reservation M E s T).1.qos_min_req = s.qos_min_req ∧
    (finalize_reservation M E s T).1.qos_min_freq = s.qos_min_freq ∧
    (finalize_reservation M E s T).1.freq_qos_init_done = s.freq_qos_init_done ∧
    (finalize_reservation M E s T).1.is_vcpu_info_populated = s.is_vcpu_info_populated := by
  unfold finalize_reservation
  split_ifs <;> simp

theorem finalize_final (M : Machine) (E : Env) (s : State) (T : cpumask) :
    (finalize_reservation M E s T).1.final_reserved_cpus =
      if T.card < s.reserve_cpus.card then s.final_reserved_cpus else T := by
  unfold finalize_reservation
  split_ifs with h1 h2 <;> simp [h1]

theorem finalize_cpumap (M : Machine) (E : Env) (s : State) (T : cpumask)
    (h1 : T ≠ s.final_reserved_cpus) (h2 : ¬ T.card < s.reserve_cpus.card) :
    (finalize_reservation M E s T).1.cpumap =
      (finalize_pass2 M E 0
        (finalize_pass1 M E T 0 s.cpumap
          { temp := T, vcpu_adjust_mask := ∅, trace := s.trace }).1
        (finalize_pass1 M E T 0 s.cpumap
          { temp := T, vcpu_adjust_mask := ∅, trace := s.trace }).2).1 := by
  unfold finalize_reservation
  simp [h1, h2]

theorem finalize_matching (M : Machine) (E : Env) (hE : HcallOK E) (hM : M.ok) (s : State)
    (T : cpumask) (htab : TableOK M s) (hT : T ⊆ Finset.range M.nr_cpu_ids)
    (h1 : T ≠ s.final_reserved_cpus) (h2 : ¬ T.card < s.reserve_cpus.card) :
    (finalize_reservation M E s T).1.cpumap.Pairwise Apart ∧
    List.Forall₂ (Matched T) s.cpumap (finalize_reservation M E s T).1.cpumap := by
  obtain ⟨hcap, hlen, hcard, hP⟩ := htab
  have hS : SlotsOK M 0 s.cpumap := ⟨hcap, by omega⟩
  rw [finalize_cpumap M E s T h1 h2]
  set L0 : FinLocals := { temp := T, vcpu_adjust_mask := ∅, trace := s.trace } with hL0
  have htbl := pass1_table M E hE T s.cpumap 0 L0 hS
  have htemp := fun c => pass1_temp M E T c s.cpumap 0 L0 hS
  have hadj := fun j => pass1_adjust M E T j s.cpumap 0 L0 hS
  have hcnt := pass1_card M E T s.cpumap 0 L0 hS
  have hmax := max_reserve_le M hM
  -- the second loop is `assign`
  have heq : (finalize_pass2 M E 0 (finalize_pass1 M E T 0 s.cpumap L0).1
      (finalize_pass1 M E T 0 s.cpumap L0).2).1 =
      assign M T (s.cpumap.map (restore T)) (finalize_pass1 M E T 0 s.cpumap L0).2.temp := by
    rw [htbl]
    apply pass2_eq_assign M E hE T
    intro k m1 hk
    rw [List.getElem?_map] at hk
    cases hm : s.cpumap[k]? with
    | none => simp [hm] at hk
    | some m =>
      simp only [hm, Option.map_some', Option.some.injEq] at hk
      subst hk
      rw [marked_restore, hadj]
      have hklt : k < s.cpumap.length := by
        by_contra hge
        rw [List.getElem?_eq_none (by omega)] at hm
        exact absurd hm (by simp)
      constructor
      · rintro ⟨_, h | ⟨k', m', e1, e2, e3⟩⟩
        · simp [hL0] at h
        · have : k' = k := by omega
          subst this
          rw [hm] at e1
          cases e1
          exact e3
      · intro h
        exact ⟨by omega, Or.inr ⟨k, m, hm, by omega, h⟩⟩
  rw [heq]
  have hspec := assign_spec M T hT (s.cpumap.map (restore T))
    (finalize_pass1 M E T 0 s.cpumap L0).2.temp
    (List.Pairwise.map _ (fun a b h => apart_restore T h) hP)
    (by
      intro m1 hm1
      obtain ⟨m, _, rfl⟩ := List.mem_map.mp hm1
      unfold restore
      split_ifs with h <;> simp [h])
    (fun c hc => ((htemp c).mp hc).1)
    (by
      intro m1 hm1
      obtain ⟨m, hm, rfl⟩ := List.mem_map.mp hm1
      have e1 := htemp (restore T m).curr_pcpu
      have e2 := htemp (restore T m).pcpu
      constructor
      · intro h
        have := (e1.mp h).2 m hm
        have hin := (e1.mp h).1
        revert this hin
        unfold restore claim
        split_ifs <;> simp_all
      · intro h
        have := (e2.mp h).2 m hm
        have hin := (e2.mp h).1
        revert this hin
        unfold restore claim
        split_ifs <;> simp_all)
    (by
      rw [List.countP_map]
      have : (fun m => decide (marked T m)) ∘ restore T = fun m => decide (marked T m) := by
        funext m
        simp [marked_restore]
      rw [this]
      have : L0.temp.card = T.card := rfl
      omega)
  refine ⟨hspec.1, ?_⟩
  have h3 := hspec.2
  rw [List.forall₂_map_left_iff] at h3
  refine h3.imp ?_
  intro m o ⟨e1, e2, e3, e4⟩
  have r1 : (restore T m).cap_id = m.cap_id := by unfold restore; split_ifs <;> rfl
  have r2 : (restore T m).pcpu = m.pcpu := by unfold restore; split_ifs <;> rfl
  refine ⟨e1.trans r1, e2.trans r2, e3, ?_, ?_⟩
  · intro hin
    rcases e4 with ⟨_, rfl⟩ | ⟨hmk, _⟩
    · simp [restore, hin]
    · rw [marked_restore] at hmk
      exact absurd hin hmk.1
  · intro hnin hcin
    rcases e4 with ⟨_, rfl⟩ | ⟨hmk, _⟩
    · simp [restore, hnin]
    · rw [marked_restore] at hmk
      exact absurd hcin hmk.2

/-! ## Frames -/

theorem Frame.same (s : State) : Frame s s := rfl

theorem Frame.then {a b c : State} (h1 : Frame a b) (h2 : Frame b c) : Frame a c := by
  unfold Frame at *
  rw [h2, h1]

theorem Frame.cpumap {s t : State} (h : Frame s t) : t.cpumap = s.cpumap := by
  unfold Frame at h; rw [h]

theorem Frame.reserve {s t : State} (h : Frame s t) : t.reserve_cpus = s.reserve_cpus := by
  unfold Frame at h; rw [h]

theorem Frame.final {s t : State} (h : Frame s t) :
    t.final_reserved_cpus = s.final_reserved_cpus := by
  unfold Frame at h; rw [h]

theorem Frame.enabled {s t : State} (h : Frame s t) :
    t.reservation_enabled = s.reservation_enabled := by
  unfold Frame at h; rw [h]

theorem Frame.init_done {s t : State} (h : Frame s t) :
    t.freq_qos_init_done = s.freq_qos_init_done := by
  unfold Frame at h; rw [h]

theorem Frame.min_freq {s t : State} (h : Frame s t) : t.qos_min_freq = s.qos_min_freq := by
  unfold Frame at h; rw [h]

theorem Frame.logged (s : State) (e : Event) : Frame s (s.log e) := rfl

theorem Frame.set_isolated (s : State) (S : cpumask) :
    Frame s { s with our_isolated_cpus := S } := rfl

theorem NoHcall.none (s : State) : NoHcall s s := ⟨[], by simp, by simp⟩

theorem NoHcall.append {a b c : State} (h1 : NoHcall a b) (h2 : NoHcall b c) : NoHcall a c := by
  obtain ⟨n1, e1, p1⟩ := h1
  obtain ⟨n2, e2, p2⟩ := h2
  refine ⟨n1 ++ n2, by rw [e2, e1, List.append_assoc], ?_⟩
  intro e he
  rcases List.mem_append.mp he with h | h
  · exact p1 e h
  · exact p2 e h

theorem NoHcall.one (s : State) (e : Event) (h : Event.is_affinity_set e = false) :
    NoHcall s (s.log e) :=
  ⟨[e], rfl, by simpa using h⟩

theorem NoHcall.of_trace {s t : State} (h : t.trace = s.trace) : NoHcall s t :=
  ⟨[], by simp [h], by simp⟩

/-! ## Frequency floors -/

theorem freq_qos_update_request_spec (E : Env) (s : State) (cpu value : Nat) :
    Frame s (freq_qos_update_request E s cpu value).1 ∧
    NoHcall s (freq_qos_update_request E s cpu value).1 ∧
    (freq_qos_update_request E s cpu value).1.our_isolated_cpus = s.our_isolated_cpus ∧
    (∀ c, c ≠ cpu →
      (freq_qos_update_request E s cpu value).1.qos_min_req c = s.qos_min_req c) ∧
    (QosOK E → (freq_qos_update_request E s cpu value).1.qos_min_req cpu = value) := by
  simp only [freq_qos_update_request]
  split_ifs with h
  · refine ⟨rfl, NoHcall.one _ _ rfl, rfl, fun _ _ => rfl, ?_⟩
    intro hq
    have := hq s.trace cpu value
    omega
  · refine ⟨rfl, ⟨[_], rfl, by simp [Event.is_affinity_set]⟩, rfl, ?_, ?_⟩
    · intro c hc
      simp [State.log, Function.update_noteq hc]
    · intro _
      simp [State.log]

theorem apply_min_freq_spec (E : Env) (s : State) (i : Nat) :
    Frame s (apply_min_freq E s i) ∧ NoHcall s (apply_min_freq E s i) ∧
    (apply_min_freq E s i).our_isolated_cpus = s.our_isolated_cpus := by
  simp only [apply_min_freq]
  split_ifs
  · have := freq_qos_update_request_spec E s i (s.qos_min_freq i)
    exact ⟨this.1, this.2.1, this.2.2.1⟩
  · exact ⟨Frame.same s, NoHcall.none s, rfl⟩

theorem reset_min_freq_spec (E : Env) (s : State) (cpu : Nat) :
    Frame s (reset_min_freq E s cpu) ∧ NoHcall s (reset_min_freq E s cpu) ∧
    (reset_min_freq E s cpu).our_isolated_cpus = s.our_isolated_cpus ∧
    (∀ c, c ≠ cpu → (reset_min_freq E s cpu).qos_min_req c = s.qos_min_req c) ∧
    (QosOK E → s.freq_qos_init_done = true →
      (reset_min_freq E s cpu).qos_min_req cpu = FREQ_QOS_MIN_DEFAULT_VALUE) := by
  simp only [reset_min_freq]
  split_ifs with h
  · have := freq_qos_update_request_spec E s cpu FREQ_QOS_MIN_DEFAULT_VALUE
    exact ⟨this.1, this.2.1, this.2.2.1, this.2.2.2.1, fun hq _ => this.2.2.2.2 hq⟩
  · exact ⟨Frame.same s, NoHcall.none s, rfl, fun _ _ => rfl, fun _ h' => absurd h' h⟩

/-! ## The loops of do_reservation and undo_reservation -/

theorem isolate_done_spec (E : Env) (s : State) (i : Nat) :
    Frame s (isolate_done E s i) ∧ NoHcall s (isolate_done E s i) ∧
    (isolate_done E s i).our_isolated_cpus = insert i s.our_isolated_cpus := by
  obtain ⟨f, n, a⟩ := apply_min_freq_spec E
    { s with our_isolated_cpus := insert i s.our_isolated_cpus } i
  exact ⟨(Frame.set_isolated s _).then f, (NoHcall.of_trace rfl).append n, a⟩

theorem unisolate_done_spec (E : Env) (s : State) (i : Nat) :
    Frame s (unisolate_done E s i) ∧ NoHcall s (unisolate_done E s i) ∧
    (unisolate_done E s i).our_isolated_cpus = s.our_isolated_cpus.erase i ∧
    (∀ c, c ≠ i → (unisolate_done E s i).qos_min_req c = s.qos_min_req c) ∧
    (QosOK E → s.freq_qos_init_done = true →
      (unisolate_done E s i).qos_min_req i = FREQ_QOS_MIN_DEFAULT_VALUE) := by
  obtain ⟨f, n, a, b, c⟩ := reset_min_freq_spec E
    { s with our_isolated_cpus := s.our_isolated_cpus.erase i } i
  exact ⟨(Frame.set_isolated s _).then f, (NoHcall.of_trace rfl).append n, a, b, c⟩

theorem isolate_log_spec (E : Env) (s : State) (i : Nat) :
    Frame s (isolate_done E (s.log (Event.isolate i (E.sched_isolate_cpu s.trace i))) i) ∧
    NoHcall s (isolate_done E (s.log (Event.isolate i (E.sched_isolate_cpu s.trace i))) i) ∧
    (isolate_done E (s.log (Event.isolate i (E.sched_isolate_cpu s.trace i)))
      i).our_isolated_cpus = insert i s.our_isolated_cpus := by
  obtain ⟨f, n, a⟩ := isolate_done_spec E
    (s.log (Event.isolate i (E.sched_isolate_cpu s.trace i))) i
  exact ⟨(Frame.logged s _).then f,
    (NoHcall.one s (Event.isolate i (E.sched_isolate_cpu s.trace i)) rfl).append n, a⟩

theorem unisolate_log_spec (E : Env) (s : State) (i : Nat) :
    Frame s (unisolate_done E (s.log (Event.unisolate i (E.sched_unisolate_cpu s.trace i))) i) ∧
    NoHcall s
      (unisolate_done E (s.log (Event.unisolate i (E.sched_unisolate_cpu s.trace i))) i) ∧
    (unisolate_done E (s.log (Event.unisolate i (E.sched_unisolate_cpu s.trace i)))
      i).our_isolated_cpus = s.our_isolated_cpus.erase i ∧
    (∀ c, c ≠ i →
      (unisolate_done E (s.log (Event.unisolate i (E.sched_unisolate_cpu s.trace i)))
        i).qos_min_req c = s.qos_min_req c) ∧
    (QosOK E → s.freq_qos_init_done = true →
      (unisolate_done E (s.log (Event.unisolate i (E.sched_unisolate_cpu s.trace i)))
        i).qos_min_req i = FREQ_QOS_MIN_DEFAULT_VALUE) := by
  obtain ⟨f, n, a, b, c⟩ := unisolate_done_spec E
    (s.log (Event.unisolate i (E.sched_unisolate_cpu s.trace i))) i
  exact ⟨(Frame.logged s _).then f,
    (NoHcall.one s (Event.unisolate i (E.sched_unisolate_cpu s.trace i)) rfl).append n, a, b, c⟩

theorem isolate_reserve_loop_cons (E : Env) (i : Nat) (cpus : List Nat) (s : State)
    (O : cpumask) :
    isolate_reserve_loop E (i :: cpus) s O =
      if i ∉ E.cpu_online_mask then isolate_reserve_loop E cpus s (insert i O)
      else if E.sched_isolate_cpu s.trace i < 0 then
        isolate_reserve_loop E cpus (s.log (Event.isolate i (E.sched_isolate_cpu s.trace i))) O
      else
        isolate_reserve_loop E cpus
          (isolate_done E (s.log (Event.isolate i (E.sched_isolate_cpu s.trace i))) i) O := rfl

theorem isolate_reserve_loop_spec (E : Env) :
    ∀ (l : List Nat) (s : State) (O : cpumask),
      Frame s (isolate_reserve_loop E l s O).1 ∧
      NoHcall s (isolate_reserve_loop E l s O).1 ∧
      s.our_isolated_cpus ⊆ (isolate_reserve_loop E l s O).1.our_isolated_cpus ∧
      (∀ c, c ∈ (isolate_reserve_loop E l s O).1.our_isolated_cpus →
        c ∈ s.our_isolated_cpus ∨ (c ∈ l ∧ c ∈ E.cpu_online_mask)) ∧
      (∀ c, c ∈ (isolate_reserve_loop E l s O).2 ↔
        c ∈ O ∨ (c ∈ l ∧ c ∉ E.cpu_online_mask)) ∧
      (IsolateOK E → ∀ c, c ∈ l → c ∈ E.cpu_online_mask →
        c ∈ (isolate_reserve_loop E l s O).1.our_isolated_cpus) ∧
      ((∀ c ∈ l, c ∉ E.cpu_online_mask) → (isolate_reserve_loop E l s O).1 = s) := by
  intro l
  induction l with
  | nil =>
    intro s O
    simp [isolate_reserve_loop, Frame.same, NoHcall.none]
  | cons i cpus ih =>
    intro s O
    rw [isolate_reserve_loop_cons]
    have offl : ∀ (O' : cpumask) (x : Nat), (x ∈ O' ∨ x ∈ cpus ∧ x ∉ E.cpu_online_mask) →
        (∀ y, y ∈ O' → y ∈ O ∨ (y = i ∧ i ∉ E.cpu_online_mask)) →
        x ∈ O ∨ x ∈ i :: cpus ∧ x ∉ E.cpu_online_mask := by
      intro O' x hx hO'
      rcases hx with h | h
      · rcases hO' x h with h | ⟨rfl, h⟩
        · exact Or.inl h
        · exact Or.inr ⟨List.mem_cons_self _ _, h⟩
      · exact Or.inr ⟨List.mem_cons_of_mem _ h.1, h.2⟩
    by_cases hon : i ∈ E.cpu_online_mask
    · simp only [hon, not_true_eq_false, if_false]
      have hc : ∀ (t : State) (x : Nat),
          (x ∈ (isolate_reserve_loop E cpus t O).2 ↔
            x ∈ O ∨ (x ∈ cpus ∧ x ∉ E.cpu_online_mask)) →
          (x ∈ (isolate_reserve_loop E cpus t O).2 ↔
            x ∈ O ∨ (x ∈ i :: cpus ∧ x ∉ E.cpu_online_mask)) := by
        intro t x hx
        rw [hx]
        constructor
        · intro h; exact offl O x h (fun y hy => Or.inl hy)
        · rintro (h | ⟨h1, h2⟩)
          · exact Or.inl h
          · rcases List.mem_cons.mp h1 with rfl | h1
            · exact absurd hon h2
            · exact Or.inr ⟨h1, h2⟩
      by_cases hret : E.sched_isolate_cpu s.trace i < 0
      · simp only [hret, if_true]
        obtain ⟨f, n, a, b, c, d, e⟩ :=
          ih (s.log (Event.isolate i (E.sched_isolate_cpu s.trace i))) O
        refine ⟨(Frame.logged s _).then f,
          (NoHcall.one s (Event.isolate i (E.sched_isolate_cpu s.trace i)) rfl).append n,
          a, ?_, fun x => hc _ x (c x), ?_, ?_⟩
        · intro x hx
          rcases b x hx with h | h
          · exact Or.inl h
          · exact Or.inr ⟨List.mem_cons_of_mem _ h.1, h.2⟩
        · intro hI
          have := hI s.trace i
          omega
        · intro h
          exact absurd hon (h i (List.mem_cons_self _ _))
      · simp only [hret, if_false]
        obtain ⟨f0, n0, a0⟩ := isolate_log_spec E s i
        obtain ⟨f, n, a, b, c, d, e⟩ := ih
          (isolate_done E (s.log (Event.isolate i (E.sched_isolate_cpu s.trace i))) i) O
        rw [a0] at a b
        refine ⟨f0.then f, n0.append n, (Finset.subset_insert _ _).trans a, ?_,
          fun x => hc _ x (c x), ?_, ?_⟩
        · intro x hx
          rcases b x hx with h | h
          · rcases Finset.mem_insert.mp h with rfl | h
            · exact Or.inr ⟨List.mem_cons_self _ _, hon⟩
            · exact Or.inl h
          · exact Or.inr ⟨List.mem_cons_of_mem _ h.1, h.2⟩
        · intro hI x hx hxo
          rcases List.mem_cons.mp hx with rfl | hx
          · exact a (Finset.mem_insert_self _ _)
          · exact d hI x hx hxo
        · intro h
          exact absurd hon (h i (List.mem_cons_self _ _))
    · simp only [hon, not_false_eq_true, if_true]
      obtain ⟨f, n, a, b, c, d, e⟩ := ih s (insert i O)
      refine ⟨f, n, a, ?_, ?_, ?_, ?_⟩
      · intro x hx
        rcases b x hx with h | h
        · exact Or.inl h
        · exact Or.inr ⟨List.mem_cons_of_mem _ h.1, h.2⟩
      · intro x
        rw [c x]
        constructor
        · intro h
          refine offl (insert i O) x h ?_
          intro y hy
          rcases Finset.mem_insert.mp hy with rfl | hy
          · exact Or.inr ⟨rfl, hon⟩
          · exact Or.inl hy
        · rintro (h | ⟨h1, h2⟩)
          · exact Or.inl (Finset.mem_insert_of_mem h)
          · rcases List.mem_cons.mp h1 with rfl | h1
            · exact Or.inl (Finset.mem_insert_self _ _)
            · exact Or.inr ⟨h1, h2⟩
      · intro hI x hx hxo
        rcases List.mem_cons.mp hx with rfl | hx
        · exact absurd hxo hon
        · exact d hI x hx hxo
      · intro h
        exact e (fun c hc => h c (List.mem_cons_of_mem _ hc))

theorem pick_offline_loop_spec (E : Env) :
    ∀ (l : List Nat) (O : cpumask) (need : Int), 1 ≤ need →
      O ⊆ (pick_offline_loop E l O need).1 ∧
      (∀ c ∈ (pick_offline_loop E l O need).1, c ∈ O ∨ (c ∈ l ∧ c ∉ E.cpu_online_mask)) ∧
      0 ≤ (pick_offline_loop E l O need).2.1 ∧
      ((pick_offline_loop E l O need).2.2 = true ↔ (pick_offline_loop E l O need).2.1 = 0) ∧
      ((pick_offline_loop E l O need).2.2 = false →
        ∀ c ∈ l, c ∉ E.cpu_online_mask → c ∈ (pick_offline_loop E l O need).1) ∧
      (l.Nodup → (∀ c ∈ l, c ∉ O) →
        ((pick_offline_loop E l O need).1.card : Int) + (pick_offline_loop E l O need).2.1 =
          O.card + need) := by
  intro l
  induction l with
  | nil =>
    intro O need h
    simp only [pick_offline_loop]
    refine ⟨subset_rfl, fun c hc => Or.inl hc, by omega, ?_, by simp, by simp⟩
    constructor
    · intro h'; simp at h'
    · intro h'; omega
  | cons i cpus ih =>
    intro O need h
    simp only [pick_offline_loop]
    by_cases hon : i ∈ E.cpu_online_mask
    · simp only [hon, not_true_eq_false, if_false]
      obtain ⟨a, b, c, d, e, f⟩ := ih O need h
      refine ⟨a, ?_, c, d, ?_, ?_⟩
      · intro x hx
        rcases b x hx with h1 | h1
        · exact Or.inl h1
        · exact Or.inr ⟨List.mem_cons_of_mem _ h1.1, h1.2⟩
      · intro hd x hx hxo
        rcases List.mem_cons.mp hx with rfl | hx
        · exact absurd hon hxo
        · exact e hd x hx hxo
      · intro hn hO
        exact f (List.nodup_cons.mp hn).2 (fun c hc => hO c (List.mem_cons_of_mem _ hc))
    · simp only [hon, not_false_eq_true, if_true]
      by_cases hz : need - 1 = 0
      · simp only [hz, if_true]
        refine ⟨Finset.subset_insert _ _, ?_, le_refl _, by simp, by simp, ?_⟩
        · intro x hx
          rcases Finset.mem_insert.mp hx with rfl | hx
          · exact Or.inr ⟨List.mem_cons_self _ _, hon⟩
          · exact Or.inl hx
        · intro _ hO
          rw [Finset.card_insert_of_not_mem (hO i (List.mem_cons_self _ _))]
          push_cast
          omega
      · simp only [hz, if_false]
        obtain ⟨a, b, c, d, e, f⟩ := ih (insert i O) (need - 1) (by omega)
        refine ⟨(Finset.subset_insert _ _).trans a, ?_, c, d, ?_, ?_⟩
        · intro x hx
          rcases b x hx with h1 | h1
          · rcases Finset.mem_insert.mp h1 with rfl | h1
            · exact Or.inr ⟨List.mem_cons_self _ _, hon⟩
            · exact Or.inl h1
          · exact Or.inr ⟨List.mem_cons_of_mem _ h1.1, h1.2⟩
        · intro hd x hx hxo
          rcases List.mem_cons.mp hx with rfl | hx
          · exact a (Finset.mem_insert_self _ _)
          · exact e hd x hx hxo
        · intro hn hO
          have hn' := List.nodup_cons.mp hn
          have := f hn'.2 (by
            intro c hc hc'
            rcases Finset.mem_insert.mp hc' with rfl | hc'
            · exact hn'.1 hc
            · exact hO c (List.mem_cons_of_mem _ hc) hc')
          rw [Finset.card_insert_of_not_mem (hO i (List.mem_cons_self _ _))] at this
          push_cast at this
          omega

theorem isolate_replacement_loop_cons (E : Env) (i : Nat) (cpus : List Nat) (s : State)
    (need : Int) :
    isolate_replacement_loop E (i :: cpus) s need =
      if E.sched_isolate_cpu s.trace i < 0 then
        isolate_replacement_loop E cpus
          (s.log (Event.isolate i (E.sched_isolate_cpu s.trace i))) need
      else if need - 1 = 0 then
        isolate_done E (s.log (Event.isolate i (E.sched_isolate_cpu s.trace i))) i
      else
        isolate_replacement_loop E cpus
          (isolate_done E (s.log (Event.isolate i (E.sched_isolate_cpu s.trace i))) i)
          (need - 1) := rfl

theorem isolate_replacement_loop_spec (E : Env) :
    ∀ (l : List Nat) (s : State) (need : Int), 1 ≤ need →
      Frame s (isolate_replacement_loop E l s need) ∧
      NoHcall s (isolate_replacement_loop E l s need) ∧
      s.our_isolated_cpus ⊆ (isolate_replacement_loop E l s need).our_isolated_cpus ∧
      (∀ c ∈ (isolate_replacement_loop E l s need).our_isolated_cpus,
        c ∈ s.our_isolated_cpus ∨ c ∈ l) ∧
      (l.Nodup → (∀ c ∈ l, c ∉ s.our_isolated_cpus) →
        ((isolate_replacement_loop E l s need).our_isolated_cpus.card : Int) ≤
          s.our_isolated_cpus.card + need ∧
        (IsolateOK E →
          ((isolate_replacement_loop E l s need).our_isolated_cpus.card : Int) =
              s.our_isolated_cpus.card + need ∨
          ∀ c ∈ l, c ∈ (isolate_replacement_loop E l s need).our_isolated_cpus)) := by
  intro l
  induction l with
  | nil =>
    intro s need h
    simp only [isolate_replacement_loop]
    refine ⟨Frame.same s, NoHcall.none s, subset_rfl, fun c hc => Or.inl hc, ?_⟩
    intro _ _
    exact ⟨by omega, fun _ => Or.inr (by simp)⟩
  | cons i cpus ih =>
    intro s need h
    rw [isolate_replacement_loop_cons]
    by_cases hret : E.sched_isolate_cpu s.trace i < 0
    · simp only [hret, if_true]
      obtain ⟨f, n, a, b, c⟩ :=
        ih (s.log (Event.isolate i (E.sched_isolate_cpu s.trace i))) need h
      refine ⟨(Frame.logged s _).then f,
        (NoHcall.one s (Event.isolate i (E.sched_isolate_cpu s.trace i)) rfl).append n, a, ?_, ?_⟩
      · intro x hx
        rcases b x hx with h1 | h1
        · exact Or.inl h1
        · exact Or.inr (List.mem_cons_of_mem _ h1)
      · intro hn hI
        have := c (List.nodup_cons.mp hn).2 (fun c hc => hI c (List.mem_cons_of_mem _ hc))
        refine ⟨this.1, ?_⟩
        intro hok
        have := hok s.trace i
        omega
    · simp only [hret, if_false]
      obtain ⟨fr, nh, a0⟩ := isolate_log_spec E s i
      by_cases hz : need - 1 = 0
      · simp only [hz, if_true]
        refine ⟨fr, nh, ?_, ?_, ?_⟩
        · rw [a0]; exact Finset.subset_insert _ _
        · intro x hx
          rw [a0] at hx
          rcases Finset.mem_insert.mp hx with rfl | hx
          · exact Or.inr (List.mem_cons_self _ _)
          · exact Or.inl hx
        · intro _ hI
          rw [a0, Finset.card_insert_of_not_mem (hI i (List.mem_cons_self _ _))]
          push_cast
          exact ⟨by omega, fun _ => Or.inl (by omega)⟩
      · simp only [hz, if_false]
        obtain ⟨f, n, a, b, c⟩ := ih
          (isolate_done E (s.log (Event.isolate i (E.sched_isolate_cpu s.trace i))) i)
          (need - 1) (by omega)
        rw [a0] at a b c
        refine ⟨fr.then f, nh.append n, (Finset.subset_insert _ _).trans a, ?_, ?_⟩
        · intro x hx
          rcases b x hx with h1 | h1
          · rcases Finset.mem_insert.mp h1 with rfl | h1
            · exact Or.inr (List.mem_cons_self _ _)
            · exact Or.inl h1
          · exact Or.inr (List.mem_cons_of_mem _ h1)
        · intro hn hI
          have hn' := List.nodup_cons.mp hn
          have := c hn'.2 (by
            intro c hc hc'
            rcases Finset.mem_insert.mp hc' with rfl | hc'
            · exact hn'.1 hc
            · exact hI c (List.mem_cons_of_mem _ hc) hc')
          rw [Finset.card_insert_of_not_mem (hI i (List.mem_cons_self _ _))] at this
          push_cast at this
          refine ⟨by omega, ?_⟩
          intro hok
          rcases this.2 hok with h1 | h1
          · left; omega
          · right
            intro x hx
            rcases List.mem_cons.mp hx with rfl | hx
            · exact a (Finset.mem_insert_self _ _)
            · exact h1 x hx

theorem unisolate_excess_loop_cons (E : Env) (i : Nat) (cpus : List Nat) (s : State)
    (need : Int) :
    unisolate_excess_loop E (i :: cpus) s need =
      if E.sched_unisolate_cpu s.trace i < 0 then
        unisolate_excess_loop E cpus
          (s.log (Event.unisolate i (E.sched_unisolate_cpu s.trace i))) need
      else if need - 1 = 0 then
        unisolate_done E (s.log (Event.unisolate i (E.sched_unisolate_cpu s.trace i))) i
      else
        unisolate_excess_loop E cpus
          (unisolate_done E (s.log (Event.unisolate i (E.sched_unisolate_cpu s.trace i))) i)
          (need - 1) := rfl

theorem unisolate_excess_loop_spec (E : Env) :
    ∀ (l : List Nat) (s : State) (need : Int), 1 ≤ need →
      Frame s (unisolate_excess_loop E l s need) ∧
      NoHcall s (unisolate_excess_loop E l s need) ∧
      (unisolate_excess_loop E l s need).our_isolated_cpus ⊆ s.our_isolated_cpus ∧
      (∀ c ∈ s.our_isolated_cpus, c ∉ l →
        c ∈ (unisolate_excess_loop E l s need).our_isolated_cpus) ∧
      (UnisolateOK E → l.Nodup → (∀ c ∈ l, c ∈ s.our_isolated_cpus) →
        need ≤ l.length →
        ((unisolate_excess_loop E l s need).our_isolated_cpus.card : Int) + need =
          s.our_isolated_cpus.card) := by
  intro l
  induction l with
  | nil =>
    intro s need h
    simp only [unisolate_excess_loop]
    refine ⟨Frame.same s, NoHcall.none s, subset_rfl, fun c hc _ => hc, ?_⟩
    intro _ _ _ hlen
    simp only [List.length_nil, Nat.cast_zero] at hlen
    omega
  | cons i cpus ih =>
    intro s need h
    rw [unisolate_excess_loop_cons]
    by_cases hret : E.sched_unisolate_cpu s.trace i < 0
    · simp only [hret, if_true]
      obtain ⟨f, n, a, b, c⟩ :=
        ih (s.log (Event.unisolate i (E.sched_unisolate_cpu s.trace i))) need h
      refine ⟨(Frame.logged s _).then f,
        (NoHcall.one s (Event.unisolate i (E.sched_unisolate_cpu s.trace i)) rfl).append n,
        a, ?_, ?_⟩
      · intro x hx hxl
        exact b x hx (fun h' => hxl (List.mem_cons_of_mem _ h'))
      · intro hok
        have := hok s.trace i
        omega
    · simp only [hret, if_false]
      obtain ⟨fr, nh, a0, _, _⟩ := unisolate_log_spec E s i
      by_cases hz : need - 1 = 0
      · simp only [hz, if_true]
        refine ⟨fr, nh, ?_, ?_, ?_⟩
        · rw [a0]; exact Finset.erase_subset _ _
        · intro x hx hxl
          rw [a0]
          refine Finset.mem_erase.mpr ⟨?_, hx⟩
          rintro rfl
          exact hxl (List.mem_cons_self _ _)
        · intro _ _ hI _
          rw [a0, Finset.card_erase_of_mem (hI i (List.mem_cons_self _ _))]
          have := Finset.card_pos.mpr ⟨i, hI i (List.mem_cons_self _ _)⟩
          omega
      · simp only [hz, if_false]
        obtain ⟨f, n, a, b, c⟩ := ih
          (unisolate_done E (s.log (Event.unisolate i (E.sched_unisolate_cpu s.trace i))) i)
          (need - 1) (by omega)
        rw [a0] at a b c
        refine ⟨fr.then f, nh.append n, a.trans (Finset.erase_subset _ _), ?_, ?_⟩
        · intro x hx hxl
          refine b x (Finset.mem_erase.mpr ⟨?_, hx⟩)
            (fun h' => hxl (List.mem_cons_of_mem _ h'))
          rintro rfl
          exact hxl (List.mem_cons_self _ _)
        · intro hok hn hI hlen
          have hn' := List.nodup_cons.mp hn
          have := c hok hn'.2 (by
            intro c hc
            refine Finset.mem_erase.mpr ⟨?_, hI c (List.mem_cons_of_mem _ hc)⟩
            rintro rfl
            exact hn'.1 hc) (by
            simp only [List.length_cons, Nat.cast_add, Nat.cast_one] at hlen
            omega)
          rw [Finset.card_erase_of_mem (hI i (List.mem_cons_self _ _))] at this
          have hp := Finset.card_pos.mpr ⟨i, hI i (List.mem_cons_self _ _)⟩
          omega

theorem undo_reservation_loop_cons (E : Env) (cpu : Nat) (cpus : List Nat) (s : State) :
    undo_reservation_loop E (cpu :: cpus) s =
      if E.sched_unisolate_cpu s.trace cpu < 0 then
        undo_reservation_loop E cpus
          (s.log (Event.unisolate cpu (E.sched_unisolate_cpu s.trace cpu)))
      else
        undo_reservation_loop E cpus
          (unisolate_done E (s.log (Event.unisolate cpu (E.sched_unisolate_cpu s.trace cpu)))
            cpu) := rfl

theorem undo_reservation_loop_spec (E : Env) :
    ∀ (l : List Nat) (s : State),
      Frame s (undo_reservation_loop E l s) ∧
      NoHcall s (undo_reservation_loop E l s) ∧
      (undo_reservation_loop E l s).our_isolated_cpus ⊆ s.our_isolated_cpus ∧
      (∀ c ∈ s.our_isolated_cpus, c ∉ l →
        c ∈ (undo_reservation_loop E l s).our_isolated_cpus) ∧
      (∀ c, c ∉ l → (undo_reservation_loop E l s).qos_min_req c = s.qos_min_req c) ∧
      (UnisolateOK E → ∀ c ∈ l, c ∉ (undo_reservation_loop E l s).our_isolated_cpus) ∧
      (UnisolateOK E → QosOK E → s.freq_qos_init_done = true → l.Nodup → ∀ c ∈ l,
        (undo_reservation_loop E l s).qos_min_req c = FREQ_QOS_MIN_DEFAULT_VALUE) := by
  intro l
  induction l with
  | nil =>
    intro s
    simp [undo_reservation_loop, Frame.same, NoHcall.none]
  | cons i cpus ih =>
    intro s
    rw [undo_reservation_loop_cons]
    by_cases hret : E.sched_unisolate_cpu s.trace i < 0
    · simp only [hret, if_true]
      obtain ⟨f, n, a, b, q, c, d⟩ :=
        ih (s.log (Event.unisolate i (E.sched_unisolate_cpu s.trace i)))
      refine ⟨(Frame.logged s _).then f,
        (NoHcall.one s (Event.unisolate i (E.sched_unisolate_cpu s.trace i)) rfl).append n,
        a, ?_, ?_, ?_, ?_⟩
      · intro x hx hxl
        exact b x hx (fun h' => hxl (List.mem_cons_of_mem _ h'))
      · intro x hx
        exact q x (fun h' => hx (List.mem_cons_of_mem _ h'))
      · intro hok
        have := hok s.trace i
        omega
      · intro hok
        have := hok s.trace i
        omega
    · simp only [hret, if_false]
      obtain ⟨fr, nh, a0, q0, q1⟩ := unisolate_log_spec E s i
      obtain ⟨f, n, a, b, q, c, d⟩ := ih
        (unisolate_done E (s.log (Event.unisolate i (E.sched_unisolate_cpu s.trace i))) i)
      rw [a0] at a b
      refine ⟨fr.then f, nh.append n, a.trans (Finset.erase_subset _ _), ?_, ?_, ?_, ?_⟩
      · intro x hx hxl
        refine b x (Finset.mem_erase.mpr ⟨?_, hx⟩) (fun h' => hxl (List.mem_cons_of_mem _ h'))
        rintro rfl
        exact hxl (List.mem_cons_self _ _)
      · intro x hx
        rw [q x (fun h' => hx (List.mem_cons_of_mem _ h'))]
        exact q0 x (fun h' => hx (h' ▸ List.mem_cons_self _ _))
      · intro hok x hx
        rcases List.mem_cons.mp hx with rfl | hx
        · intro h'
          exact (Finset.not_mem_erase _ _) (a h')
        · exact c hok x hx
      · intro hok hq hinit hn x hx
        have hn' := List.nodup_cons.mp hn
        rcases List.mem_cons.mp hx with rfl | hx
        · rw [q x hn'.1]
          exact q1 hq hinit
        · exact d hok hq (by rw [fr.init_done]; exact hinit) hn'.2 x hx

/-! ## do_reservation up to the label done -/

theorem for_each_cpu_nodup (M : Machine) (S : cpumask) : (for_each_cpu M S).Nodup :=
  (List.nodup_range _).filter _

theorem for_each_cpu_length (M : Machine) (S : cpumask)
    (hS : S ⊆ Finset.range M.nr_cpu_ids) : (for_each_cpu M S).length = S.card := by
  rw [← List.toFinset_card_of_nodup (for_each_cpu_nodup M S)]
  congr 1
  ext c
  simp only [List.mem_toFinset, mem_for_each_cpu]
  constructor
  · exact fun h => h.2
  · exact fun h => ⟨Finset.mem_range.mp (hS h), h⟩

/-- The facts about `do_reservation_isolation` that hold whatever the calls return. -/
theorem do_reservation_isolation_spec (M : Machine) (E : Env) (s : State) :
    Frame s (do_reservation_isolation M E s).1 ∧
    NoHcall s (do_reservation_isolation M E s).1 ∧
    (∀ c ∈ (do_reservation_isolation M E s).1.our_isolated_cpus,
      c ∈ s.our_isolated_cpus ∨
        ((c ∈ s.reserve_cpus ∨ c ∈ M.cpu_possible_mask) ∧ c ∉ E.thermal_cpus)) ∧
    (∀ c ∈ (do_reservation_isolation M E s).2,
      (c ∈ s.reserve_cpus ∨ c ∈ M.cpu_possible_mask) ∧ c ∉ E.thermal_cpus ∧
        c ∉ E.cpu_online_mask) ∧
    Disjoint (do_reservation_isolation M E s).1.our_isolated_cpus
      (do_reservation_isolation M E s).2 ∧
    (UnisolateOK E → s.our_isolated_cpus ⊆ Finset.range M.nr_cpu_ids →
      (do_reservation_temp M E s).card ≤ s.reserve_cpus.card) ∧
    (IsolateOK E → UnisolateOK E → M.ok → s.our_isolated_cpus ⊆ Finset.range M.nr_cpu_ids →
      (do_reservation_temp M E s).card = s.reserve_cpus.card ∨
      ∀ c ∈ M.cpu_possible_mask, c ∉ E.thermal_cpus → c ∈ do_reservation_temp M E s) := by
  -- the first loop
  obtain ⟨f1, n1, a1, b1, c1, d1, _⟩ := isolate_reserve_loop_spec E
    (for_each_cpu M ((s.reserve_cpus \ s.our_isolated_cpus) \ E.thermal_cpus)) s ∅
  set l1 := for_each_cpu M ((s.reserve_cpus \ s.our_isolated_cpus) \ E.thermal_cpus) with hl1
  set s1 := (isolate_reserve_loop E l1 s ∅).1 with hs1
  set O1 := (isolate_reserve_loop E l1 s ∅).2 with hO1
  have hl1mem : ∀ c, c ∈ l1 → c ∈ s.reserve_cpus ∧ c ∉ s.our_isolated_cpus ∧
      c ∉ E.thermal_cpus ∧ c < M.nr_cpu_ids := by
    intro c hc
    have := mem_for_each_cpu.mp hc
    simp only [Finset.mem_sdiff] at this
    exact ⟨this.2.1.1, this.2.1.2, this.2.2, this.1⟩
  have hO1mem : ∀ c, c ∈ O1 → c ∈ l1 ∧ c ∉ E.cpu_online_mask := by
    intro c hc
    rcases (c1 c).mp hc with h | h
    · simp at h
    · exact h
  have hO1R : O1 ⊆ s.reserve_cpus := fun c hc => (hl1mem c (hO1mem c hc).1).1
  have hdis1 : Disjoint s1.our_isolated_cpus O1 := by
    rw [Finset.disjoint_left]
    intro c hc hc'
    rcases b1 c hc with h | h
    · exact (hl1mem c (hO1mem c hc').1).2.1 h
    · exact (hO1mem c hc').2 h.2
  have hs1our : ∀ c ∈ s1.our_isolated_cpus, c ∈ s.our_isolated_cpus ∨
      ((c ∈ s.reserve_cpus ∨ c ∈ M.cpu_possible_mask) ∧ c ∉ E.thermal_cpus) := by
    intro c hc
    rcases b1 c hc with h | h
    · exact Or.inl h
    · exact Or.inr ⟨Or.inl (hl1mem c h.1).1, (hl1mem c h.1).2.2.1⟩
  have hO1prop : ∀ c ∈ O1, (c ∈ s.reserve_cpus ∨ c ∈ M.cpu_possible_mask) ∧
      c ∉ E.thermal_cpus ∧ c ∉ E.cpu_online_mask := by
    intro c hc
    exact ⟨Or.inl (hO1R hc), (hl1mem c (hO1mem c hc).1).2.2.1, (hO1mem c hc).2⟩
  have hreq : ((s1.reserve_cpus \ O1).card : Int) = s.reserve_cpus.card - O1.card := by
    rw [f1.reserve, Finset.card_sdiff hO1R]
    have := Finset.card_le_card hO1R
    omega
  have hs1range : s.our_isolated_cpus ⊆ Finset.range M.nr_cpu_ids →
      s1.our_isolated_cpus ⊆ Finset.range M.nr_cpu_ids := by
    intro h c hc
    rcases b1 c hc with h' | h'
    · exact h h'
    · exact Finset.mem_range.mpr (hl1mem c h'.1).2.2.2
  have hunion : ∀ (A B : cpumask), Disjoint A B → (A ∪ B).card = A.card + B.card :=
    fun A B h => Finset.card_union_of_disjoint h
  unfold do_reservation_temp
  simp only [do_reservation_isolation]
  rw [← hl1, ← hs1, ← hO1]
  by_cases hlt : ((s1.our_isolated_cpus.card : Int) < ((s1.reserve_cpus \ O1).card : Int))
  · -- shortfall
    simp only [hlt, if_true]
    set need : Int := ((s1.reserve_cpus \ O1).card : Int) - s1.our_isolated_cpus.card
      with hneed
    set lC := for_each_cpu M
      (((M.cpu_possible_mask \ s1.our_isolated_cpus) \ E.thermal_cpus) \ O1) with hlC
    have hlCmem : ∀ c, c ∈ lC → c ∈ M.cpu_possible_mask ∧ c ∉ s1.our_isolated_cpus ∧
        c ∉ E.thermal_cpus ∧ c ∉ O1 := by
      intro c hc
      have := mem_for_each_cpu.mp hc
      simp only [Finset.mem_sdiff] at this
      exact ⟨this.2.1.1.1, this.2.1.1.2, this.2.1.2, this.2.2⟩
    obtain ⟨pa, pb, pc, pd, pe, pf⟩ := pick_offline_loop_spec E lC O1 need (by omega)
    have pf' := pf (for_each_cpu_nodup M _) (fun c hc => (hlCmem c hc).2.2.2)
    set O2 := (pick_offline_loop E lC O1 need).1 with hO2
    set need2 := (pick_offline_loop E lC O1 need).2.1 with hneed2
    have hO2prop : ∀ c ∈ O2, (c ∈ s.reserve_cpus ∨ c ∈ M.cpu_possible_mask) ∧
        c ∉ E.thermal_cpus ∧ c ∉ E.cpu_online_mask := by
      intro c hc
      rcases pb c hc with h | h
      · exact hO1prop c h
      · exact ⟨Or.inr (hlCmem c h.1).1, (hlCmem c h.1).2.2.1, h.2⟩
    have hdis2 : Disjoint s1.our_isolated_cpus O2 := by
      rw [Finset.disjoint_left]
      intro c hc hc'
      rcases pb c hc' with h | h
      · exact (Finset.disjoint_left.mp hdis1) hc h
      · exact (hlCmem c h.1).2.1 hc
    by_cases hdone : (pick_offline_loop E lC O1 need).2.2 = true
    · simp only [hdone, if_true]
      have hz : need2 = 0 := pd.mp hdone
      have hcard : (s1.our_isolated_cpus ∪ O2).card = s.reserve_cpus.card := by
        rw [hunion _ _ hdis2]
        omega
      exact ⟨f1, n1, hs1our, hO2prop, hdis2, fun _ _ => le_of_eq hcard,
        fun _ _ _ _ => Or.inl hcard⟩
    · have hdone' : (pick_offline_loop E lC O1 need).2.2 = false := by
        simpa using hdone
      simp only [hdone', Bool.false_eq_true, if_false]
      have hpos : 1 ≤ need2 := by
        have : need2 ≠ 0 := fun h => hdone (pd.mpr h)
        omega
      set l3 := for_each_cpu M
        ((((M.cpu_possible_mask \ s1.our_isolated_cpus) \ E.thermal_cpus) \ O1) \ O2)
        with hl3
      have hl3mem : ∀ c, c ∈ l3 → c ∈ lC ∧ c ∉ O2 := by
        intro c hc
        have := mem_for_each_cpu.mp hc
        rw [Finset.mem_sdiff] at this
        exact ⟨mem_for_each_cpu.mpr ⟨this.1, this.2.1⟩, this.2.2⟩
      obtain ⟨f3, n3, a3, b3, c3⟩ := isolate_replacement_loop_spec E l3 s1 need2 hpos
      have c3' := c3 (for_each_cpu_nodup M _) (fun c hc => (hlCmem c (hl3mem c hc).1).2.1)
      set s3 := isolate_replacement_loop E l3 s1 need2 with hs3
      have hdis3 : Disjoint s3.our_isolated_cpus O2 := by
        rw [Finset.disjoint_left]
        intro c hc hc'
        rcases b3 c hc with h | h
        · exact (Finset.disjoint_left.mp hdis2) h hc'
        · exact (hl3mem c h).2 hc'
      refine ⟨f1.then f3, n1.append n3, ?_, hO2prop, hdis3, ?_, ?_⟩
      · intro c hc
        rcases b3 c hc with h | h
        · exact hs1our c h
        · exact Or.inr ⟨Or.inr (hlCmem c (hl3mem c h).1).1, (hlCmem c (hl3mem c h).1).2.2.1⟩
      · intro _ _
        rw [hunion _ _ hdis3]
        have := c3'.1
        omega
      · intro hI _ hM _
        rcases c3'.2 hI with h | h
        · left
          rw [hunion _ _ hdis3]
          omega
        · right
          intro c hcP hcT
          rw [Finset.mem_union]
          by_cases h1 : c ∈ s1.our_isolated_cpus
          · exact Or.inl (a3 h1)
          · by_cases h2 : c ∈ O2
            · exact Or.inr h2
            · left
              apply h c
              apply mem_for_each_cpu.mpr
              refine ⟨Finset.mem_range.mp (hM hcP), ?_⟩
              simp only [Finset.mem_sdiff]
              exact ⟨⟨⟨⟨hcP, h1⟩, hcT⟩, fun h' => h2 (pa h')⟩, h2⟩
  · simp only [hlt, if_false]
    by_cases hgt : ((s1.our_isolated_cpus.card : Int) > ((s1.reserve_cpus \ O1).card : Int))
    · -- overshoot
      simp only [hgt, if_true]
      set need : Int := (s1.our_isolated_cpus.card : Int) - ((s1.reserve_cpus \ O1).card : Int)
        with hneed
      set lU := for_each_cpu M (s1.our_isolated_cpus \ s1.reserve_cpus) with hlU
      obtain ⟨fu, nu, au, bu, cu⟩ := unisolate_excess_loop_spec E lU s1 need (by omega)
      set su := unisolate_excess_loop E lU s1 need with hsu
      have hdisu : Disjoint su.our_isolated_cpus O1 :=
        Finset.disjoint_of_subset_left au hdis1
      refine ⟨f1.then fu, n1.append nu, fun c hc => hs1our c (au hc), hO1prop, hdisu, ?_, ?_⟩
      · intro hU hr
        have hlen : (lU.length : Int) = (s1.our_isolated_cpus \ s1.reserve_cpus).card := by
          rw [hlU, for_each_cpu_length M _
            ((Finset.sdiff_subset).trans (hs1range hr))]
        have hsub : s1.our_isolated_cpus ∩ s1.reserve_cpus ⊆ s1.reserve_cpus \ O1 := by
          intro c hc
          rw [Finset.mem_inter] at hc
          rw [Finset.mem_sdiff]
          exact ⟨hc.2, fun h' => (Finset.disjoint_left.mp hdis1) hc.1 h'⟩
        have h1 := Finset.card_le_card hsub
        have h2 := Finset.card_sdiff_add_card_inter s1.our_isolated_cpus s1.reserve_cpus
        have := cu hU (for_each_cpu_nodup M _)
          (fun c hc => (Finset.mem_sdiff.mp (mem_for_each_cpu.mp hc).2).1) (by omega)
        rw [hunion _ _ hdisu]
        omega
      · intro _ hU _ hr
        left
        have hlen : (lU.length : Int) = (s1.our_isolated_cpus \ s1.reserve_cpus).card := by
          rw [hlU, for_each_cpu_length M _
            ((Finset.sdiff_subset).trans (hs1range hr))]
        have hsub : s1.our_isolated_cpus ∩ s1.reserve_cpus ⊆ s1.reserve_cpus \ O1 := by
          intro c hc
          rw [Finset.mem_inter] at hc
          rw [Finset.mem_sdiff]
          exact ⟨hc.2, fun h' => (Finset.disjoint_left.mp hdis1) hc.1 h'⟩
        have h1 := Finset.card_le_card hsub
        have h2 := Finset.card_sdiff_add_card_inter s1.our_isolated_cpus s1.reserve_cpus
        have := cu hU (for_each_cpu_nodup M _)
          (fun c hc => (Finset.mem_sdiff.mp (mem_for_each_cpu.mp hc).2).1) (by omega)
        rw [hunion _ _ hdisu]
        omega
    · -- the count matches
      simp only [hgt, if_false]
      have hcard : (s1.our_isolated_cpus ∪ O1).card = s.reserve_cpus.card := by
        rw [hunion _ _ hdis1]
        omega
      exact ⟨f1, n1, hs1our, hO1prop, hdis1, fun _ _ => le_of_eq hcard,
        fun _ _ _ _ => Or.inl hcard⟩

/-! ## Invariants of the reachable states -/

theorem MasksOK.framed {M : Machine} {s t : State} (h : MasksOK M s) (f : Frame s t)
    (ho : t.our_isolated_cpus ⊆ M.cpu_possible_mask) : MasksOK M t :=
  ⟨h.1, by rw [f.reserve]; exact h.2.1, ho, by rw [f.final]; exact h.2.2.2⟩

theorem TableInv.kept {M : Machine} {s t : State} (h : TableInv M s) (f : Frame s t) :
    TableInv M t := by
  unfold TableInv TableOK at *
  rw [f.cpumap, f.reserve, f.final]
  exact h

theorem MasksOK.range {M : Machine} {s : State} (h : MasksOK M s) : RangeOK M s :=
  ⟨h.1, h.2.1.trans h.1, h.2.2.1.trans h.1, h.2.2.2.trans h.1⟩

theorem RangeOK.transported {M : Machine} {s t : State} (h : RangeOK M s) (f : Frame s t)
    (ho : t.our_isolated_cpus ⊆ Finset.range M.nr_cpu_ids) : RangeOK M t :=
  ⟨h.1, by rw [f.reserve]; exact h.2.1, ho, by rw [f.final]; exact h.2.2.2⟩

theorem finalize_range (M : Machine) (E : Env) (s : State) (T : cpumask)
    (hT : T ⊆ Finset.range M.nr_cpu_ids) (h : RangeOK M s) :
    RangeOK M (finalize_reservation M E s T).1 := by
  obtain ⟨e1, e2, _⟩ := finalize_frame M E s T
  refine ⟨h.1, by rw [e1]; exact h.2.1, by rw [e2]; exact h.2.2.1, ?_⟩
  rw [finalize_final]
  split_ifs
  · exact h.2.2.2
  · exact hT

theorem finalize_masks (M : Machine) (E : Env) (s : State) (T : cpumask)
    (hT : T ⊆ M.cpu_possible_mask) (h : MasksOK M s) :
    MasksOK M (finalize_reservation M E s T).1 := by
  obtain ⟨e1, e2, _⟩ := finalize_frame M E s T
  refine ⟨h.1, by rw [e1]; exact h.2.1, by rw [e2]; exact h.2.2.1, ?_⟩
  rw [finalize_final]
  split_ifs
  · exact h.2.2.2
  · exact hT

theorem finalize_table (M : Machine) (E : Env) (hE : HcallOK E) (s : State) (T : cpumask)
    (hT : T ⊆ Finset.range M.nr_cpu_ids) (hM : M.ok) (h : TableInv M s) :
    TableInv M (finalize_reservation M E s T).1 := by
  by_cases h1 : T = s.final_reserved_cpus
  · rw [finalize_noop M E s T (Or.inl h1)]; exact h
  by_cases h2 : T.card < s.reserve_cpus.card
  · rw [finalize_noop M E s T (Or.inr h2)]; exact h
  obtain ⟨hP, hF⟩ := finalize_matching M E hE hM s T h.1 hT h1 h2
  obtain ⟨e1, _⟩ := finalize_frame M E s T
  have hfin : (finalize_reservation M E s T).1.final_reserved_cpus = T := by
    rw [finalize_final]; simp [h2]
  refine ⟨⟨?_, ?_, ?_, hP⟩, ?_⟩
  · intro o ho
    obtain ⟨m, hm, hr⟩ := forall2_mem_right hF ho
    rw [hr.1]
    exact h.1.1 m hm
  · rw [← hF.length_eq]; exact h.1.2.1
  · rw [e1, ← hF.length_eq]; exact h.1.2.2.1
  · intro o ho
    obtain ⟨m, hm, hr⟩ := forall2_mem_right hF ho
    rw [hfin]
    exact hr.2.2.1

theorem do_reservation_temp_subset (M : Machine) (E : Env) (s : State) (h : MasksOK M s) :
    (do_reservation_isolation M E s).1.our_isolated_cpus ⊆ M.cpu_possible_mask ∧
    do_reservation_temp M E s ⊆ M.cpu_possible_mask := by
  obtain ⟨_, _, a, b, _⟩ := do_reservation_isolation_spec M E s
  have h1 : (do_reservation_isolation M E s).1.our_isolated_cpus ⊆ M.cpu_possible_mask := by
    intro c hc
    rcases a c hc with h' | ⟨h' | h', _⟩
    · exact h.2.2.1 h'
    · exact h.2.1 h'
    · exact h'
  refine ⟨h1, ?_⟩
  unfold do_reservation_temp
  apply Finset.union_subset h1
  intro c hc
  rcases (b c hc).1 with h' | h'
  · exact h.2.1 h'
  · exact h'

theorem do_reservation_masks (M : Machine) (E : Env) (s : State) (h : MasksOK M s) :
    MasksOK M (hyp_core_ctl_do_reservation M E s) := by
  obtain ⟨f, _⟩ := do_reservation_isolation_spec M E s
  obtain ⟨h1, h2⟩ := do_reservation_temp_subset M E s h
  exact finalize_masks M E _ _ h2 (h.framed f h1)

theorem do_reservation_temp_range (M : Machine) (E : Env) (s : State) (h : RangeOK M s) :
    (do_reservation_isolation M E s).1.our_isolated_cpus ⊆ Finset.range M.nr_cpu_ids ∧
    do_reservation_temp M E s ⊆ Finset.range M.nr_cpu_ids := by
  obtain ⟨_, _, a, b, _⟩ := do_reservation_isolation_spec M E s
  have h1 : (do_reservation_isolation M E s).1.our_isolated_cpus ⊆
      Finset.range M.nr_cpu_ids := by
    intro c hc
    rcases a c hc with h' | ⟨h' | h', _⟩
    · exact h.2.2.1 h'
    · exact h.2.1 h'
    · exact h.1 h'
  refine ⟨h1, ?_⟩
  unfold do_reservation_temp
  apply Finset.union_subset h1
  intro c hc
  rcases (b c hc).1 with h' | h'
  · exact h.2.1 h'
  · exact h.1 h'

theorem do_reservation_range (M : Machine) (E : Env) (s : State) (h : RangeOK M s) :
    RangeOK M (hyp_core_ctl_do_reservation M E s) := by
  obtain ⟨f, _⟩ := do_reservation_isolation_spec M E s
  obtain ⟨h1, h2⟩ := do_reservation_temp_range M E s h
  exact finalize_range M E _ _ h2 (h.transported f h1)

theorem do_reservation_table (M : Machine) (E : Env) (hE : HcallOK E) (s : State)
    (h : RangeOK M s) (ht : TableInv M s) :
    TableInv M (hyp_core_ctl_do_reservation M E s) := by
  obtain ⟨f, _⟩ := do_reservation_isolation_spec M E s
  obtain ⟨_, h2⟩ := do_reservation_temp_range M E s h
  exact finalize_table M E hE _ _ h2 h.1 (ht.kept f)

theorem undo_reservation_masks (M : Machine) (E : Env) (s : State) (h : MasksOK M s) :
    MasksOK M (hyp_core_ctl_undo_reservation M E s) := by
  obtain ⟨f, _, a, _⟩ := undo_reservation_loop_spec E (for_each_cpu M s.our_isolated_cpus) s
  exact h.framed f (a.trans h.2.2.1)

theorem undo_reservation_range (M : Machine) (E : Env) (s : State) (h : RangeOK M s) :
    RangeOK M (hyp_core_ctl_undo_reservation M E s) := by
  obtain ⟨f, _, a, _⟩ := undo_reservation_loop_spec E (for_each_cpu M s.our_isolated_cpus) s
  exact h.transported f (a.trans h.2.2.1)

theorem undo_reservation_table (M : Machine) (E : Env) (s : State) (ht : TableInv M s) :
    TableInv M (hyp_core_ctl_undo_reservation M E s) := by
  obtain ⟨f, _⟩ := undo_reservation_loop_spec E (for_each_cpu M s.our_isolated_cpus) s
  exact ht.kept f

theorem cpumask_any_lt {M : Machine} {S : cpumask} (h : cpumask_any M S < M.nr_cpu_ids) :
    cpumask_any M S ∈ S := by
  rcases cpumask_first_spec M S with ⟨h1, _⟩ | ⟨_, h1, _⟩
  · unfold cpumask_any at h; omega
  · exact h1

theorem handle_thermal_temp_subset (M : Machine) (E : Env) (s : State) (cpu : Nat)
    (hc : cpu ∈ M.cpu_possible_mask) (h : MasksOK M s) :
    (cpumask_any M ((M.cpu_possible_mask \ E.thermal_cpus) \ s.final_reserved_cpus)
        < M.nr_cpu_ids →
      insert (cpumask_any M ((M.cpu_possible_mask \ E.thermal_cpus) \ s.final_reserved_cpus))
        (s.final_reserved_cpus.erase cpu) ⊆ M.cpu_possible_mask) ∧
    insert cpu (s.final_reserved_cpus.erase
      (cpumask_any M (s.final_reserved_cpus \ s.reserve_cpus))) ⊆ M.cpu_possible_mask := by
  constructor
  · intro hlt
    apply Finset.insert_subset
    · have := cpumask_any_lt hlt
      simp only [Finset.mem_sdiff] at this
      exact this.1.1
    · exact (Finset.erase_subset _ _).trans h.2.2.2
  · exact Finset.insert_subset hc ((Finset.erase_subset _ _).trans h.2.2.2)

theorem handle_thermal_masks (M : Machine) (E : Env) (s : State) (cpu : Nat)
    (throttled : Bool) (hc : cpu ∈ M.cpu_possible_mask) (h : MasksOK M s) :
    MasksOK M (hyp_core_ctl_handle_thermal M E s cpu throttled) := by
  obtain ⟨t1, t2⟩ := handle_thermal_temp_subset M E s cpu hc h
  simp only [hyp_core_ctl_handle_thermal]
  split_ifs with h1 h2 h3
  · exact finalize_masks M E _ _ (t1 h2) h
  · exact h
  · exact finalize_masks M E _ _ t2 h
  · exact h

theorem handle_thermal_temp_range (M : Machine) (E : Env) (s : State) (cpu : Nat)
    (hc : cpu ∈ M.cpu_possible_mask) (h : RangeOK M s) :
    (cpumask_any M ((M.cpu_possible_mask \ E.thermal_cpus) \ s.final_reserved_cpus)
        < M.nr_cpu_ids →
      insert (cpumask_any M ((M.cpu_possible_mask \ E.thermal_cpus) \ s.final_reserved_cpus))
        (s.final_reserved_cpus.erase cpu) ⊆ Finset.range M.nr_cpu_ids) ∧
    insert cpu (s.final_reserved_cpus.erase
      (cpumask_any M (s.final_reserved_cpus \ s.reserve_cpus))) ⊆
        Finset.range M.nr_cpu_ids := by
  constructor
  · intro hlt
    exact Finset.insert_subset (Finset.mem_range.mpr hlt)
      ((Finset.erase_subset _ _).trans h.2.2.2)
  · exact Finset.insert_subset (h.1 hc) ((Finset.erase_subset _ _).trans h.2.2.2)

theorem handle_thermal_range (M : Machine) (E : Env) (s : State) (cpu : Nat)
    (throttled : Bool) (hc : cpu ∈ M.cpu_possible_mask) (h : RangeOK M s) :
    RangeOK M (hyp_core_ctl_handle_thermal M E s cpu throttled) := by
  obtain ⟨t1, t2⟩ := handle_thermal_temp_range M E s cpu hc h
  simp only [hyp_core_ctl_handle_thermal]
  split_ifs with h1 h2 h3
  · exact finalize_range M E _ _ (t1 h2) h
  · exact h
  · exact finalize_range M E _ _ t2 h
  · exact h

theorem handle_thermal_table (M : Machine) (E : Env) (hE : HcallOK E) (s : State)
    (cpu : Nat) (throttled : Bool) (hc : cpu ∈ M.cpu_possible_mask) (h : RangeOK M s)
    (ht : TableInv M s) :
    TableInv M (hyp_core_ctl_handle_thermal M E s cpu throttled) := by
  obtain ⟨t1, t2⟩ := handle_thermal_temp_range M E s cpu hc h
  simp only [hyp_core_ctl_handle_thermal]
  split_ifs with h1 h2 h3
  · exact finalize_table M E hE _ _ (t1 h2) h.1 ht
  · exact ht
  · exact finalize_table M E hE _ _ t2 h.1 ht
  · exact ht

theorem enable_frame (s : State) (b : Bool) :
    (hyp_core_ctl_enable s b).reserve_cpus = s.reserve_cpus ∧
    (hyp_core_ctl_enable s b).our_isolated_cpus = s.our_isolated_cpus ∧
    (hyp_core_ctl_enable s b).final_reserved_cpus = s.final_reserved_cpus ∧
    (hyp_core_ctl_enable s b).cpumap = s.cpumap := by
  simp only [hyp_core_ctl_enable, hh_del_suspend_timer, hh_start_suspend_timer, State.log]
  split_ifs <;> simp

theorem enable_masks (M : Machine) (s : State) (b : Bool) (h : MasksOK M s) :
    MasksOK M (hyp_core_ctl_enable s b) := by
  obtain ⟨e1, e2, e3, _⟩ := enable_frame s b
  unfold MasksOK
  rw [e1, e2, e3]
  exact h

theorem enable_range (M : Machine) (s : State) (b : Bool) (h : RangeOK M s) :
    RangeOK M (hyp_core_ctl_enable s b) := by
  obtain ⟨e1, e2, e3, _⟩ := enable_frame s b
  unfold RangeOK
  rw [e1, e2, e3]
  exact h

theorem enable_table (M : Machine) (s : State) (b : Bool) (h : TableInv M s) :
    TableInv M (hyp_core_ctl_enable s b) := by
  obtain ⟨e1, _, e3, e4⟩ := enable_frame s b
  unfold TableInv TableOK
  rw [e1, e3, e4]
  exact h

theorem cooling_cb_kick_masks (M : Machine) (E : Env) (s : State) (cpu : Nat) (val : Bool)
    (hc : cpu ∈ M.cpu_possible_mask) (h : MasksOK M s) :
    MasksOK M (cooling_cb_kick M E s cpu val) := by
  simp only [cooling_cb_kick]
  split_ifs
  · exact h
  · exact handle_thermal_masks M E s cpu val hc h

theorem cooling_cb_kick_range (M : Machine) (E : Env) (s : State) (cpu : Nat) (val : Bool)
    (hc : cpu ∈ M.cpu_possible_mask) (h : RangeOK M s) :
    RangeOK M (cooling_cb_kick M E s cpu val) := by
  simp only [cooling_cb_kick]
  split_ifs
  · exact h
  · exact handle_thermal_range M E s cpu val hc h

theorem cooling_cb_kick_table (M : Machine) (E : Env) (hE : HcallOK E) (s : State)
    (cpu : Nat) (val : Bool) (hc : cpu ∈ M.cpu_possible_mask) (h : RangeOK M s)
    (ht : TableInv M s) : TableInv M (cooling_cb_kick M E s cpu val) := by
  simp only [cooling_cb_kick]
  split_ifs
  · exact ht
  · exact handle_thermal_table M E hE s cpu val hc h ht

theorem cooling_cb_masks (M : Machine) (E : Env) (s : State) (val : Bool) (cpu : Nat)
    (hc : cpu ∈ M.cpu_possible_mask) (h : MasksOK M s) :
    MasksOK M (hyp_core_ctl_cpu_cooling_cb M E s val cpu) := by
  obtain ⟨f, _, a, _⟩ := unisolate_log_spec E s cpu
  simp only [hyp_core_ctl_cpu_cooling_cb]
  split_ifs <;>
    first
    | exact h
    | exact cooling_cb_kick_masks M E s cpu val hc h
    | exact cooling_cb_kick_masks M E _ cpu val hc
        (h.framed f (by rw [a]; exact (Finset.erase_subset _ _).trans h.2.2.1))

theorem cooling_cb_range (M : Machine) (E : Env) (s : State) (val : Bool) (cpu : Nat)
    (hc : cpu ∈ M.cpu_possible_mask) (h : RangeOK M s) :
    RangeOK M (hyp_core_ctl_cpu_cooling_cb M E s val cpu) := by
  obtain ⟨f, _, a, _⟩ := unisolate_log_spec E s cpu
  simp only [hyp_core_ctl_cpu_cooling_cb]
  split_ifs <;>
    first
    | exact h
    | exact cooling_cb_kick_range M E s cpu val hc h
    | exact cooling_cb_kick_range M E _ cpu val hc
        (h.transported f (by rw [a]; exact (Finset.erase_subset _ _).trans h.2.2.1))

theorem cooling_cb_table (M : Machine) (E : Env) (hE : HcallOK E) (s : State) (val : Bool)
    (cpu : Nat) (hc : cpu ∈ M.cpu_possible_mask) (h : RangeOK M s) (ht : TableInv M s) :
    TableInv M (hyp_core_ctl_cpu_cooling_cb M E s val cpu) := by
  obtain ⟨f, _, a, _⟩ := unisolate_log_spec E s cpu
  simp only [hyp_core_ctl_cpu_cooling_cb]
  split_ifs <;>
    first
    | exact ht
    | exact cooling_cb_kick_table M E hE s cpu val hc h ht
    | exact cooling_cb_kick_table M E hE _ cpu val hc
        (h.transported f (by rw [a]; exact (Finset.erase_subset _ _).trans h.2.2.1))
        (ht.kept f)

theorem thread_masks (M : Machine) (E : Env) (s : State) (h : MasksOK M s) :
    MasksOK M (hyp_core_ctl_thread M E s) := by
  simp only [hyp_core_ctl_thread]
  split_ifs
  · exact do_reservation_masks M E _ h
  · exact undo_reservation_masks M E _ h

theorem thread_range (M : Machine) (E : Env) (s : State) (h : RangeOK M s) :
    RangeOK M (hyp_core_ctl_thread M E s) := by
  simp only [hyp_core_ctl_thread]
  split_ifs
  · exact do_reservation_range M E _ h
  · exact undo_reservation_range M E _ h

theorem thread_table (M : Machine) (E : Env) (hE : HcallOK E) (s : State)
    (h : RangeOK M s) (ht : TableInv M s) : TableInv M (hyp_core_ctl_thread M E s) := by
  simp only [hyp_core_ctl_thread]
  split_ifs
  · exact do_reservation_table M E hE _ h ht
  · exact undo_reservation_table M E _ ht

theorem populated_masks (M : Machine) (s : State) (h : Populated M s) : MasksOK M s := by
  obtain ⟨hM, _, hm, _, hr, hf, ho, _⟩ := h
  have hR : s.reserve_cpus ⊆ M.cpu_possible_mask := by
    rw [hr]
    intro c hc
    rw [List.mem_toFinset, List.mem_map] at hc
    obtain ⟨m, hm', rfl⟩ := hc
    exact (hm m hm').2.2
  exact ⟨hM, hR, by rw [ho]; exact Finset.empty_subset _, by rw [hf]; exact hR⟩

theorem populated_table (M : Machine) (s : State) (h : Populated M s) : TableInv M s := by
  obtain ⟨_, hl, hm, hn, hr, hf, _⟩ := h
  refine ⟨⟨fun m hm' => (hm m hm').1, hl, ?_, ?_⟩, ?_⟩
  · rw [hr, List.toFinset_card_of_nodup hn, List.length_map]
  · have hp : s.cpumap.Pairwise (fun a b => a.pcpu ≠ b.pcpu) := by
      have := hn
      unfold List.Nodup at this
      rwa [List.pairwise_map] at this
    rw [List.pairwise_iff_forall_sublist] at hp ⊢
    intro a b hab
    have hne := hp hab
    have ha := (hm a (hab.subset (List.mem_cons_self _ _))).2.1
    have hb := (hm b (hab.subset (by simp))).2.1
    exact ⟨hne, by rw [ha, hb]; exact hne, by rw [ha]; exact hne, by rw [hb]; exact Ne.symm hne⟩
  · intro m hm'
    rw [hf, hr, (hm m hm').2.1, List.mem_toFinset]
    exact List.mem_map_of_mem _ hm'

theorem write_reserve_cpus_cases (s : State) (w : CpulistWrite) (count : Nat) :
    (write_reserve_cpus s w count).1 = s ∨
    (w.temp_mask.card = s.reserve_cpus.card ∧ s.reservation_enabled = false ∧
      (write_reserve_cpus s w count).1 = { s with reserve_cpus := w.temp_mask }) := by
  unfold write_reserve_cpus
  split_ifs with h1 h2 h3 h4 h5
  · exact Or.inl rfl
  · exact Or.inl rfl
  · exact Or.inl rfl
  · exact Or.inl rfl
  · exact Or.inl rfl
  · exact Or.inr ⟨not_not.mp h4, by simpa using h5, rfl⟩

theorem write_reserve_cpus_masks (M : Machine) (s : State) (w : CpulistWrite) (count : Nat)
    (hw : w.temp_mask ⊆ M.cpu_possible_mask) (h : MasksOK M s) :
    MasksOK M (write_reserve_cpus s w count).1 := by
  rcases write_reserve_cpus_cases s w count with e | ⟨_, _, e⟩
  · rw [e]; exact h
  · rw [e]; exact ⟨h.1, hw, h.2.2.1, h.2.2.2⟩

theorem write_reserve_cpus_range (M : Machine) (s : State) (w : CpulistWrite) (count : Nat)
    (hw : w.temp_mask ⊆ Finset.range M.nr_cpu_ids) (h : RangeOK M s) :
    RangeOK M (write_reserve_cpus s w count).1 := by
  rcases write_reserve_cpus_cases s w count with e | ⟨_, _, e⟩
  · rw [e]; exact h
  · rw [e]; exact ⟨h.1, hw, h.2.2.1, h.2.2.2⟩

theorem write_reserve_cpus_table (M : Machine) (s : State) (w : CpulistWrite) (count : Nat)
    (h : TableInv M s) : TableInv M (write_reserve_cpus s w count).1 := by
  rcases write_reserve_cpus_cases s w count with e | ⟨hc, _, e⟩
  · rw [e]; exact h
  · rw [e]
    exact ⟨⟨h.1.1, h.1.2.1, hc.trans h.1.2.2.1, h.1.2.2.2⟩, h.2⟩

theorem hp_offline_frame (E : Env) (s : State) (cpu : Nat) :
    Frame s (hyp_core_ctl_hp_offline E s cpu) ∧
    (hyp_core_ctl_hp_offline E s cpu).our_isolated_cpus ⊆ s.our_isolated_cpus := by
  unfold hyp_core_ctl_hp_offline
  split_ifs with h1 h2
  · exact ⟨Frame.same s, subset_rfl⟩
  · obtain ⟨f, _, a, _⟩ := reset_min_freq_spec E
      ({ s with our_isolated_cpus := s.our_isolated_cpus.erase cpu }.log
        (Event.unisolate_unlocked cpu)) cpu
    refine ⟨((Frame.set_isolated s _).then (Frame.logged _ _)).then f, ?_⟩
    rw [a]
    exact Finset.erase_subset _ _
  · exact ⟨Frame.same s, subset_rfl⟩

theorem hp_online_frame (s : State) (cpu : Nat) :
    Frame s (hyp_core_ctl_hp_online s cpu) ∧
    (hyp_core_ctl_hp_online s cpu).our_isolated_cpus = s.our_isolated_cpus := by
  unfold hyp_core_ctl_hp_online
  split_ifs with h1 h2
  · exact ⟨Frame.same s, rfl⟩
  · exact ⟨rfl, rfl⟩
  · exact ⟨Frame.same s, rfl⟩

/-- With CPU lists that name possible CPUs, the masks of a reachable state hold possible
CPUs only. -/
theorem reachable_masks {M : Machine} {good : Env → Prop} {s : State}
    (h : Reachable M good (PossibleList M) s) : MasksOK M s := by
  induction h with
  | populated hp => exact populated_masks M _ hp
  | enable b _ ih => exact enable_masks M _ b ih
  | do_reservation E _ _ ih => exact do_reservation_masks M E _ ih
  | undo_reservation E _ _ ih => exact undo_reservation_masks M E _ ih
  | handle_thermal E cpu throttled _ hc _ ih =>
    exact handle_thermal_masks M E _ cpu throttled hc ih
  | cooling_cb E val cpu _ hc _ ih => exact cooling_cb_masks M E _ val cpu hc ih
  | thread E _ _ ih => exact thread_masks M E _ ih
  | write_reserve_cpus w count hw _ ih => exact write_reserve_cpus_masks M _ w count hw ih
  | hp_offline E cpu _ _ ih =>
    exact ih.framed (hp_offline_frame E _ cpu).1 ((hp_offline_frame E _ cpu).2.trans ih.2.2.1)
  | hp_online cpu _ ih =>
    exact ih.framed (hp_online_frame _ cpu).1
      (by rw [(hp_online_frame _ cpu).2]; exact ih.2.2.1)

/-- The masks of a reachable state hold CPU ids below `nr_cpu_ids` only. -/
theorem reachable_range {M : Machine} {good : Env → Prop} {s : State}
    (h : Reachable M good (CpuList M) s) : RangeOK M s := by
  induction h with
  | populated hp => exact (populated_masks M _ hp).range
  | enable b _ ih => exact enable_range M _ b ih
  | do_reservation E _ _ ih => exact do_reservation_range M E _ ih
  | undo_reservation E _ _ ih => exact undo_reservation_range M E _ ih
  | handle_thermal E cpu throttled _ hc _ ih =>
    exact handle_thermal_range M E _ cpu throttled hc ih
  | cooling_cb E val cpu _ hc _ ih => exact cooling_cb_range M E _ val cpu hc ih
  | thread E _ _ ih => exact thread_range M E _ ih
  | write_reserve_cpus w count hw _ ih => exact write_reserve_cpus_range M _ w count hw ih
  | hp_offline E cpu _ _ ih =>
    exact ih.transported (hp_offline_frame E _ cpu).1
      ((hp_offline_frame E _ cpu).2.trans ih.2.2.1)
  | hp_online cpu _ ih =>
    exact ih.transported (hp_online_frame _ cpu).1
      (by rw [(hp_online_frame _ cpu).2]; exact ih.2.2.1)

/-- More CPU lists give more reachable states. -/
theorem Reachable.lists_mono {M : Machine} {good : Env → Prop} {l1 l2 : cpumask → Prop}
    {s : State} (hl : ∀ R, l1 R → l2 R) (h : Reachable M good l1 s) :
    Reachable M good l2 s := by
  induction h with
  | populated hp => exact Reachable.populated hp
  | enable b _ ih => exact Reachable.enable b ih
  | do_reservation E hE _ ih => exact Reachable.do_reservation E hE ih
  | undo_reservation E hE _ ih => exact Reachable.undo_reservation E hE ih
  | handle_thermal E cpu throttled hE hc _ ih =>
    exact Reachable.handle_thermal E cpu throttled hE hc ih
  | cooling_cb E val cpu hE hc _ ih => exact Reachable.cooling_cb E val cpu hE hc ih
  | thread E hE _ ih => exact Reachable.thread E hE ih
  | write_reserve_cpus w count hw _ ih =>
    exact Reachable.write_reserve_cpus w count (hl _ hw) ih
  | hp_offline E cpu hE _ ih => exact Reachable.hp_offline E cpu hE ih
  | hp_online cpu _ ih => exact Reachable.hp_online cpu ih

theorem reachable_table {M : Machine} {s : State}
    (h : Reachable M HcallOK (CpuList M) s) : TableInv M s := by
  induction h with
  | populated hp => exact populated_table M _ hp
  | enable b _ ih => exact enable_table M _ b ih
  | do_reservation E hE hs ih => exact do_reservation_table M E hE _ (reachable_range hs) ih
  | undo_reservation E _ _ ih => exact undo_reservation_table M E _ ih
  | handle_thermal E cpu throttled hE hc hs ih =>
    exact handle_thermal_table M E hE _ cpu throttled hc (reachable_range hs) ih
  | cooling_cb E val cpu hE hc hs ih =>
    exact cooling_cb_table M E hE _ val cpu hc (reachable_range hs) ih
  | thread E hE hs ih => exact thread_table M E hE _ (reachable_range hs) ih
  | write_reserve_cpus w count _ _ ih => exact write_reserve_cpus_table M _ w count ih
  | hp_offline E cpu _ _ ih => exact ih.kept (hp_offline_frame E _ cpu).1
  | hp_online cpu _ ih => exact ih.kept (hp_online_frame _ cpu).1

/-- A state the driver reaches through its entry points is reachable. -/
theorem Driven.reachable {M : Machine} {good : Env → Prop} {lists : cpumask → Prop}
    {s : State} (h : Driven M good lists s) : Reachable M good lists s := by
  induction h with
  | populated hp => exact Reachable.populated hp
  | enable b _ ih => exact Reachable.enable b ih
  | cooling_cb E val cpu hE hc _ ih => exact Reachable.cooling_cb E val cpu hE hc ih
  | thread E hE _ ih => exact Reachable.thread E hE ih
  | write_reserve_cpus w count hw _ ih => exact Reachable.write_reserve_cpus w count hw ih
  | hp_offline E cpu hE _ ih => exact Reachable.hp_offline E cpu hE ih
  | hp_online cpu _ ih => exact Reachable.hp_online cpu ih

/-! ## C1: no two vcpus on the same pcpu -/

theorem distinct_of_pairwise {s : State} (h : s.cpumap.Pairwise Apart) : DistinctCurrent s := by
  intro i j a b hi hj hij
  rw [List.pairwise_iff_getElem] at h
  obtain ⟨hi', rfl⟩ := List.getElem?_eq_some.mp hi
  obtain ⟨hj', rfl⟩ := List.getElem?_eq_some.mp hj
  rcases Nat.lt_or_gt_of_ne hij with hlt | hgt
  · exact (h i j hi' hj' hlt).2.1
  · exact Ne.symm (h j i hj' hi' hgt).2.1

theorem populated_fresh45 : Populated M8 fresh45 := by
  unfold Populated Machine.ok
  decide

/-- C1, as stated, fails: with hypercalls that fail, three `handle_thermal` passes from
the freshly populated table of scenario 1 leave vcpu 0 and vcpu 1 both on CPU 0. -/
theorem c1_counterexample :
    Reachable M8 AnyEnv (CpuList M8) twoOnCpu0 ∧ ¬ DistinctCurrent twoOnCpu0 := by
  refine ⟨?_, ?_⟩
  · exact Reachable.handle_thermal _ 5 true trivial (by decide)
      (Reachable.handle_thermal _ 4 false trivial (by decide)
        (Reachable.handle_thermal _ 4 true trivial (by decide)
          (Reachable.populated populated_fresh45)))
  · intro h
    exact h 0 1 ⟨101, 4, 0⟩ ⟨102, 5, 0⟩ (by decide) (by decide) (by decide) rfl

/-- C1, amended: in every state reached from a freshly populated table by engine passes in
which every `vcpu_affinity_set` hypercall succeeds (and by worker passes, thermal
notifications, enable/disable, writes to `reserve_cpus` and hotplug events), any two
distinct vcpus have different `pcpu_current`. -/
theorem c1_distinct_pcpu_current (M : Machine) (s : State) (h : Reachable M HcallOK (CpuList M) s) :
    DistinctCurrent s :=
  distinct_of_pairwise (reachable_table h).1.2.2.2

theorem c1_distinct_pcpu_current_witness :
    Reachable M8 HcallOK (CpuList M8) (hyp_core_ctl_handle_thermal M8 (okEnv {4}) fresh45 4 true) ∧
    DistinctCurrent (hyp_core_ctl_handle_thermal M8 (okEnv {4}) fresh45 4 true) :=
  ⟨Reachable.handle_thermal _ 4 true (fun _ _ _ => rfl) (by decide)
      (Reachable.populated populated_fresh45),
   c1_distinct_pcpu_current M8 _
    (Reachable.handle_thermal _ 4 true (fun _ _ _ => rfl) (by decide)
      (Reachable.populated populated_fresh45))⟩

/-! ## C2: every vcpu is on a reserved CPU -/

/-- C2, as stated, fails: when CPU 4 is throttled and the hypercall fails, vcpu 0 stays on
CPU 4 while `final_reserved_cpus` becomes {0, 5}.  A later pass in which every hypercall
would succeed does not repair this: the unthrottle of CPU 0 leaves the mask as it is, no
hypercall is made and vcpu 0 is still outside `final_reserved_cpus`. -/
theorem c2_counterexample :
    Reachable M8 AnyEnv (CpuList M8) fresh45 ∧
    ¬ CurrentReserved (hyp_core_ctl_handle_thermal M8 (hcallFailEnv {4}) fresh45 4 true) ∧
    Reachable M8 AnyEnv (CpuList M8) (hyp_core_ctl_handle_thermal M8 (hcallFailEnv {4}) fresh45 4 true) ∧
    HcallOK (okEnv {4}) ∧
    ¬ CurrentReserved (hyp_core_ctl_handle_thermal M8 (okEnv {4})
      (hyp_core_ctl_handle_thermal M8 (hcallFailEnv {4}) fresh45 4 true) 0 false) := by
  refine ⟨Reachable.populated populated_fresh45, ?_,
    Reachable.handle_thermal _ 4 true trivial (by decide)
      (Reachable.populated populated_fresh45), fun _ _ _ => rfl, ?_⟩
  · intro h
    exact absurd (h ⟨101, 4, 4⟩ (by decide)) (by decide)
  · intro h
    exact absurd (h ⟨101, 4, 4⟩ (by decide)) (by decide)

/-- C2, amended: after every engine pass (`do_reservation` or `handle_thermal`) from a
state reached after population (through the engine, the worker, the thermal notifier,
enable/disable, writes to `reserve_cpus` and the hotplug callbacks) with every hypercall
succeeding, the hypercalls of the pass succeeding too, every vcpu's `pcpu_current` is a
member of `final_reserved_cpus`. -/
theorem c2_current_in_final (M : Machine) (E : Env) (s : State)
    (h : Reachable M HcallOK (CpuList M) s) (hE : HcallOK E) :
    CurrentReserved (hyp_core_ctl_do_reservation M E s) ∧
    ∀ cpu throttled, cpu ∈ M.cpu_possible_mask →
      CurrentReserved (hyp_core_ctl_handle_thermal M E s cpu throttled) :=
  ⟨(reachable_table (Reachable.do_reservation E hE h)).2,
   fun cpu throttled hc => (reachable_table (Reachable.handle_thermal E cpu throttled hE hc h)).2⟩

/-- C2 on scenario 6: after the write of 6-7 to `reserve_cpus` and enable, the pass moves
both vcpus, to CPUs 6 and 7, which make up `final_reserved_cpus`. -/
theorem c2_current_in_final_witness :
    Reachable M8 HcallOK (CpuList M8)
      (hyp_core_ctl_enable (write_reserve_cpus fresh45 (cpulist {6, 7}) 4).1 true) ∧
    HcallOK (okEnv ∅) ∧
    (hyp_core_ctl_do_reservation M8 (okEnv ∅)
      (hyp_core_ctl_enable (write_reserve_cpus fresh45 (cpulist {6, 7}) 4).1
        true)).final_reserved_cpus = {6, 7} ∧
    (hyp_core_ctl_do_reservation M8 (okEnv ∅)
      (hyp_core_ctl_enable (write_reserve_cpus fresh45 (cpulist {6, 7}) 4).1
        true)).cpumap = [⟨101, 4, 6⟩, ⟨102, 5, 7⟩] ∧
    CurrentReserved (hyp_core_ctl_do_reservation M8 (okEnv ∅)
      (hyp_core_ctl_enable (write_reserve_cpus fresh45 (cpulist {6, 7}) 4).1 true)) :=
  ⟨Reachable.enable true
     (Reachable.write_reserve_cpus _ 4 (by unfold CpuList; decide)
       (Reachable.populated populated_fresh45)),
   fun _ _ _ => rfl, by decide, by decide,
   (c2_current_in_final M8 (okEnv ∅) _
     (Reachable.enable true
       (Reachable.write_reserve_cpus _ 4 (by unfold CpuList; decide)
       (Reachable.populated populated_fresh45)))
     (fun _ _ _ => rfl)).1⟩

/-! ## C3: our_isolated_cpus, final_reserved_cpus and the possible CPUs -/

/-- C3, as stated, fails.  With every CPU but CPU 0 throttled the pass isolates CPU 0, and
`finalize_reservation` returns on the shortfall with `final_reserved_cpus` still {4, 5}:
`our_isolated_cpus` is not a subset of it.  And on a machine where CPU 6 is not possible,
after the write of the list 5-6 to `reserve_cpus` (accepted: it has the weight of
`reserve_cpus`) the pass finds CPU 6 offline and counts it as reserved:
`final_reserved_cpus` becomes {5, 6}, which is not a subset of the possible CPUs. -/
theorem c3_counterexample :
    (Reachable M8 AnyEnv (PossibleList M8) fresh45 ∧
     ¬ ((hyp_core_ctl_do_reservation M8 onlyCpu0CoolEnv fresh45).our_isolated_cpus ⊆
        (hyp_core_ctl_do_reservation M8 onlyCpu0CoolEnv fresh45).final_reserved_cpus)) ∧
    (Populated M8gap fresh45 ∧
     (write_reserve_cpus fresh45 (cpulist {5, 6}) 4).2 = 4 ∧
     (write_reserve_cpus fresh45 (cpulist {5, 6}) 4).1.reserve_cpus = {5, 6} ∧
     (hyp_core_ctl_do_reservation M8gap gapEnv
       (write_reserve_cpus fresh45 (cpulist {5, 6}) 4).1).final_reserved_cpus = {5, 6} ∧
     ¬ ((hyp_core_ctl_do_reservation M8gap gapEnv
       (write_reserve_cpus fresh45 (cpulist {5, 6}) 4).1).final_reserved_cpus ⊆
         M8gap.cpu_possible_mask)) := by
  refine ⟨⟨Reachable.populated populated_fresh45, by decide⟩, ?_, by decide, by decide,
    by decide, by decide⟩
  unfold Populated Machine.ok
  decide

/-- C3, amended: after every `do_reservation` pass from a state reached after population
(through the engine, the worker, the thermal notifier, enable/disable, the hotplug
callbacks and writes to `reserve_cpus` of lists naming possible CPUs), whatever the online
set, the throttled set and the results of the calls, `final_reserved_cpus` is a subset of
the possible CPUs, and `our_isolated_cpus` is a subset of `final_reserved_cpus` whenever
the mask handed to `finalize_reservation` has at least `|reserve_cpus|` CPUs (the
shortfall return is not taken). -/
theorem c3_isolated_subset_final (M : Machine) (E : Env) (s : State)
    (h : Reachable M AnyEnv (PossibleList M) s) :
    (hyp_core_ctl_do_reservation M E s).final_reserved_cpus ⊆ M.cpu_possible_mask ∧
    (s.reserve_cpus.card ≤ (do_reservation_temp M E s).card →
      (hyp_core_ctl_do_reservation M E s).our_isolated_cpus ⊆
        (hyp_core_ctl_do_reservation M E s).final_reserved_cpus) := by
  refine ⟨(do_reservation_masks M E s (reachable_masks h)).2.2.2, ?_⟩
  intro hc
  obtain ⟨f, _⟩ := do_reservation_isolation_spec M E s
  obtain ⟨_, e2, _⟩ := finalize_frame M E (do_reservation_isolation M E s).1
    (do_reservation_temp M E s)
  unfold hyp_core_ctl_do_reservation
  rw [e2, finalize_final, f.reserve, if_neg (by omega)]
  unfold do_reservation_temp
  exact Finset.subset_union_left

/-- C3 on scenario 4: CPU 5 of the enabled reservation goes offline; in the pass that
follows CPU 5 counts as reserved, `our_isolated_cpus` is {4} and `final_reserved_cpus`
{4, 5}. -/
theorem c3_isolated_subset_final_witness :
    Reachable M8 AnyEnv (PossibleList M8) (hyp_core_ctl_hp_offline (okEnv ∅) enabled45 5) ∧
    (hyp_core_ctl_hp_offline (okEnv ∅) enabled45 5).reserve_cpus.card ≤
      (do_reservation_temp M8 (constEnv {0, 1, 2, 3, 4, 6, 7} ∅ 0 0 0)
        (hyp_core_ctl_hp_offline (okEnv ∅) enabled45 5)).card ∧
    (hyp_core_ctl_do_reservation M8 (constEnv {0, 1, 2, 3, 4, 6, 7} ∅ 0 0 0)
      (hyp_core_ctl_hp_offline (okEnv ∅) enabled45 5)).our_isolated_cpus = {4} ∧
    (hyp_core_ctl_do_reservation M8 (constEnv {0, 1, 2, 3, 4, 6, 7} ∅ 0 0 0)
      (hyp_core_ctl_hp_offline (okEnv ∅) enabled45 5)).final_reserved_cpus = {4, 5} ∧
    (hyp_core_ctl_do_reservation M8 (constEnv {0, 1, 2, 3, 4, 6, 7} ∅ 0 0 0)
      (hyp_core_ctl_hp_offline (okEnv ∅) enabled45 5)).final_reserved_cpus ⊆
      M8.cpu_possible_mask ∧
    (hyp_core_ctl_do_reservation M8 (constEnv {0, 1, 2, 3, 4, 6, 7} ∅ 0 0 0)
      (hyp_core_ctl_hp_offline (okEnv ∅) enabled45 5)).our_isolated_cpus ⊆
      (hyp_core_ctl_do_reservation M8 (constEnv {0, 1, 2, 3, 4, 6, 7} ∅ 0 0 0)
        (hyp_core_ctl_hp_offline (okEnv ∅) enabled45 5)).final_reserved_cpus :=
  ⟨Reachable.hp_offline _ 5 trivial
     (Reachable.thread _ trivial
       (Reachable.enable true (Reachable.populated populated_fresh45))),
   by decide, by decide, by decide,
   (c3_isolated_subset_final M8 (constEnv {0, 1, 2, 3, 4, 6, 7} ∅ 0 0 0) _
     (Reachable.hp_offline _ 5 trivial
       (Reachable.thread _ trivial
         (Reachable.enable true (Reachable.populated populated_fresh45))))).1,
   (c3_isolated_subset_final M8 (constEnv {0, 1, 2, 3, 4, 6, 7} ∅ 0 0 0) _
     (Reachable.hp_offline _ 5 trivial
       (Reachable.thread _ trivial
         (Reachable.enable true (Reachable.populated populated_fresh45))))).2 (by decide)⟩

/-! ## C8: a failed hypercall never changes an assignment -/

theorem forall2_trans {α β γ : Type} {R : α → β → Prop} {S : β → γ → Prop}
    {T : α → γ → Prop} (hT : ∀ a b c, R a b → S b c → T a c) :
    ∀ {l₁ : List α} {l₂ : List β} {l₃ : List γ},
      List.Forall₂ R l₁ l₂ → List.Forall₂ S l₂ l₃ → List.Forall₂ T l₁ l₃ := by
  intro l₁ l₂ l₃ h1
  induction h1 generalizing l₃ with
  | nil => intro h2; cases h2; exact List.Forall₂.nil
  | cons hab _ ih =>
    intro h2
    cases h2 with
    | cons hbc h2' => exact List.Forall₂.cons (hT _ _ _ hab hbc) (ih h2')

theorem forall2_getElem {α β : Type} {R : α → β → Prop} :
    ∀ {l₁ : List α} {l₂ : List β}, List.Forall₂ R l₁ l₂ → ∀ (i : Nat) (a : α),
      l₁[i]? = some a → ∃ b, l₂[i]? = some b ∧ R a b := by
  intro l₁ l₂ h
  induction h with
  | nil => intro i a hi; simp at hi
  | cons hab _ ih =>
    intro i a hi
    cases i with
    | zero =>
      simp only [List.getElem?_cons_zero, Option.some.injEq] at hi
      subst hi
      exact ⟨_, by simp, hab⟩
    | succ i =>
      simp only [List.getElem?_cons_succ] at hi ⊢
      exact ih i a hi

theorem forall2_same {α : Type} {R : α → α → Prop} (h : ∀ a, R a a) :
    ∀ l : List α, List.Forall₂ R l l := by
  intro l
  induction l with
  | nil => exact List.Forall₂.nil
  | cons a l ih => exact List.Forall₂.cons (h a) ih

theorem pass1_body_moved (E : Env) (F : cpumask) (i : Nat) (m : hyp_core_ctl_cpu_map)
    (L : FinLocals) :
    ∃ new, (finalize_pass1_body E F i m L).2.trace = L.trace ++ new ∧
      Moved new m (finalize_pass1_body E F i m L).1 := by
  simp only [finalize_pass1_body]
  split_ifs with h1 h2 h3
  · exact ⟨[], by simp, rfl, rfl, Or.inl rfl⟩
  · exact ⟨[_], rfl, rfl, rfl, Or.inl rfl⟩
  · refine ⟨[_], rfl, rfl, rfl, Or.inr ?_⟩
    have : E.hh_hcall_vcpu_affinity_set L.trace m.cap_id m.pcpu = HH_ERROR_OK := by
      by_contra h; exact h3 h
    simp [this]
  · exact ⟨[], by simp, rfl, rfl, Or.inl rfl⟩
  · exact ⟨[], by simp, rfl, rfl, Or.inl rfl⟩

theorem Moved.mono {new new' : List Event} {m o : hyp_core_ctl_cpu_map}
    (h : Moved new m o) (hsub : ∀ e ∈ new, e ∈ new') : Moved new' m o :=
  ⟨h.1, h.2.1, h.2.2.imp id (fun h' => hsub _ h')⟩

theorem pass1_moved (M : Machine) (E : Env) (F : cpumask) :
    ∀ (ms : List hyp_core_ctl_cpu_map) (i : Nat) (L : FinLocals),
      ∃ new, (finalize_pass1 M E F i ms L).2.trace = L.trace ++ new ∧
        List.Forall₂ (Moved new) ms (finalize_pass1 M E F i ms L).1 := by
  intro ms
  induction ms with
  | nil => intro i L; exact ⟨[], by simp [finalize_pass1], by simp [finalize_pass1]⟩
  | cons m ms ih =>
    intro i L
    simp only [finalize_pass1]
    split_ifs with h1 h2
    · exact ⟨[], by simp, forall2_same (fun a => ⟨rfl, rfl, Or.inl rfl⟩) _⟩
    · exact ⟨[], by simp, forall2_same (fun a => ⟨rfl, rfl, Or.inl rfl⟩) _⟩
    · obtain ⟨n1, e1, m1⟩ := pass1_body_moved E F i m L
      obtain ⟨n2, e2, m2⟩ := ih (i + 1) (finalize_pass1_body E F i m L).2
      refine ⟨n1 ++ n2, by rw [e2, e1, List.append_assoc], ?_⟩
      refine List.Forall₂.cons (m1.mono (fun e he => List.mem_append_left _ he)) ?_
      exact m2.imp (fun a b h => h.mono (fun e he => List.mem_append_right _ he))

theorem pass2_body_moved (M : Machine) (E : Env) (m : hyp_core_ctl_cpu_map) (L : FinLocals) :
    ∃ new, (finalize_pass2_body M E m L).2.trace = L.trace ++ new ∧
      Moved new m (finalize_pass2_body M E m L).1 := by
  simp only [finalize_pass2_body]
  split_ifs with h1
  · exact ⟨[_], rfl, rfl, rfl, Or.inl rfl⟩
  · refine ⟨[_], rfl, rfl, rfl, Or.inr ?_⟩
    have : E.hh_hcall_vcpu_affinity_set L.trace m.cap_id (cpumask_any M L.temp) =
        HH_ERROR_OK := by
      by_contra h; exact h1 h
    simp [this]

theorem pass2_moved (M : Machine) (E : Env) :
    ∀ (ms : List hyp_core_ctl_cpu_map) (i : Nat) (L : FinLocals),
      ∃ new, (finalize_pass2 M E i ms L).2.trace = L.trace ++ new ∧
        List.Forall₂ (Moved new) ms (finalize_pass2 M E i ms L).1 := by
  intro ms
  induction ms with
  | nil => intro i L; exact ⟨[], by simp [finalize_pass2], by simp [finalize_pass2]⟩
  | cons m ms ih =>
    intro i L
    simp only [finalize_pass2]
    split_ifs with h1
    · obtain ⟨n1, e1, m1⟩ := pass2_body_moved M E m L
      obtain ⟨n2, e2, m2⟩ := ih (i + 1) (finalize_pass2_body M E m L).2
      refine ⟨n1 ++ n2, by rw [e2, e1, List.append_assoc], ?_⟩
      refine List.Forall₂.cons (m1.mono (fun e he => List.mem_append_left _ he)) ?_
      exact m2.imp (fun a b h => h.mono (fun e he => List.mem_append_right _ he))
    · obtain ⟨n2, e2, m2⟩ := ih (i + 1) L
      exact ⟨n2, e2, List.Forall₂.cons ⟨rfl, rfl, Or.inl rfl⟩ m2⟩

theorem finalize_moved (M : Machine) (E : Env) (s : State) (T : cpumask) :
    ∃ new, (finalize_reservation M E s T).1.trace = s.trace ++ new ∧
      List.Forall₂ (Moved new) s.cpumap (finalize_reservation M E s T).1.cpumap := by
  simp only [finalize_reservation]
  split_ifs with h1 h2
  · exact ⟨[], by simp, forall2_same (fun a => ⟨rfl, rfl, Or.inl rfl⟩) _⟩
  · exact ⟨[], by simp, forall2_same (fun a => ⟨rfl, rfl, Or.inl rfl⟩) _⟩
  · obtain ⟨n1, e1, m1⟩ := pass1_moved M E T s.cpumap 0
      { temp := T, vcpu_adjust_mask := ∅, trace := s.trace }
    obtain ⟨n2, e2, m2⟩ := pass2_moved M E
      (finalize_pass1 M E T 0 s.cpumap
        { temp := T, vcpu_adjust_mask := ∅, trace := s.trace }).1 0
      (finalize_pass1 M E T 0 s.cpumap
        { temp := T, vcpu_adjust_mask := ∅, trace := s.trace }).2
    refine ⟨n1 ++ n2, ?_, ?_⟩
    · simp only
      rw [e2, e1, List.append_assoc]
    · simp only
      refine forall2_trans ?_ m1 m2
      intro a b c hab hbc
      refine ⟨hbc.1.trans hab.1, hbc.2.1.trans hab.2.1, ?_⟩
      rcases hbc.2.2 with h | h
      · rw [h]
        exact hab.2.2.imp id (fun h' => List.mem_append_left _ h')
      · right
        rw [← hab.1]
        exact List.mem_append_right _ h

/-- C8: for every call of `finalize_reservation` and every vcpu, `pcpu_current` after the
call is its value before the call or a CPU for which a `vcpu_affinity_set` hypercall on the
`cap_id` of the vcpu returned OK during the call; a vcpu all of whose hypercalls fail keeps
its `pcpu_current`. -/
theorem c8_failed_hypercall_keeps_assignment (M : Machine) (E : Env) (s : State)
    (T : cpumask) :
    ∃ new, (finalize_reservation M E s T).1.trace = s.trace ++ new ∧
      ∀ (i : Nat) (m : hyp_core_ctl_cpu_map), s.cpumap[i]? = some m →
        ∃ o, (finalize_reservation M E s T).1.cpumap[i]? = some o ∧
          o.cap_id = m.cap_id ∧ o.pcpu = m.pcpu ∧
          (o.curr_pcpu = m.curr_pcpu ∨
            Event.affinity_set m.cap_id o.curr_pcpu HH_ERROR_OK ∈ new) ∧
          ((∀ cpu, Event.affinity_set m.cap_id cpu HH_ERROR_OK ∉ new) →
            o.curr_pcpu = m.curr_pcpu) := by
  obtain ⟨new, e, h⟩ := finalize_moved M E s T
  refine ⟨new, e, ?_⟩
  intro i m hi
  obtain ⟨o, ho, hm⟩ := forall2_getElem h i m hi
  refine ⟨o, ho, hm.1, hm.2.1, hm.2.2, ?_⟩
  intro hall
  rcases hm.2.2 with h' | h'
  · exact h'
  · exact absurd h' (hall _)

/-! ## C4: the weight of final_reserved_cpus -/

theorem reachable_unthrottled4 : Reachable M8 AnyEnv (CpuList M8) unthrottled4 :=
  Reachable.cooling_cb _ false 4 trivial (by decide)
    (Reachable.thread _ trivial
      (Reachable.cooling_cb _ true 4 trivial (by decide)
        (Reachable.thread _ trivial
          (Reachable.enable true (Reachable.populated populated_fresh45)))))

theorem driven_unthrottled4 : Driven M8 AnyEnv (CpuList M8) unthrottled4 :=
  Driven.cooling_cb _ false 4 trivial (by decide)
    (Driven.thread _ trivial
      (Driven.cooling_cb _ true 4 trivial (by decide)
        (Driven.thread _ trivial
          (Driven.enable true (Driven.populated populated_fresh45)))))

/-- The weight of `final_reserved_cpus` after `finalize_reservation` on a mask that has at
most `|reserve_cpus|` CPUs. -/
theorem finalize_weight (M : Machine) (E : Env) (s : State) (T : cpumask)
    (hw : s.final_reserved_cpus.card = s.reserve_cpus.card)
    (hT : T.card ≤ s.reserve_cpus.card) :
    (finalize_reservation M E s T).1.final_reserved_cpus.card =
      (finalize_reservation M E s T).1.reserve_cpus.card := by
  rw [(finalize_frame M E s T).1, finalize_final]
  split_ifs with h1
  · exact hw
  · omega

theorem do_reservation_weight (M : Machine) (E : Env) (s : State) (hU : UnisolateOK E)
    (hr : s.our_isolated_cpus ⊆ Finset.range M.nr_cpu_ids)
    (hw : s.final_reserved_cpus.card = s.reserve_cpus.card) :
    (hyp_core_ctl_do_reservation M E s).final_reserved_cpus.card =
      (hyp_core_ctl_do_reservation M E s).reserve_cpus.card := by
  obtain ⟨f, _, _, _, _, hle, _⟩ := do_reservation_isolation_spec M E s
  unfold hyp_core_ctl_do_reservation
  apply finalize_weight
  · rw [f.final, f.reserve]; exact hw
  · rw [f.reserve]; exact hle hU hr

/-- `handle_thermal` as the notifier calls it, a throttled CPU being a CPU of
`final_reserved_cpus`, keeps the weight of `final_reserved_cpus`. -/
theorem handle_thermal_weight (M : Machine) (E : Env) (s : State) (cpu : Nat) (b : Bool)
    (hw : s.final_reserved_cpus.card = s.reserve_cpus.card)
    (hg : b = true → cpu ∈ s.final_reserved_cpus) :
    (hyp_core_ctl_handle_thermal M E s cpu b).final_reserved_cpus.card =
      (hyp_core_ctl_handle_thermal M E s cpu b).reserve_cpus.card := by
  have hins : ∀ (a x : Nat), x ∈ s.final_reserved_cpus →
      (insert a (s.final_reserved_cpus.erase x)).card ≤ s.reserve_cpus.card := by
    intro a x hx
    have h1 := Finset.card_insert_le a (s.final_reserved_cpus.erase x)
    have h2 := Finset.card_erase_of_mem hx
    have h3 : 0 < s.final_reserved_cpus.card := Finset.card_pos.mpr ⟨x, hx⟩
    omega
  cases b with
  | true =>
    simp only [hyp_core_ctl_handle_thermal, if_true]
    split_ifs with h1
    · have hlt := cpumask_any_lt h1
      have hle : (insert (cpumask_any M
          ((M.cpu_possible_mask \ E.thermal_cpus) \ s.final_reserved_cpus))
          (s.final_reserved_cpus.erase cpu)).card ≤ s.reserve_cpus.card := by
        have h2 := Finset.card_insert_le (cpumask_any M
          ((M.cpu_possible_mask \ E.thermal_cpus) \ s.final_reserved_cpus))
          (s.final_reserved_cpus.erase cpu)
        have h3 := Finset.card_erase_of_mem (hg rfl)
        have h4 : 0 < s.final_reserved_cpus.card := Finset.card_pos.mpr ⟨cpu, hg rfl⟩
        omega
      exact finalize_weight M E s _ hw hle
    · exact hw
  | false =>
    simp only [hyp_core_ctl_handle_thermal, Bool.false_eq_true, if_false]
    split_ifs with h1
    · have hq := (Finset.mem_sdiff.mp (cpumask_any_lt h1)).1
      exact finalize_weight M E s _ hw (hins cpu _ hq)
    · exact hw

theorem cooling_cb_weight (M : Machine) (E : Env) (s : State) (val : Bool) (cpu : Nat)
    (hw : s.final_reserved_cpus.card = s.reserve_cpus.card) :
    (hyp_core_ctl_cpu_cooling_cb M E s val cpu).final_reserved_cpus.card =
      (hyp_core_ctl_cpu_cooling_cb M E s val cpu).reserve_cpus.card := by
  have hkick : ∀ t : State, t.final_reserved_cpus.card = t.reserve_cpus.card →
      (val = true → cpu ∈ t.final_reserved_cpus) →
      (cooling_cb_kick M E t cpu val).final_reserved_cpus.card =
        (cooling_cb_kick M E t cpu val).reserve_cpus.card := by
    intro t ht hg
    simp only [cooling_cb_kick]
    split_ifs
    · exact ht
    · exact handle_thermal_weight M E t cpu val ht hg
  obtain ⟨f, _⟩ := unisolate_log_spec E s cpu
  simp only [hyp_core_ctl_cpu_cooling_cb]
  split_ifs <;>
    first
    | exact hw
    | exact hkick _ hw (fun _ => by assumption)
    | exact hkick _ hw (fun h => absurd h (by assumption))
    | exact hkick _ (by rw [f.final, f.reserve]; exact hw)
        (fun _ => by rw [f.final]; assumption)

theorem thread_weight (M : Machine) (E : Env) (s : State) (hU : UnisolateOK E)
    (hr : s.our_isolated_cpus ⊆ Finset.range M.nr_cpu_ids)
    (hw : s.final_reserved_cpus.card = s.reserve_cpus.card) :
    (hyp_core_ctl_thread M E s).final_reserved_cpus.card =
      (hyp_core_ctl_thread M E s).reserve_cpus.card := by
  simp only [hyp_core_ctl_thread]
  split_ifs
  · exact do_reservation_weight M E _ hU hr hw
  · obtain ⟨f, _⟩ := undo_reservation_loop_spec E
      (for_each_cpu M s.our_isolated_cpus) { s with pending := false }
    show (hyp_core_ctl_undo_reservation M E { s with pending := false }).final_reserved_cpus.card
      = (hyp_core_ctl_undo_reservation M E { s with pending := false }).reserve_cpus.card
    unfold hyp_core_ctl_undo_reservation
    rw [f.final, f.reserve]
    exact hw

/-- In every state the driver reaches through its entry points with every un-isolate call
succeeding, `final_reserved_cpus` has the weight of `reserve_cpus`. -/
theorem driven_weight {M : Machine} {s : State} (h : Driven M UnisolateOK (CpuList M) s) :
    s.final_reserved_cpus.card = s.reserve_cpus.card := by
  induction h with
  | populated hp => rw [hp.2.2.2.2.2.1]
  | enable b _ ih =>
    obtain ⟨e1, _, e3, _⟩ := enable_frame _ b
    rw [e1, e3]; exact ih
  | cooling_cb E val cpu _ _ _ ih => exact cooling_cb_weight M E _ val cpu ih
  | thread E hE hs ih =>
    exact thread_weight M E _ hE (reachable_range hs.reachable).2.2.1 ih
  | write_reserve_cpus w count _ _ ih =>
    rcases write_reserve_cpus_cases _ w count with e | ⟨hc, _, e⟩
    · rw [e]; exact ih
    · rw [e]; exact ih.trans hc.symm
  | hp_offline E cpu _ _ ih =>
    rw [(hp_offline_frame E _ cpu).1.final, (hp_offline_frame E _ cpu).1.reserve]; exact ih
  | hp_online cpu _ ih =>
    rw [(hp_online_frame _ cpu).1.final, (hp_online_frame _ cpu).1.reserve]; exact ih

/-- C4, as stated, fails: after scenario 2 and the unthrottling of CPU 4, a worker pass in
which the un-isolation of the replacement CPU 0 fails ends with `final_reserved_cpus` =
{0, 4, 5}, three CPUs for two reserve CPUs, although no CPU is throttled.  Later passes
inherit this: once CPUs 4 and 5 have gone offline, a pass from that state in which the
isolate calls fail and no un-isolate call is made at all ends on the shortfall return, with
`final_reserved_cpus` still {0, 4, 5} and all eight CPUs unthrottled. -/
theorem c4_counterexample :
    (Driven M8 AnyEnv (CpuList M8) unthrottled4 ∧
     unthrottled4.final_reserved_cpus.card = unthrottled4.reserve_cpus.card ∧
     unthrottled4.reserve_cpus.card ≤
       (M8.cpu_possible_mask \ unisolateFailEnv.thermal_cpus).card ∧
     (hyp_core_ctl_do_reservation M8 unisolateFailEnv unthrottled4).final_reserved_cpus.card ≠
       (hyp_core_ctl_do_reservation M8 unisolateFailEnv unthrottled4).reserve_cpus.card) ∧
    (Driven M8 AnyEnv (CpuList M8) overshotOffline ∧
     overshotOffline.final_reserved_cpus = {0, 4, 5} ∧
     overshotOffline.our_isolated_cpus = {0} ∧
     UnisolateOK isolateFailEnv ∧
     overshotOffline.reserve_cpus.card ≤
       (M8.cpu_possible_mask \ isolateFailEnv.thermal_cpus).card ∧
     (hyp_core_ctl_do_reservation M8 isolateFailEnv overshotOffline).final_reserved_cpus =
       {0, 4, 5} ∧
     (hyp_core_ctl_do_reservation M8 isolateFailEnv overshotOffline).reserve_cpus =
       {4, 5}) := by
  refine ⟨⟨driven_unthrottled4, by decide, by decide, by decide⟩,
    Driven.hp_offline _ 5 trivial
      (Driven.hp_offline _ 4 trivial (Driven.thread _ trivial driven_unthrottled4)),
    by decide, by decide, fun _ _ => le_refl _, by decide, by decide, by decide⟩

/-- C4, amended: in every state the driver reaches after population through its entry
points (enable/disable, the worker, the thermal notifier, writes to `reserve_cpus`, the
hotplug callbacks) with every un-isolate call succeeding, and after every
`do_reservation` pass and every worker pass from such a state in which the un-isolate
calls succeed, `|final_reserved_cpus| = |reserve_cpus|`, whatever the isolate calls and
the hypercalls return, whatever the online set and whatever is throttled. -/
theorem c4_final_weight (M : Machine) (E : Env) (s : State)
    (h : Driven M UnisolateOK (CpuList M) s) (hU : UnisolateOK E) :
    s.final_reserved_cpus.card = s.reserve_cpus.card ∧
    (hyp_core_ctl_do_reservation M E s).final_reserved_cpus.card =
      (hyp_core_ctl_do_reservation M E s).reserve_cpus.card ∧
    (hyp_core_ctl_thread M E s).final_reserved_cpus.card =
      (hyp_core_ctl_thread M E s).reserve_cpus.card := by
  have hm := reachable_range h.reachable
  have hw := driven_weight h
  exact ⟨hw, do_reservation_weight M E s hU hm.2.2.1 hw, thread_weight M E s hU hm.2.2.1 hw⟩

/-- C4 on scenario 2 with failing hypercalls: CPU 4 of the enabled reservation is
throttled; the pass isolates CPU 0 and `final_reserved_cpus` becomes {0, 5}, two CPUs. -/
theorem c4_final_weight_witness :
    Driven M8 UnisolateOK (CpuList M8) (hyp_core_ctl_cpu_cooling_cb M8 (okEnv {4}) enabled45 true 4) ∧
    UnisolateOK (hcallFailEnv {4}) ∧
    (hyp_core_ctl_thread M8 (hcallFailEnv {4})
      (hyp_core_ctl_cpu_cooling_cb M8 (okEnv {4}) enabled45 true 4)).final_reserved_cpus =
      {0, 5} ∧
    (hyp_core_ctl_thread M8 (hcallFailEnv {4})
      (hyp_core_ctl_cpu_cooling_cb M8 (okEnv {4}) enabled45 true 4)).final_reserved_cpus.card =
    (hyp_core_ctl_thread M8 (hcallFailEnv {4})
      (hyp_core_ctl_cpu_cooling_cb M8 (okEnv {4}) enabled45 true 4)).reserve_cpus.card :=
  ⟨Driven.cooling_cb _ true 4 (fun _ _ => le_refl _) (by decide)
     (Driven.thread _ (fun _ _ => le_refl _)
       (Driven.enable true (Driven.populated populated_fresh45))),
   fun _ _ => le_refl _, by decide,
   (c4_final_weight M8 (hcallFailEnv {4}) _
     (Driven.cooling_cb _ true 4 (fun _ _ => le_refl _) (by decide)
       (Driven.thread _ (fun _ _ => le_refl _)
         (Driven.enable true (Driven.populated populated_fresh45))))
     (fun _ _ => le_refl _)).2.2⟩

/-! ## C5: throttled CPUs in final_reserved_cpus -/

/-- C5 fails in the code when the reservation is disabled.  On the table of scenario 1
(vcpus on CPUs 4 and 5, `final_reserved_cpus` {4, 5}) CPU 4 is throttled while every CPU
but CPU 5 is throttled: `handle_thermal` finds no replacement and changes nothing.  Then
CPU 0 is unthrottled; `final_reserved_cpus` holds the throttled CPU 4, so the notifier
takes the event as relevant and calls `handle_thermal(0, false)`, which looks for a CPU of
`final_reserved_cpus` outside `reserve_cpus`, finds none and changes nothing, without a
hypercall: `final_reserved_cpus` is still {4, 5}, with CPU 4 throttled while CPU 0 is
possible, not throttled and outside it, and two other CPUs being enough for the two
vcpus.  With the reservation enabled the same two events, each followed by a worker pass,
end with `final_reserved_cpus` {0, 5} and vcpu 101 on CPU 0. -/
theorem c5_counterexample :
    (fresh45.reservation_enabled = false ∧
     (hyp_core_ctl_cpu_cooling_cb M8 (okEnv {0, 1, 2, 3, 4, 6, 7}) fresh45 true
       4).final_reserved_cpus = {4, 5} ∧
     (hyp_core_ctl_cpu_cooling_cb M8 (okEnv {0, 1, 2, 3, 4, 6, 7}) fresh45 true
       4).cpumap = fresh45.cpumap ∧
     ((hyp_core_ctl_cpu_cooling_cb M8 (okEnv {0, 1, 2, 3, 4, 6, 7}) fresh45 true
       4).final_reserved_cpus ∩ (okEnv {1, 2, 3, 4, 6, 7}).thermal_cpus).Nonempty ∧
     (hyp_core_ctl_cpu_cooling_cb M8 (okEnv {1, 2, 3, 4, 6, 7})
       (hyp_core_ctl_cpu_cooling_cb M8 (okEnv {0, 1, 2, 3, 4, 6, 7}) fresh45 true 4)
       false 0).final_reserved_cpus = {4, 5} ∧
     (hyp_core_ctl_cpu_cooling_cb M8 (okEnv {1, 2, 3, 4, 6, 7})
       (hyp_core_ctl_cpu_cooling_cb M8 (okEnv {0, 1, 2, 3, 4, 6, 7}) fresh45 true 4)
       false 0).cpumap = [⟨101, 4, 4⟩, ⟨102, 5, 5⟩] ∧
     (hyp_core_ctl_cpu_cooling_cb M8 (okEnv {1, 2, 3, 4, 6, 7})
       (hyp_core_ctl_cpu_cooling_cb M8 (okEnv {0, 1, 2, 3, 4, 6, 7}) fresh45 true 4)
       false 0).trace = fresh45.trace ∧
     4 ∈ (okEnv {1, 2, 3, 4, 6, 7}).thermal_cpus ∧
     0 ∈ M8.cpu_possible_mask ∧ 0 ∉ (okEnv {1, 2, 3, 4, 6, 7}).thermal_cpus ∧
     fresh45.reserve_cpus.card ≤
       (M8.cpu_possible_mask \ (okEnv {1, 2, 3, 4, 6, 7}).thermal_cpus).card) ∧
    (enabled45.reservation_enabled = true ∧
     (hyp_core_ctl_thread M8 (okEnv {1, 2, 3, 4, 6, 7})
       (hyp_core_ctl_cpu_cooling_cb M8 (okEnv {1, 2, 3, 4, 6, 7})
         (hyp_core_ctl_thread M8 (okEnv {0, 1, 2, 3, 4, 6, 7})
           (hyp_core_ctl_cpu_cooling_cb M8 (okEnv {0, 1, 2, 3, 4, 6, 7}) enabled45 true 4))
         false 0)).final_reserved_cpus = {0, 5} ∧
     (hyp_core_ctl_thread M8 (okEnv {1, 2, 3, 4, 6, 7})
       (hyp_core_ctl_cpu_cooling_cb M8 (okEnv {1, 2, 3, 4, 6, 7})
         (hyp_core_ctl_thread M8 (okEnv {0, 1, 2, 3, 4, 6, 7})
           (hyp_core_ctl_cpu_cooling_cb M8 (okEnv {0, 1, 2, 3, 4, 6, 7}) enabled45 true 4))
         false 0)).cpumap = [⟨101, 4, 0⟩, ⟨102, 5, 5⟩]) := by
  refine ⟨⟨by decide, by decide, by decide, by decide, by decide, by decide, by decide,
    by decide, by decide, by decide, by decide⟩, by decide, by decide, by decide⟩

/-! ## C6: undo_reservation -/

/-- C6, as stated, fails: when the un-isolate calls fail, `undo_reservation` leaves
`our_isolated_cpus` = {4, 5}. -/
theorem c6_counterexample :
    (hyp_core_ctl_undo_reservation M8 unisolateFailEnv enabled45).our_isolated_cpus ≠ ∅ := by
  decide

/-- C6, amended: after `undo_reservation` in which every un-isolate call succeeds,
`our_isolated_cpus` is empty; and when moreover the min-frequency requests exist
(`freq_qos_init_done`) and every QoS update succeeds, the min-frequency request of every
CPU that was in `our_isolated_cpus` is at the default value.  The mask `our_isolated_cpus`
holds CPU numbers below `nr_cpu_ids`, as every `cpumask_t` does. -/
theorem c6_undo_reservation (M : Machine) (E : Env) (s : State)
    (hs : s.our_isolated_cpus ⊆ Finset.range M.nr_cpu_ids) (hU : UnisolateOK E) :
    (hyp_core_ctl_undo_reservation M E s).our_isolated_cpus = ∅ ∧
    (QosOK E → s.freq_qos_init_done = true → ∀ c ∈ s.our_isolated_cpus,
      (hyp_core_ctl_undo_reservation M E s).qos_min_req c = FREQ_QOS_MIN_DEFAULT_VALUE) := by
  obtain ⟨_, _, a, _, _, c, d⟩ :=
    undo_reservation_loop_spec E (for_each_cpu M s.our_isolated_cpus) s
  have hmem : ∀ x ∈ s.our_isolated_cpus, x ∈ for_each_cpu M s.our_isolated_cpus :=
    fun x hx => mem_for_each_cpu.mpr ⟨Finset.mem_range.mp (hs hx), hx⟩
  refine ⟨?_, ?_⟩
  · rw [Finset.eq_empty_iff_forall_not_mem]
    intro x hx
    exact c hU x (hmem x (a hx)) hx
  · intro hQ hinit x hx
    exact d hU hQ hinit (for_each_cpu_nodup M _) x (hmem x hx)

theorem c6_undo_reservation_witness :
    floorsEnabled45.our_isolated_cpus ⊆ Finset.range M8.nr_cpu_ids ∧ UnisolateOK (okEnv ∅) ∧
    floorsEnabled45.our_isolated_cpus = {4, 5} ∧ floorsEnabled45.qos_min_req 4 = 1000 ∧
    (hyp_core_ctl_undo_reservation M8 (okEnv ∅) floorsEnabled45).our_isolated_cpus = ∅ ∧
    (hyp_core_ctl_undo_reservation M8 (okEnv ∅) floorsEnabled45).qos_min_req 4 =
      FREQ_QOS_MIN_DEFAULT_VALUE :=
  ⟨by decide, fun _ _ => le_refl _, by decide, by decide,
   (c6_undo_reservation M8 (okEnv ∅) floorsEnabled45 (by decide) (fun _ _ => le_refl _)).1,
   (c6_undo_reservation M8 (okEnv ∅) floorsEnabled45 (by decide) (fun _ _ => le_refl _)).2
    (fun _ _ _ => le_refl _) rfl 4 (by decide)⟩

/-! ## What do_reservation keeps isolated -/

/-- The CPUs of `reserve_cpus` that are isolated stay isolated, and when every isolate call
succeeds every online, not throttled CPU of `reserve_cpus` ends isolated. -/
theorem do_reservation_isolation_keep (M : Machine) (E : Env) (s : State) :
    (∀ c ∈ s.reserve_cpus, c ∈ s.our_isolated_cpus →
      c ∈ (do_reservation_isolation M E s).1.our_isolated_cpus) ∧
    (IsolateOK E → ∀ c ∈ s.reserve_cpus, c ∉ E.thermal_cpus → c ∈ E.cpu_online_mask →
      c < M.nr_cpu_ids → c ∈ (do_reservation_isolation M E s).1.our_isolated_cpus) := by
  obtain ⟨f1, _, a1, _, _, d1, _⟩ := isolate_reserve_loop_spec E
    (for_each_cpu M ((s.reserve_cpus \ s.our_isolated_cpus) \ E.thermal_cpus)) s ∅
  set l1 := for_each_cpu M ((s.reserve_cpus \ s.our_isolated_cpus) \ E.thermal_cpus) with hl1
  set s1 := (isolate_reserve_loop E l1 s ∅).1 with hs1
  set O1 := (isolate_reserve_loop E l1 s ∅).2 with hO1
  -- after the first loop
  have k1 : ∀ c ∈ s.reserve_cpus, c ∈ s.our_isolated_cpus → c ∈ s1.our_isolated_cpus :=
    fun c _ hc => a1 hc
  have k2 : IsolateOK E → ∀ c ∈ s.reserve_cpus, c ∉ E.thermal_cpus → c ∈ E.cpu_online_mask →
      c < M.nr_cpu_ids → c ∈ s1.our_isolated_cpus := by
    intro hI c hR hT hon hlt
    by_cases hc : c ∈ s.our_isolated_cpus
    · exact a1 hc
    · apply d1 hI c _ hon
      apply mem_for_each_cpu.mpr
      simp only [Finset.mem_sdiff]
      exact ⟨hlt, ⟨hR, hc⟩, hT⟩
  -- the rest of the function keeps the isolated CPUs of `reserve_cpus`
  suffices hkeep : ∀ c ∈ s.reserve_cpus, c ∈ s1.our_isolated_cpus →
      c ∈ (do_reservation_isolation M E s).1.our_isolated_cpus from
    ⟨fun c hR hc => hkeep c hR (k1 c hR hc),
     fun hI c hR hT hon hlt => hkeep c hR (k2 hI c hR hT hon hlt)⟩
  intro c hR hc
  simp only [do_reservation_isolation]
  rw [← hl1, ← hs1, ← hO1]
  by_cases hlt : ((s1.our_isolated_cpus.card : Int) < ((s1.reserve_cpus \ O1).card : Int))
  · simp only [hlt, if_true]
    split_ifs
    · exact hc
    · have hpos : 1 ≤ (pick_offline_loop E (for_each_cpu M
          (((M.cpu_possible_mask \ s1.our_isolated_cpus) \ E.thermal_cpus) \ O1)) O1
          (((s1.reserve_cpus \ O1).card : Int) - s1.our_isolated_cpus.card)).2.1 := by
        obtain ⟨_, _, pc, pd, _⟩ := pick_offline_loop_spec E (for_each_cpu M
          (((M.cpu_possible_mask \ s1.our_isolated_cpus) \ E.thermal_cpus) \ O1)) O1
          (((s1.reserve_cpus \ O1).card : Int) - s1.our_isolated_cpus.card) (by omega)
        have hne : (pick_offline_loop E (for_each_cpu M
          (((M.cpu_possible_mask \ s1.our_isolated_cpus) \ E.thermal_cpus) \ O1)) O1
          (((s1.reserve_cpus \ O1).card : Int) - s1.our_isolated_cpus.card)).2.1 ≠ 0 := by
          intro h0
          have := pd.mpr h0
          contradiction
        omega
      obtain ⟨_, _, a3, _⟩ := isolate_replacement_loop_spec E _ s1 _ hpos
      exact a3 hc
  · simp only [hlt, if_false]
    by_cases hgt : ((s1.our_isolated_cpus.card : Int) > ((s1.reserve_cpus \ O1).card : Int))
    · simp only [hgt, if_true]
      obtain ⟨_, _, _, bu, _⟩ := unisolate_excess_loop_spec E
        (for_each_cpu M (s1.our_isolated_cpus \ s1.reserve_cpus)) s1
        ((s1.our_isolated_cpus.card : Int) - ((s1.reserve_cpus \ O1).card : Int)) (by omega)
      apply bu c hc
      intro hmem
      have := (mem_for_each_cpu.mp hmem).2
      rw [Finset.mem_sdiff, f1.reserve] at this
      exact this.2 hR
    · simp only [hgt, if_false]
      exact hc

/-- A `do_reservation` pass in which every isolate and un-isolate call succeeds and every
possible CPU is online: nothing is noted offline, the mask handed to `finalize_reservation`
is `our_isolated_cpus`, it holds every CPU of `reserve_cpus` that is not throttled, at most
`|reserve_cpus|` CPUs, and its throttled CPUs were isolated before. -/
theorem do_reservation_all_online (M : Machine) (E : Env) (s : State) (hm : MasksOK M s)
    (hI : IsolateOK E) (hU : UnisolateOK E) (hon : M.cpu_possible_mask ⊆ E.cpu_online_mask) :
    do_reservation_temp M E s = (do_reservation_isolation M E s).1.our_isolated_cpus ∧
    s.reserve_cpus \ E.thermal_cpus ⊆ do_reservation_temp M E s ∧
    (do_reservation_temp M E s).card ≤ s.reserve_cpus.card ∧
    ((do_reservation_temp M E s).card = s.reserve_cpus.card ∨
      M.cpu_possible_mask \ E.thermal_cpus ⊆ do_reservation_temp M E s) ∧
    (∀ c ∈ do_reservation_temp M E s, c ∈ s.our_isolated_cpus ∨ c ∉ E.thermal_cpus) := by
  obtain ⟨_, _, a, b, _, hle, hex⟩ := do_reservation_isolation_spec M E s
  obtain ⟨_, k2⟩ := do_reservation_isolation_keep M E s
  have hO : (do_reservation_isolation M E s).2 = ∅ := by
    rw [Finset.eq_empty_iff_forall_not_mem]
    intro c hc
    obtain ⟨h1, _, h3⟩ := b c hc
    rcases h1 with h1 | h1
    · exact h3 (hon (hm.2.1 h1))
    · exact h3 (hon h1)
  have hT : do_reservation_temp M E s = (do_reservation_isolation M E s).1.our_isolated_cpus := by
    unfold do_reservation_temp
    rw [hO, Finset.union_empty]
  refine ⟨hT, ?_, hle hU (hm.2.2.1.trans hm.1), ?_, ?_⟩
  · intro c hc
    rw [Finset.mem_sdiff] at hc
    rw [hT]
    exact k2 hI c hc.1 hc.2 (hon (hm.2.1 hc.1)) (Finset.mem_range.mp (hm.1 (hm.2.1 hc.1)))
  · rcases hex hI hU hm.1 (hm.2.2.1.trans hm.1) with h | h
    · exact Or.inl h
    · right
      intro c hc
      rw [Finset.mem_sdiff] at hc
      exact h c hc.1 hc.2
  · intro c hc
    rw [hT] at hc
    rcases a c hc with h | h
    · exact Or.inl h
    · exact Or.inr h.2

/-! ## C9: the thermal round trip -/

theorem finalize_same_vcpu (M : Machine) (E : Env) (s : State) (T : cpumask) :
    List.Forall₂ SameVcpu s.cpumap (finalize_reservation M E s T).1.cpumap := by
  obtain ⟨_, _, h⟩ := finalize_moved M E s T
  exact h.imp (fun _ _ h' => ⟨h'.1, h'.2.1⟩)

theorem finalize_on_original (M : Machine) (E : Env) (hE : HcallOK E) (s : State)
    (T : cpumask) (hT : T ⊆ M.cpu_possible_mask) (hM : M.ok) (ht : TableInv M s)
    (ho : OnOriginal s) : OnOriginal (finalize_reservation M E s T).1 := by
  by_cases h1 : T = s.final_reserved_cpus
  · rw [finalize_noop M E s T (Or.inl h1)]; exact ho
  by_cases h2 : T.card < s.reserve_cpus.card
  · rw [finalize_noop M E s T (Or.inr h2)]; exact ho
  obtain ⟨_, hF⟩ := finalize_matching M E hE hM s T ht.1 (hT.trans hM) h1 h2
  intro o hmem hin
  rw [finalize_final, if_neg h2] at hin
  obtain ⟨m, _, hr⟩ := forall2_mem_right hF hmem
  rw [hr.2.1] at hin ⊢
  exact hr.2.2.2.1 hin

/-- A `do_reservation` pass in which every call succeeds and every possible CPU is
online. -/
theorem do_reservation_ok (M : Machine) (E : Env) (s : State) (hE : AllOK M E)
    (hm : MasksOK M s) (ht : TableInv M s) (ho : OnOriginal s) :
    MasksOK M (hyp_core_ctl_do_reservation M E s) ∧
    TableInv M (hyp_core_ctl_do_reservation M E s) ∧
    OnOriginal (hyp_core_ctl_do_reservation M E s) ∧
    (hyp_core_ctl_do_reservation M E s).reserve_cpus = s.reserve_cpus ∧
    (hyp_core_ctl_do_reservation M E s).reservation_enabled = s.reservation_enabled ∧
    (hyp_core_ctl_do_reservation M E s).our_isolated_cpus = do_reservation_temp M E s ∧
    (hyp_core_ctl_do_reservation M E s).final_reserved_cpus =
      (if (do_reservation_temp M E s).card < s.reserve_cpus.card then s.final_reserved_cpus
       else do_reservation_temp M E s) ∧
    List.Forall₂ SameVcpu s.cpumap (hyp_core_ctl_do_reservation M E s).cpumap := by
  obtain ⟨hI, hU, hH, hon⟩ := hE
  obtain ⟨f, _⟩ := do_reservation_isolation_spec M E s
  obtain ⟨_, h2⟩ := do_reservation_temp_subset M E s hm
  obtain ⟨hT, _⟩ := do_reservation_all_online M E s hm hI hU hon
  obtain ⟨e1, e2, _, e4, _⟩ := finalize_frame M E (do_reservation_isolation M E s).1
    (do_reservation_temp M E s)
  have hsv := finalize_same_vcpu M E (do_reservation_isolation M E s).1
    (do_reservation_temp M E s)
  rw [f.cpumap] at hsv
  refine ⟨do_reservation_masks M E s hm, do_reservation_table M E hH s hm.range ht, ?_, ?_, ?_, ?_,
    ?_, hsv⟩
  · apply finalize_on_original M E hH _ _ h2 hm.1 (ht.kept f)
    intro m hmem hin
    rw [f.cpumap] at hmem
    rw [f.final] at hin
    exact ho m hmem hin
  · unfold hyp_core_ctl_do_reservation; rw [e1, f.reserve]
  · unfold hyp_core_ctl_do_reservation; rw [e4, f.enabled]
  · unfold hyp_core_ctl_do_reservation; rw [e2, hT]
  · unfold hyp_core_ctl_do_reservation; rw [finalize_final, f.reserve, f.final]

theorem cooling_cb_enabled (M : Machine) (E : Env) (s : State) (val : Bool) (c : Nat)
    (hen : s.reservation_enabled = true) :
    Frame s (hyp_core_ctl_cpu_cooling_cb M E s val c) ∧
    (hyp_core_ctl_cpu_cooling_cb M E s val c).our_isolated_cpus ⊆ s.our_isolated_cpus := by
  obtain ⟨f, _, a, _⟩ := unisolate_log_spec E s c
  have hk : ∀ t : State, t.reservation_enabled = true →
      Frame t (cooling_cb_kick M E t c val) ∧
      (cooling_cb_kick M E t c val).our_isolated_cpus = t.our_isolated_cpus := by
    intro t ht
    unfold cooling_cb_kick
    rw [if_pos ht]
    exact ⟨rfl, rfl⟩
  have hen' : (unisolate_done E (s.log (Event.unisolate c (E.sched_unisolate_cpu s.trace c)))
      c).reservation_enabled = true := by rw [f.enabled]; exact hen
  simp only [hyp_core_ctl_cpu_cooling_cb]
  split_ifs <;>
    first
    | exact ⟨Frame.same s, subset_rfl⟩
    | exact ⟨(hk s hen).1, by rw [(hk s hen).2]⟩
    | exact ⟨f.then (hk _ hen').1, by rw [(hk _ hen').2, a]; exact Finset.erase_subset _ _⟩

theorem OnOriginal.carried {s t : State} (h : OnOriginal s) (f : Frame s t) : OnOriginal t := by
  unfold OnOriginal at *
  rw [f.cpumap, f.final]
  exact h

/-- One step of the round trip: the notifier, then the worker, with the reservation
enabled and every call succeeding. -/
theorem notify_and_pass (M : Machine) (E : Env) (s : State) (val : Bool) (c : Nat)
    (hE : AllOK M E) (hen : s.reservation_enabled = true) (hm : MasksOK M s)
    (ht : TableInv M s) (ho : OnOriginal s) :
    let t := hyp_core_ctl_thread M E (hyp_core_ctl_cpu_cooling_cb M E s val c)
    MasksOK M t ∧ TableInv M t ∧ OnOriginal t ∧ t.reserve_cpus = s.reserve_cpus ∧
    t.reservation_enabled = true ∧ List.Forall₂ SameVcpu s.cpumap t.cpumap ∧
    (E.thermal_cpus = ∅ →
      t.our_isolated_cpus = s.reserve_cpus ∧ t.final_reserved_cpus = s.reserve_cpus) := by
  intro t
  obtain ⟨f, a⟩ := cooling_cb_enabled M E s val c hen
  set s1 := hyp_core_ctl_cpu_cooling_cb M E s val c with hs1
  set s2 : State := { s1 with pending := false } with hs2
  have f2 : Frame s s2 := f.then rfl
  have hen2 : s2.reservation_enabled = true := by rw [f2.enabled]; exact hen
  have ht' : t = hyp_core_ctl_do_reservation M E s2 := by
    show hyp_core_ctl_thread M E s1 = _
    simp only [hyp_core_ctl_thread]
    rw [if_pos hen2]
  have hm2 : MasksOK M s2 := hm.framed f2 (a.trans hm.2.2.1)
  obtain ⟨r1, r2, r3, r4, r5, r6, r7, r8⟩ :=
    do_reservation_ok M E s2 hE hm2 (ht.kept f2) (ho.carried f2)
  rw [← ht'] at r1 r2 r3 r4 r5 r6 r7 r8
  rw [f2.cpumap] at r8
  rw [f2.reserve] at r4
  refine ⟨r1, r2, r3, r4, by rw [r5]; exact hen2, r8, ?_⟩
  intro hth
  obtain ⟨_, b2, b3, _⟩ := do_reservation_all_online M E s2 hm2 hE.1 hE.2.1 hE.2.2.2
  rw [hth, Finset.sdiff_empty] at b2
  have hT : do_reservation_temp M E s2 = s2.reserve_cpus :=
    (Finset.eq_of_subset_of_card_le b2 b3).symm
  rw [r6, r7, hT, f2.reserve]
  simp

/-- C9: starting from a steady state reached after population with every hypercall
succeeding (the reservation enabled, every vcpu on its original CPU,
`final_reserved_cpus = reserve_cpus`), with all possible CPUs online and every isolate,
un-isolate and hypercall call succeeding, the sequence thermal-notify(c, throttled),
worker pass, thermal-notify(c, unthrottled), worker pass, nothing being throttled in the
second half, ends with every vcpu on its original CPU (the table is the one at the start)
and `our_isolated_cpus = final_reserved_cpus = reserve_cpus`, for every CPU c. -/
theorem c9_thermal_round_trip (M : Machine) (Et Eu : Env) (s : State) (c : Nat)
    (hs : Reachable M HcallOK (PossibleList M) s) (hen : s.reservation_enabled = true)
    (horig : ∀ m ∈ s.cpumap, m.curr_pcpu = m.pcpu)
    (hfin : s.final_reserved_cpus = s.reserve_cpus)
    (hEt : AllOK M Et) (hEu : AllOK M Eu) (hunthrottled : Eu.thermal_cpus = ∅) :
    (thermal_round_trip M Et Eu s c).cpumap = s.cpumap ∧
    (∀ m ∈ (thermal_round_trip M Et Eu s c).cpumap, m.curr_pcpu = m.pcpu) ∧
    (thermal_round_trip M Et Eu s c).our_isolated_cpus = s.reserve_cpus ∧
    (thermal_round_trip M Et Eu s c).final_reserved_cpus = s.reserve_cpus ∧
    (thermal_round_trip M Et Eu s c).reserve_cpus = s.reserve_cpus := by
  unfold thermal_round_trip
  have hm := reachable_masks hs
  have ht := reachable_table (hs.lists_mono (fun R hR => hR.trans hm.1))
  have ho : OnOriginal s := fun m hm' _ => horig m hm'
  obtain ⟨a1, a2, a3, a4, a5, a6, _⟩ :=
    notify_and_pass M Et s true c hEt hen hm ht ho
  obtain ⟨b1, b2, b3, b4, b5, b6, b7⟩ :=
    notify_and_pass M Eu _ false c hEu a5 a1 a2 a3
  obtain ⟨b8, b9⟩ := b7 hunthrottled
  rw [a4] at b4 b8 b9
  have hsame : List.Forall₂ SameVcpu s.cpumap (hyp_core_ctl_thread M Eu
      (hyp_core_ctl_cpu_cooling_cb M Eu
        (hyp_core_ctl_thread M Et (hyp_core_ctl_cpu_cooling_cb M Et s true c)) false c)).cpumap :=
    forall2_trans (fun a b c hab hbc => ⟨hbc.1.trans hab.1, hbc.2.trans hab.2⟩) a6 b6
  have hcurr : ∀ o ∈ (hyp_core_ctl_thread M Eu (hyp_core_ctl_cpu_cooling_cb M Eu
      (hyp_core_ctl_thread M Et (hyp_core_ctl_cpu_cooling_cb M Et s true c)) false c)).cpumap,
      o.curr_pcpu = o.pcpu := by
    intro o hmem
    apply b3 o hmem
    obtain ⟨m, hm', hr⟩ := forall2_mem_right hsame hmem
    rw [b9, hr.2, ← horig m hm', ← hfin]
    exact ht.2 m hm'
  refine ⟨?_, hcurr, b8, b9, b4⟩
  have hall := hcurr
  clear hcurr
  revert hall
  generalize (hyp_core_ctl_thread M Eu (hyp_core_ctl_cpu_cooling_cb M Eu
      (hyp_core_ctl_thread M Et (hyp_core_ctl_cpu_cooling_cb M Et s true c)) false c)).cpumap =
      l' at hsame
  clear ht ho
  revert horig
  generalize s.cpumap = l at hsame
  intro horig hall
  induction hsame with
  | nil => rfl
  | cons hab _ ih =>
    rename_i a b la lb _
    have e1 := horig a (List.mem_cons_self _ _)
    have e2 := hall b (List.mem_cons_self _ _)
    have hb : b = a := by
      cases a; cases b
      simp only [SameVcpu] at hab
      simp only at e1 e2
      simp only [hyp_core_ctl_cpu_map.mk.injEq]
      exact ⟨hab.1, hab.2, by rw [e2, hab.2, e1]⟩
    rw [hb, ih (fun m hm' => horig m (List.mem_cons_of_mem _ hm'))
      (fun m hm' => hall m (List.mem_cons_of_mem _ hm'))]

theorem allok_okEnv (thermal : cpumask) : AllOK M8 (okEnv thermal) :=
  ⟨fun _ _ => le_refl _, fun _ _ => le_refl _, fun _ _ _ => rfl, subset_rfl⟩

theorem reachable_enabled45 : Reachable M8 HcallOK (PossibleList M8) enabled45 :=
  Reachable.thread _ (fun _ _ _ => rfl)
    (Reachable.enable true (Reachable.populated populated_fresh45))

/-- C9 on scenarios 2 and 3: CPU 4 of the enabled reservation of CPUs 4 and 5 is throttled
and unthrottled; vcpu 101 goes to CPU 0 and comes back. -/
theorem c9_thermal_round_trip_witness :
    Reachable M8 HcallOK (PossibleList M8) enabled45 ∧ enabled45.reservation_enabled = true ∧
    (∀ m ∈ enabled45.cpumap, m.curr_pcpu = m.pcpu) ∧
    enabled45.our_isolated_cpus = enabled45.reserve_cpus ∧
    enabled45.final_reserved_cpus = enabled45.reserve_cpus ∧
    AllOK M8 (okEnv {4}) ∧ AllOK M8 (okEnv ∅) ∧
    (okEnv {4}).thermal_cpus = {4} ∧ (okEnv ∅).thermal_cpus = ∅ ∧
    (∃ p ∈ M8.cpu_possible_mask, p ∉ enabled45.reserve_cpus) ∧
    (hyp_core_ctl_thread M8 (okEnv {4})
      (hyp_core_ctl_cpu_cooling_cb M8 (okEnv {4}) enabled45 true 4)).cpumap =
      [⟨101, 4, 0⟩, ⟨102, 5, 5⟩] ∧
    ((thermal_round_trip M8 (okEnv {4}) (okEnv ∅) enabled45 4).cpumap = enabled45.cpumap ∧
      (∀ m ∈ (thermal_round_trip M8 (okEnv {4}) (okEnv ∅) enabled45 4).cpumap,
        m.curr_pcpu = m.pcpu) ∧
      (thermal_round_trip M8 (okEnv {4}) (okEnv ∅) enabled45 4).our_isolated_cpus =
        enabled45.reserve_cpus ∧
      (thermal_round_trip M8 (okEnv {4}) (okEnv ∅) enabled45 4).final_reserved_cpus =
        enabled45.reserve_cpus ∧
      (thermal_round_trip M8 (okEnv {4}) (okEnv ∅) enabled45 4).reserve_cpus =
        enabled45.reserve_cpus) :=
  ⟨reachable_enabled45, by decide, by decide, by decide, by decide, allok_okEnv {4},
   allok_okEnv ∅, rfl, rfl, ⟨0, by decide, by decide⟩, by decide,
   c9_thermal_round_trip M8 (okEnv {4}) (okEnv ∅) enabled45 4 reachable_enabled45
    (by decide) (by decide) (by decide) (allok_okEnv {4}) (allok_okEnv ∅) rfl⟩

/-! ## A pass that moves every vcpu -/

theorem finalize_pass2_body_trace (M : Machine) (E : Env) (hE : HcallOK E)
    (m : hyp_core_ctl_cpu_map) (L : FinLocals) :
    (finalize_pass2_body M E m L).2.trace =
      L.trace ++ [Event.affinity_set m.cap_id (cpumask_any M L.temp) HH_ERROR_OK] := by
  simp only [finalize_pass2_body]
  have := hE L.trace m.cap_id (cpumask_any M L.temp)
  split_ifs with h
  · exact absurd this h
  · simp only [this]

theorem pass2_trace (M : Machine) (E : Env) (hE : HcallOK E) (F : cpumask) :
    ∀ (ms : List hyp_core_ctl_cpu_map) (i : Nat) (L : FinLocals),
      (∀ k m, ms[k]? = some m →
        ((i + k < M.nr_cpu_ids ∧ i + k ∈ L.vcpu_adjust_mask) ↔ marked F m)) →
      (finalize_pass2 M E i ms L).2.trace = L.trace ++ assign_calls M F ms L.temp := by
  intro ms
  induction ms with
  | nil => intro i L _; simp [finalize_pass2, assign_calls]
  | cons m ms ih =>
    intro i L h
    have h0 := h 0 m (by simp)
    simp only [Nat.add_zero] at h0
    have hs : ∀ (L' : FinLocals), L'.vcpu_adjust_mask = L.vcpu_adjust_mask →
        ∀ k m', ms[k]? = some m' →
          ((i + 1 + k < M.nr_cpu_ids ∧ i + 1 + k ∈ L'.vcpu_adjust_mask) ↔ marked F m') := by
      intro L' hL' k m' hk
      have := h (k + 1) m' (by simpa using hk)
      rw [hL']
      have e : i + (k + 1) = i + 1 + k := by omega
      rwa [e] at this
    obtain ⟨_, b2, b3⟩ := finalize_pass2_body_ok M E hE m L
    by_cases hm : marked F m
    · have hc := h0.mpr hm
      simp only [finalize_pass2, hc, and_self, if_true, assign_calls, hm]
      rw [ih (i + 1) _ (hs _ b3), b2, finalize_pass2_body_trace M E hE]
      simp
    · have hc : ¬ (i < M.nr_cpu_ids ∧ i ∈ L.vcpu_adjust_mask) := fun hc => hm (h0.mp hc)
      simp only [finalize_pass2, hc, if_false, assign_calls, hm]
      rw [ih (i + 1) _ (hs _ rfl)]

theorem pass1_all_marked (M : Machine) (E : Env) (F : cpumask) :
    ∀ (ms : List hyp_core_ctl_cpu_map) (i : Nat) (L : FinLocals), SlotsOK M i ms →
      (∀ m ∈ ms, marked F m) →
      (finalize_pass1 M E F i ms L).1 = ms ∧
      (finalize_pass1 M E F i ms L).2.temp = L.temp ∧
      (finalize_pass1 M E F i ms L).2.trace = L.trace := by
  intro ms
  induction ms with
  | nil => intro i L _ _; simp [finalize_pass1]
  | cons m ms ih =>
    intro i L h hall
    rw [finalize_pass1_cons E F L h]
    have hm := hall m (List.mem_cons_self _ _)
    have hb : finalize_pass1_body E F i m L =
        (m, { L with vcpu_adjust_mask := insert i L.vcpu_adjust_mask }) := by
      simp only [finalize_pass1_body]
      rw [if_neg hm.1, if_neg hm.2]
    obtain ⟨e1, e2, e3⟩ := ih (i + 1) (finalize_pass1_body E F i m L).2 h.tail
      (fun x hx => hall x (List.mem_cons_of_mem _ hx))
    rw [hb] at e1 e2 e3 ⊢
    exact ⟨by rw [e1], e2, e3⟩

theorem sort_cons_first (M : Machine) (t : cpumask) (ht : t ⊆ Finset.range M.nr_cpu_ids)
    (hne : t.Nonempty) :
    t.sort (· ≤ ·) = cpumask_any M t :: (t.erase (cpumask_any M t)).sort (· ≤ ·) := by
  have hmem := cpumask_any_mem ht hne
  have hmin : ∀ b ∈ t.erase (cpumask_any M t), cpumask_any M t ≤ b := by
    intro b hb
    rcases cpumask_first_spec M t with ⟨_, h⟩ | ⟨_, _, h⟩
    · exact absurd hmem (h _ (Finset.mem_range.mp (ht hmem)))
    · exact h b (Finset.mem_of_mem_erase hb)
  rw [← Finset.sort_insert (· ≤ ·) hmin (Finset.not_mem_erase _ _), Finset.insert_erase hmem]

theorem assign_all_marked (M : Machine) (F : cpumask) :
    ∀ (ms : List hyp_core_ctl_cpu_map) (t : cpumask), (∀ m ∈ ms, marked F m) →
      ms.length ≤ t.card → t ⊆ Finset.range M.nr_cpu_ids →
      (assign M F ms t).map hyp_core_ctl_cpu_map.curr_pcpu = (t.sort (· ≤ ·)).take ms.length ∧
      assign_calls M F ms t =
        List.zipWith (fun m r => Event.affinity_set m.cap_id r HH_ERROR_OK) ms
          (t.sort (· ≤ ·)) := by
  intro ms
  induction ms with
  | nil => intro t _ _ _; simp [assign, assign_calls]
  | cons m ms ih =>
    intro t hall hlen ht
    have hm := hall m (List.mem_cons_self _ _)
    have hpos : 0 < t.card := by
      simp only [List.length_cons] at hlen
      omega
    have hne := Finset.card_pos.mp hpos
    have hmem := cpumask_any_mem ht hne
    obtain ⟨e1, e2⟩ := ih (t.erase (cpumask_any M t))
      (fun x hx => hall x (List.mem_cons_of_mem _ hx))
      (by
        rw [Finset.card_erase_of_mem hmem]
        simp only [List.length_cons] at hlen
        omega)
      ((Finset.erase_subset _ _).trans ht)
    rw [sort_cons_first M t ht hne]
    simp only [assign, assign_calls, hm, if_true, List.map_cons, List.length_cons,
      List.take_succ_cons, List.zipWith_cons_cons, e1, e2]
    exact ⟨trivial, trivial⟩

theorem enable_true_spec (s : State) (hpop : s.is_vcpu_info_populated = true)
    (hdis : s.reservation_enabled = false) :
    (hyp_core_ctl_enable s true).reservation_enabled = true ∧
    (hyp_core_ctl_enable s true).qos_min_freq = s.qos_min_freq ∧
    NoHcall s (hyp_core_ctl_enable s true) := by
  simp only [hyp_core_ctl_enable, hpop, hdis, hh_del_suspend_timer, State.log]
  refine ⟨by simp, by split_ifs <;> simp, ?_⟩
  by_cases h : s.is_vpm_group_info_populated = true
  · refine ⟨[Event.del_timer, Event.wake_up_process], by simp [h], ?_⟩
    intro e he
    simp only [List.mem_cons, List.mem_singleton, List.not_mem_nil, or_false] at he
    rcases he with rfl | rfl <;> rfl
  · refine ⟨[Event.wake_up_process], by simp [h], ?_⟩
    intro e he
    simp only [List.mem_singleton] at he
    subst he
    rfl

theorem finalize_trace (M : Machine) (E : Env) (s : State) (T : cpumask)
    (h1 : T ≠ s.final_reserved_cpus) (h2 : ¬ T.card < s.reserve_cpus.card) :
    (finalize_reservation M E s T).1.trace =
      (finalize_pass2 M E 0
        (finalize_pass1 M E T 0 s.cpumap
          { temp := T, vcpu_adjust_mask := ∅, trace := s.trace }).1
        (finalize_pass1 M E T 0 s.cpumap
          { temp := T, vcpu_adjust_mask := ∅, trace := s.trace }).2).2.trace := by
  unfold finalize_reservation
  simp [h1, h2]

/-- The matching when no vcpu has its original or current CPU in `T`: the vcpus get the
CPUs of `T` in ascending order, one hypercall each. -/
theorem finalize_all_marked (M : Machine) (E : Env) (hE : HcallOK E) (hM : M.ok) (s : State)
    (T : cpumask) (hcap : ∀ m ∈ s.cpumap, m.cap_id ≠ 0)
    (hlen : s.cpumap.length ≤ MAX_RESERVE_CPUS M) (hT : T ⊆ Finset.range M.nr_cpu_ids)
    (hw : T.card = s.cpumap.length) (hall : ∀ m ∈ s.cpumap, marked T m)
    (h1 : T ≠ s.final_reserved_cpus) (h2 : ¬ T.card < s.reserve_cpus.card) :
    (finalize_reservation M E s T).1.cpumap.map hyp_core_ctl_cpu_map.curr_pcpu =
      T.sort (· ≤ ·) ∧
    (finalize_reservation M E s T).1.trace = s.trace ++
      List.zipWith (fun m r => Event.affinity_set m.cap_id r HH_ERROR_OK) s.cpumap
        (T.sort (· ≤ ·)) := by
  have hS : SlotsOK M 0 s.cpumap := ⟨hcap, by omega⟩
  set L0 : FinLocals := { temp := T, vcpu_adjust_mask := ∅, trace := s.trace } with hL0
  obtain ⟨p1, p2, p3⟩ := pass1_all_marked M E T s.cpumap 0 L0 hS hall
  have hadj := fun j => pass1_adjust M E T j s.cpumap 0 L0 hS
  have hmax := max_reserve_le M hM
  have hin : ∀ k m, s.cpumap[k]? = some m →
      ((0 + k < M.nr_cpu_ids ∧
        0 + k ∈ (finalize_pass1 M E T 0 s.cpumap L0).2.vcpu_adjust_mask) ↔ marked T m) := by
    intro k m hk
    have hklt : k < s.cpumap.length := by
      by_contra hge
      rw [List.getElem?_eq_none (by omega)] at hk
      exact absurd hk (by simp)
    rw [hadj]
    constructor
    · intro _
      exact hall m (List.getElem?_mem hk)
    · intro h
      exact ⟨by omega, Or.inr ⟨k, m, hk, by omega, h⟩⟩
  obtain ⟨a1, a2⟩ := assign_all_marked M T s.cpumap T hall (by omega) hT
  rw [finalize_cpumap M E s T h1 h2, finalize_trace M E s T h1 h2, ← hL0, p1]
  rw [pass2_eq_assign M E hE T s.cpumap 0 _ hin, pass2_trace M E hE T s.cpumap 0 _ hin,
    p2, p3, a1, a2]
  refine ⟨?_, rfl⟩
  rw [List.take_of_length_le]
  rw [Finset.length_sort]
  omega

/-- Enable and one worker pass from a state in which `reserve_cpus` is a set `R` that
holds no vcpu's original or current CPU and differs from `final_reserved_cpus`: one
hypercall per vcpu, in table order, onto the CPUs of `R` in ascending order. -/
theorem retarget_pass (M : Machine) (E : Env) (s : State) (R : cpumask)
    (hs : Retargeted M s R) (hE : RetargetEnv E R) :
    (enable_and_pass M E s).cpumap.map hyp_core_ctl_cpu_map.curr_pcpu = R.sort (· ≤ ·) ∧
    List.Forall₂ SameVcpu s.cpumap (enable_and_pass M E s).cpumap ∧
    (enable_and_pass M E s).final_reserved_cpus = R ∧
    (enable_and_pass M E s).our_isolated_cpus = R ∧
    ∃ new, (enable_and_pass M E s).trace = s.trace ++ new ∧
      new.filter Event.is_affinity_set =
        List.zipWith (fun m r => Event.affinity_set m.cap_id r HH_ERROR_OK) s.cpumap
          (R.sort (· ≤ ·)) := by
  obtain ⟨hM, hcap, hlen, hpop, hdis, hiso, hres, hw, hRP, hfresh, hfinal⟩ := hs
  obtain ⟨hI, hU, hH, hon, hcool⟩ := hE
  obtain ⟨x1, x2, x3, x4⟩ := enable_frame s true
  obtain ⟨y1, _, y3⟩ := enable_true_spec s hpop hdis
  set s1 := hyp_core_ctl_enable s true with hs1
  set s2 : State := { s1 with pending := false } with hs2
  have ht : enable_and_pass M E s = hyp_core_ctl_do_reservation M E s2 := by
    show hyp_core_ctl_thread M E s1 = _
    simp only [hyp_core_ctl_thread]
    rw [if_pos (show s2.reservation_enabled = true from y1)]
  have hR2 : s2.reserve_cpus = R := by rw [← hres, ← x1]
  -- the isolation
  obtain ⟨f, n, _, _, _, hle, _⟩ := do_reservation_isolation_spec M E s2
  obtain ⟨_, k2⟩ := do_reservation_isolation_keep M E s2
  have hsub : R ⊆ (do_reservation_isolation M E s2).1.our_isolated_cpus := by
    intro c hc
    exact k2 hI c (by rw [hR2]; exact hc) (Finset.disjoint_left.mp hcool hc) (hon hc)
      (Finset.mem_range.mp (hM (hRP hc)))
  have hle' : (do_reservation_temp M E s2).card ≤ R.card := by
    rw [← hR2]
    apply hle hU
    show s1.our_isolated_cpus ⊆ _
    rw [x2, hiso]
    exact Finset.empty_subset _
  have hT : do_reservation_temp M E s2 = R := by
    have hsub' : R ⊆ do_reservation_temp M E s2 := by
      unfold do_reservation_temp
      exact hsub.trans Finset.subset_union_left
    exact (Finset.eq_of_subset_of_card_le hsub' hle').symm
  have hour : (do_reservation_isolation M E s2).1.our_isolated_cpus = R := by
    apply Finset.Subset.antisymm _ hsub
    rw [← hT]
    unfold do_reservation_temp
    exact Finset.subset_union_left
  set sA := (do_reservation_isolation M E s2).1 with hsA
  have hcm : sA.cpumap = s.cpumap := by rw [f.cpumap]; exact x4
  have hfin : R ≠ sA.final_reserved_cpus := by
    rw [f.final]
    show R ≠ s1.final_reserved_cpus
    rw [x3]
    exact Ne.symm hfinal
  have hnot : ¬ R.card < sA.reserve_cpus.card := by
    rw [f.reserve, hR2]
    omega
  obtain ⟨m1, m2⟩ := finalize_all_marked M E hH hM sA R (by rw [hcm]; exact hcap)
    (by rw [hcm]; exact hlen) (hRP.trans hM) (by rw [hcm]; exact hw)
    (by rw [hcm]; exact hfresh) hfin hnot
  obtain ⟨_, e2, _⟩ := finalize_frame M E sA R
  have hsv := finalize_same_vcpu M E sA R
  rw [hcm] at hsv m2
  rw [ht]
  unfold hyp_core_ctl_do_reservation
  rw [hT]
  refine ⟨m1, hsv, ?_, by rw [e2, hour], ?_⟩
  · rw [finalize_final, if_neg hnot]
  · obtain ⟨n1, t1, q1⟩ := y3
    obtain ⟨n2, t2, q2⟩ := n
    refine ⟨n1 ++ n2 ++ List.zipWith
      (fun m r => Event.affinity_set m.cap_id r HH_ERROR_OK) s.cpumap (R.sort (· ≤ ·)), ?_, ?_⟩
    · rw [m2, t2]
      show (s1.trace ++ n2) ++ _ = _
      rw [t1]
      simp only [List.append_assoc]
    · rw [List.filter_append, List.filter_append]
      have z1 : n1.filter Event.is_affinity_set = [] := by
        rw [List.filter_eq_nil_iff]
        intro e he
        simp [q1 e he]
      have z2 : n2.filter Event.is_affinity_set = [] := by
        rw [List.filter_eq_nil_iff]
        intro e he
        simp [q2 e he]
      rw [z1, z2, List.nil_append, List.nil_append, List.filter_eq_self]
      intro e he
      obtain ⟨i, hi, rfl⟩ := List.mem_iff_getElem.mp he
      simp [Event.is_affinity_set]

/-! ## C7: a second pass with the same inputs -/

/-- The loop that picks offline candidates takes the offline CPUs of the list in order,
as many as `need` asks for. -/
theorem pick_offline_loop_closed (E : Env) :
    ∀ (l : List Nat) (O : cpumask) (need : Int), 1 ≤ need →
      (need ≤ (l.filter (fun c => decide (c ∉ E.cpu_online_mask))).length →
        pick_offline_loop E l O need =
          (O ∪ ((l.filter (fun c => decide (c ∉ E.cpu_online_mask))).take
            need.toNat).toFinset, 0, true)) ∧
      (((l.filter (fun c => decide (c ∉ E.cpu_online_mask))).length : Int) < need →
        pick_offline_loop E l O need =
          (O ∪ (l.filter (fun c => decide (c ∉ E.cpu_online_mask))).toFinset,
            need - (l.filter (fun c => decide (c ∉ E.cpu_online_mask))).length, false)) := by
  intro l
  induction l with
  | nil =>
    intro O need h
    simp only [List.filter_nil, List.length_nil, Nat.cast_zero, pick_offline_loop,
      List.take_nil, List.toFinset_nil, Finset.union_empty, sub_zero]
    exact ⟨fun h' => by omega, fun _ => trivial⟩
  | cons i cpus ih =>
    intro O need h
    by_cases hon : i ∈ E.cpu_online_mask
    · have hf : (i :: cpus).filter (fun c => decide (c ∉ E.cpu_online_mask)) =
          cpus.filter (fun c => decide (c ∉ E.cpu_online_mask)) := by
        simp [List.filter_cons, hon]
      rw [hf]
      simp only [pick_offline_loop, hon, not_true_eq_false, if_false]
      exact ih O need h
    · have hf : (i :: cpus).filter (fun c => decide (c ∉ E.cpu_online_mask)) =
          i :: cpus.filter (fun c => decide (c ∉ E.cpu_online_mask)) := by
        simp [List.filter_cons, hon]
      rw [hf]
      simp only [pick_offline_loop, hon, not_false_eq_true, if_true, List.length_cons,
        Nat.cast_add, Nat.cast_one, List.toFinset_cons]
      by_cases hz : need - 1 = 0
      · have h1 : need = 1 := by omega
        subst h1
        simp only [sub_self, if_true]
        refine ⟨fun _ => ?_, fun h' => by omega⟩
        simp only [Int.toNat_one, List.take_succ_cons, List.take_zero, List.toFinset_cons,
          List.toFinset_nil, Prod.mk.injEq, and_true]
        ext x
        simp only [Finset.mem_insert, Finset.mem_union, Finset.not_mem_empty, or_false]
        tauto
      · simp only [hz, if_false]
        obtain ⟨ih1, ih2⟩ := ih (insert i O) (need - 1) (by omega)
        refine ⟨fun h' => ?_, fun h' => ?_⟩
        · rw [ih1 (by omega)]
          have hn : need.toNat = (need - 1).toNat + 1 := by omega
          rw [hn, List.take_succ_cons, List.toFinset_cons]
          simp only [Prod.mk.injEq, and_true]
          ext x
          simp only [Finset.mem_insert, Finset.mem_union]
          tauto
        · rw [ih2 (by omega)]
          simp only [Prod.mk.injEq, and_true]
          refine ⟨?_, by omega⟩
          ext x
          simp only [Finset.mem_insert, Finset.mem_union]
          tauto

/-- The first loop on a state whose reserve CPUs that are online and not throttled are
all isolated makes no call. -/
theorem isolate_reserve_loop_quiet (E : Env) (l : List Nat) (t : State)
    (hoff : ∀ c ∈ l, c ∉ E.cpu_online_mask) :
    isolate_reserve_loop E l t ∅ = (t, l.toFinset) := by
  obtain ⟨_, _, _, _, c, _, e⟩ := isolate_reserve_loop_spec E l t ∅
  refine Prod.ext (e hoff) ?_
  ext x
  rw [c x]
  simp only [Finset.not_mem_empty, false_or, List.mem_toFinset]
  exact ⟨fun h => h.1, fun h => ⟨h, hoff x h⟩⟩

theorem pick_offline_loop_congr (E1 E2 : Env) (h : E2.cpu_online_mask = E1.cpu_online_mask) :
    ∀ (l : List Nat) (O : cpumask) (need : Int),
      pick_offline_loop E2 l O need = pick_offline_loop E1 l O need := by
  intro l
  induction l with
  | nil => intro O need; rfl
  | cons i cpus ih =>
    intro O need
    simp only [pick_offline_loop, h, ih]

/-- What the state and `offline_cpus` at the label `done` of a pass in which every isolate
and un-isolate call succeeds say about the next pass: with `O1` the reserve CPUs that are
neither isolated nor throttled, all of them offline, the isolated CPUs are not more than
required; when they are as many as required `offline_cpus` is `O1`; when they are fewer,
picking offline candidates again gives the same `offline_cpus`, and if that does not
satisfy the need no candidate is left to isolate. -/
theorem isolation_anatomy (M : Machine) (E : Env) (s : State) (hI : IsolateOK E)
    (hU : UnisolateOK E) (hr : s.our_isolated_cpus ⊆ Finset.range M.nr_cpu_ids) :
    ∃ O1 : cpumask,
      O1 = (for_each_cpu M ((s.reserve_cpus \
        (do_reservation_isolation M E s).1.our_isolated_cpus) \ E.thermal_cpus)).toFinset ∧
      (∀ c ∈ for_each_cpu M ((s.reserve_cpus \
        (do_reservation_isolation M E s).1.our_isolated_cpus) \ E.thermal_cpus),
        c ∉ E.cpu_online_mask) ∧
      ¬ (((do_reservation_isolation M E s).1.our_isolated_cpus.card : Int) >
        ((s.reserve_cpus \ O1).card : Int)) ∧
      (¬ (((do_reservation_isolation M E s).1.our_isolated_cpus.card : Int) <
          ((s.reserve_cpus \ O1).card : Int)) → (do_reservation_isolation M E s).2 = O1) ∧
      ((((do_reservation_isolation M E s).1.our_isolated_cpus.card : Int) <
          ((s.reserve_cpus \ O1).card : Int)) →
        (pick_offline_loop E (for_each_cpu M (((M.cpu_possible_mask \
            (do_reservation_isolation M E s).1.our_isolated_cpus) \ E.thermal_cpus) \ O1)) O1
          (((s.reserve_cpus \ O1).card : Int) -
            (do_reservation_isolation M E s).1.our_isolated_cpus.card)).1 =
          (do_reservation_isolation M E s).2 ∧
        ((pick_offline_loop E (for_each_cpu M (((M.cpu_possible_mask \
            (do_reservation_isolation M E s).1.our_isolated_cpus) \ E.thermal_cpus) \ O1)) O1
          (((s.reserve_cpus \ O1).card : Int) -
            (do_reservation_isolation M E s).1.our_isolated_cpus.card)).2.2 = false →
          for_each_cpu M ((((M.cpu_possible_mask \
            (do_reservation_isolation M E s).1.our_isolated_cpus) \ E.thermal_cpus) \ O1) \
            (do_reservation_isolation M E s).2) = [])) := by
  obtain ⟨k1, k2⟩ := do_reservation_isolation_keep M E s
  obtain ⟨_, _, _, _, hdisA, _, _⟩ := do_reservation_isolation_spec M E s
  -- the first loop
  obtain ⟨f1, _, a1, b1, c1, d1, _⟩ := isolate_reserve_loop_spec E
    (for_each_cpu M ((s.reserve_cpus \ s.our_isolated_cpus) \ E.thermal_cpus)) s ∅
  set l1 := for_each_cpu M ((s.reserve_cpus \ s.our_isolated_cpus) \ E.thermal_cpus) with hl1
  have hl1mem : ∀ c, c ∈ l1 → c ∈ s.reserve_cpus ∧ c ∉ s.our_isolated_cpus ∧
      c ∉ E.thermal_cpus ∧ c < M.nr_cpu_ids := by
    intro c hc
    have := mem_for_each_cpu.mp hc
    simp only [Finset.mem_sdiff] at this
    exact ⟨this.2.1.1, this.2.1.2, this.2.2, this.1⟩
  have hO1mem : ∀ c, c ∈ (isolate_reserve_loop E l1 s ∅).2 ↔
      c ∈ l1 ∧ c ∉ E.cpu_online_mask := by
    intro c
    rw [c1 c]
    simp
  have hO1R : (isolate_reserve_loop E l1 s ∅).2 ⊆ s.reserve_cpus :=
    fun c hc => (hl1mem c ((hO1mem c).mp hc).1).1
  have hdis1 : Disjoint (isolate_reserve_loop E l1 s ∅).1.our_isolated_cpus
      (isolate_reserve_loop E l1 s ∅).2 := by
    rw [Finset.disjoint_left]
    intro c hc hc'
    rcases b1 c hc with h | h
    · exact (hl1mem c ((hO1mem c).mp hc').1).2.1 h
    · exact ((hO1mem c).mp hc').2 h.2
  have hs1range : (isolate_reserve_loop E l1 s ∅).1.our_isolated_cpus ⊆
      Finset.range M.nr_cpu_ids := by
    intro c hc
    rcases b1 c hc with h' | h'
    · exact hr h'
    · exact Finset.mem_range.mpr (hl1mem c h'.1).2.2.2
  -- the reserve CPUs left out at the end are offline
  have hquiet : ∀ c ∈ for_each_cpu M ((s.reserve_cpus \
      (do_reservation_isolation M E s).1.our_isolated_cpus) \ E.thermal_cpus),
      c ∉ E.cpu_online_mask := by
    intro c hc hon
    have := mem_for_each_cpu.mp hc
    simp only [Finset.mem_sdiff] at this
    exact this.2.1.2 (k2 hI c this.2.1.1 this.2.2 hon this.1)
  -- `O1` in terms of the isolated CPUs at the end, given that it is part of `offline_cpus`
  have hO1eq : (isolate_reserve_loop E l1 s ∅).2 ⊆ (do_reservation_isolation M E s).2 →
      (isolate_reserve_loop E l1 s ∅).2 = (for_each_cpu M ((s.reserve_cpus \
        (do_reservation_isolation M E s).1.our_isolated_cpus) \ E.thermal_cpus)).toFinset := by
    intro hsub
    ext c
    rw [hO1mem, List.mem_toFinset]
    constructor
    · intro h
      have hm := hl1mem c h.1
      apply mem_for_each_cpu.mpr
      simp only [Finset.mem_sdiff]
      refine ⟨hm.2.2.2, ⟨hm.1, ?_⟩, hm.2.2.1⟩
      intro hin
      exact (Finset.disjoint_left.mp hdisA) hin (hsub ((hO1mem c).mpr h))
    · intro h'
      have h := mem_for_each_cpu.mp h'
      simp only [Finset.mem_sdiff] at h
      have hoff : c ∉ E.cpu_online_mask := fun hon => h.2.1.2 (k2 hI c h.2.1.1 h.2.2 hon h.1)
      refine ⟨?_, hoff⟩
      rw [hl1]
      apply mem_for_each_cpu.mpr
      simp only [Finset.mem_sdiff]
      exact ⟨h.1, ⟨h.2.1.1, fun hin => h.2.1.2 (k1 c h.2.1.1 hin)⟩, h.2.2⟩
  refine ⟨(isolate_reserve_loop E l1 s ∅).2, ?_⟩
  revert hquiet hO1eq hdisA
  simp only [do_reservation_isolation]
  rw [← hl1]
  set s1 := (isolate_reserve_loop E l1 s ∅).1 with hs1
  set O1 := (isolate_reserve_loop E l1 s ∅).2 with hO1
  rw [f1.reserve]
  by_cases hlt : ((s1.our_isolated_cpus.card : Int) < ((s.reserve_cpus \ O1).card : Int))
  · -- shortfall
    simp only [hlt, if_true]
    set need : Int := ((s.reserve_cpus \ O1).card : Int) - s1.our_isolated_cpus.card with hneed
    set lC := for_each_cpu M
      (((M.cpu_possible_mask \ s1.our_isolated_cpus) \ E.thermal_cpus) \ O1) with hlC
    have hlCmem : ∀ c, c ∈ lC → c ∈ M.cpu_possible_mask ∧ c ∉ s1.our_isolated_cpus ∧
        c ∉ E.thermal_cpus ∧ c ∉ O1 := by
      intro c hc
      have := mem_for_each_cpu.mp hc
      simp only [Finset.mem_sdiff] at this
      exact ⟨this.2.1.1.1, this.2.1.1.2, this.2.1.2, this.2.2⟩
    obtain ⟨pa, pb, pc, pd, pe, pf⟩ := pick_offline_loop_spec E lC O1 need (by omega)
    have pf' := pf (for_each_cpu_nodup M _) (fun c hc => (hlCmem c hc).2.2.2)
    obtain ⟨cl1, cl2⟩ := pick_offline_loop_closed E lC O1 need (by omega)
    by_cases hdone : (pick_offline_loop E lC O1 need).2.2 = true
    · simp only [hdone, if_true]
      intro _ hquiet hO1eq
      refine ⟨hO1eq pa, hquiet, by omega, fun h => absurd hlt h, fun _ => ?_⟩
      simp [hdone]
    · have hdone' : (pick_offline_loop E lC O1 need).2.2 = false := by simpa using hdone
      simp only [hdone', Bool.false_eq_true, if_false]
      have hpos : 1 ≤ (pick_offline_loop E lC O1 need).2.1 := by
        have : (pick_offline_loop E lC O1 need).2.1 ≠ 0 := fun h => hdone (pd.mpr h)
        omega
      -- the first pass took every offline candidate
      have hk : ((lC.filter (fun c => decide (c ∉ E.cpu_online_mask))).length : Int) < need := by
        by_contra hge
        rw [cl1 (by omega)] at hdone'
        exact absurd hdone' (by simp)
      have hpick := cl2 hk
      set offl := lC.filter (fun c => decide (c ∉ E.cpu_online_mask)) with hoffl
      have hO2 : (pick_offline_loop E lC O1 need).1 = O1 ∪ offl.toFinset := by rw [hpick]
      have hn2 : (pick_offline_loop E lC O1 need).2.1 = need - offl.length := by rw [hpick]
      set O2 := (pick_offline_loop E lC O1 need).1 with hO2def
      set need2 := (pick_offline_loop E lC O1 need).2.1 with hneed2
      set l3 := for_each_cpu M
        ((((M.cpu_possible_mask \ s1.our_isolated_cpus) \ E.thermal_cpus) \ O1) \ O2) with hl3
      have hl3mem : ∀ c, c ∈ l3 → c ∈ lC ∧ c ∉ O2 := by
        intro c hc
        have := mem_for_each_cpu.mp hc
        rw [Finset.mem_sdiff] at this
        exact ⟨mem_for_each_cpu.mpr ⟨this.1, this.2.1⟩, this.2.2⟩
      obtain ⟨_, _, a3, b3, c3⟩ := isolate_replacement_loop_spec E l3 s1 need2 hpos
      have c3' := c3 (for_each_cpu_nodup M _) (fun c hc => (hlCmem c (hl3mem c hc).1).2.1)
      set s3 := isolate_replacement_loop E l3 s1 need2 with hs3
      intro hdisA hquiet hO1eq
      have hcardle : (s3.our_isolated_cpus.card : Int) ≤ s1.our_isolated_cpus.card + need2 :=
        c3'.1
      -- the offline candidates of the next pass are those of this pass
      have hoffl' : (for_each_cpu M (((M.cpu_possible_mask \ s3.our_isolated_cpus) \
          E.thermal_cpus) \ O1)).filter (fun c => decide (c ∉ E.cpu_online_mask)) = offl := by
        rw [hoffl, hlC]
        unfold for_each_cpu
        rw [List.filter_filter, List.filter_filter]
        apply List.filter_congr
        intro c hc
        have hclt := List.mem_range.mp hc
        simp only [Finset.mem_sdiff, Bool.and_eq_true, decide_eq_true_eq, Bool.decide_and,
          Bool.decide_eq_true]
        rw [Bool.eq_iff_iff]
        simp only [Bool.and_eq_true, decide_eq_true_eq]
        constructor
        · rintro ⟨hoff, ⟨⟨hP, hn3⟩, hT⟩, hO⟩
          exact ⟨hoff, ⟨⟨hP, fun h => hn3 (a3 h)⟩, hT⟩, hO⟩
        · rintro ⟨hoff, ⟨⟨hP, hn1⟩, hT⟩, hO⟩
          refine ⟨hoff, ⟨⟨hP, ?_⟩, hT⟩, hO⟩
          intro hin3
          have hcC : c ∈ lC := by
            apply mem_for_each_cpu.mpr
            simp only [Finset.mem_sdiff]
            exact ⟨hclt, ⟨⟨hP, hn1⟩, hT⟩, hO⟩
          have hcO2 : c ∈ O2 := pe hdone' c hcC hoff
          exact (Finset.disjoint_left.mp hdisA) hin3 hcO2
      refine ⟨hO1eq pa, hquiet, by omega, ?_, ?_⟩
      · intro hnlt
        have hz : (offl.length : Int) = 0 := by omega
        have hnil : offl = [] := by
          apply List.eq_nil_of_length_eq_zero
          omega
        rw [hO2, hnil]
        simp
      · intro hlt'
        set need' : Int := ((s.reserve_cpus \ O1).card : Int) - s3.our_isolated_cpus.card
          with hneed'
        obtain ⟨dl1, dl2⟩ := pick_offline_loop_closed E (for_each_cpu M
          (((M.cpu_possible_mask \ s3.our_isolated_cpus) \ E.thermal_cpus) \ O1)) O1 need'
          (by omega)
        rw [hoffl'] at dl1 dl2
        by_cases hle : need' ≤ offl.length
        · rw [dl1 hle]
          refine ⟨?_, fun h => absurd h (by simp)⟩
          simp only
          rw [hO2, List.take_of_length_le (by omega)]
        · rw [dl2 (by omega)]
          refine ⟨by simp only; rw [hO2], fun _ => ?_⟩
          rw [List.eq_nil_iff_forall_not_mem]
          intro c hc
          have hcm := mem_for_each_cpu.mp hc
          simp only [Finset.mem_sdiff] at hcm
          obtain ⟨hclt, ⟨⟨⟨hP, hn3⟩, hT⟩, hO⟩, hO2'⟩ := hcm
          have hcl3 : c ∈ l3 := by
            apply mem_for_each_cpu.mpr
            simp only [Finset.mem_sdiff]
            exact ⟨hclt, ⟨⟨⟨hP, fun h => hn3 (a3 h)⟩, hT⟩, hO⟩, hO2'⟩
          rcases c3'.2 hI with h | h
          · omega
          · exact hn3 (h c hcl3)
  · simp only [hlt, if_false]
    by_cases hgt : ((s1.our_isolated_cpus.card : Int) > ((s.reserve_cpus \ O1).card : Int))
    · -- overshoot
      simp only [hgt, if_true]
      set need : Int := (s1.our_isolated_cpus.card : Int) - ((s.reserve_cpus \ O1).card : Int)
        with hneed
      set lU := for_each_cpu M (s1.our_isolated_cpus \ s.reserve_cpus) with hlU
      obtain ⟨_, _, au, _, cu⟩ := unisolate_excess_loop_spec E lU s1 need (by omega)
      have hlen : (lU.length : Int) = (s1.our_isolated_cpus \ s.reserve_cpus).card := by
        rw [hlU, for_each_cpu_length M _ ((Finset.sdiff_subset).trans hs1range)]
      have hsub : s1.our_isolated_cpus ∩ s.reserve_cpus ⊆ s.reserve_cpus \ O1 := by
        intro c hc
        rw [Finset.mem_inter] at hc
        rw [Finset.mem_sdiff]
        exact ⟨hc.2, fun h' => (Finset.disjoint_left.mp hdis1) hc.1 h'⟩
      have h1 := Finset.card_le_card hsub
      have h2 := Finset.card_sdiff_add_card_inter s1.our_isolated_cpus s.reserve_cpus
      have hcu := cu hU (for_each_cpu_nodup M _)
        (fun c hc => (Finset.mem_sdiff.mp (mem_for_each_cpu.mp hc).2).1) (by omega)
      intro _ hquiet hO1eq
      exact ⟨hO1eq subset_rfl, hquiet, by omega, fun _ => trivial, fun h => by omega⟩
    · simp only [hgt, if_false]
      intro _ hquiet hO1eq
      exact ⟨hO1eq subset_rfl, hquiet, not_false, fun _ => trivial, fun h => absurd h hlt⟩

/-- A pass that starts from the isolated CPUs an all-successful pass ended with, with the
same reserve, online and throttled sets, isolates and un-isolates nothing and computes the
same `offline_cpus`. -/
theorem isolation_again (M : Machine) (E1 E2 : Env) (s t : State) (hI : IsolateOK E1)
    (hU : UnisolateOK E1) (hr : s.our_isolated_cpus ⊆ Finset.range M.nr_cpu_ids)
    (hon : E2.cpu_online_mask = E1.cpu_online_mask) (hth : E2.thermal_cpus = E1.thermal_cpus)
    (hres : t.reserve_cpus = s.reserve_cpus)
    (hour : t.our_isolated_cpus = (do_reservation_isolation M E1 s).1.our_isolated_cpus) :
    do_reservation_isolation M E2 t = (t, (do_reservation_isolation M E1 s).2) := by
  obtain ⟨O1, hO1, hq, hle, heq, hlt⟩ := isolation_anatomy M E1 s hI hU hr
  generalize do_reservation_isolation M E1 s = D at *
  have hloop : isolate_reserve_loop E2
      (for_each_cpu M ((t.reserve_cpus \ t.our_isolated_cpus) \ E2.thermal_cpus)) t ∅ =
      (t, O1) := by
    rw [hres, hour, hth, hO1]
    exact isolate_reserve_loop_quiet E2 _ t (by rw [hon]; exact hq)
  simp only [do_reservation_isolation]
  rw [hloop]
  simp only
  rw [hres, hour, hth]
  by_cases h : ((D.1.our_isolated_cpus.card : Int) < ((s.reserve_cpus \ O1).card : Int))
  · obtain ⟨hp, hd⟩ := hlt h
    simp only [h, if_true]
    rw [pick_offline_loop_congr E1 E2 hon]
    by_cases hdone : (pick_offline_loop E1 (for_each_cpu M (((M.cpu_possible_mask \
        D.1.our_isolated_cpus) \ E1.thermal_cpus) \ O1)) O1
        (((s.reserve_cpus \ O1).card : Int) - D.1.our_isolated_cpus.card)).2.2 = true
    · simp only [hdone, if_true]
      rw [hp]
    · have hdone' := (Bool.not_eq_true _).mp hdone
      simp only [hdone', Bool.false_eq_true, if_false]
      rw [hp, hd hdone']
      rfl
  · simp only [h, if_false, hle]
    rw [heq h]

/-- C7, as stated, fails: the first pass from `unthrottled4` isolates CPU 4 (the call
succeeds, as every isolate call does) and fails to un-isolate CPU 0; a second pass with the
same reserve, online and throttled sets un-isolates CPU 0 and changes `our_isolated_cpus`
and `final_reserved_cpus` from {0, 4, 5} to {4, 5}. -/
theorem c7_counterexample :
    Reachable M8 AnyEnv (CpuList M8) unthrottled4 ∧
    IsolateOK unisolateFailEnv ∧
    (okEnv ∅).cpu_online_mask = unisolateFailEnv.cpu_online_mask ∧
    (okEnv ∅).thermal_cpus = unisolateFailEnv.thermal_cpus ∧
    (hyp_core_ctl_do_reservation M8 unisolateFailEnv unthrottled4).reserve_cpus =
      unthrottled4.reserve_cpus ∧
    (hyp_core_ctl_do_reservation M8 unisolateFailEnv unthrottled4).our_isolated_cpus =
      {0, 4, 5} ∧
    (hyp_core_ctl_do_reservation M8 (okEnv ∅)
      (hyp_core_ctl_do_reservation M8 unisolateFailEnv unthrottled4)).our_isolated_cpus =
      {4, 5} ∧
    (hyp_core_ctl_do_reservation M8 (okEnv ∅)
      (hyp_core_ctl_do_reservation M8 unisolateFailEnv unthrottled4)).our_isolated_cpus ≠
      (hyp_core_ctl_do_reservation M8 unisolateFailEnv unthrottled4).our_isolated_cpus ∧
    (hyp_core_ctl_do_reservation M8 (okEnv ∅)
      (hyp_core_ctl_do_reservation M8 unisolateFailEnv unthrottled4)).final_reserved_cpus ≠
      (hyp_core_ctl_do_reservation M8 unisolateFailEnv unthrottled4).final_reserved_cpus := by
  refine ⟨reachable_unthrottled4, fun _ _ => le_refl _, rfl, rfl, ?_, ?_, ?_, ?_, ?_⟩ <;>
    decide

/-- C7, amended: after a first `do_reservation` pass in which every isolate call and every
un-isolate call succeeded, a second pass from the state the first one left, with the same
online set and the same throttled set, whatever its calls would return, makes no call at
all (the trace is unchanged, so no `vcpu_affinity_set` hypercall and no isolate call) and
leaves `our_isolated_cpus`, `final_reserved_cpus` and the vcpu table unchanged; indeed it
leaves the whole state unchanged.  The mask `our_isolated_cpus` holds CPU numbers below
`nr_cpu_ids` at the start, as every `cpumask_t` does. -/
theorem c7_second_pass_idle (M : Machine) (E1 E2 : Env) (s : State) (hI : IsolateOK E1)
    (hU : UnisolateOK E1) (hr : s.our_isolated_cpus ⊆ Finset.range M.nr_cpu_ids)
    (hon : E2.cpu_online_mask = E1.cpu_online_mask)
    (hth : E2.thermal_cpus = E1.thermal_cpus) :
    (hyp_core_ctl_do_reservation M E2 (hyp_core_ctl_do_reservation M E1 s)).trace =
      (hyp_core_ctl_do_reservation M E1 s).trace ∧
    (hyp_core_ctl_do_reservation M E2 (hyp_core_ctl_do_reservation M E1 s)).our_isolated_cpus =
      (hyp_core_ctl_do_reservation M E1 s).our_isolated_cpus ∧
    (hyp_core_ctl_do_reservation M E2
      (hyp_core_ctl_do_reservation M E1 s)).final_reserved_cpus =
      (hyp_core_ctl_do_reservation M E1 s).final_reserved_cpus ∧
    (hyp_core_ctl_do_reservation M E2 (hyp_core_ctl_do_reservation M E1 s)).cpumap =
      (hyp_core_ctl_do_reservation M E1 s).cpumap ∧
    hyp_core_ctl_do_reservation M E2 (hyp_core_ctl_do_reservation M E1 s) =
      hyp_core_ctl_do_reservation M E1 s := by
  have key : hyp_core_ctl_do_reservation M E2 (hyp_core_ctl_do_reservation M E1 s) =
      hyp_core_ctl_do_reservation M E1 s := by
    obtain ⟨f, _⟩ := do_reservation_isolation_spec M E1 s
    obtain ⟨fr, fo, _⟩ := finalize_frame M E1 (do_reservation_isolation M E1 s).1
      (do_reservation_temp M E1 s)
    have hfin := finalize_final M E1 (do_reservation_isolation M E1 s).1
      (do_reservation_temp M E1 s)
    have hres : (hyp_core_ctl_do_reservation M E1 s).reserve_cpus = s.reserve_cpus := by
      unfold hyp_core_ctl_do_reservation
      rw [fr, f.reserve]
    have hour : (hyp_core_ctl_do_reservation M E1 s).our_isolated_cpus =
        (do_reservation_isolation M E1 s).1.our_isolated_cpus := fo
    have hiso := isolation_again M E1 E2 s (hyp_core_ctl_do_reservation M E1 s) hI hU hr
      hon hth hres hour
    have htemp : do_reservation_temp M E2 (hyp_core_ctl_do_reservation M E1 s) =
        do_reservation_temp M E1 s := by
      unfold do_reservation_temp
      rw [hiso]
      simp only
      rw [hour]
    have hunf : ∀ t, hyp_core_ctl_do_reservation M E2 t =
        (finalize_reservation M E2 (do_reservation_isolation M E2 t).1
          (do_reservation_temp M E2 t)).1 := fun _ => rfl
    rw [hunf, htemp, hiso, finalize_noop]
    by_cases hc : (do_reservation_temp M E1 s).card <
        (do_reservation_isolation M E1 s).1.reserve_cpus.card
    · right
      rw [hres, ← f.reserve]
      exact hc
    · left
      unfold hyp_core_ctl_do_reservation
      rw [hfin, if_neg hc]
  exact ⟨by rw [key], by rw [key], by rw [key], by rw [key], key⟩

theorem c7_second_pass_idle_witness :
    IsolateOK (okEnv {4}) ∧ UnisolateOK (okEnv {4}) ∧
    (hyp_core_ctl_cpu_cooling_cb M8 (okEnv {4}) enabled45 true 4).our_isolated_cpus ⊆
      Finset.range M8.nr_cpu_ids ∧
    (hyp_core_ctl_do_reservation M8 (okEnv {4}) (hyp_core_ctl_do_reservation M8 (okEnv {4})
      (hyp_core_ctl_cpu_cooling_cb M8 (okEnv {4}) enabled45 true 4))).trace =
      (hyp_core_ctl_do_reservation M8 (okEnv {4})
        (hyp_core_ctl_cpu_cooling_cb M8 (okEnv {4}) enabled45 true 4)).trace ∧
    (hyp_core_ctl_do_reservation M8 (okEnv {4})
      (hyp_core_ctl_cpu_cooling_cb M8 (okEnv {4}) enabled45 true 4)).our_isolated_cpus =
      {0, 5} :=
  ⟨fun _ _ => le_refl _, fun _ _ => le_refl _, by decide,
    (c7_second_pass_idle M8 (okEnv {4}) (okEnv {4})
      (hyp_core_ctl_cpu_cooling_cb M8 (okEnv {4}) enabled45 true 4) (fun _ _ => le_refl _)
      (fun _ _ => le_refl _) (by decide) rfl rfl).1, by decide⟩

/-! ## C11: the enable/disable round trip -/

theorem Frame.vcpu_info {s t : State} (h : Frame s t) :
    t.is_vcpu_info_populated = s.is_vcpu_info_populated := by
  unfold Frame at h; rw [h]

/-- A pass from a state in which nothing is isolated and `final_reserved_cpus` is
`reserve_cpus`, all CPUs of `reserve_cpus` being online and not throttled and every
isolate call succeeding: the CPUs of `reserve_cpus` are isolated and nothing else
changes; no hypercall is made. -/
theorem do_reservation_plain (M : Machine) (E : Env) (s : State) (hI : IsolateOK E)
    (hon : s.reserve_cpus ⊆ E.cpu_online_mask) (hth : Disjoint s.reserve_cpus E.thermal_cpus)
    (hr : s.reserve_cpus ⊆ Finset.range M.nr_cpu_ids) (hour : s.our_isolated_cpus = ∅)
    (hfin : s.final_reserved_cpus = s.reserve_cpus) :
    Frame s (hyp_core_ctl_do_reservation M E s) ∧
    NoHcall s (hyp_core_ctl_do_reservation M E s) ∧
    (hyp_core_ctl_do_reservation M E s).our_isolated_cpus = s.reserve_cpus := by
  obtain ⟨f1, n1, a1, b1, c1, d1, _⟩ := isolate_reserve_loop_spec E
    (for_each_cpu M ((s.reserve_cpus \ s.our_isolated_cpus) \ E.thermal_cpus)) s ∅
  have hl : ∀ c, c ∈ for_each_cpu M ((s.reserve_cpus \ s.our_isolated_cpus) \ E.thermal_cpus)
      ↔ c ∈ s.reserve_cpus := by
    intro c
    rw [mem_for_each_cpu, hour]
    simp only [Finset.sdiff_empty, Finset.mem_sdiff]
    constructor
    · intro h; exact h.2.1
    · intro h
      exact ⟨Finset.mem_range.mp (hr h), h, fun ht => (Finset.disjoint_left.mp hth) h ht⟩
  have hO : (isolate_reserve_loop E
      (for_each_cpu M ((s.reserve_cpus \ s.our_isolated_cpus) \ E.thermal_cpus)) s ∅).2 = ∅ := by
    ext c
    rw [c1 c]
    simp only [Finset.not_mem_empty, false_or, iff_false, not_and, not_not]
    intro h
    exact hon ((hl c).mp h)
  have hI1 : (isolate_reserve_loop E
      (for_each_cpu M ((s.reserve_cpus \ s.our_isolated_cpus) \ E.thermal_cpus)) s ∅).1.our_isolated_cpus
      = s.reserve_cpus := by
    ext c
    constructor
    · intro h
      rcases b1 c h with h' | h'
      · rw [hour] at h'; exact absurd h' (Finset.not_mem_empty c)
      · exact (hl c).mp h'.1
    · intro h
      exact d1 hI c ((hl c).mpr h) (hon h)
  have hiso : do_reservation_isolation M E s = ((isolate_reserve_loop E
      (for_each_cpu M ((s.reserve_cpus \ s.our_isolated_cpus) \ E.thermal_cpus)) s ∅).1, ∅) := by
    simp only [do_reservation_isolation]
    rw [hO, hI1, f1.reserve]
    simp
  have hres : hyp_core_ctl_do_reservation M E s = (isolate_reserve_loop E
      (for_each_cpu M ((s.reserve_cpus \ s.our_isolated_cpus) \ E.thermal_cpus)) s ∅).1 := by
    unfold hyp_core_ctl_do_reservation do_reservation_temp
    rw [hiso]
    simp only
    rw [finalize_noop]
    left
    rw [hI1, f1.final, hfin]
    simp
  rw [hres]
  exact ⟨f1, n1, hI1⟩

/-- With every un-isolate call succeeding `undo_reservation` leaves nothing isolated, and
it makes no hypercall. -/
theorem undo_reservation_plain (M : Machine) (E : Env) (s : State) (hU : UnisolateOK E)
    (hr : s.our_isolated_cpus ⊆ Finset.range M.nr_cpu_ids) :
    Frame s (hyp_core_ctl_undo_reservation M E s) ∧
    NoHcall s (hyp_core_ctl_undo_reservation M E s) ∧
    (hyp_core_ctl_undo_reservation M E s).our_isolated_cpus = ∅ := by
  obtain ⟨f, n, a, _, _, d, _⟩ := undo_reservation_loop_spec E
    (for_each_cpu M s.our_isolated_cpus) s
  refine ⟨f, n, ?_⟩
  rw [Finset.eq_empty_iff_forall_not_mem]
  intro c hc
  have hc' := a hc
  exact d hU c (mem_for_each_cpu.mpr ⟨Finset.mem_range.mp (hr hc'), hc'⟩) hc

/-- The state after `hyp_core_ctl_enable(b)` when the vcpu info is populated and `b` is
not the current `reservation_enabled`. -/
theorem enable_toggle (s : State) (b : Bool) (hpop : s.is_vcpu_info_populated = true)
    (hb : b ≠ s.reservation_enabled) :
    hyp_core_ctl_enable s b =
      { (if s.is_vpm_group_info_populated = true then
          if b = true then hh_del_suspend_timer s else hh_start_suspend_timer s
         else s) with reservation_enabled := b, pending := true }.log
        Event.wake_up_process := by
  unfold hyp_core_ctl_enable
  rw [if_neg (by simp [hpop]), if_neg hb]

/-- `hyp_core_ctl_enable(b)` when `b` is the current `reservation_enabled`. -/
theorem enable_same (s : State) : hyp_core_ctl_enable s s.reservation_enabled = s := by
  unfold hyp_core_ctl_enable
  by_cases h : s.is_vcpu_info_populated = false
  · rw [if_pos h]
  · rw [if_neg h, if_pos rfl]

/-- What `hyp_core_ctl_enable` does to the flags when the vcpu info is populated, and that
it makes no hypercall. -/
theorem enable_flags (s : State) (b : Bool) (hpop : s.is_vcpu_info_populated = true) :
    (hyp_core_ctl_enable s b).reservation_enabled = b ∧
    (hyp_core_ctl_enable s b).is_vcpu_info_populated = true ∧
    NoHcall s (hyp_core_ctl_enable s b) := by
  by_cases hb : b = s.reservation_enabled
  · subst hb
    rw [enable_same]
    exact ⟨rfl, hpop, NoHcall.none s⟩
  · rw [enable_toggle s b hpop hb]
    by_cases hw : s.is_vpm_group_info_populated = true
    · rw [if_pos hw]
      cases b
      · exact ⟨rfl, hpop,
          ⟨[Event.mod_timer s.sysctl_hh_suspend_timeout_ms, Event.wake_up_process],
            by simp [hh_start_suspend_timer, State.log], by simp [Event.is_affinity_set]⟩⟩
      · exact ⟨rfl, hpop, ⟨[Event.del_timer, Event.wake_up_process],
          by simp [hh_del_suspend_timer, State.log], by simp [Event.is_affinity_set]⟩⟩
    · rw [if_neg hw]
      exact ⟨rfl, hpop, ⟨[Event.wake_up_process], by simp [State.log],
        by simp [Event.is_affinity_set]⟩⟩

/-- A worker pass with the reservation enabled, from a state in which nothing is isolated
and `final_reserved_cpus` is `reserve_cpus`, in a calm environment. -/
theorem thread_enabled_plain (M : Machine) (E : Env) (s : State)
    (hE : CalmEnv E s.reserve_cpus) (hen : s.reservation_enabled = true)
    (hr : s.reserve_cpus ⊆ Finset.range M.nr_cpu_ids) (hour : s.our_isolated_cpus = ∅)
    (hfin : s.final_reserved_cpus = s.reserve_cpus) :
    (hyp_core_ctl_thread M E s).our_isolated_cpus = s.reserve_cpus ∧
    (hyp_core_ctl_thread M E s).final_reserved_cpus = s.reserve_cpus ∧
    (hyp_core_ctl_thread M E s).reserve_cpus = s.reserve_cpus ∧
    (hyp_core_ctl_thread M E s).reservation_enabled = true ∧
    (hyp_core_ctl_thread M E s).is_vcpu_info_populated = s.is_vcpu_info_populated ∧
    (hyp_core_ctl_thread M E s).cpumap = s.cpumap ∧
    NoHcall s (hyp_core_ctl_thread M E s) := by
  obtain ⟨hI, _, hon, hth⟩ := hE
  have hthr : hyp_core_ctl_thread M E s =
      hyp_core_ctl_do_reservation M E { s with pending := false } := by
    simp only [hyp_core_ctl_thread, hen, if_true]
  obtain ⟨f, n, ho⟩ := do_reservation_plain M E { s with pending := false } hI hon hth hr
    hour hfin
  rw [hthr]
  exact ⟨ho, by rw [f.final]; exact hfin, f.reserve, by rw [f.enabled]; exact hen,
    f.vcpu_info, f.cpumap, n⟩

/-- A worker pass with the reservation disabled, every un-isolate call succeeding. -/
theorem thread_disabled_plain (M : Machine) (E : Env) (s : State) (hU : UnisolateOK E)
    (hen : s.reservation_enabled = false)
    (hr : s.our_isolated_cpus ⊆ Finset.range M.nr_cpu_ids) :
    (hyp_core_ctl_thread M E s).our_isolated_cpus = ∅ ∧
    (hyp_core_ctl_thread M E s).final_reserved_cpus = s.final_reserved_cpus ∧
    (hyp_core_ctl_thread M E s).reserve_cpus = s.reserve_cpus ∧
    (hyp_core_ctl_thread M E s).reservation_enabled = false ∧
    (hyp_core_ctl_thread M E s).is_vcpu_info_populated = s.is_vcpu_info_populated ∧
    (hyp_core_ctl_thread M E s).cpumap = s.cpumap ∧
    NoHcall s (hyp_core_ctl_thread M E s) := by
  have hthr : hyp_core_ctl_thread M E s =
      hyp_core_ctl_undo_reservation M E { s with pending := false } := by
    simp only [hyp_core_ctl_thread, hen]
    simp
  obtain ⟨f, n, ho⟩ := undo_reservation_plain M E { s with pending := false } hU hr
  rw [hthr]
  exact ⟨ho, f.final, f.reserve, by rw [f.enabled]; exact hen, f.vcpu_info, f.cpumap, n⟩

/-- C11: from the freshly populated state, with every CPU of `reserve_cpus` online and not
throttled and every isolate and un-isolate call succeeding in each of the three worker
passes, the sequence enable, worker pass, disable, worker pass, enable, worker pass ends
with `final_reserved_cpus = reserve_cpus` and `our_isolated_cpus = reserve_cpus`
(`reserve_cpus` and the vcpu table being those of the start), and the calls made during
the sequence include no `vcpu_affinity_set` hypercall. -/
theorem c11_enable_disable_enable (M : Machine) (E1 E2 E3 : Env) (s : State)
    (hs : FreshlyPopulated M s) (h1 : CalmEnv E1 s.reserve_cpus)
    (h2 : CalmEnv E2 s.reserve_cpus) (h3 : CalmEnv E3 s.reserve_cpus) :
    (enable_disable_enable M E1 E2 E3 s).final_reserved_cpus = s.reserve_cpus ∧
    (enable_disable_enable M E1 E2 E3 s).our_isolated_cpus = s.reserve_cpus ∧
    (enable_disable_enable M E1 E2 E3 s).reserve_cpus = s.reserve_cpus ∧
    (enable_disable_enable M E1 E2 E3 s).cpumap = s.cpumap ∧
    ∃ new, (enable_disable_enable M E1 E2 E3 s).trace = s.trace ++ new ∧
      ∀ e ∈ new, Event.is_affinity_set e = false := by
  obtain ⟨hpop, hdis, hour, hfin, hr⟩ := hs
  -- enable
  obtain ⟨a1, a2, a3, a4⟩ := enable_frame s true
  obtain ⟨a5, a6, a7⟩ := enable_flags s true hpop
  -- worker pass
  obtain ⟨b1, b2, b3, b4, b5, b6, b7⟩ := thread_enabled_plain M E1 (hyp_core_ctl_enable s true)
    (by rw [a1]; exact h1) a5 (by rw [a1]; exact hr) (by rw [a2]; exact hour)
    (by rw [a3, a1]; exact hfin)
  rw [a1] at b1 b2 b3
  rw [a6] at b5
  rw [a4] at b6
  -- disable
  obtain ⟨c1, c2, c3, c4⟩ := enable_frame
    (hyp_core_ctl_thread M E1 (hyp_core_ctl_enable s true)) false
  obtain ⟨c5, c6, c7⟩ := enable_flags
    (hyp_core_ctl_thread M E1 (hyp_core_ctl_enable s true)) false b5
  rw [b3] at c1
  rw [b1] at c2
  rw [b2] at c3
  rw [b6] at c4
  -- worker pass
  obtain ⟨d1, d2, d3, d4, d5, d6, d7⟩ := thread_disabled_plain M E2
    (hyp_core_ctl_enable (hyp_core_ctl_thread M E1 (hyp_core_ctl_enable s true)) false)
    h2.2.1 c5 (by rw [c2]; exact hr)
  rw [c3] at d2
  rw [c1] at d3
  rw [c6] at d5
  rw [c4] at d6
  -- enable
  obtain ⟨e1, e2, e3, e4⟩ := enable_frame (hyp_core_ctl_thread M E2
    (hyp_core_ctl_enable (hyp_core_ctl_thread M E1 (hyp_core_ctl_enable s true)) false)) true
  obtain ⟨e5, e6, e7⟩ := enable_flags (hyp_core_ctl_thread M E2
    (hyp_core_ctl_enable (hyp_core_ctl_thread M E1 (hyp_core_ctl_enable s true)) false)) true d5
  rw [d3] at e1
  rw [d1] at e2
  rw [d2] at e3
  rw [d6] at e4
  -- worker pass
  obtain ⟨g1, g2, g3, _, _, g6, g7⟩ := thread_enabled_plain M E3
    (hyp_core_ctl_enable (hyp_core_ctl_thread M E2
      (hyp_core_ctl_enable (hyp_core_ctl_thread M E1 (hyp_core_ctl_enable s true)) false))
      true)
    (by rw [e1]; exact h3) e5 (by rw [e1]; exact hr) e2 (by rw [e3, e1])
  rw [e1] at g1 g2 g3
  rw [e4] at g6
  exact ⟨g2, g1, g3, g6, ((((a7.append b7).append c7).append d7).append e7).append g7⟩

theorem c11_enable_disable_enable_witness :
    FreshlyPopulated M8 fresh45 ∧ CalmEnv (okEnv ∅) fresh45.reserve_cpus ∧
    (enable_disable_enable M8 (okEnv ∅) (okEnv ∅) (okEnv ∅) fresh45).final_reserved_cpus =
      {4, 5} ∧
    (enable_disable_enable M8 (okEnv ∅) (okEnv ∅) (okEnv ∅) fresh45).our_isolated_cpus =
      {4, 5} ∧
    (enable_disable_enable M8 (okEnv ∅) (okEnv ∅) (okEnv ∅) fresh45).final_reserved_cpus =
      fresh45.reserve_cpus :=
  ⟨by unfold FreshlyPopulated; decide,
   ⟨fun _ _ => le_refl _, fun _ _ => le_refl _, by decide, by decide⟩,
   by decide, by decide,
   (c11_enable_disable_enable M8 (okEnv ∅) (okEnv ∅) (okEnv ∅) fresh45
     (by unfold FreshlyPopulated; decide)
     ⟨fun _ _ => le_refl _, fun _ _ => le_refl _, by decide, by decide⟩
     ⟨fun _ _ => le_refl _, fun _ _ => le_refl _, by decide, by decide⟩
     ⟨fun _ _ => le_refl _, fun _ _ => le_refl _, by decide, by decide⟩).1⟩

/-! ## C10: re-targeting the reservation -/

theorem do_reservation_keeps_info (M : Machine) (E : Env) (s : State) :
    (hyp_core_ctl_do_reservation M E s).is_vcpu_info_populated =
      s.is_vcpu_info_populated := by
  obtain ⟨f, _⟩ := do_reservation_isolation_spec M E s
  unfold hyp_core_ctl_do_reservation
  rw [(finalize_frame M E _ _).2.2.2.2.2.2.2, f.vcpu_info]

theorem handle_thermal_keeps_info (M : Machine) (E : Env) (s : State) (cpu : Nat)
    (b : Bool) :
    (hyp_core_ctl_handle_thermal M E s cpu b).is_vcpu_info_populated =
      s.is_vcpu_info_populated := by
  simp only [hyp_core_ctl_handle_thermal]
  split_ifs <;> first | rfl | exact (finalize_frame M E _ _).2.2.2.2.2.2.2

theorem cooling_cb_keeps_info (M : Machine) (E : Env) (s : State) (val : Bool) (cpu : Nat) :
    (hyp_core_ctl_cpu_cooling_cb M E s val cpu).is_vcpu_info_populated =
      s.is_vcpu_info_populated := by
  have hkick : ∀ t : State, (cooling_cb_kick M E t cpu val).is_vcpu_info_populated =
      t.is_vcpu_info_populated := by
    intro t
    simp only [cooling_cb_kick]
    split_ifs
    · rfl
    · exact handle_thermal_keeps_info M E t cpu val
  obtain ⟨f, _⟩ := unisolate_log_spec E s cpu
  simp only [hyp_core_ctl_cpu_cooling_cb]
  split_ifs <;> first | rfl | exact hkick _ | exact (hkick _).trans f.vcpu_info

theorem thread_keeps_info (M : Machine) (E : Env) (s : State) :
    (hyp_core_ctl_thread M E s).is_vcpu_info_populated = s.is_vcpu_info_populated := by
  simp only [hyp_core_ctl_thread]
  split_ifs
  · exact do_reservation_keeps_info M E _
  · obtain ⟨f, _⟩ := undo_reservation_loop_spec E
      (for_each_cpu M s.our_isolated_cpus) { s with pending := false }
    exact f.vcpu_info

theorem enable_keeps_info (s : State) (b : Bool) :
    (hyp_core_ctl_enable s b).is_vcpu_info_populated = s.is_vcpu_info_populated := by
  simp only [hyp_core_ctl_enable, hh_del_suspend_timer, hh_start_suspend_timer, State.log]
  split_ifs <;> rfl

/-- The vcpu info stays populated. -/
theorem reachable_info {M : Machine} {good : Env → Prop} {lists : cpumask → Prop}
    {s : State} (h : Reachable M good lists s) : s.is_vcpu_info_populated = true := by
  induction h with
  | populated hp => exact hp.2.2.2.2.2.2.2.2
  | enable b _ ih => rw [enable_keeps_info]; exact ih
  | do_reservation E _ _ ih => rw [do_reservation_keeps_info]; exact ih
  | undo_reservation E _ _ ih =>
    obtain ⟨f, _⟩ := undo_reservation_loop_spec E (for_each_cpu M _) _
    exact f.vcpu_info.trans ih
  | handle_thermal E cpu throttled _ _ _ ih => rw [handle_thermal_keeps_info]; exact ih
  | cooling_cb E val cpu _ _ _ ih => rw [cooling_cb_keeps_info]; exact ih
  | thread E _ _ ih => rw [thread_keeps_info]; exact ih
  | write_reserve_cpus w count _ _ ih =>
    rcases write_reserve_cpus_cases _ w count with e | ⟨_, _, e⟩
    · rw [e]; exact ih
    · rw [e]; exact ih
  | hp_offline E cpu _ _ ih => exact (hp_offline_frame E _ cpu).1.vcpu_info.trans ih
  | hp_online cpu _ ih => exact (hp_online_frame _ cpu).1.vcpu_info.trans ih

/-- C10: re-targeting the reservation, from a state reached after population with every
hypercall succeeding.  With the reservation disabled and `our_isolated_cpus` empty, the
write to `reserve_cpus` of a list `R` of possible CPUs, of weight `nr_vcpus`, that holds no
vcpu's original or current CPU, is accepted; enabling and running one worker pass (all
CPUs of `R` online and not throttled, all calls succeeding) then issues exactly one
hypercall per vcpu, pins the vcpu with the k-th smallest index to the k-th smallest CPU of
`R`, and leaves `final_reserved_cpus = our_isolated_cpus = R`. -/
theorem c10_retarget (M : Machine) (E : Env) (s : State) (R : cpumask) (count : Nat)
    (hs : Reachable M HcallOK (PossibleList M) s) (hdis : s.reservation_enabled = false)
    (hiso : s.our_isolated_cpus = ∅) (hw : R.card = s.cpumap.length)
    (hRP : R ⊆ M.cpu_possible_mask)
    (hfresh : ∀ m ∈ s.cpumap, m.pcpu ∉ R ∧ m.curr_pcpu ∉ R) (hE : RetargetEnv E R) :
    (write_reserve_cpus s (cpulist R) count).2 = count ∧
    (write_reserve_cpus s (cpulist R) count).1.reserve_cpus = R ∧
    (enable_and_pass M E (write_reserve_cpus s (cpulist R) count).1).cpumap.map
      hyp_core_ctl_cpu_map.curr_pcpu = R.sort (· ≤ ·) ∧
    List.Forall₂ SameVcpu s.cpumap
      (enable_and_pass M E (write_reserve_cpus s (cpulist R) count).1).cpumap ∧
    (enable_and_pass M E (write_reserve_cpus s (cpulist R) count).1).final_reserved_cpus = R ∧
    (enable_and_pass M E (write_reserve_cpus s (cpulist R) count).1).our_isolated_cpus = R ∧
    ∃ new, (enable_and_pass M E (write_reserve_cpus s (cpulist R) count).1).trace =
        s.trace ++ new ∧
      new.filter Event.is_affinity_set =
        List.zipWith (fun m r => Event.affinity_set m.cap_id r HH_ERROR_OK) s.cpumap
          (R.sort (· ≤ ·)) := by
  have hm := reachable_masks hs
  have ht := reachable_table (hs.lists_mono (fun R hR => hR.trans hm.1))
  have hpop := reachable_info hs
  have hwr : write_reserve_cpus s (cpulist R) count =
      ({ s with reserve_cpus := R }, (count : Int)) := by
    unfold write_reserve_cpus cpulist
    rw [if_neg (by simp [hpop]), if_neg (by simp), if_neg (by simp),
      if_neg (by rw [not_not, hw, ht.1.2.2.1]), if_neg (by simp [hdis])]
  rw [hwr]
  refine ⟨rfl, rfl, ?_⟩
  show (enable_and_pass M E { s with reserve_cpus := R }).cpumap.map
      hyp_core_ctl_cpu_map.curr_pcpu = R.sort (· ≤ ·) ∧
    List.Forall₂ SameVcpu s.cpumap (enable_and_pass M E { s with reserve_cpus := R }).cpumap ∧
    (enable_and_pass M E { s with reserve_cpus := R }).final_reserved_cpus = R ∧
    (enable_and_pass M E { s with reserve_cpus := R }).our_isolated_cpus = R ∧
    ∃ new, (enable_and_pass M E { s with reserve_cpus := R }).trace = s.trace ++ new ∧
      new.filter Event.is_affinity_set =
        List.zipWith (fun m r => Event.affinity_set m.cap_id r HH_ERROR_OK) s.cpumap
          (R.sort (· ≤ ·))
  by_cases hfinal : s.final_reserved_cpus = R
  · -- no vcpu at all: every vcpu is on a CPU of `final_reserved_cpus`, none on a CPU of `R`
    have hnil : s.cpumap = [] := by
      cases hc : s.cpumap with
      | nil => rfl
      | cons m ms =>
        have hmem : m ∈ s.cpumap := by rw [hc]; exact List.mem_cons_self _ _
        exact absurd (hfinal ▸ ht.2 m hmem) (hfresh m hmem).2
    have hR : R = ∅ := by
      rw [← Finset.card_eq_zero, hw, hnil]
      rfl
    obtain ⟨hI, _, _, hon, hcool⟩ := hE
    obtain ⟨x1, x2, x3, x4⟩ := enable_frame { s with reserve_cpus := R } true
    obtain ⟨y1, _, y3⟩ := enable_true_spec { s with reserve_cpus := R } hpop hdis
    have hpass : enable_and_pass M E { s with reserve_cpus := R } =
        hyp_core_ctl_do_reservation M E
          { hyp_core_ctl_enable { s with reserve_cpus := R } true with pending := false } := by
      show hyp_core_ctl_thread M E _ = _
      simp only [hyp_core_ctl_thread]
      rw [if_pos (show ({ hyp_core_ctl_enable { s with reserve_cpus := R } true with
        pending := false } : State).reservation_enabled = true from y1)]
    obtain ⟨f, n, ho⟩ := do_reservation_plain M E
      { hyp_core_ctl_enable { s with reserve_cpus := R } true with pending := false } hI
      (by show (hyp_core_ctl_enable { s with reserve_cpus := R } true).reserve_cpus ⊆ _
          rw [x1]; exact hon)
      (by show Disjoint (hyp_core_ctl_enable { s with reserve_cpus := R } true).reserve_cpus _
          rw [x1]; exact hcool)
      (by show (hyp_core_ctl_enable { s with reserve_cpus := R } true).reserve_cpus ⊆ _
          rw [x1]; exact hRP.trans hm.1)
      (by show (hyp_core_ctl_enable { s with reserve_cpus := R } true).our_isolated_cpus = _
          rw [x2]; exact hiso)
      (by show (hyp_core_ctl_enable { s with reserve_cpus := R } true).final_reserved_cpus =
            (hyp_core_ctl_enable { s with reserve_cpus := R } true).reserve_cpus
          rw [x1, x3]; exact hfinal)
    rw [hpass]
    have hcm : (hyp_core_ctl_do_reservation M E
        { hyp_core_ctl_enable { s with reserve_cpus := R } true with
          pending := false }).cpumap = [] := by
      rw [f.cpumap]
      show (hyp_core_ctl_enable { s with reserve_cpus := R } true).cpumap = []
      rw [x4]; exact hnil
    refine ⟨?_, ?_, ?_, ?_, ?_⟩
    · rw [hcm, hR]; simp
    · rw [hcm, hnil]; exact List.Forall₂.nil
    · rw [f.final]
      show (hyp_core_ctl_enable { s with reserve_cpus := R } true).final_reserved_cpus = R
      rw [x3]; exact hfinal
    · rw [ho]
      show (hyp_core_ctl_enable { s with reserve_cpus := R } true).reserve_cpus = R
      rw [x1]
    · obtain ⟨n1, t1, q1⟩ := y3
      obtain ⟨n2, t2, q2⟩ := n
      refine ⟨n1 ++ n2, ?_, ?_⟩
      · rw [t2]
        show (hyp_core_ctl_enable { s with reserve_cpus := R } true).trace ++ n2 = _
        rw [t1, List.append_assoc]
      · rw [hnil, List.filter_append]
        have z1 : n1.filter Event.is_affinity_set = [] := by
          rw [List.filter_eq_nil_iff]
          intro e he
          simp [q1 e he]
        have z2 : n2.filter Event.is_affinity_set = [] := by
          rw [List.filter_eq_nil_iff]
          intro e he
          simp [q2 e he]
        rw [z1, z2]
        rfl
  · exact retarget_pass M E { s with reserve_cpus := R } R
      ⟨hm.1, ht.1.1, ht.1.2.1, hpop, hdis, hiso, rfl, hw, hRP, hfresh, hfinal⟩ hE

/-- C10 on scenario 6: the list 6-7 is written to `reserve_cpus` of the fresh table of
scenario 1; enable and one pass move vcpu 101 to CPU 6 and vcpu 102 to CPU 7. -/
theorem c10_retarget_witness :
    Reachable M8 HcallOK (PossibleList M8) fresh45 ∧ fresh45.reservation_enabled = false ∧
    fresh45.our_isolated_cpus = ∅ ∧ ({6, 7} : cpumask).card = fresh45.cpumap.length ∧
    ({6, 7} : cpumask) ⊆ M8.cpu_possible_mask ∧
    (∀ m ∈ fresh45.cpumap, m.pcpu ∉ ({6, 7} : cpumask) ∧ m.curr_pcpu ∉ ({6, 7} : cpumask)) ∧
    RetargetEnv (okEnv ∅) {6, 7} ∧
    (write_reserve_cpus fresh45 (cpulist {6, 7}) 4).2 = 4 ∧
    (enable_and_pass M8 (okEnv ∅)
      (write_reserve_cpus fresh45 (cpulist {6, 7}) 4).1).cpumap.map
        hyp_core_ctl_cpu_map.curr_pcpu = Finset.sort (· ≤ ·) {6, 7} ∧
    (enable_and_pass M8 (okEnv ∅)
      (write_reserve_cpus fresh45 (cpulist {6, 7}) 4).1).cpumap.map
        hyp_core_ctl_cpu_map.curr_pcpu = [6, 7] ∧
    (enable_and_pass M8 (okEnv ∅)
      (write_reserve_cpus fresh45 (cpulist {6, 7}) 4).1).final_reserved_cpus = {6, 7} ∧
    ((enable_and_pass M8 (okEnv ∅)
      (write_reserve_cpus fresh45 (cpulist {6, 7}) 4).1).trace.drop
        fresh45.trace.length).filter Event.is_affinity_set =
      [Event.affinity_set 101 6 0, Event.affinity_set 102 7 0] := by
  have h2 : RetargetEnv (okEnv ∅) {6, 7} :=
    ⟨fun _ _ => le_refl _, fun _ _ => le_refl _, fun _ _ _ => rfl, by decide, by decide⟩
  have h3 := c10_retarget M8 (okEnv ∅) fresh45 {6, 7} 4
    (Reachable.populated populated_fresh45) (by decide) (by decide) (by decide) (by decide)
    (by decide) h2
  exact ⟨Reachable.populated populated_fresh45, by decide, by decide, by decide, by decide,
    by decide, h2, h3.1, h3.2.2.1, by decide, h3.2.2.2.2.1, by decide⟩

/-! ## C12: population of the vcpu table -/

/-- The records appended by `populate_all` while the driver is probed and the vcpu info
is not yet populated. -/
theorem populate_all_spec (pairs : List (Nat × Nat)) :
    ∀ (s : State), s.init_done = true → s.is_vcpu_info_populated = false →
      populate_all s pairs =
        { s with hh_cpumap := s.hh_cpumap ++
            pairs.map (fun p => (⟨p.2, p.1, p.1⟩ : hyp_core_ctl_cpu_map)) } := by
  induction pairs with
  | nil => intro s _ _; simp [populate_all]
  | cons p ps ih =>
    intro s h1 h2
    have hstep : (hh_vcpu_populate_affinity_info s p.1 p.2).1 =
        { s with hh_cpumap := s.hh_cpumap ++ [⟨p.2, p.1, p.1⟩] } := by
      simp [hh_vcpu_populate_affinity_info, h1, h2]
    have : populate_all s (p :: ps) =
        populate_all (hh_vcpu_populate_affinity_info s p.1 p.2).1 ps := rfl
    rw [this, hstep, ih { s with hh_cpumap := s.hh_cpumap ++ [⟨p.2, p.1, p.1⟩] } h1 h2]
    simp

/-- The loop of `hyp_core_ctl_init_reserve_cpus` over records with non-zero `cap_id` that
all lie below `MAX_RESERVE_CPUS`: every record is copied and the bit of its `pcpu` set. -/
theorem init_reserve_cpus_loop_all (M : Machine) :
    ∀ (hs : List hyp_core_ctl_cpu_map) (i : Nat) (R : cpumask),
      (∀ h ∈ hs, h.cap_id ≠ 0) → i + hs.length ≤ MAX_RESERVE_CPUS M →
      init_reserve_cpus_loop M i hs R =
        (hs, R ∪ (hs.map hyp_core_ctl_cpu_map.pcpu).toFinset) := by
  intro hs
  induction hs with
  | nil => intro i R _ _; simp [init_reserve_cpus_loop]
  | cons h hs ih =>
    intro i R hcap hlen
    have h1 : ¬ MAX_RESERVE_CPUS M ≤ i := by
      simp only [List.length_cons] at hlen
      omega
    have h2 : h.cap_id ≠ 0 := hcap h (List.mem_cons_self _ _)
    simp only [init_reserve_cpus_loop, h1, h2, if_false]
    rw [ih (i + 1) (insert h.pcpu R) (fun x hx => hcap x (List.mem_cons_of_mem _ hx))
      (by simp only [List.length_cons] at hlen; omega)]
    simp only [List.map_cons, List.toFinset_cons, Prod.mk.injEq, true_and]
    ext c
    simp only [Finset.mem_union, Finset.mem_insert]
    tauto

/-- The state after the RUNNING notification that follows the populate calls for `pairs`,
when the pairs are at most `MAX_RESERVE_CPUS` and none has `cap_id` 0. -/
theorem population_spec (M : Machine) (s : State) (pairs : List (Nat × Nat))
    (hinit : s.init_done = true) (hpop : s.is_vcpu_info_populated = false)
    (hempty : s.hh_cpumap = []) (htab : s.cpumap = [])
    (hcap : ∀ p ∈ pairs, p.2 ≠ 0) (hlen : pairs.length ≤ MAX_RESERVE_CPUS M) :
    hh_vcpu_done_populate_affinity_info M (populate_all s pairs) true =
      { s with
        hh_cpumap := pairs.map (fun p => (⟨p.2, p.1, p.1⟩ : hyp_core_ctl_cpu_map)),
        cpumap := pairs.map (fun p => (⟨p.2, p.1, p.1⟩ : hyp_core_ctl_cpu_map)),
        reserve_cpus := (pairs.map Prod.fst).toFinset,
        final_reserved_cpus := (pairs.map Prod.fst).toFinset,
        is_vcpu_info_populated := true } := by
  rw [populate_all_spec pairs s hinit hpop]
  have hloop := init_reserve_cpus_loop_all M
    (pairs.map (fun p => (⟨p.2, p.1, p.1⟩ : hyp_core_ctl_cpu_map))) 0 ∅
    (by
      intro h hh
      obtain ⟨p, hp, rfl⟩ := List.mem_map.mp hh
      exact hcap p hp)
    (by simpa using hlen)
  have hmap : (pairs.map (fun p => (⟨p.2, p.1, p.1⟩ : hyp_core_ctl_cpu_map))).map
      hyp_core_ctl_cpu_map.pcpu = pairs.map Prod.fst := by
    rw [List.map_map]
    rfl
  rw [hmap, Finset.empty_union] at hloop
  simp only [hh_vcpu_done_populate_affinity_info, hpop, and_self, if_true,
    hyp_core_ctl_init_reserve_cpus, hempty, List.nil_append, hloop, htab, List.drop_nil,
    List.append_nil]

/-- C12, as stated, fails: on the machine with 8 possible CPUs, where `MAX_RESERVE_CPUS`
is 4, five populate calls for CPUs 0 to 4 append five records, and after the RUNNING
notification the vcpu table holds four of them and `reserve_cpus` is {0, 1, 2, 3}, not the
set {0, 1, 2, 3, 4} of the original CPUs of the records appended. -/
theorem c12_counterexample :
    probed.init_done = true ∧ probed.is_vcpu_info_populated = false ∧
    (populate_all probed fiveVcpus).hh_cpumap.map hyp_core_ctl_cpu_map.pcpu =
      [0, 1, 2, 3, 4] ∧
    (hh_vcpu_done_populate_affinity_info M8 (populate_all probed fiveVcpus)
      true).reserve_cpus = {0, 1, 2, 3} ∧
    (hh_vcpu_done_populate_affinity_info M8 (populate_all probed fiveVcpus)
      true).reserve_cpus ≠
      ((populate_all probed fiveVcpus).hh_cpumap.map hyp_core_ctl_cpu_map.pcpu).toFinset ∧
    (hh_vcpu_done_populate_affinity_info M8 (populate_all probed fiveVcpus)
      true).cpumap.length = 4 := by
  refine ⟨rfl, rfl, ?_, ?_, ?_, ?_⟩ <;> decide

/-- C12, amended: when the driver is probed and no vcpu is known yet, for every sequence
of at most `MAX_RESERVE_CPUS` pairs `(cpu_idx, cap_id)` with `cap_id` not 0 and `cpu_idx`
below `nr_cpu_ids` passed to `hh_vcpu_populate_affinity_info` before the first RUNNING
notification, after that notification the vcpu table holds one record per pair, in
order, with `pcpu_current = pcpu_original = cpu_idx`, `reserve_cpus` is the set of the
`pcpu_original` of these records (CPU numbers below `nr_cpu_ids`),
`final_reserved_cpus` equals `reserve_cpus`, and `is_vcpu_info_populated` is true. -/
theorem c12_population_freeze (M : Machine) (s : State) (pairs : List (Nat × Nat))
    (hinit : s.init_done = true) (hpop : s.is_vcpu_info_populated = false)
    (hempty : s.hh_cpumap = []) (htab : s.cpumap = [])
    (hcap : ∀ p ∈ pairs, p.2 ≠ 0) (hlen : pairs.length ≤ MAX_RESERVE_CPUS M)
    (hcpu : ∀ p ∈ pairs, p.1 < M.nr_cpu_ids) :
    (hh_vcpu_done_populate_affinity_info M (populate_all s pairs) true).cpumap =
      pairs.map (fun p => (⟨p.2, p.1, p.1⟩ : hyp_core_ctl_cpu_map)) ∧
    (hh_vcpu_done_populate_affinity_info M (populate_all s pairs) true).reserve_cpus =
      ((hh_vcpu_done_populate_affinity_info M (populate_all s pairs) true).cpumap.map
        hyp_core_ctl_cpu_map.pcpu).toFinset ∧
    (hh_vcpu_done_populate_affinity_info M (populate_all s pairs) true).reserve_cpus =
      (pairs.map Prod.fst).toFinset ∧
    (hh_vcpu_done_populate_affinity_info M (populate_all s pairs) true).reserve_cpus ⊆
      Finset.range M.nr_cpu_ids ∧
    (hh_vcpu_done_populate_affinity_info M (populate_all s pairs) true).final_reserved_cpus =
      (hh_vcpu_done_populate_affinity_info M (populate_all s pairs) true).reserve_cpus ∧
    (hh_vcpu_done_populate_affinity_info M (populate_all s pairs)
      true).is_vcpu_info_populated = true := by
  rw [population_spec M s pairs hinit hpop hempty htab hcap hlen]
  refine ⟨rfl, ?_, rfl, ?_, rfl, rfl⟩
  · simp only [List.map_map]
    rfl
  · intro c hc
    simp only [List.mem_toFinset, List.mem_map] at hc
    obtain ⟨p, hp, rfl⟩ := hc
    exact Finset.mem_range.mpr (hcpu p hp)

theorem c12_population_freeze_witness :
    probed.init_done = true ∧ probed.is_vcpu_info_populated = false ∧
    probed.hh_cpumap = [] ∧ probed.cpumap = [] ∧
    (∀ p ∈ [(4, 101), (5, 102)], p.2 ≠ 0) ∧
    [(4, 101), (5, 102)].length ≤ MAX_RESERVE_CPUS M8 ∧
    (∀ p ∈ [(4, 101), (5, 102)], p.1 < M8.nr_cpu_ids) ∧
    (hh_vcpu_done_populate_affinity_info M8 (populate_all probed [(4, 101), (5, 102)])
      true).cpumap = [⟨101, 4, 4⟩, ⟨102, 5, 5⟩] ∧
    (hh_vcpu_done_populate_affinity_info M8 (populate_all probed [(4, 101), (5, 102)])
      true).reserve_cpus = {4, 5} :=
  ⟨rfl, rfl, rfl, rfl, by decide, by decide, by decide,
   (c12_population_freeze M8 probed [(4, 101), (5, 102)] rfl rfl rfl rfl (by decide)
     (by decide) (by decide)).1, by decide⟩

/-- C14, as stated, fails: in the populated state of scenario 1, with the reservation
disabled, the write of the well-formed list `4`, one CPU for two vcpus, is rejected with
`-EINVAL`, not `-EPERM`. -/
theorem c14_counterexample :
    fresh45.is_vcpu_info_populated = true ∧ nr_vcpus fresh45 = 2 ∧
    fresh45.reserve_cpus.card = 2 ∧ ({4} : cpumask).card ≠ nr_vcpus fresh45 ∧
    (write_reserve_cpus fresh45 (cpulist {4}) 2).2 = -EINVAL ∧
    (write_reserve_cpus fresh45 (cpulist {4}) 2).2 ≠ -EPERM := by
  refine ⟨?_, ?_, ?_, ?_, ?_, ?_⟩ <;> decide

/-- C14, amended: for a write of a well-formed list with the vcpu info populated, the
error returned is `-EINVAL` when the weight of the written set differs from the weight
of `reserve_cpus`, whether the reservation is enabled or not, and `-EPERM` when the
weights agree and the reservation is enabled. -/
theorem c14_write_errors (s : State) (w : CpulistWrite) (count : Nat)
    (hpop : s.is_vcpu_info_populated = true) (hcopy : 0 ≤ w.copied)
    (hparse : 0 ≤ w.parse_ret) :
    (w.temp_mask.card ≠ s.reserve_cpus.card →
      (write_reserve_cpus s w count).2 = -EINVAL) ∧
    (w.temp_mask.card = s.reserve_cpus.card → s.reservation_enabled = true →
      (write_reserve_cpus s w count).2 = -EPERM) := by
  have h1 : ¬ s.is_vcpu_info_populated = false := by simp [hpop]
  have h2 : ¬ w.copied < 0 := not_lt.mpr hcopy
  have h3 : ¬ w.parse_ret < 0 := not_lt.mpr hparse
  unfold write_reserve_cpus
  rw [if_neg h1, if_neg h2, if_neg h3]
  constructor
  · intro h
    rw [if_pos h]
  · intro h he
    rw [if_neg (not_not.mpr h), if_pos he]

theorem c14_write_errors_witness :
    enabled45.is_vcpu_info_populated = true ∧ 0 ≤ (cpulist {4}).copied ∧
    0 ≤ (cpulist {4}).parse_ret ∧ ({4} : cpumask).card ≠ enabled45.reserve_cpus.card ∧
    (write_reserve_cpus enabled45 (cpulist {4}) 2).2 = -EINVAL ∧
    ({6, 7} : cpumask).card = enabled45.reserve_cpus.card ∧
    enabled45.reservation_enabled = true ∧
    (write_reserve_cpus enabled45 (cpulist {6, 7}) 4).2 = -EPERM :=
  ⟨by decide, by decide, by decide, by decide,
   (c14_write_errors enabled45 (cpulist {4}) 2 (by decide) (by decide) (by decide)).1
     (by decide),
   by decide, by decide, by decide⟩

/-! ## C15: writes to `enable` before population -/

/-- C15 fails in the code: before the vcpu info is populated, the writes of `1` and of `0`
to `enable` leave the state as it is but return the byte count, not an error, while the
write to `reserve_cpus` in the same state, which makes the same test, returns `-EPERM`. -/
theorem c15_counterexample :
    probed.is_vcpu_info_populated = false ∧
    (enable_store probed 0 true 2).2 = 2 ∧ ¬ (enable_store probed 0 true 2).2 < 0 ∧
    (enable_store probed 0 false 2).2 = 2 ∧ ¬ (enable_store probed 0 false 2).2 < 0 ∧
    (enable_store probed 0 true 2).1.reservation_enabled = probed.reservation_enabled ∧
    (enable_store probed 0 true 2).1.pending = probed.pending ∧
    (enable_store probed 0 true 2).1.trace = probed.trace ∧
    (write_reserve_cpus probed (cpulist {4}) 2).2 = -EPERM := by
  refine ⟨?_, ?_, ?_, ?_, ?_, ?_, ?_, ?_, ?_⟩ <;> decide

/-! ## C16: enable and disable -/

/-- C16: `hyp_core_ctl_enable(b)` with the vcpu info populated.  If `b` is the current
`reservation_enabled` the state is unchanged (`pending`, the suspend timer and the trace
included).  Otherwise `reservation_enabled` becomes `b`, `pending` becomes true and the
worker is woken; when the VPM group is wired the suspend timer is cancelled (`del_timer`)
for `b = true` and armed for `sysctl_hh_suspend_timeout_ms` (`mod_timer`) for `b = false`,
and when it is not wired the timer is not touched.  In both cases `reserve_cpus`,
`final_reserved_cpus`, `our_isolated_cpus` and the vcpu table are unchanged. -/
theorem c16_enable (s : State) (b : Bool) (hpop : s.is_vcpu_info_populated = true) :
    (b = s.reservation_enabled → hyp_core_ctl_enable s b = s) ∧
    (b ≠ s.reservation_enabled →
      (hyp_core_ctl_enable s b).reservation_enabled = b ∧
      (hyp_core_ctl_enable s b).pending = true ∧
      (s.is_vpm_group_info_populated = true → b = true →
        (hyp_core_ctl_enable s b).hh_suspend_timer_pending = false ∧
        (hyp_core_ctl_enable s b).trace =
          s.trace ++ [Event.del_timer, Event.wake_up_process]) ∧
      (s.is_vpm_group_info_populated = true → b = false →
        (hyp_core_ctl_enable s b).hh_suspend_timer_pending = true ∧
        (hyp_core_ctl_enable s b).trace =
          s.trace ++ [Event.mod_timer s.sysctl_hh_suspend_timeout_ms,
            Event.wake_up_process]) ∧
      (s.is_vpm_group_info_populated = false →
        (hyp_core_ctl_enable s b).hh_suspend_timer_pending = s.hh_suspend_timer_pending ∧
        (hyp_core_ctl_enable s b).trace = s.trace ++ [Event.wake_up_process])) ∧
    (hyp_core_ctl_enable s b).reserve_cpus = s.reserve_cpus ∧
    (hyp_core_ctl_enable s b).final_reserved_cpus = s.final_reserved_cpus ∧
    (hyp_core_ctl_enable s b).our_isolated_cpus = s.our_isolated_cpus ∧
    (hyp_core_ctl_enable s b).cpumap = s.cpumap := by
  obtain ⟨e1, e2, e3, e4⟩ := enable_frame s b
  refine ⟨?_, ?_, e1, e3, e2, e4⟩
  · intro hb
    rw [hb]
    exact enable_same s
  · intro hb
    rw [enable_toggle s b hpop hb]
    refine ⟨rfl, rfl, ?_, ?_, ?_⟩
    · intro hw hb'
      rw [if_pos hw, if_pos hb']
      simp [hh_del_suspend_timer, State.log]
    · intro hw hb'
      rw [if_pos hw, if_neg (by simp [hb'])]
      simp [hh_start_suspend_timer, State.log]
    · intro hw
      rw [if_neg (by simp [hw])]
      simp [State.log]

theorem c16_enable_witness :
    fresh45.is_vcpu_info_populated = true ∧
    (hyp_core_ctl_enable fresh45 true).reservation_enabled = true ∧
    (hyp_core_ctl_enable fresh45 true).pending = true ∧
    (hyp_core_ctl_enable fresh45 true).trace = [Event.wake_up_process] ∧
    hyp_core_ctl_enable fresh45 false = fresh45 ∧
    (hyp_core_ctl_enable { fresh45 with is_vpm_group_info_populated := true }
      true).hh_suspend_timer_pending = false ∧
    (hyp_core_ctl_enable { fresh45 with is_vpm_group_info_populated := true } true).trace =
      [Event.del_timer, Event.wake_up_process] ∧
    (hyp_core_ctl_enable { enabled45 with is_vpm_group_info_populated := true }
      false).hh_suspend_timer_pending = true :=
  ⟨rfl,
   ((c16_enable fresh45 true rfl).2.1 (by decide)).1,
   ((c16_enable fresh45 true rfl).2.1 (by decide)).2.1,
   by decide,
   (c16_enable fresh45 false rfl).1 (by decide),
   (((c16_enable { fresh45 with is_vpm_group_info_populated := true } true rfl).2.1
     (by decide)).2.2.1 rfl rfl).1,
   by decide,
   (((c16_enable { enabled45 with is_vpm_group_info_populated := true } false
     (by decide)).2.1 (by decide)).2.2.2.1 rfl rfl).1⟩

/-! ## C17: the lock order -/

/-- C17, as stated, fails: the hotplug-offline callback does not take the spinlock, not
even on the path on which it clears the bit of the CPU in `our_isolated_cpus` (here CPU 4
in scenario 1, the reservation enabled). -/
theorem c17_counterexample :
    enabled45.reservation_enabled = true ∧ 4 ∈ enabled45.our_isolated_cpus ∧
    LockOp.spin_lock_irqsave ∉ hyp_core_ctl_hp_offline_locks enabled45 4 := by
  refine ⟨?_, ?_, ?_⟩ <;> decide

/-- C17, amended: on every path of the worker, the thermal notifier, the population
notifier, enable, the writes to `enable`, `hcc_min_freq` and `reserve_cpus`, the read of
`status`, the hotplug callbacks and the IRQ handler, the reservation mutex is never
acquired while the spinlock is held (where both are held the mutex was acquired first);
the IRQ handler and the hotplug-online callback take the spinlock and never the mutex;
the hotplug-offline callback takes no lock at all. -/
theorem c17_lock_order :
    (∀ s should_stop, LockOrder (hyp_core_ctl_thread_locks s should_stop)) ∧
    (∀ E s val cpu, LockOrder (hyp_core_ctl_cpu_cooling_cb_locks E s val cpu)) ∧
    (∀ s running, LockOrder (hh_vcpu_done_populate_affinity_info_locks s running)) ∧
    (∀ s, LockOrder (hyp_core_ctl_enable_locks s)) ∧
    (∀ s r, LockOrder (enable_store_locks s r)) ∧
    LockOrder status_show_locks ∧ LockOrder hcc_min_freq_store_locks ∧
    (∀ s w, LockOrder (write_reserve_cpus_locks s w)) ∧
    (∀ s, LockOrder (hyp_core_ctl_hp_online_locks s)) ∧
    (∀ err, LockOrder (hh_susp_res_irq_handler_locks err)) ∧
    (∀ err, LockOp.mutex_lock ∉ hh_susp_res_irq_handler_locks err) ∧
    (∀ err, err = HH_ERROR_OK →
      LockOp.spin_lock_irqsave ∈ hh_susp_res_irq_handler_locks err) ∧
    (∀ s, LockOp.mutex_lock ∉ hyp_core_ctl_hp_online_locks s) ∧
    (∀ s, s.reservation_enabled = true →
      LockOp.spin_lock_irqsave ∈ hyp_core_ctl_hp_online_locks s) ∧
    (∀ s cpu, hyp_core_ctl_hp_offline_locks s cpu = []) := by
  refine ⟨?_, ?_, ?_, ?_, ?_, ?_, ?_, ?_, ?_, ?_, ?_, ?_, ?_, ?_, ?_⟩
  · intro s should_stop
    unfold LockOrder hyp_core_ctl_thread_locks
    split_ifs <;> rfl
  · intro E s val cpu
    unfold LockOrder hyp_core_ctl_cpu_cooling_cb_locks
    split_ifs <;> rfl
  · intro s running
    unfold LockOrder hh_vcpu_done_populate_affinity_info_locks
    split_ifs <;> rfl
  · intro s
    unfold LockOrder hyp_core_ctl_enable_locks
    split_ifs <;> rfl
  · intro s r
    unfold LockOrder enable_store_locks hyp_core_ctl_enable_locks
    split_ifs <;> rfl
  · rfl
  · rfl
  · intro s w
    unfold LockOrder write_reserve_cpus_locks
    split_ifs <;> rfl
  · intro s
    unfold LockOrder hyp_core_ctl_hp_online_locks
    split_ifs <;> rfl
  · intro err
    unfold LockOrder hh_susp_res_irq_handler_locks
    split_ifs <;> rfl
  · intro err
    unfold hh_susp_res_irq_handler_locks
    split_ifs <;> simp
  · intro err h
    unfold hh_susp_res_irq_handler_locks
    rw [if_neg (not_not.mpr h)]
    simp
  · intro s
    unfold hyp_core_ctl_hp_online_locks
    split_ifs <;> simp
  · intro s h
    unfold hyp_core_ctl_hp_online_locks
    rw [if_neg (by simp [h])]
    simp
  · intro s cpu
    unfold hyp_core_ctl_hp_offline_locks
    split_ifs <;> rfl

/-! ## C18: the matching is perfect when every hypercall succeeds -/

/-- A table is consistent exactly when its slots are pairwise apart. -/
theorem consistent_iff_apart (ms : List hyp_core_ctl_cpu_map) :
    ConsistentTable ms ↔ ms.Pairwise Apart := by
  induction ms with
  | nil => simp [ConsistentTable]
  | cons m ms ih =>
    rw [List.pairwise_cons]
    constructor
    · rintro ⟨h1, h2, h3⟩
      rw [List.map_cons, List.nodup_cons] at h1 h2
      refine ⟨?_, ih.mp ⟨h1.2, h2.2, ?_⟩⟩
      · intro b hb
        have e1 : m.pcpu ≠ b.pcpu := fun e => h1.1 (e ▸ List.mem_map_of_mem _ hb)
        have e2 : m.curr_pcpu ≠ b.curr_pcpu := fun e => h2.1 (e ▸ List.mem_map_of_mem _ hb)
        refine ⟨e1, e2, ?_, ?_⟩
        · rcases h3 m (List.mem_cons_self _ _) with h | h
          · rw [h]; exact e1
          · exact h b (List.mem_cons_of_mem _ hb)
        · rcases h3 b (List.mem_cons_of_mem _ hb) with h | h
          · rw [h]; exact Ne.symm e1
          · exact h m (List.mem_cons_self _ _)
      · intro x hx
        rcases h3 x (List.mem_cons_of_mem _ hx) with h | h
        · exact Or.inl h
        · exact Or.inr (fun y hy => h y (List.mem_cons_of_mem _ hy))
    · rintro ⟨hm, hP⟩
      obtain ⟨h1, h2, h3⟩ := ih.mpr hP
      refine ⟨?_, ?_, ?_⟩
      · rw [List.map_cons, List.nodup_cons]
        refine ⟨?_, h1⟩
        intro hin
        obtain ⟨b, hb, e⟩ := List.mem_map.mp hin
        exact (hm b hb).1 e.symm
      · rw [List.map_cons, List.nodup_cons]
        refine ⟨?_, h2⟩
        intro hin
        obtain ⟨b, hb, e⟩ := List.mem_map.mp hin
        exact (hm b hb).2.1 e.symm
      · intro x hx
        rcases List.mem_cons.mp hx with rfl | hx
        · by_cases e : x.curr_pcpu = x.pcpu
          · exact Or.inl e
          · right
            intro y hy
            rcases List.mem_cons.mp hy with rfl | hy
            · exact e
            · exact (hm y hy).2.2.1
        · rcases h3 x hx with h | h
          · exact Or.inl h
          · right
            intro y hy
            rcases List.mem_cons.mp hy with e | hy
            · rw [e]
              exact (hm x hx).2.2.2
            · exact h y hy

/-- C18: for every pre-state whose table is consistent (pairwise distinct original CPUs,
pairwise distinct current CPUs, each current CPU the vcpu's own original CPU or the
original CPU of no vcpu) with `|reserve_cpus| = nr_vcpus`, and every mask `T` different
from `final_reserved_cpus` with `|T| = nr_vcpus`, if every hypercall succeeds then after
`finalize_reservation(T)`: `final_reserved_cpus = T`; the current CPUs of the vcpus are
pairwise distinct and make up exactly `T` (vcpu to `pcpu_current` is a bijection onto
`T`); the table holds the same vcpus, is consistent again, and `|reserve_cpus| =
nr_vcpus` still.  The table has at most `MAX_RESERVE_CPUS` slots, none with `cap_id` 0,
and `T` holds CPU numbers below `nr_cpu_ids`. -/
theorem c18_perfect_matching (M : Machine) (E : Env) (s : State) (T : cpumask)
    (hE : HcallOK E) (hM : M.ok) (hcap : ∀ m ∈ s.cpumap, m.cap_id ≠ 0)
    (hlen : s.cpumap.length ≤ MAX_RESERVE_CPUS M) (hcons : ConsistentTable s.cpumap)
    (hres : s.reserve_cpus.card = s.cpumap.length) (hT : T ⊆ Finset.range M.nr_cpu_ids)
    (h1 : T ≠ s.final_reserved_cpus) (hw : T.card = s.cpumap.length) :
    (finalize_reservation M E s T).1.final_reserved_cpus = T ∧
    ((finalize_reservation M E s T).1.cpumap.map hyp_core_ctl_cpu_map.curr_pcpu).Nodup ∧
    ((finalize_reservation M E s T).1.cpumap.map hyp_core_ctl_cpu_map.curr_pcpu).toFinset =
      T ∧
    List.Forall₂ SameVcpu s.cpumap (finalize_reservation M E s T).1.cpumap ∧
    ConsistentTable (finalize_reservation M E s T).1.cpumap ∧
    (finalize_reservation M E s T).1.reserve_cpus.card =
      (finalize_reservation M E s T).1.cpumap.length := by
  have h2 : ¬ T.card < s.reserve_cpus.card := by omega
  have htab : TableOK M s := ⟨hcap, hlen, hres, (consistent_iff_apart _).mp hcons⟩
  obtain ⟨hP, hMt⟩ := finalize_matching M E hE hM s T htab hT h1 h2
  have hsame := finalize_same_vcpu M E s T
  have hlen' : (finalize_reservation M E s T).1.cpumap.length = s.cpumap.length :=
    (List.Forall₂.length_eq hsame).symm
  have hcons' := (consistent_iff_apart _).mpr hP
  have hsub : ((finalize_reservation M E s T).1.cpumap.map
      hyp_core_ctl_cpu_map.curr_pcpu).toFinset ⊆ T := by
    intro c hc
    obtain ⟨o, ho, rfl⟩ := List.mem_map.mp (List.mem_toFinset.mp hc)
    obtain ⟨m, _, hm⟩ := forall2_mem_right hMt ho
    exact hm.2.2.1
  refine ⟨?_, hcons'.2.1, ?_, hsame, hcons', ?_⟩
  · rw [finalize_final, if_neg h2]
  · apply Finset.eq_of_subset_of_card_le hsub
    rw [List.toFinset_card_of_nodup hcons'.2.1, List.length_map, hlen', hw]
  · rw [(finalize_frame M E s T).1, hlen', hres]

theorem c18_perfect_matching_witness :
    HcallOK (okEnv ∅) ∧ M8.ok ∧ (∀ m ∈ fresh45.cpumap, m.cap_id ≠ 0) ∧
    fresh45.cpumap.length ≤ MAX_RESERVE_CPUS M8 ∧ ConsistentTable fresh45.cpumap ∧
    fresh45.reserve_cpus.card = fresh45.cpumap.length ∧
    ({0, 5} : cpumask) ⊆ Finset.range M8.nr_cpu_ids ∧
    ({0, 5} : cpumask) ≠ fresh45.final_reserved_cpus ∧
    ({0, 5} : cpumask).card = fresh45.cpumap.length ∧
    (finalize_reservation M8 (okEnv ∅) fresh45 {0, 5}).1.final_reserved_cpus = {0, 5} ∧
    (finalize_reservation M8 (okEnv ∅) fresh45 {0, 5}).1.cpumap.map
      hyp_core_ctl_cpu_map.curr_pcpu = [0, 5] :=
  ⟨fun _ _ _ => rfl, by unfold Machine.ok; decide, by decide, by decide,
   by unfold ConsistentTable; decide, by decide, by decide, by decide, by decide,
   (c18_perfect_matching M8 (okEnv ∅) fresh45 {0, 5} (fun _ _ _ => rfl)
     (by unfold Machine.ok; decide) (by decide) (by decide) (by unfold ConsistentTable; decide) (by decide) (by decide)
     (by decide) (by decide)).1,
   by decide⟩

/-! ## C19: the matching uses up the mask, whatever the hypercalls return -/

theorem IsPick.widen {S S' : cpumask} {e : Event} (h : IsPick S e) (hs : S ⊆ S') :
    IsPick S' e := by
  obtain ⟨c, r, err, e1, e2⟩ := h
  exact ⟨c, r, err, e1, hs e2⟩

theorem claim_mem {F : cpumask} {m : hyp_core_ctl_cpu_map} {c : Nat}
    (h : claim F m = some c) : c ∈ F := by
  unfold claim at h
  split_ifs at h with h1 h2
  · cases h; exact h1
  · cases h; exact h2

theorem claim_none {F : cpumask} {m : hyp_core_ctl_cpu_map} :
    claim F m = none ↔ marked F m := by
  unfold claim marked
  by_cases h1 : m.pcpu ∈ F
  · simp [h1]
  · by_cases h2 : m.curr_pcpu ∈ F
    · simp [h1, h2]
    · simp [h1, h2]

theorem claim_apart {F : cpumask} {a b : hyp_core_ctl_cpu_map} (h : Apart a b) {c : Nat}
    (ha : claim F a = some c) : claim F b ≠ some c := by
  obtain ⟨h1, h2, h3, h4⟩ := h
  unfold claim at ha ⊢
  intro hb
  split_ifs at ha hb <;> simp only [Option.some.injEq] at ha hb
  · exact h1 (ha.trans hb.symm)
  · exact h4 (hb.trans ha.symm)
  · exact h3 (ha.trans hb.symm)
  · exact h2 (ha.trans hb.symm)

/-- The body of the first loop, whatever the hypercall returns. -/
theorem pass1_body_after (E : Env) (F : cpumask) (i : Nat) (m : hyp_core_ctl_cpu_map)
    (L : FinLocals) :
    Settled F m (finalize_pass1_body E F i m L).1 ∧
    ∃ new, (finalize_pass1_body E F i m L).2.trace = L.trace ++ new ∧
      ∀ e ∈ new, IsPick F e := by
  simp only [finalize_pass1_body]
  split_ifs with h1 h2 h3 h4
  · exact ⟨⟨rfl, rfl, Or.inl rfl⟩, [], by simp, by simp⟩
  · exact ⟨⟨rfl, rfl, Or.inl rfl⟩, _, rfl, by
      intro e he
      rw [List.mem_singleton] at he
      exact ⟨_, _, _, he, h1⟩⟩
  · exact ⟨⟨rfl, rfl, Or.inr ⟨h1, rfl⟩⟩, _, rfl, by
      intro e he
      rw [List.mem_singleton] at he
      exact ⟨_, _, _, he, h1⟩⟩
  · exact ⟨⟨rfl, rfl, Or.inl rfl⟩, [], by simp, by simp⟩
  · exact ⟨⟨rfl, rfl, Or.inl rfl⟩, [], by simp, by simp⟩

/-- The first loop, whatever the hypercalls return: what becomes of the slots, and the
calls made. -/
theorem pass1_after (M : Machine) (E : Env) (F : cpumask) :
    ∀ (ms : List hyp_core_ctl_cpu_map) (i : Nat) (L : FinLocals),
      List.Forall₂ (Settled F) ms (finalize_pass1 M E F i ms L).1 ∧
      ∃ new, (finalize_pass1 M E F i ms L).2.trace = L.trace ++ new ∧
        ∀ e ∈ new, IsPick F e := by
  intro ms
  induction ms with
  | nil => intro i L; exact ⟨by simp [finalize_pass1], [], by simp [finalize_pass1], by simp⟩
  | cons m ms ih =>
    intro i L
    have hrefl : List.Forall₂ (Settled F) (m :: ms) (m :: ms) :=
      forall2_same (fun a => ⟨rfl, rfl, Or.inl rfl⟩) _
    simp only [finalize_pass1]
    split_ifs with h1 h2
    · exact ⟨hrefl, [], by simp, by simp⟩
    · exact ⟨hrefl, [], by simp, by simp⟩
    · obtain ⟨b1, n1, e1, p1⟩ := pass1_body_after E F i m L
      obtain ⟨b2, n2, e2, p2⟩ := ih (i + 1) (finalize_pass1_body E F i m L).2
      refine ⟨List.Forall₂.cons b1 b2, n1 ++ n2, ?_, ?_⟩
      · simp only
        rw [e2, e1, List.append_assoc]
      · intro e he
        rcases List.mem_append.mp he with h | h
        · exact p1 e h
        · exact p2 e h

theorem Settled.marked_iff {F : cpumask} {m o : hyp_core_ctl_cpu_map} (h : Settled F m o) :
    marked F o ↔ marked F m := by
  obtain ⟨_, h2, h3⟩ := h
  unfold marked
  rw [h2]
  rcases h3 with h3 | ⟨h3, h4⟩
  · rw [h3]
  · rw [h4]
    constructor
    · intro h; exact absurd h3 h.1
    · intro h; exact absurd h3 h.1

theorem countP_settled {F : cpumask} {ms os : List hyp_core_ctl_cpu_map}
    (h : List.Forall₂ (Settled F) ms os) :
    os.countP (fun m => decide (marked F m)) = ms.countP (fun m => decide (marked F m)) := by
  induction h with
  | nil => rfl
  | cons hab _ ih =>
    simp only [List.countP_cons, ih, decide_eq_true_eq, hab.marked_iff]

/-- The CPUs left in `temp` by the first loop over a consistent table, the claims of the
slots being in `temp` at the start: one CPU has gone for each slot that is not marked. -/
theorem pass1_left (M : Machine) (E : Env) (F : cpumask) :
    ∀ (ms : List hyp_core_ctl_cpu_map) (i : Nat) (L : FinLocals), SlotsOK M i ms →
      ms.Pairwise Apart → (∀ m ∈ ms, ∀ c, claim F m = some c → c ∈ L.temp) →
      (finalize_pass1 M E F i ms L).2.temp.card + ms.length =
        L.temp.card + ms.countP (fun m => decide (marked F m)) := by
  intro ms
  induction ms with
  | nil => intro i L _ _ _; simp [finalize_pass1]
  | cons m ms ih =>
    intro i L h hP hc
    rw [finalize_pass1_cons E F L h]
    rw [List.pairwise_cons] at hP
    have hbody : ∀ x, (x ∈ (finalize_pass1_body E F i m L).2.temp ↔
        x ∈ L.temp ∧ claim F m ≠ some x) := pass1_body_temp E F i m L
    have htail : ∀ b ∈ ms, ∀ c, claim F b = some c →
        c ∈ (finalize_pass1_body E F i m L).2.temp := by
      intro b hb c hbc
      rw [hbody]
      refine ⟨hc b (List.mem_cons_of_mem _ hb) c hbc, ?_⟩
      intro hm
      exact claim_apart (hP.1 b hb) hm hbc
    have h1 := ih (i + 1) (finalize_pass1_body E F i m L).2 h.tail hP.2 htail
    have h2 : (finalize_pass1_body E F i m L).2.temp.card + 1 =
        L.temp.card + (if marked F m then 1 else 0) := by
      by_cases hm : marked F m
      · rw [if_pos hm]
        have : (finalize_pass1_body E F i m L).2.temp = L.temp := by
          ext x
          rw [hbody, claim_none.mpr hm]
          simp
        rw [this]
      · rw [if_neg hm]
        cases hcl : claim F m with
        | none => exact absurd (claim_none.mp hcl) hm
        | some c =>
          have hin : c ∈ L.temp := hc m (List.mem_cons_self _ _) c hcl
          have : (finalize_pass1_body E F i m L).2.temp = L.temp.erase c := by
            ext x
            rw [hbody, hcl, Finset.mem_erase]
            constructor
            · rintro ⟨a, b⟩
              exact ⟨fun e => b (by rw [e]), a⟩
            · rintro ⟨a, b⟩
              exact ⟨b, fun e => a (Option.some.inj e).symm⟩
          rw [this, Finset.card_erase_of_mem hin]
          have := Finset.card_pos.mpr ⟨c, hin⟩
          omega
    simp only [List.countP_cons, List.length_cons, decide_eq_true_eq]
    omega

/-- The body of the second loop, whatever the hypercall returns. -/
theorem finalize_pass2_body_any (M : Machine) (E : Env) (m : hyp_core_ctl_cpu_map)
    (L : FinLocals) :
    (finalize_pass2_body M E m L).2.temp = L.temp.erase (cpumask_any M L.temp) ∧
    (finalize_pass2_body M E m L).2.vcpu_adjust_mask = L.vcpu_adjust_mask ∧
    ∃ err, (finalize_pass2_body M E m L).2.trace =
      L.trace ++ [Event.affinity_set m.cap_id (cpumask_any M L.temp) err] := by
  simp only [finalize_pass2_body]
  split_ifs <;> exact ⟨rfl, rfl, _, rfl⟩

/-- The second loop, whatever the hypercalls return, when `temp` holds at least one CPU
for each marked slot: each marked slot takes one CPU out of `temp`, and each call names a
CPU that was in `temp`. -/
theorem pass2_any (M : Machine) (E : Env) (F : cpumask) :
    ∀ (ms : List hyp_core_ctl_cpu_map) (i : Nat) (L : FinLocals),
      (∀ k m, ms[k]? = some m →
        ((i + k < M.nr_cpu_ids ∧ i + k ∈ L.vcpu_adjust_mask) ↔ marked F m)) →
      L.temp ⊆ Finset.range M.nr_cpu_ids →
      ms.countP (fun m => decide (marked F m)) ≤ L.temp.card →
      (finalize_pass2 M E i ms L).2.temp.card + ms.countP (fun m => decide (marked F m)) =
        L.temp.card ∧
      ∃ new, (finalize_pass2 M E i ms L).2.trace = L.trace ++ new ∧
        ∀ e ∈ new, IsPick L.temp e := by
  intro ms
  induction ms with
  | nil => intro i L _ _ _; exact ⟨by simp [finalize_pass2], [], by simp [finalize_pass2], by simp⟩
  | cons m ms ih =>
    intro i L h hr hcnt
    have h0 := h 0 m (by simp)
    simp only [Nat.add_zero] at h0
    have hs : ∀ (L' : FinLocals), L'.vcpu_adjust_mask = L.vcpu_adjust_mask →
        ∀ k m', ms[k]? = some m' →
          ((i + 1 + k < M.nr_cpu_ids ∧ i + 1 + k ∈ L'.vcpu_adjust_mask) ↔ marked F m') := by
      intro L' hL' k m' hk
      have := h (k + 1) m' (by simpa using hk)
      rw [hL']
      have e : i + (k + 1) = i + 1 + k := by omega
      rwa [e] at this
    obtain ⟨b1, b2, err, b3⟩ := finalize_pass2_body_any M E m L
    by_cases hm : marked F m
    · have hc := h0.mpr hm
      simp only [List.countP_cons, hm, decide_True, if_true] at hcnt ⊢
      have hne : L.temp.Nonempty := Finset.card_pos.mp (by omega)
      have hin := cpumask_any_mem hr hne
      have hcard : (finalize_pass2_body M E m L).2.temp.card + 1 = L.temp.card := by
        rw [b1, Finset.card_erase_of_mem hin]
        have := Finset.card_pos.mpr hne
        omega
      have hsub : (finalize_pass2_body M E m L).2.temp ⊆ L.temp := by
        rw [b1]; exact Finset.erase_subset _ _
      obtain ⟨c1, n, e1, p1⟩ := ih (i + 1) (finalize_pass2_body M E m L).2 (hs _ b2)
        (hsub.trans hr) (by omega)
      simp only [finalize_pass2, hc, and_self, if_true]
      refine ⟨by omega,
        Event.affinity_set m.cap_id (cpumask_any M L.temp) err :: n, ?_, ?_⟩
      · rw [e1, b3]
        simp
      · intro e he
        rcases List.mem_cons.mp he with h' | h'
        · exact ⟨_, _, _, h', hin⟩
        · exact (p1 e h').widen hsub
    · have hc : ¬ (i < M.nr_cpu_ids ∧ i ∈ L.vcpu_adjust_mask) := fun hc => hm (h0.mp hc)
      simp only [List.countP_cons, hm, decide_False] at hcnt ⊢
      obtain ⟨c1, n, e1, p1⟩ := ih (i + 1) L (hs _ rfl) hr (by simpa using hcnt)
      simp only [finalize_pass2, hc, if_false]
      refine ⟨by simpa using c1, n, e1, p1⟩

/-- After the first loop, whatever the hypercalls return, the slots noted in
`vcpu_adjust_mask` are those that are marked. -/
theorem pass1_marks (M : Machine) (E : Env) (F : cpumask) (hM : M.ok)
    (ms : List hyp_core_ctl_cpu_map) (L : FinLocals) (hS : SlotsOK M 0 ms)
    (hL : L.vcpu_adjust_mask = ∅) :
    ∀ k o, (finalize_pass1 M E F 0 ms L).1[k]? = some o →
      ((0 + k < M.nr_cpu_ids ∧ 0 + k ∈ (finalize_pass1 M E F 0 ms L).2.vcpu_adjust_mask) ↔
        marked F o) := by
  intro k o hk
  obtain ⟨hset, _⟩ := pass1_after M E F ms 0 L
  have hlen := List.Forall₂.length_eq hset
  have hklt : k < ms.length := by
    by_contra hge
    rw [List.getElem?_eq_none (by omega)] at hk
    exact absurd hk (by simp)
  have hmk : ms[k]? = some ms[k] := List.getElem?_eq_getElem hklt
  obtain ⟨o', ho', hR⟩ := forall2_getElem hset k ms[k] hmk
  rw [hk] at ho'
  cases ho'
  rw [hR.marked_iff, pass1_adjust M E F (0 + k) ms 0 L hS]
  have hmax := max_reserve_le M hM
  have hle := hS.2
  constructor
  · rintro ⟨_, h | ⟨k', m', e1, e2, e3⟩⟩
    · rw [hL] at h
      exact absurd h (Finset.not_mem_empty _)
    · have : k' = k := by omega
      subst this
      rw [hmk] at e1
      cases e1
      exact e3
  · intro h
    exact ⟨by omega, Or.inr ⟨k, ms[k], hmk, rfl, h⟩⟩

theorem finalize_temp (M : Machine) (E : Env) (s : State) (T : cpumask)
    (h1 : T ≠ s.final_reserved_cpus) (h2 : ¬ T.card < s.reserve_cpus.card) :
    (finalize_reservation M E s T).2 =
      (finalize_pass2 M E 0
        (finalize_pass1 M E T 0 s.cpumap
          { temp := T, vcpu_adjust_mask := ∅, trace := s.trace }).1
        (finalize_pass1 M E T 0 s.cpumap
          { temp := T, vcpu_adjust_mask := ∅, trace := s.trace }).2).2.temp := by
  unfold finalize_reservation
  simp [h1, h2]

/-- C19: whenever `finalize_reservation` performs the matching on a mask `T` with
`|T| = |reserve_cpus| = nr_vcpus` from a consistent table (pairwise distinct original
CPUs, pairwise distinct current CPUs, no current CPU equal to the original CPU of another
vcpu), then, whatever the hypercalls return, `T` is empty when the function returns (the
`WARN_ON` does not fire), and every hypercall of the call names a CPU of the mask `T`
passed in, below `nr_cpu_ids`: since each iteration of the second loop passes its pick
to the hypercall and `cpumask_any` of an empty mask is `nr_cpu_ids`, no pick was made
from an empty mask.  The table has at most `MAX_RESERVE_CPUS` slots, none with `cap_id`
0, and `T` holds CPU numbers below `nr_cpu_ids`. -/
theorem c19_mask_used_up (M : Machine) (E : Env) (s : State) (T : cpumask) (hM : M.ok)
    (hcap : ∀ m ∈ s.cpumap, m.cap_id ≠ 0) (hlen : s.cpumap.length ≤ MAX_RESERVE_CPUS M)
    (hcons : ConsistentTable s.cpumap) (hres : s.reserve_cpus.card = s.cpumap.length)
    (hT : T ⊆ Finset.range M.nr_cpu_ids) (h1 : T ≠ s.final_reserved_cpus)
    (hw : T.card = s.cpumap.length) :
    (finalize_reservation M E s T).2 = ∅ ∧
    ∃ new, (finalize_reservation M E s T).1.trace = s.trace ++ new ∧
      ∀ cap_id pcpu err, Event.affinity_set cap_id pcpu err ∈ new →
        pcpu ∈ T ∧ pcpu < M.nr_cpu_ids := by
  have h2 : ¬ T.card < s.reserve_cpus.card := by omega
  have hS : SlotsOK M 0 s.cpumap := ⟨hcap, by omega⟩
  have hP := (consistent_iff_apart _).mp hcons
  rw [finalize_temp M E s T h1 h2, finalize_trace M E s T h1 h2]
  set L0 : FinLocals := { temp := T, vcpu_adjust_mask := ∅, trace := s.trace } with hL0
  obtain ⟨hset, n1, e1, p1⟩ := pass1_after M E T s.cpumap 0 L0
  have hleft := pass1_left M E T s.cpumap 0 L0 hS hP (fun m _ c hc => claim_mem hc)
  have hsub : (finalize_pass1 M E T 0 s.cpumap L0).2.temp ⊆ T := fun c hc =>
    ((pass1_temp M E T c s.cpumap 0 L0 hS).mp hc).1
  have hcnt := countP_settled hset
  have hL0t : L0.temp.card = s.cpumap.length := hw
  obtain ⟨c2, n2, e2, p2⟩ := pass2_any M E T (finalize_pass1 M E T 0 s.cpumap L0).1 0
    (finalize_pass1 M E T 0 s.cpumap L0).2 (pass1_marks M E T hM s.cpumap L0 hS rfl)
    (hsub.trans hT) (by rw [hcnt]; omega)
  refine ⟨?_, n1 ++ n2, ?_, ?_⟩
  · rw [← Finset.card_eq_zero]
    rw [hcnt] at c2
    omega
  · rw [e2, e1, List.append_assoc]
  · intro cap r err he
    have hpick : IsPick T (Event.affinity_set cap r err) := by
      rcases List.mem_append.mp he with h | h
      · exact p1 _ h
      · exact (p2 _ h).widen hsub
    obtain ⟨_, _, _, e, hin⟩ := hpick
    cases e
    exact ⟨hin, Finset.mem_range.mp (hT hin)⟩

theorem c19_mask_used_up_witness :
    M8.ok ∧ (∀ m ∈ fresh45.cpumap, m.cap_id ≠ 0) ∧
    fresh45.cpumap.length ≤ MAX_RESERVE_CPUS M8 ∧ ConsistentTable fresh45.cpumap ∧
    fresh45.reserve_cpus.card = fresh45.cpumap.length ∧
    ({0, 1} : cpumask) ⊆ Finset.range M8.nr_cpu_ids ∧
    ({0, 1} : cpumask) ≠ fresh45.final_reserved_cpus ∧
    ({0, 1} : cpumask).card = fresh45.cpumap.length ∧
    (finalize_reservation M8 (hcallFailEnv ∅) fresh45 {0, 1}).2 = ∅ ∧
    (finalize_reservation M8 (hcallFailEnv ∅) fresh45 {0, 1}).1.trace =
      [Event.affinity_set 101 0 1, Event.affinity_set 102 1 1] :=
  ⟨by unfold Machine.ok; decide, by decide, by decide, by unfold ConsistentTable; decide,
   by decide, by decide, by decide, by decide,
   (c19_mask_used_up M8 (hcallFailEnv ∅) fresh45 {0, 1} (by unfold Machine.ok; decide)
     (by decide) (by decide) (by unfold ConsistentTable; decide) (by decide) (by decide)
     (by decide) (by decide)).1,
   by decide⟩

/-! ## C20: the original CPU first, then the current one -/

/-- The calls of the first loop when every hypercall succeeds. -/
theorem pass1_calls (M : Machine) (E : Env) (hE : HcallOK E) (F : cpumask) :
    ∀ (ms : List hyp_core_ctl_cpu_map) (i : Nat) (L : FinLocals), SlotsOK M i ms →
      (finalize_pass1 M E F i ms L).2.trace = L.trace ++ restore_calls F ms := by
  intro ms
  induction ms with
  | nil => intro i L _; simp [finalize_pass1, restore_calls]
  | cons m ms ih =>
    intro i L h
    rw [finalize_pass1_cons E F L h]
    simp only
    rw [ih (i + 1) _ h.tail]
    have hb : (finalize_pass1_body E F i m L).2.trace = L.trace ++
        (if m.pcpu ∈ F ∧ m.pcpu ≠ m.curr_pcpu then
          [Event.affinity_set m.cap_id m.pcpu HH_ERROR_OK] else []) := by
      have := hE L.trace m.cap_id m.pcpu
      simp only [finalize_pass1_body]
      split_ifs <;> simp_all
    rw [hb]
    simp only [restore_calls]
    split_ifs <;> simp

/-- The matching when every hypercall succeeds and `t`, the CPUs left for the second loop,
has a CPU for each marked slot: what becomes of each slot, and the hypercalls of the two
loops in terms of the slots before and after. -/
theorem matching_calls (M : Machine) (T : cpumask) (hT : T ⊆ Finset.range M.nr_cpu_ids) :
    ∀ (ms : List hyp_core_ctl_cpu_map) (t : cpumask), t ⊆ T →
      ms.countP (fun m => decide (marked T m)) ≤ t.card →
      List.Forall₂ (Matched T) ms (assign M T (ms.map (restore T)) t) ∧
      restore_calls T ms =
        ((ms.zip (assign M T (ms.map (restore T)) t)).filter
          (fun p => decide (p.1.pcpu ∈ T))).flatMap calls_of ∧
      assign_calls M T (ms.map (restore T)) t =
        ((ms.zip (assign M T (ms.map (restore T)) t)).filter
          (fun p => decide (p.1.pcpu ∉ T))).flatMap calls_of := by
  intro ms
  induction ms with
  | nil => intro t _ _; simp [assign, restore_calls, assign_calls]
  | cons m ms ih =>
    intro t ht hcnt
    by_cases h1 : m.pcpu ∈ T
    · -- the original CPU is in `T`
      have hnm : ¬ marked T m := fun h => h.1 h1
      have hnm' : ¬ marked T (restore T m) := by rw [marked_restore]; exact hnm
      have hr : restore T m = { m with curr_pcpu := m.pcpu } := by simp [restore, h1]
      simp only [List.countP_cons, hnm, decide_False] at hcnt
      obtain ⟨a1, a2, a3⟩ := ih t ht (by simpa using hcnt)
      simp only [List.map_cons, assign, assign_calls, hnm', if_false, List.zip_cons_cons,
        List.filter_cons, h1, decide_True, decide_False, if_true, not_true_eq_false,
        List.flatMap_cons, restore_calls]
      refine ⟨List.Forall₂.cons ?_ a1, ?_, a3⟩
      · rw [hr]
        exact ⟨rfl, rfl, h1, fun _ => rfl, fun h => absurd h1 h⟩
      · rw [← a2, hr]
        unfold calls_of
        by_cases h2 : m.pcpu = m.curr_pcpu
        · simp [h2]
        · simp [h2]
    · by_cases h2 : m.curr_pcpu ∈ T
      · -- the current CPU is kept
        have hnm : ¬ marked T m := fun h => h.2 h2
        have hnm' : ¬ marked T (restore T m) := by rw [marked_restore]; exact hnm
        have hr : restore T m = m := by simp [restore, h1]
        simp only [List.countP_cons, hnm, decide_False] at hcnt
        obtain ⟨a1, a2, a3⟩ := ih t ht (by simpa using hcnt)
        simp only [List.map_cons, assign, assign_calls, hnm', if_false, List.zip_cons_cons,
          List.filter_cons, h1, decide_True, decide_False, if_true, not_false_eq_true,
          List.flatMap_cons, restore_calls, false_and]
        refine ⟨List.Forall₂.cons ?_ a1, a2, ?_⟩
        · rw [hr]
          exact ⟨rfl, rfl, h2, fun h => absurd h h1, fun _ _ => rfl⟩
        · rw [← a3, hr]
          simp [calls_of]
      · -- the slot is marked
        have hm : marked T m := ⟨h1, h2⟩
        have hm' : marked T (restore T m) := by rw [marked_restore]; exact hm
        have hr : restore T m = m := by simp [restore, h1]
        simp only [List.countP_cons, hm, decide_True, if_true] at hcnt
        have hne : t.Nonempty := Finset.card_pos.mp (by omega)
        have hin := cpumask_any_mem (ht.trans hT) hne
        have hcard : (t.erase (cpumask_any M t)).card + 1 = t.card := by
          rw [Finset.card_erase_of_mem hin]
          have := Finset.card_pos.mpr hne
          omega
        obtain ⟨a1, a2, a3⟩ := ih (t.erase (cpumask_any M t))
          ((Finset.erase_subset _ _).trans ht) (by omega)
        simp only [List.map_cons, assign, assign_calls, hm', if_true, List.zip_cons_cons,
          List.filter_cons, h1, decide_True, decide_False, not_false_eq_true,
          List.flatMap_cons, restore_calls, false_and, if_false]
        rw [hr]
        refine ⟨List.Forall₂.cons ?_ a1, a2, ?_⟩
        · exact ⟨rfl, rfl, ht hin, fun h => absurd h h1, fun _ h => absurd h h2⟩
        · rw [← a3]
          have hne' : cpumask_any M t ≠ m.curr_pcpu := fun e => h2 (e ▸ ht hin)
          simp [calls_of, hne']

/-- C20: after `finalize_reservation` performs the matching on `T` with every hypercall
succeeding, every vcpu whose original CPU is in `T` ends on its original CPU, every vcpu
whose original CPU is not in `T` but whose current CPU is in `T` keeps its current CPU
(and every vcpu ends on a CPU of `T`); and the hypercalls of the call are exactly one for
each vcpu whose `pcpu_current` has changed, naming its new CPU, first for the vcpus whose
original CPU is in `T`, then for the others, in table order: none is issued for a vcpu
that stays where it is.  The table has at most `MAX_RESERVE_CPUS` slots, none with
`cap_id` 0, as many as `reserve_cpus` has CPUs, and `T` holds CPU numbers below
`nr_cpu_ids`. -/
theorem c20_original_then_current (M : Machine) (E : Env) (s : State) (T : cpumask)
    (hE : HcallOK E) (hM : M.ok) (hcap : ∀ m ∈ s.cpumap, m.cap_id ≠ 0)
    (hlen : s.cpumap.length ≤ MAX_RESERVE_CPUS M)
    (hres : s.reserve_cpus.card = s.cpumap.length) (hT : T ⊆ Finset.range M.nr_cpu_ids)
    (h1 : T ≠ s.final_reserved_cpus) (h2 : ¬ T.card < s.reserve_cpus.card) :
    List.Forall₂ (Matched T) s.cpumap (finalize_reservation M E s T).1.cpumap ∧
    (finalize_reservation M E s T).1.trace = s.trace ++
      (((s.cpumap.zip (finalize_reservation M E s T).1.cpumap).filter
          (fun p => decide (p.1.pcpu ∈ T))).flatMap calls_of ++
        ((s.cpumap.zip (finalize_reservation M E s T).1.cpumap).filter
          (fun p => decide (p.1.pcpu ∉ T))).flatMap calls_of) := by
  have hS : SlotsOK M 0 s.cpumap := ⟨hcap, by omega⟩
  rw [finalize_cpumap M E s T h1 h2, finalize_trace M E s T h1 h2]
  set L0 : FinLocals := { temp := T, vcpu_adjust_mask := ∅, trace := s.trace } with hL0
  have htbl := pass1_table M E hE T s.cpumap 0 L0 hS
  have hcalls := pass1_calls M E hE T s.cpumap 0 L0 hS
  have hmarks := pass1_marks M E T hM s.cpumap L0 hS rfl
  have hcard := pass1_card M E T s.cpumap 0 L0 hS
  have hsub : (finalize_pass1 M E T 0 s.cpumap L0).2.temp ⊆ T := fun c hc =>
    ((pass1_temp M E T c s.cpumap 0 L0 hS).mp hc).1
  have hL0t : L0.temp.card = T.card := rfl
  have hcnt : s.cpumap.countP (fun m => decide (marked T m)) ≤
      (finalize_pass1 M E T 0 s.cpumap L0).2.temp.card := by omega
  rw [pass2_eq_assign M E hE T _ 0 _ hmarks, pass2_trace M E hE T _ 0 _ hmarks, htbl, hcalls]
  obtain ⟨a1, a2, a3⟩ := matching_calls M T hT s.cpumap
    (finalize_pass1 M E T 0 s.cpumap L0).2.temp hsub hcnt
  refine ⟨a1, ?_⟩
  rw [← a2, ← a3, List.append_assoc]

theorem c20_original_then_current_witness :
    HcallOK (okEnv ∅) ∧ M8.ok ∧ (∀ m ∈ unthrottled4.cpumap, m.cap_id ≠ 0) ∧
    unthrottled4.cpumap.length ≤ MAX_RESERVE_CPUS M8 ∧
    unthrottled4.reserve_cpus.card = unthrottled4.cpumap.length ∧
    ({4, 5} : cpumask) ⊆ Finset.range M8.nr_cpu_ids ∧
    ({4, 5} : cpumask) ≠ unthrottled4.final_reserved_cpus ∧
    ¬ ({4, 5} : cpumask).card < unthrottled4.reserve_cpus.card ∧
    unthrottled4.cpumap = [⟨101, 4, 0⟩, ⟨102, 5, 5⟩] ∧
    List.Forall₂ (Matched {4, 5}) unthrottled4.cpumap
      (finalize_reservation M8 (okEnv ∅) unthrottled4 {4, 5}).1.cpumap ∧
    (finalize_reservation M8 (okEnv ∅) unthrottled4 {4, 5}).1.cpumap =
      [⟨101, 4, 4⟩, ⟨102, 5, 5⟩] ∧
    (finalize_reservation M8 (okEnv ∅) unthrottled4 {4, 5}).1.trace =
      unthrottled4.trace ++ [Event.affinity_set 101 4 0] :=
  ⟨fun _ _ _ => rfl, by unfold Machine.ok; decide, by decide, by decide, by decide,
   by decide, by decide, by decide, by decide,
   (c20_original_then_current M8 (okEnv ∅) unthrottled4 {4, 5} (fun _ _ _ => rfl)
     (by unfold Machine.ok; decide) (by decide) (by decide) (by decide) (by decide)
     (by decide) (by decide)).1,
   by decide, by decide⟩

/-! ## C21, C22: the two early returns of `finalize_reservation` -/

/-- C21: `finalize_reservation(T)` with `T` equal to `final_reserved_cpus` returns at once:
no call is made (the trace is unchanged, so no hypercall), `final_reserved_cpus`, the
vcpu table and every other field of the state are unchanged, and so is `T`. -/
theorem c21_finalize_same_mask (M : Machine) (E : Env) (s : State) (T : cpumask)
    (h : T = s.final_reserved_cpus) :
    (finalize_reservation M E s T).1.trace = s.trace ∧
    (finalize_reservation M E s T).1.final_reserved_cpus = s.final_reserved_cpus ∧
    (finalize_reservation M E s T).1.cpumap = s.cpumap ∧
    (finalize_reservation M E s T).2 = T ∧
    (finalize_reservation M E s T).1 = s := by
  rw [finalize_noop M E s T (Or.inl h)]
  exact ⟨rfl, rfl, rfl, rfl, rfl⟩

theorem c21_finalize_same_mask_witness :
    ({0, 5} : cpumask) = throttled4.final_reserved_cpus ∧
    (finalize_reservation M8 (hcallFailEnv ∅) throttled4 {0, 5}).1.trace = throttled4.trace ∧
    (finalize_reservation M8 (hcallFailEnv ∅) throttled4 {0, 5}).1.cpumap =
      [⟨101, 4, 0⟩, ⟨102, 5, 5⟩] :=
  ⟨by decide,
   (c21_finalize_same_mask M8 (hcallFailEnv ∅) throttled4 {0, 5} (by decide)).1,
   by decide⟩

/-- C22: `finalize_reservation(T)` with `|T| < |reserve_cpus|` returns before the
matching: no call is made (the trace is unchanged, so no hypercall),
`final_reserved_cpus`, the vcpu table, hence every `pcpu_current`, and every other field
of the state are unchanged, and so is `T`. -/
theorem c22_finalize_shortfall (M : Machine) (E : Env) (s : State) (T : cpumask)
    (h : T.card < s.reserve_cpus.card) :
    (finalize_reservation M E s T).1.trace = s.trace ∧
    (finalize_reservation M E s T).1.final_reserved_cpus = s.final_reserved_cpus ∧
    (finalize_reservation M E s T).1.cpumap = s.cpumap ∧
    (finalize_reservation M E s T).2 = T ∧
    (finalize_reservation M E s T).1 = s := by
  rw [finalize_noop M E s T (Or.inr h)]
  exact ⟨rfl, rfl, rfl, rfl, rfl⟩

theorem c22_finalize_shortfall_witness :
    ({0} : cpumask).card < fresh45.reserve_cpus.card ∧
    (finalize_reservation M8 (okEnv ∅) fresh45 {0}).1.trace = fresh45.trace ∧
    (finalize_reservation M8 (okEnv ∅) fresh45 {0}).1.final_reserved_cpus = {4, 5} ∧
    (finalize_reservation M8 (okEnv ∅) fresh45 {0}).1.cpumap = fresh45.cpumap :=
  ⟨by decide,
   (c22_finalize_shortfall M8 (okEnv ∅) fresh45 {0} (by decide)).1,
   by decide,
   (c22_finalize_shortfall M8 (okEnv ∅) fresh45 {0} (by decide)).2.2.1⟩

/-! ## C23: the overshoot step of `do_reservation` -/

/-- The calls of `reset_min_freq`: at most one QoS update. -/
theorem reset_min_freq_calls (E : Env) (s : State) (cpu : Nat) :
    ∃ new, (reset_min_freq E s cpu).trace = s.trace ++ new ∧
      ∀ e ∈ new, Event.is_qos_update e = true := by
  simp only [reset_min_freq, freq_qos_update_request, State.log]
  split_ifs
  · exact ⟨[_], rfl, by simp [Event.is_qos_update]⟩
  · exact ⟨[_], rfl, by simp [Event.is_qos_update]⟩
  · exact ⟨[], by simp, by simp⟩

/-- The calls of the overshoot loop: un-isolate calls for CPUs of the list, and QoS
updates. -/
theorem unisolate_excess_loop_calls (E : Env) :
    ∀ (l : List Nat) (s : State) (need : Int),
      ∃ new, (unisolate_excess_loop E l s need).trace = s.trace ++ new ∧
        ∀ e ∈ new, (∃ c ret, e = Event.unisolate c ret ∧ c ∈ l) ∨
          Event.is_qos_update e = true := by
  intro l
  induction l with
  | nil => intro s need; exact ⟨[], by simp [unisolate_excess_loop], by simp⟩
  | cons i cpus ih =>
    intro s need
    rw [unisolate_excess_loop_cons]
    obtain ⟨nq, eq, pq⟩ := reset_min_freq_calls E
      { s.log (Event.unisolate i (E.sched_unisolate_cpu s.trace i)) with
        our_isolated_cpus :=
          (s.log (Event.unisolate i (E.sched_unisolate_cpu s.trace i))).our_isolated_cpus.erase
            i } i
    have hdone : (unisolate_done E
        (s.log (Event.unisolate i (E.sched_unisolate_cpu s.trace i))) i).trace =
        s.trace ++ (Event.unisolate i (E.sched_unisolate_cpu s.trace i) :: nq) := by
      unfold unisolate_done
      rw [eq]
      simp [State.log]
    have hhead : ∀ e ∈ Event.unisolate i (E.sched_unisolate_cpu s.trace i) :: nq,
        (∃ c ret, e = Event.unisolate c ret ∧ c ∈ i :: cpus) ∨
          Event.is_qos_update e = true := by
      intro e he
      rcases List.mem_cons.mp he with h | h
      · exact Or.inl ⟨_, _, h, List.mem_cons_self _ _⟩
      · exact Or.inr (pq e h)
    have htail : ∀ (n : List Event),
        (∀ e ∈ n, (∃ c ret, e = Event.unisolate c ret ∧ c ∈ cpus) ∨
          Event.is_qos_update e = true) →
        ∀ e ∈ n, (∃ c ret, e = Event.unisolate c ret ∧ c ∈ i :: cpus) ∨
          Event.is_qos_update e = true := by
      intro n hn e he
      rcases hn e he with ⟨c, ret, h1, h2⟩ | h
      · exact Or.inl ⟨c, ret, h1, List.mem_cons_of_mem _ h2⟩
      · exact Or.inr h
    split_ifs with h1 h2
    · obtain ⟨n, e1, p1⟩ := ih (s.log (Event.unisolate i (E.sched_unisolate_cpu s.trace i)))
        need
      refine ⟨Event.unisolate i (E.sched_unisolate_cpu s.trace i) :: n, ?_, ?_⟩
      · rw [e1]; simp [State.log]
      · intro e he
        rcases List.mem_cons.mp he with h | h
        · exact Or.inl ⟨_, _, h, List.mem_cons_self _ _⟩
        · exact htail n p1 e h
    · exact ⟨_, hdone, hhead⟩
    · obtain ⟨n, e1, p1⟩ := ih (unisolate_done E
        (s.log (Event.unisolate i (E.sched_unisolate_cpu s.trace i))) i) (need - 1)
      refine ⟨(Event.unisolate i (E.sched_unisolate_cpu s.trace i) :: nq) ++ n, ?_, ?_⟩
      · rw [e1, hdone, List.append_assoc]
      · intro e he
        rcases List.mem_append.mp he with h | h
        · exact hhead e h
        · exact htail n p1 e h

/-- C23: the overshoot step of `do_reservation`, taken when after the first loop
`iso_done = |our_isolated_cpus|` exceeds `iso_required = |reserve_cpus \ offline_cpus|`.
There are at least `iso_done - iso_required` isolated CPUs outside `reserve_cpus`; the
un-isolate calls of the step are for isolated CPUs outside `reserve_cpus`, so that every
isolated CPU of `reserve_cpus` stays isolated; `offline_cpus` is not changed; and when
every un-isolate call succeeds, `|our_isolated_cpus| = |reserve_cpus \ offline_cpus|`
afterwards and the mask handed to `finalize_reservation` has weight `|reserve_cpus|`.
The mask `our_isolated_cpus` holds CPU numbers below `nr_cpu_ids` at the start. -/
theorem c23_overshoot (M : Machine) (E : Env) (s : State)
    (hr : s.our_isolated_cpus ⊆ Finset.range M.nr_cpu_ids)
    (hover : ((s.reserve_cpus \ (do_reservation_first_loop M E s).2).card : Int) <
      ((do_reservation_first_loop M E s).1.our_isolated_cpus.card : Int)) :
    (((do_reservation_first_loop M E s).1.our_isolated_cpus.card : Int) -
        ((s.reserve_cpus \ (do_reservation_first_loop M E s).2).card : Int) ≤
      (((do_reservation_first_loop M E s).1.our_isolated_cpus \ s.reserve_cpus).card : Int)) ∧
    (∃ new, (do_reservation_isolation M E s).1.trace =
        (do_reservation_first_loop M E s).1.trace ++ new ∧
      ∀ c ret, Event.unisolate c ret ∈ new →
        c ∈ (do_reservation_first_loop M E s).1.our_isolated_cpus ∧ c ∉ s.reserve_cpus) ∧
    (do_reservation_isolation M E s).1.our_isolated_cpus ⊆
      (do_reservation_first_loop M E s).1.our_isolated_cpus ∧
    (∀ c ∈ (do_reservation_first_loop M E s).1.our_isolated_cpus, c ∈ s.reserve_cpus →
      c ∈ (do_reservation_isolation M E s).1.our_isolated_cpus) ∧
    (do_reservation_isolation M E s).2 = (do_reservation_first_loop M E s).2 ∧
    (UnisolateOK E →
      (do_reservation_isolation M E s).1.our_isolated_cpus.card =
        (s.reserve_cpus \ (do_reservation_first_loop M E s).2).card ∧
      (do_reservation_temp M E s).card = s.reserve_cpus.card) := by
  unfold do_reservation_temp
  revert hover
  unfold do_reservation_first_loop
  obtain ⟨f1, _, a1, b1, c1, d1, _⟩ := isolate_reserve_loop_spec E
    (for_each_cpu M ((s.reserve_cpus \ s.our_isolated_cpus) \ E.thermal_cpus)) s ∅
  set l1 := for_each_cpu M ((s.reserve_cpus \ s.our_isolated_cpus) \ E.thermal_cpus) with hl1
  have hl1mem : ∀ c, c ∈ l1 → c ∈ s.reserve_cpus ∧ c ∉ s.our_isolated_cpus ∧
      c ∉ E.thermal_cpus ∧ c < M.nr_cpu_ids := by
    intro c hc
    have := mem_for_each_cpu.mp hc
    simp only [Finset.mem_sdiff] at this
    exact ⟨this.2.1.1, this.2.1.2, this.2.2, this.1⟩
  have hO1mem : ∀ c, c ∈ (isolate_reserve_loop E l1 s ∅).2 ↔
      c ∈ l1 ∧ c ∉ E.cpu_online_mask := by
    intro c
    rw [c1 c]
    simp
  have hO1R : (isolate_reserve_loop E l1 s ∅).2 ⊆ s.reserve_cpus :=
    fun c hc => (hl1mem c ((hO1mem c).mp hc).1).1
  have hdis1 : Disjoint (isolate_reserve_loop E l1 s ∅).1.our_isolated_cpus
      (isolate_reserve_loop E l1 s ∅).2 := by
    rw [Finset.disjoint_left]
    intro c hc hc'
    rcases b1 c hc with h | h
    · exact (hl1mem c ((hO1mem c).mp hc').1).2.1 h
    · exact ((hO1mem c).mp hc').2 h.2
  have hs1range : (isolate_reserve_loop E l1 s ∅).1.our_isolated_cpus ⊆
      Finset.range M.nr_cpu_ids := by
    intro c hc
    rcases b1 c hc with h' | h'
    · exact hr h'
    · exact Finset.mem_range.mpr (hl1mem c h'.1).2.2.2
  simp only [do_reservation_isolation]
  rw [← hl1]
  set s1 := (isolate_reserve_loop E l1 s ∅).1 with hs1
  set O1 := (isolate_reserve_loop E l1 s ∅).2 with hO1
  rw [f1.reserve]
  intro hover
  have hnlt : ¬ ((s1.our_isolated_cpus.card : Int) < ((s.reserve_cpus \ O1).card : Int)) := by
    omega
  simp only [hnlt, if_false, gt_iff_lt, hover, if_true]
  set need : Int := (s1.our_isolated_cpus.card : Int) - ((s.reserve_cpus \ O1).card : Int)
    with hneed
  set lU := for_each_cpu M (s1.our_isolated_cpus \ s.reserve_cpus) with hlU
  obtain ⟨_, _, au, bu, cu⟩ := unisolate_excess_loop_spec E lU s1 need (by omega)
  obtain ⟨new, e1, p1⟩ := unisolate_excess_loop_calls E lU s1 need
  have hlUmem : ∀ c, c ∈ lU → c ∈ s1.our_isolated_cpus ∧ c ∉ s.reserve_cpus := by
    intro c hc
    have := (mem_for_each_cpu.mp hc).2
    rw [Finset.mem_sdiff] at this
    exact this
  have hlen : (lU.length : Int) = (s1.our_isolated_cpus \ s.reserve_cpus).card := by
    rw [hlU, for_each_cpu_length M _ ((Finset.sdiff_subset).trans hs1range)]
  have hsub : s1.our_isolated_cpus ∩ s.reserve_cpus ⊆ s.reserve_cpus \ O1 := by
    intro c hc
    rw [Finset.mem_inter] at hc
    rw [Finset.mem_sdiff]
    exact ⟨hc.2, fun h' => (Finset.disjoint_left.mp hdis1) hc.1 h'⟩
  have h1 := Finset.card_le_card hsub
  have h2 := Finset.card_sdiff_add_card_inter s1.our_isolated_cpus s.reserve_cpus
  refine ⟨by omega, ⟨new, e1, ?_⟩, au, ?_, trivial, ?_⟩
  · intro c ret hc
    rcases p1 _ hc with ⟨c', ret', e, hin⟩ | h
    · cases e
      exact hlUmem c hin
    · simp [Event.is_qos_update] at h
  · intro c hc hcR
    exact bu c hc (fun hin => (hlUmem c hin).2 hcR)
  · intro hU
    have hcu := cu hU (for_each_cpu_nodup M _) (fun c hc => (hlUmem c hc).1) (by omega)
    have hcard : (unisolate_excess_loop E lU s1 need).our_isolated_cpus.card =
        (s.reserve_cpus \ O1).card := by omega
    refine ⟨hcard, ?_⟩
    have hdisU : Disjoint (unisolate_excess_loop E lU s1 need).our_isolated_cpus O1 :=
      Finset.disjoint_of_subset_left au hdis1
    rw [Finset.card_union_of_disjoint hdisU, hcard, Finset.card_sdiff hO1R]
    have := Finset.card_le_card hO1R
    omega

theorem c23_overshoot_witness :
    unthrottled4.our_isolated_cpus ⊆ Finset.range M8.nr_cpu_ids ∧
    (((unthrottled4.reserve_cpus \ (do_reservation_first_loop M8 (okEnv ∅) unthrottled4).2).card
      : Int) <
      ((do_reservation_first_loop M8 (okEnv ∅) unthrottled4).1.our_isolated_cpus.card : Int)) ∧
    (do_reservation_first_loop M8 (okEnv ∅) unthrottled4).1.our_isolated_cpus = {0, 4, 5} ∧
    (do_reservation_isolation M8 (okEnv ∅) unthrottled4).1.our_isolated_cpus = {4, 5} ∧
    UnisolateOK (okEnv ∅) ∧
    (do_reservation_temp M8 (okEnv ∅) unthrottled4).card = unthrottled4.reserve_cpus.card :=
  ⟨by decide, by decide, by decide, by decide, fun _ _ => le_refl _,
   ((c23_overshoot M8 (okEnv ∅) unthrottled4 (by decide) (by decide)).2.2.2.2.2
     (fun _ _ => le_refl _)).2⟩

/-! ## C24: `handle_thermal` -/

/-- The calls of the first loop of `finalize_reservation` are hypercalls. -/
theorem pass1_only_hcalls (M : Machine) (E : Env) (F : cpumask) :
    ∀ (ms : List hyp_core_ctl_cpu_map) (i : Nat) (L : FinLocals),
      ∃ new, (finalize_pass1 M E F i ms L).2.trace = L.trace ++ new ∧
        ∀ e ∈ new, Event.is_affinity_set e = true := by
  intro ms i L
  obtain ⟨_, new, hnew, hp⟩ := pass1_after M E F ms i L
  refine ⟨new, hnew, fun e he => ?_⟩
  obtain ⟨c, p, r, rfl, _⟩ := hp e he
  rfl

/-- The calls of the second loop of `finalize_reservation` are hypercalls. -/
theorem pass2_only_hcalls (M : Machine) (E : Env) :
    ∀ (ms : List hyp_core_ctl_cpu_map) (i : Nat) (L : FinLocals),
      ∃ new, (finalize_pass2 M E i ms L).2.trace = L.trace ++ new ∧
        ∀ e ∈ new, Event.is_affinity_set e = true := by
  intro ms
  induction ms with
  | nil => intro i L; exact ⟨[], by simp [finalize_pass2], by simp⟩
  | cons m ms ih =>
    intro i L
    simp only [finalize_pass2]
    split_ifs with h1
    · obtain ⟨_, _, err, e1⟩ := finalize_pass2_body_any M E m L
      obtain ⟨n2, e2, p2⟩ := ih (i + 1) (finalize_pass2_body M E m L).2
      refine ⟨_ :: n2, by rw [e2, e1, List.append_assoc]; rfl, ?_⟩
      intro e he
      rcases List.mem_cons.mp he with rfl | he
      · rfl
      · exact p2 e he
    · exact ih (i + 1) L

/-- The calls of `finalize_reservation` are hypercalls. -/
theorem finalize_only_hcalls (M : Machine) (E : Env) (s : State) (T : cpumask) :
    ∃ new, (finalize_reservation M E s T).1.trace = s.trace ++ new ∧
      ∀ e ∈ new, Event.is_affinity_set e = true := by
  simp only [finalize_reservation]
  split_ifs with h1 h2
  · exact ⟨[], by simp, by simp⟩
  · exact ⟨[], by simp, by simp⟩
  · obtain ⟨n1, e1, m1⟩ := pass1_only_hcalls M E T s.cpumap 0
      { temp := T, vcpu_adjust_mask := ∅, trace := s.trace }
    obtain ⟨n2, e2, m2⟩ := pass2_only_hcalls M E
      (finalize_pass1 M E T 0 s.cpumap
        { temp := T, vcpu_adjust_mask := ∅, trace := s.trace }).1 0
      (finalize_pass1 M E T 0 s.cpumap
        { temp := T, vcpu_adjust_mask := ∅, trace := s.trace }).2
    refine ⟨n1 ++ n2, ?_, ?_⟩
    · simp only
      rw [e2, e1, List.append_assoc]
    · intro e he
      rcases List.mem_append.mp he with h | h
      · exact m1 e h
      · exact m2 e h

/-- The replacement CPU of a throttled CPU: it is found exactly when some possible CPU is
neither throttled nor in `final_reserved_cpus`, and then it is such a CPU. -/
theorem throttle_replacement_spec (M : Machine) (E : Env) (s : State) (hM : M.ok) :
    ((∃ p ∈ M.cpu_possible_mask, p ∉ E.thermal_cpus ∧ p ∉ s.final_reserved_cpus) ↔
      throttle_replacement_cpu M E s < M.nr_cpu_ids) ∧
    (throttle_replacement_cpu M E s < M.nr_cpu_ids →
      throttle_replacement_cpu M E s ∈ M.cpu_possible_mask ∧
      throttle_replacement_cpu M E s ∉ E.thermal_cpus ∧
      throttle_replacement_cpu M E s ∉ s.final_reserved_cpus) := by
  have hmem : throttle_replacement_cpu M E s < M.nr_cpu_ids →
      throttle_replacement_cpu M E s ∈ M.cpu_possible_mask ∧
      throttle_replacement_cpu M E s ∉ E.thermal_cpus ∧
      throttle_replacement_cpu M E s ∉ s.final_reserved_cpus := by
    intro h
    have := cpumask_any_lt h
    simp only [Finset.mem_sdiff] at this
    exact ⟨this.1.1, this.1.2, this.2⟩
  refine ⟨⟨?_, ?_⟩, hmem⟩
  · rintro ⟨p, hp, hpt, hpf⟩
    rcases cpumask_first_spec M
      ((M.cpu_possible_mask \ E.thermal_cpus) \ s.final_reserved_cpus) with ⟨_, h⟩ | ⟨h, _⟩
    · exact absurd (by simp only [Finset.mem_sdiff]; exact ⟨⟨hp, hpt⟩, hpf⟩)
        (h p (Finset.mem_range.mp (hM hp)))
    · exact h
  · intro h
    exact ⟨_, hmem h⟩

/-- The two branches of `handle_thermal` for a throttled CPU. -/
theorem handle_thermal_throttle (M : Machine) (E : Env) (s : State) (cpu : Nat) :
    (throttle_replacement_cpu M E s < M.nr_cpu_ids →
      hyp_core_ctl_handle_thermal M E s cpu true =
        (finalize_reservation M E s
          (insert (throttle_replacement_cpu M E s) (s.final_reserved_cpus.erase cpu))).1) ∧
    (¬ throttle_replacement_cpu M E s < M.nr_cpu_ids →
      hyp_core_ctl_handle_thermal M E s cpu true = s) := by
  constructor
  · intro h
    simp only [hyp_core_ctl_handle_thermal, if_true]
    exact if_pos h
  · intro h
    simp only [hyp_core_ctl_handle_thermal, if_true]
    exact if_neg h

/-- The two branches of `handle_thermal` for an unthrottled CPU. -/
theorem handle_thermal_unthrottle (M : Machine) (E : Env) (s : State) (cpu : Nat) :
    (unthrottle_replacement_cpu M s < M.nr_cpu_ids →
      hyp_core_ctl_handle_thermal M E s cpu false =
        (finalize_reservation M E s
          (insert cpu (s.final_reserved_cpus.erase (unthrottle_replacement_cpu M s)))).1) ∧
    (¬ unthrottle_replacement_cpu M s < M.nr_cpu_ids →
      hyp_core_ctl_handle_thermal M E s cpu false = s) := by
  constructor
  · intro h
    simp only [hyp_core_ctl_handle_thermal, Bool.false_eq_true, if_false]
    exact if_pos h
  · intro h
    simp only [hyp_core_ctl_handle_thermal, Bool.false_eq_true, if_false]
    exact if_neg h

/-- The fields `handle_thermal` never writes, and its calls. -/
theorem handle_thermal_quiet (M : Machine) (E : Env) (s : State) (cpu : Nat) (b : Bool) :
    (hyp_core_ctl_handle_thermal M E s cpu b).our_isolated_cpus = s.our_isolated_cpus ∧
    (hyp_core_ctl_handle_thermal M E s cpu b).reserve_cpus = s.reserve_cpus ∧
    (hyp_core_ctl_handle_thermal M E s cpu b).pending = s.pending ∧
    ∃ new, (hyp_core_ctl_handle_thermal M E s cpu b).trace = s.trace ++ new ∧
      ∀ e ∈ new, Event.is_affinity_set e = true := by
  have hfin : ∀ T, (finalize_reservation M E s T).1.our_isolated_cpus = s.our_isolated_cpus ∧
      (finalize_reservation M E s T).1.reserve_cpus = s.reserve_cpus ∧
      (finalize_reservation M E s T).1.pending = s.pending ∧
      ∃ new, (finalize_reservation M E s T).1.trace = s.trace ++ new ∧
        ∀ e ∈ new, Event.is_affinity_set e = true := fun T =>
    ⟨(finalize_frame M E s T).2.1, (finalize_frame M E s T).1, (finalize_frame M E s T).2.2.1,
      finalize_only_hcalls M E s T⟩
  have hsame : s.our_isolated_cpus = s.our_isolated_cpus ∧ s.reserve_cpus = s.reserve_cpus ∧
      s.pending = s.pending ∧ ∃ new, s.trace = s.trace ++ new ∧
        ∀ e ∈ new, Event.is_affinity_set e = true := ⟨rfl, rfl, rfl, [], by simp, by simp⟩
  cases b with
  | true =>
    by_cases h : throttle_replacement_cpu M E s < M.nr_cpu_ids
    · rw [(handle_thermal_throttle M E s cpu).1 h]; exact hfin _
    · rw [(handle_thermal_throttle M E s cpu).2 h]; exact hsame
  | false =>
    by_cases h : unthrottle_replacement_cpu M s < M.nr_cpu_ids
    · rw [(handle_thermal_unthrottle M E s cpu).1 h]; exact hfin _
    · rw [(handle_thermal_unthrottle M E s cpu).2 h]; exact hsame

/-- The matching on `final_reserved_cpus` with `cpu` replaced by `r`, every hypercall
succeeding, from a consistent table with every vcpu on a CPU of `final_reserved_cpus` and
on its original CPU when that is in `final_reserved_cpus`, `r` being the original CPU of
no vcpu pinned elsewhere than `cpu`: the vcpu on `cpu` goes to `r`, the others stay. -/
theorem finalize_swap (M : Machine) (E : Env) (hE : HcallOK E) (hM : M.ok) (s : State)
    (cpu r : Nat) (hinv : TableInv M s) (horig : OnOriginal s)
    (hfin : s.final_reserved_cpus ⊆ Finset.range M.nr_cpu_ids)
    (hw : s.final_reserved_cpus.card = s.reserve_cpus.card)
    (hc : cpu ∈ s.final_reserved_cpus) (hr : r < M.nr_cpu_ids)
    (hrf : r ∉ s.final_reserved_cpus)
    (hro : ∀ m ∈ s.cpumap, m.pcpu = r → m.curr_pcpu = cpu) :
    ∀ (i : Nat) (m : hyp_core_ctl_cpu_map), s.cpumap[i]? = some m →
      ∃ o, (finalize_reservation M E s
          (insert r (s.final_reserved_cpus.erase cpu))).1.cpumap[i]? = some o ∧
        SameVcpu m o ∧ o.curr_pcpu = if m.curr_pcpu = cpu then r else m.curr_pcpu := by
  obtain ⟨htab, hcur⟩ := hinv
  set T := insert r (s.final_reserved_cpus.erase cpu) with hT
  have hTr : T ⊆ Finset.range M.nr_cpu_ids := by
    intro x hx
    rcases Finset.mem_insert.mp hx with rfl | hx
    · exact Finset.mem_range.mpr hr
    · exact hfin (Finset.mem_of_mem_erase hx)
  have hTne : T ≠ s.final_reserved_cpus := by
    intro h
    exact hrf (h ▸ Finset.mem_insert_self r _)
  have hTcard : T.card = s.final_reserved_cpus.card := by
    rw [hT, Finset.card_insert_of_not_mem (fun h => hrf (Finset.mem_of_mem_erase h)),
      Finset.card_erase_of_mem hc]
    have : 0 < s.final_reserved_cpus.card := Finset.card_pos.mpr ⟨cpu, hc⟩
    omega
  have hTw : ¬ T.card < s.reserve_cpus.card := by omega
  obtain ⟨hP, hF⟩ := finalize_matching M E hE hM s T htab hTr hTne hTw
  have hD := distinct_of_pairwise hP
  -- a vcpu that is not on `cpu` stays
  have hstay : ∀ (j : Nat) (m o : hyp_core_ctl_cpu_map), s.cpumap[j]? = some m →
      (finalize_reservation M E s T).1.cpumap[j]? = some o → m.curr_pcpu ≠ cpu →
      o.curr_pcpu = m.curr_pcpu := by
    intro j m o hj ho hne
    obtain ⟨o', ho', hm⟩ := forall2_getElem hF j m hj
    rw [ho] at ho'
    simp only [Option.some.injEq] at ho'
    subst ho'
    have hmem : m ∈ s.cpumap := List.getElem?_mem hj
    have hmT : m.curr_pcpu ∈ T :=
      Finset.mem_insert_of_mem (Finset.mem_erase.mpr ⟨hne, hcur m hmem⟩)
    by_cases hp : m.pcpu ∈ T
    · rw [hm.2.2.2.1 hp]
      rcases Finset.mem_insert.mp hp with h | h
      · exact absurd (hro m hmem h) hne
      · exact (horig m hmem (Finset.mem_of_mem_erase h)).symm
    · exact hm.2.2.2.2 hp hmT
  -- the current CPUs make up `final_reserved_cpus`
  have hnodup : (s.cpumap.map (fun m => m.curr_pcpu)).Nodup := by
    unfold List.Nodup
    exact List.Pairwise.map _ (fun a b hab => hab.2.1) htab.2.2.2
  have himg : (s.cpumap.map (fun m => m.curr_pcpu)).toFinset = s.final_reserved_cpus := by
    apply Finset.eq_of_subset_of_card_le
    · intro x hx
      rw [List.mem_toFinset, List.mem_map] at hx
      obtain ⟨m, hm, rfl⟩ := hx
      exact hcur m hm
    · rw [List.toFinset_card_of_nodup hnodup, List.length_map, hw, htab.2.2.1]
  intro i m hi
  obtain ⟨o, ho, hm⟩ := forall2_getElem hF i m hi
  refine ⟨o, ho, ⟨hm.1, hm.2.1⟩, ?_⟩
  by_cases hmc : m.curr_pcpu = cpu
  · rw [if_pos hmc]
    by_contra hne
    have hoT : o.curr_pcpu ∈ T := hm.2.2.1
    have hoF : o.curr_pcpu ∈ s.final_reserved_cpus.erase cpu :=
      (Finset.mem_insert.mp hoT).resolve_left hne
    have hoF' : o.curr_pcpu ∈ (s.cpumap.map (fun m => m.curr_pcpu)).toFinset := by
      rw [himg]; exact Finset.mem_of_mem_erase hoF
    rw [List.mem_toFinset, List.mem_map] at hoF'
    obtain ⟨m', hm', hcm'⟩ := hoF'
    obtain ⟨j, hj⟩ := List.mem_iff_getElem?.mp hm'
    have hm'c : m'.curr_pcpu ≠ cpu := by
      rw [hcm']; exact (Finset.mem_erase.mp hoF).1
    have hij : i ≠ j := by
      intro h
      rw [h, hj] at hi
      simp only [Option.some.injEq] at hi
      exact hm'c (hi ▸ hmc)
    obtain ⟨o', ho', _⟩ := forall2_getElem hF j m' hj
    have := hstay j m' o' hj ho' hm'c
    exact hD i j o o' ho ho' hij (by rw [this, hcm'])
  · rw [if_neg hmc]
    exact hstay i m o hi ho hmc

/-- C24 as stated fails.  On the table of scenario 1 with vcpu 101 displaced to CPU 0
(`final_reserved_cpus` 0,5), CPU 5 is throttled while CPUs 1, 2, 3 and 5 are throttled:
CPU 4 is possible, not throttled and not in `final_reserved_cpus`, it is the replacement
and `final_reserved_cpus` becomes 0,4, every hypercall succeeds, but the vcpu that was
pinned to CPU 5 ends on CPU 0, not on CPU 4, and vcpu 101 moves as well: two hypercalls
are made.  And from the state in which `final_reserved_cpus` is 0,4,5 and `reserve_cpus`
is 4,5, the unthrottle of CPU 4 takes CPU 0 out of `final_reserved_cpus` and adds
nothing: its weight goes from 3 to 2. -/
theorem c24_counterexample :
    (5 ∈ displaced0.final_reserved_cpus ∧
     displaced0.final_reserved_cpus = {0, 5} ∧
     displaced0.cpumap = [⟨101, 4, 0⟩, ⟨102, 5, 5⟩] ∧
     4 ∈ M8.cpu_possible_mask ∧ 4 ∉ (okEnv {1, 2, 3, 5}).thermal_cpus ∧
     4 ∉ displaced0.final_reserved_cpus ∧
     HcallOK (okEnv {1, 2, 3, 5}) ∧
     (hyp_core_ctl_handle_thermal M8 (okEnv {1, 2, 3, 5}) displaced0 5 true).final_reserved_cpus
       = {0, 4} ∧
     (hyp_core_ctl_handle_thermal M8 (okEnv {1, 2, 3, 5}) displaced0 5 true).cpumap
       = [⟨101, 4, 4⟩, ⟨102, 5, 0⟩] ∧
     (hyp_core_ctl_handle_thermal M8 (okEnv {1, 2, 3, 5}) displaced0 5 true).trace
       = displaced0.trace ++ [Event.affinity_set 101 4 0, Event.affinity_set 102 0 0]) ∧
    (overshot045.final_reserved_cpus = {0, 4, 5} ∧
     overshot045.reserve_cpus = {4, 5} ∧
     (hyp_core_ctl_handle_thermal M8 (okEnv ∅) overshot045 4 false).final_reserved_cpus
       = {4, 5} ∧
     (hyp_core_ctl_handle_thermal M8 (okEnv ∅) overshot045 4 false).final_reserved_cpus.card
       ≠ overshot045.final_reserved_cpus.card) := by
  refine ⟨⟨by decide, by decide, by decide, by decide, by decide, by decide,
    fun _ _ _ => rfl, by decide, by decide, by decide⟩, by decide, by decide, by decide,
    by decide⟩

/-- C24: `handle_thermal(cpu, throttled)` on a state in which `final_reserved_cpus` has
the weight of `reserve_cpus`.  Throttle of a CPU of `final_reserved_cpus`: when some
possible CPU is neither throttled nor in `final_reserved_cpus`, the replacement `r` is
such a CPU and `final_reserved_cpus` becomes `final_reserved_cpus` minus `cpu` plus `r`;
otherwise nothing changes.  Unthrottle: either nothing changes or `cpu`, which was not in
`final_reserved_cpus`, takes the place of a CPU of `final_reserved_cpus` outside
`reserve_cpus`.  In every one of these cases the weight of `final_reserved_cpus` is
unchanged; `our_isolated_cpus`, `reserve_cpus` and `pending` are unchanged and the only
calls made are hypercalls (nothing is isolated).  When every hypercall succeeds, the table
is consistent with every vcpu on a CPU of `final_reserved_cpus` and on its original CPU
when that is in `final_reserved_cpus`, and `r` is the original CPU of no vcpu pinned
elsewhere than `cpu`, the throttle redirects the vcpu pinned to `cpu` to `r` and leaves
every other vcpu where it is. -/
theorem c24_handle_thermal (M : Machine) (E : Env) (s : State) (cpu : Nat) (hM : M.ok)
    (hw : s.final_reserved_cpus.card = s.reserve_cpus.card) :
    (cpu ∈ s.final_reserved_cpus →
      (∃ p ∈ M.cpu_possible_mask, p ∉ E.thermal_cpus ∧ p ∉ s.final_reserved_cpus) →
      throttle_replacement_cpu M E s ∈ M.cpu_possible_mask ∧
      throttle_replacement_cpu M E s ∉ E.thermal_cpus ∧
      throttle_replacement_cpu M E s ∉ s.final_reserved_cpus ∧
      (hyp_core_ctl_handle_thermal M E s cpu true).final_reserved_cpus =
        insert (throttle_replacement_cpu M E s) (s.final_reserved_cpus.erase cpu)) ∧
    ((¬ ∃ p ∈ M.cpu_possible_mask, p ∉ E.thermal_cpus ∧ p ∉ s.final_reserved_cpus) →
      hyp_core_ctl_handle_thermal M E s cpu true = s) ∧
    (hyp_core_ctl_handle_thermal M E s cpu false = s ∨
      (cpu ∉ s.final_reserved_cpus ∧
       unthrottle_replacement_cpu M s ∈ s.final_reserved_cpus ∧
       unthrottle_replacement_cpu M s ∉ s.reserve_cpus ∧
       (hyp_core_ctl_handle_thermal M E s cpu false).final_reserved_cpus =
         insert cpu (s.final_reserved_cpus.erase (unthrottle_replacement_cpu M s)))) ∧
    (cpu ∈ s.final_reserved_cpus →
      (hyp_core_ctl_handle_thermal M E s cpu true).final_reserved_cpus.card =
        s.final_reserved_cpus.card) ∧
    (hyp_core_ctl_handle_thermal M E s cpu false).final_reserved_cpus.card =
      s.final_reserved_cpus.card ∧
    (∀ b, (hyp_core_ctl_handle_thermal M E s cpu b).our_isolated_cpus = s.our_isolated_cpus ∧
      (hyp_core_ctl_handle_thermal M E s cpu b).reserve_cpus = s.reserve_cpus ∧
      (hyp_core_ctl_handle_thermal M E s cpu b).pending = s.pending ∧
      ∃ new, (hyp_core_ctl_handle_thermal M E s cpu b).trace = s.trace ++ new ∧
        ∀ e ∈ new, Event.is_affinity_set e = true) ∧
    (HcallOK E → TableInv M s → OnOriginal s →
      s.final_reserved_cpus ⊆ M.cpu_possible_mask → cpu ∈ s.final_reserved_cpus →
      (∃ p ∈ M.cpu_possible_mask, p ∉ E.thermal_cpus ∧ p ∉ s.final_reserved_cpus) →
      (∀ m ∈ s.cpumap, m.pcpu = throttle_replacement_cpu M E s → m.curr_pcpu = cpu) →
      ∀ (i : Nat) (m : hyp_core_ctl_cpu_map), s.cpumap[i]? = some m →
        ∃ o, (hyp_core_ctl_handle_thermal M E s cpu true).cpumap[i]? = some o ∧
          SameVcpu m o ∧
          o.curr_pcpu =
            if m.curr_pcpu = cpu then throttle_replacement_cpu M E s else m.curr_pcpu) := by
  obtain ⟨hiff, hmem⟩ := throttle_replacement_spec M E s hM
  have hthr : cpu ∈ s.final_reserved_cpus →
      throttle_replacement_cpu M E s < M.nr_cpu_ids →
      (hyp_core_ctl_handle_thermal M E s cpu true).final_reserved_cpus =
        insert (throttle_replacement_cpu M E s) (s.final_reserved_cpus.erase cpu) := by
    intro hc hr
    rw [(handle_thermal_throttle M E s cpu).1 hr, finalize_final, if_neg]
    rw [card_insert_erase_swap _ _ _ hc (hmem hr).2.2]
    omega
  have hun : hyp_core_ctl_handle_thermal M E s cpu false = s ∨
      (cpu ∉ s.final_reserved_cpus ∧
       unthrottle_replacement_cpu M s ∈ s.final_reserved_cpus ∧
       unthrottle_replacement_cpu M s ∉ s.reserve_cpus ∧
       (hyp_core_ctl_handle_thermal M E s cpu false).final_reserved_cpus =
         insert cpu (s.final_reserved_cpus.erase (unthrottle_replacement_cpu M s))) := by
    by_cases hq : unthrottle_replacement_cpu M s < M.nr_cpu_ids
    · have hqm : unthrottle_replacement_cpu M s ∈ s.final_reserved_cpus ∧
          unthrottle_replacement_cpu M s ∉ s.reserve_cpus :=
        Finset.mem_sdiff.mp (cpumask_any_lt hq)
      rw [(handle_thermal_unthrottle M E s cpu).1 hq]
      by_cases hc : cpu ∈ s.final_reserved_cpus
      · left
        rw [finalize_noop]
        by_cases hcq : cpu = unthrottle_replacement_cpu M s
        · left
          rw [← hcq]
          exact Finset.insert_erase hc
        · right
          rw [Finset.insert_eq_of_mem (Finset.mem_erase.mpr ⟨hcq, hc⟩),
            Finset.card_erase_of_mem hqm.1]
          have : 0 < s.final_reserved_cpus.card := Finset.card_pos.mpr ⟨cpu, hc⟩
          omega
      · right
        refine ⟨hc, hqm.1, hqm.2, ?_⟩
        rw [finalize_final, if_neg]
        rw [card_insert_erase_swap _ _ _ hqm.1 hc]
        omega
    · left
      exact (handle_thermal_unthrottle M E s cpu).2 hq
  refine ⟨?_, ?_, hun, ?_, ?_, fun b => handle_thermal_quiet M E s cpu b, ?_⟩
  · intro hc hex
    have hr := hiff.mp hex
    exact ⟨(hmem hr).1, (hmem hr).2.1, (hmem hr).2.2, hthr hc hr⟩
  · intro hno
    exact (handle_thermal_throttle M E s cpu).2 (fun h => hno (hiff.mpr h))
  · intro hc
    by_cases hr : throttle_replacement_cpu M E s < M.nr_cpu_ids
    · rw [hthr hc hr]
      exact card_insert_erase_swap _ _ _ hc (hmem hr).2.2
    · rw [(handle_thermal_throttle M E s cpu).2 hr]
  · rcases hun with h | ⟨hc, hq1, _, h⟩
    · rw [h]
    · rw [h]
      exact card_insert_erase_swap _ _ _ hq1 hc
  · intro hE hinv horig hfin hc hex hro
    have hr := hiff.mp hex
    rw [(handle_thermal_throttle M E s cpu).1 hr]
    exact finalize_swap M E hE hM s cpu _ hinv horig (hfin.trans hM) hw hc hr (hmem hr).2.2 hro

/-- C24 on the freshly populated table of scenario 1 when CPU 4 is throttled: CPU 0 is the
replacement, `final_reserved_cpus` becomes 0,5 and vcpu 101 is redirected to CPU 0. -/
theorem c24_handle_thermal_witness :
    M8.ok ∧ fresh45.final_reserved_cpus.card = fresh45.reserve_cpus.card ∧
    throttle_replacement_cpu M8 (okEnv {4}) fresh45 = 0 ∧
    (hyp_core_ctl_handle_thermal M8 (okEnv {4}) fresh45 4 true).final_reserved_cpus =
      insert (throttle_replacement_cpu M8 (okEnv {4}) fresh45)
        (fresh45.final_reserved_cpus.erase 4) ∧
    (hyp_core_ctl_handle_thermal M8 (okEnv {4}) fresh45 4 true).final_reserved_cpus = {0, 5} ∧
    (hyp_core_ctl_handle_thermal M8 (okEnv {4}) fresh45 4 true).cpumap =
      [⟨101, 4, 0⟩, ⟨102, 5, 5⟩] ∧
    (∃ o, (hyp_core_ctl_handle_thermal M8 (okEnv {4}) fresh45 4 true).cpumap[0]? = some o ∧
      SameVcpu ⟨101, 4, 4⟩ o ∧
      o.curr_pcpu = if (4 : Nat) = 4 then throttle_replacement_cpu M8 (okEnv {4}) fresh45
        else 4) :=
  ⟨by unfold Machine.ok; decide, by decide, by decide,
   ((c24_handle_thermal M8 (okEnv {4}) fresh45 4 (by unfold Machine.ok; decide)
      (by decide)).1 (by decide) ⟨0, by decide, by decide, by decide⟩).2.2.2,
   by decide, by decide,
   (c24_handle_thermal M8 (okEnv {4}) fresh45 4 (by unfold Machine.ok; decide)
      (by decide)).2.2.2.2.2.2 (fun _ _ _ => rfl)
      (by unfold TableInv TableOK; decide) (by unfold OnOriginal; decide) (by decide)
      (by decide) ⟨0, by decide, by decide, by decide⟩ (by decide) 0 ⟨101, 4, 4⟩ rfl⟩

/-! ## C25: the relevance test of the thermal notifier -/

/-- C25: a throttle notification for a CPU outside `final_reserved_cpus`, and an
unthrottle notification for a CPU outside `reserve_cpus` while `final_reserved_cpus` does
not intersect the throttled set, leave the state unchanged (masks, vcpu table, `pending`,
trace: no un-isolate call and no hypercall).  In every other case, with the reservation
enabled, `pending` is true afterwards, the worker is woken, `reserve_cpus`,
`final_reserved_cpus` and the vcpu table are unchanged, no hypercall is made and an
unthrottle leaves `our_isolated_cpus` unchanged.  After a throttle notification for a CPU
of `final_reserved_cpus`, the reservation enabled or not, `our_isolated_cpus` is what it
was minus that CPU. -/
theorem c25_notifier_relevance (M : Machine) (E : Env) (s : State) (val : Bool) (cpu : Nat) :
    (val = true → cpu ∉ s.final_reserved_cpus →
      hyp_core_ctl_cpu_cooling_cb M E s val cpu = s) ∧
    (val = false → cpu ∉ s.reserve_cpus →
      ¬ (s.final_reserved_cpus ∩ E.thermal_cpus).Nonempty →
      hyp_core_ctl_cpu_cooling_cb M E s val cpu = s) ∧
    (s.reservation_enabled = true →
      ((val = true ∧ cpu ∈ s.final_reserved_cpus) ∨
       (val = false ∧ (cpu ∈ s.reserve_cpus ∨
          (s.final_reserved_cpus ∩ E.thermal_cpus).Nonempty))) →
      (hyp_core_ctl_cpu_cooling_cb M E s val cpu).pending = true ∧
      (val = false → (hyp_core_ctl_cpu_cooling_cb M E s val cpu).our_isolated_cpus =
        s.our_isolated_cpus) ∧
      (hyp_core_ctl_cpu_cooling_cb M E s val cpu).reserve_cpus = s.reserve_cpus ∧
      (hyp_core_ctl_cpu_cooling_cb M E s val cpu).final_reserved_cpus =
        s.final_reserved_cpus ∧
      (hyp_core_ctl_cpu_cooling_cb M E s val cpu).cpumap = s.cpumap ∧
      NoHcall s (hyp_core_ctl_cpu_cooling_cb M E s val cpu) ∧
      ∃ old, (hyp_core_ctl_cpu_cooling_cb M E s val cpu).trace =
        old ++ [Event.wake_up_process]) ∧
    (val = true → cpu ∈ s.final_reserved_cpus →
      cpu ∉ (hyp_core_ctl_cpu_cooling_cb M E s val cpu).our_isolated_cpus ∧
      (hyp_core_ctl_cpu_cooling_cb M E s val cpu).our_isolated_cpus =
        s.our_isolated_cpus.erase cpu) := by
  have hkick : ∀ (v : Bool) (t : State), t.reservation_enabled = true →
      cooling_cb_kick M E t cpu v = { t with pending := true }.log Event.wake_up_process := by
    intro v t ht
    unfold cooling_cb_kick
    rw [if_pos ht]
  have hkickour : ∀ (v : Bool) (t : State),
      (cooling_cb_kick M E t cpu v).our_isolated_cpus = t.our_isolated_cpus := by
    intro v t
    unfold cooling_cb_kick
    split_ifs
    · rfl
    · exact (handle_thermal_quiet M E t cpu v).1
  refine ⟨?_, ?_, ?_, ?_⟩
  · intro hv hc
    simp [hyp_core_ctl_cpu_cooling_cb, hv, hc]
  · intro hv hc hn
    simp only [hyp_core_ctl_cpu_cooling_cb, hv, Bool.false_eq_true, if_false]
    rw [if_pos ⟨hc, hn⟩]
  · intro hen hrel
    rcases hrel with ⟨hv, hc⟩ | ⟨hv, hc⟩
    · by_cases hin : cpu ∈ s.our_isolated_cpus
      · obtain ⟨f, n, _, _, _⟩ := unisolate_log_spec E s cpu
        have hcb : hyp_core_ctl_cpu_cooling_cb M E s val cpu =
            { unisolate_done E (s.log (Event.unisolate cpu (E.sched_unisolate_cpu s.trace cpu)))
                cpu with pending := true }.log Event.wake_up_process := by
          simp only [hyp_core_ctl_cpu_cooling_cb, hv, if_true]
          rw [if_neg (not_not.mpr hc), if_pos hin]
          exact hkick _ _ (by rw [f.enabled]; exact hen)
        rw [hcb]
        refine ⟨rfl, fun h => ?_, f.reserve, f.final, f.cpumap, ?_, _, rfl⟩
        · rw [hv] at h; exact absurd h (by simp)
        · exact n.append (NoHcall.one _ _ rfl)
      · have hcb : hyp_core_ctl_cpu_cooling_cb M E s val cpu =
            { s with pending := true }.log Event.wake_up_process := by
          simp only [hyp_core_ctl_cpu_cooling_cb, hv, if_true]
          rw [if_neg (not_not.mpr hc), if_neg hin]
          exact hkick _ _ hen
        rw [hcb]
        exact ⟨rfl, fun _ => rfl, rfl, rfl, rfl, NoHcall.one _ _ rfl, _, rfl⟩
    · have hcb : hyp_core_ctl_cpu_cooling_cb M E s val cpu =
          { s with pending := true }.log Event.wake_up_process := by
        simp only [hyp_core_ctl_cpu_cooling_cb, hv, Bool.false_eq_true, if_false]
        rw [if_neg (by tauto)]
        exact hkick _ _ hen
      rw [hcb]
      exact ⟨rfl, fun _ => rfl, rfl, rfl, rfl, NoHcall.one _ _ rfl, _, rfl⟩
  · intro hv hc
    have hour : (hyp_core_ctl_cpu_cooling_cb M E s val cpu).our_isolated_cpus =
        s.our_isolated_cpus.erase cpu := by
      by_cases hin : cpu ∈ s.our_isolated_cpus
      · obtain ⟨_, _, ho, _, _⟩ := unisolate_log_spec E s cpu
        have hcb : hyp_core_ctl_cpu_cooling_cb M E s val cpu =
            cooling_cb_kick M E
              (unisolate_done E
                (s.log (Event.unisolate cpu (E.sched_unisolate_cpu s.trace cpu))) cpu)
              cpu true := by
          simp only [hyp_core_ctl_cpu_cooling_cb, hv, if_true]
          rw [if_neg (not_not.mpr hc), if_pos hin]
        rw [hcb, hkickour, ho]
      · have hcb : hyp_core_ctl_cpu_cooling_cb M E s val cpu =
            cooling_cb_kick M E s cpu true := by
          simp only [hyp_core_ctl_cpu_cooling_cb, hv, if_true]
          rw [if_neg (not_not.mpr hc), if_neg hin]
        rw [hcb, hkickour]
        exact (Finset.erase_eq_of_not_mem hin).symm
    rw [hour]
    exact ⟨Finset.not_mem_erase _ _, rfl⟩

/-- C25 on the enabled reservation of CPUs 4 and 5: a throttle of CPU 0 changes nothing;
a throttle of CPU 4 sets `pending` and takes CPU 4 out of `our_isolated_cpus`. -/
theorem c25_notifier_relevance_witness :
    enabled45.reservation_enabled = true ∧
    enabled45.our_isolated_cpus = {4, 5} ∧
    hyp_core_ctl_cpu_cooling_cb M8 (okEnv {0}) enabled45 true 0 = enabled45 ∧
    (hyp_core_ctl_cpu_cooling_cb M8 (okEnv {4}) enabled45 true 4).pending = true ∧
    (hyp_core_ctl_cpu_cooling_cb M8 (okEnv {4}) enabled45 true 4).our_isolated_cpus = {5} ∧
    4 ∉ (hyp_core_ctl_cpu_cooling_cb M8 (okEnv {4}) enabled45 true 4).our_isolated_cpus :=
  ⟨by decide, by decide,
   (c25_notifier_relevance M8 (okEnv {0}) enabled45 true 0).1 rfl (by decide),
   ((c25_notifier_relevance M8 (okEnv {4}) enabled45 true 4).2.2.1 (by decide)
      (Or.inl ⟨rfl, by decide⟩)).1,
   by decide,
   ((c25_notifier_relevance M8 (okEnv {4}) enabled45 true 4).2.2.2 rfl (by decide)).1⟩

/-! ## C26: hotplug offline -/

/-- The fields that `reset_min_freq` leaves alone, and its calls. -/
theorem reset_min_freq_quiet (E : Env) (s : State) (cpu : Nat) :
    (reset_min_freq E s cpu).pending = s.pending ∧
    (reset_min_freq E s cpu).our_isolated_cpus = s.our_isolated_cpus ∧
    (reset_min_freq E s cpu).final_reserved_cpus = s.final_reserved_cpus ∧
    (reset_min_freq E s cpu).reserve_cpus = s.reserve_cpus ∧
    (reset_min_freq E s cpu).cpumap = s.cpumap ∧
    (reset_min_freq E s cpu).reservation_enabled = s.reservation_enabled := by
  simp only [reset_min_freq, freq_qos_update_request, State.log]
  split_ifs <;> simp

/-- C26: hotplug offline of CPU `c`.  With the reservation enabled `our_isolated_cpus`
afterwards is `our_isolated_cpus` minus `c`, and `final_reserved_cpus`, `reserve_cpus`, the
vcpu table and `pending` are unchanged; the only calls made are
`sched_unisolate_cpu_unlocked(c)` and a min-frequency update, so the worker is not woken,
nothing is isolated and no hypercall is made.  With the reservation disabled nothing
changes. -/
theorem c26_hp_offline (E : Env) (s : State) (c : Nat) :
    (s.reservation_enabled = true →
      (hyp_core_ctl_hp_offline E s c).our_isolated_cpus = s.our_isolated_cpus.erase c ∧
      (hyp_core_ctl_hp_offline E s c).final_reserved_cpus = s.final_reserved_cpus ∧
      (hyp_core_ctl_hp_offline E s c).reserve_cpus = s.reserve_cpus ∧
      (hyp_core_ctl_hp_offline E s c).cpumap = s.cpumap ∧
      (hyp_core_ctl_hp_offline E s c).pending = s.pending ∧
      (hyp_core_ctl_hp_offline E s c).reservation_enabled = true ∧
      ∃ new, (hyp_core_ctl_hp_offline E s c).trace = s.trace ++ new ∧
        ∀ e ∈ new, e = Event.unisolate_unlocked c ∨ Event.is_qos_update e = true) ∧
    (s.reservation_enabled = false → hyp_core_ctl_hp_offline E s c = s) := by
  constructor
  · intro hen
    by_cases hc : c ∈ s.our_isolated_cpus
    · have hoff : hyp_core_ctl_hp_offline E s c = reset_min_freq E
          ({ s with our_isolated_cpus := s.our_isolated_cpus.erase c }.log
            (Event.unisolate_unlocked c)) c := by
        unfold hyp_core_ctl_hp_offline
        rw [if_neg (by simp [hen]), if_pos hc]
      obtain ⟨a, b, c1, d, e, f⟩ := reset_min_freq_quiet E
        ({ s with our_isolated_cpus := s.our_isolated_cpus.erase c }.log
          (Event.unisolate_unlocked c)) c
      obtain ⟨nq, eq, pq⟩ := reset_min_freq_calls E
        ({ s with our_isolated_cpus := s.our_isolated_cpus.erase c }.log
          (Event.unisolate_unlocked c)) c
      rw [hoff]
      refine ⟨b, c1, d, e, a, f.trans hen, Event.unisolate_unlocked c :: nq, ?_, ?_⟩
      · rw [eq]
        simp [State.log]
      · intro x hx
        rcases List.mem_cons.mp hx with h | h
        · exact Or.inl h
        · exact Or.inr (pq x h)
    · have hoff : hyp_core_ctl_hp_offline E s c = s := by
        unfold hyp_core_ctl_hp_offline
        rw [if_neg (by simp [hen]), if_neg hc]
      rw [hoff]
      exact ⟨(Finset.erase_eq_of_not_mem hc).symm, rfl, rfl, rfl, rfl, hen, [], by simp,
        by simp⟩
  · intro hdis
    unfold hyp_core_ctl_hp_offline
    rw [if_pos hdis]

/-- C26 on the enabled reservation of CPUs 4 and 5 when CPU 5 goes offline: CPU 4 stays
isolated, nothing else changes and the only call is the un-isolate call for CPU 5. -/
theorem c26_hp_offline_witness :
    enabled45.reservation_enabled = true ∧
    enabled45.our_isolated_cpus = {4, 5} ∧
    (hyp_core_ctl_hp_offline (okEnv ∅) enabled45 5).our_isolated_cpus = {4} ∧
    (hyp_core_ctl_hp_offline (okEnv ∅) enabled45 5).final_reserved_cpus = {4, 5} ∧
    (hyp_core_ctl_hp_offline (okEnv ∅) enabled45 5).pending = false ∧
    (hyp_core_ctl_hp_offline (okEnv ∅) enabled45 5).trace =
      enabled45.trace ++ [Event.unisolate_unlocked 5] ∧
    (hyp_core_ctl_hp_offline (okEnv ∅) enabled45 5).our_isolated_cpus =
      enabled45.our_isolated_cpus.erase 5 :=
  ⟨by decide, by decide, by decide, by decide, by decide, by decide,
   ((c26_hp_offline (okEnv ∅) enabled45 5).1 (by decide)).1⟩

/-! ## C27: hotplug online -/

/-- A pass of `do_reservation` that only has to isolate again: the CPUs of `reserve_cpus`
that are neither isolated nor throttled are online, together with the isolated CPUs they
make up `final_reserved_cpus`, which has the weight of `reserve_cpus`.  Then the pass
isolates them and makes no hypercall. -/
theorem do_reservation_settles (M : Machine) (E : Env) (s : State) (hI : IsolateOK E)
    (hon : ∀ c ∈ s.reserve_cpus, c ∉ s.our_isolated_cpus → c ∉ E.thermal_cpus →
      c < M.nr_cpu_ids → c ∈ E.cpu_online_mask)
    (hfin : ∀ c, c ∈ s.final_reserved_cpus ↔ c ∈ s.our_isolated_cpus ∨
      (c ∈ s.reserve_cpus ∧ c ∉ E.thermal_cpus ∧ c < M.nr_cpu_ids))
    (hw : s.final_reserved_cpus.card = s.reserve_cpus.card) :
    Frame s (hyp_core_ctl_do_reservation M E s) ∧
    NoHcall s (hyp_core_ctl_do_reservation M E s) ∧
    (hyp_core_ctl_do_reservation M E s).our_isolated_cpus = s.final_reserved_cpus := by
  obtain ⟨f1, n1, a1, b1, c1, d1, _⟩ := isolate_reserve_loop_spec E
    (for_each_cpu M ((s.reserve_cpus \ s.our_isolated_cpus) \ E.thermal_cpus)) s ∅
  have hl : ∀ c, c ∈ for_each_cpu M ((s.reserve_cpus \ s.our_isolated_cpus) \ E.thermal_cpus)
      ↔ (c ∈ s.reserve_cpus ∧ c ∉ s.our_isolated_cpus ∧ c ∉ E.thermal_cpus ∧
          c < M.nr_cpu_ids) := by
    intro c
    rw [mem_for_each_cpu]
    simp only [Finset.mem_sdiff]
    tauto
  have hO : (isolate_reserve_loop E
      (for_each_cpu M ((s.reserve_cpus \ s.our_isolated_cpus) \ E.thermal_cpus)) s ∅).2 = ∅ := by
    ext c
    rw [c1 c]
    simp only [Finset.not_mem_empty, false_or, iff_false, not_and, not_not]
    intro h
    obtain ⟨h1, h2, h3, h4⟩ := (hl c).mp h
    exact hon c h1 h2 h3 h4
  have hI1 : (isolate_reserve_loop E
      (for_each_cpu M ((s.reserve_cpus \ s.our_isolated_cpus) \ E.thermal_cpus)) s ∅).1.our_isolated_cpus
      = s.final_reserved_cpus := by
    ext c
    constructor
    · intro h
      rcases b1 c h with h' | h'
      · exact (hfin c).mpr (Or.inl h')
      · obtain ⟨h1, _, h3, h4⟩ := (hl c).mp h'.1
        exact (hfin c).mpr (Or.inr ⟨h1, h3, h4⟩)
    · intro h
      rcases (hfin c).mp h with h' | ⟨h1, h3, h4⟩
      · exact a1 h'
      · by_cases h2 : c ∈ s.our_isolated_cpus
        · exact a1 h2
        · exact d1 hI c ((hl c).mpr ⟨h1, h2, h3, h4⟩) (hon c h1 h2 h3 h4)
  have hiso : do_reservation_isolation M E s = ((isolate_reserve_loop E
      (for_each_cpu M ((s.reserve_cpus \ s.our_isolated_cpus) \ E.thermal_cpus)) s ∅).1, ∅) := by
    simp only [do_reservation_isolation]
    rw [hO, hI1, f1.reserve, hw]
    simp
  have hres : hyp_core_ctl_do_reservation M E s = (isolate_reserve_loop E
      (for_each_cpu M ((s.reserve_cpus \ s.our_isolated_cpus) \ E.thermal_cpus)) s ∅).1 := by
    unfold hyp_core_ctl_do_reservation do_reservation_temp
    rw [hiso]
    simp only
    rw [finalize_noop]
    left
    rw [hI1, f1.final]
    simp
  rw [hres]
  exact ⟨f1, n1, hI1⟩

/-- C27 as stated fails: on the enabled reservation of CPUs 4 and 5, CPU 5 goes offline,
CPU 4 is throttled and CPU 5 comes back online before the worker has run.  CPU 5 is in
`reserve_cpus` and not throttled and every isolate call succeeds, and the worker pass that
follows puts CPU 5 back into `our_isolated_cpus`; but it also isolates CPU 0 in place of
CPU 4 and issues the hypercall that moves vcpu 101 to CPU 0. -/
theorem c27_counterexample :
    back_online5.reservation_enabled = true ∧
    back_online5.pending = true ∧
    back_online5.our_isolated_cpus = ∅ ∧
    5 ∈ back_online5.final_reserved_cpus ∧
    5 ∈ back_online5.reserve_cpus ∧
    5 ∉ (okEnv {4}).thermal_cpus ∧
    5 ∈ (okEnv {4}).cpu_online_mask ∧
    IsolateOK (okEnv {4}) ∧
    (hyp_core_ctl_thread M8 (okEnv {4}) back_online5).our_isolated_cpus = {0, 5} ∧
    (hyp_core_ctl_thread M8 (okEnv {4}) back_online5).trace =
      back_online5.trace ++
        [Event.isolate 5 0, Event.isolate 0 0, Event.affinity_set 101 0 0] ∧
    ¬ NoHcall back_online5 (hyp_core_ctl_thread M8 (okEnv {4}) back_online5) := by
  have htr : (hyp_core_ctl_thread M8 (okEnv {4}) back_online5).trace =
      back_online5.trace ++
        [Event.isolate 5 0, Event.isolate 0 0, Event.affinity_set 101 0 0] := by decide
  refine ⟨by decide, by decide, by decide, by decide, by decide, by decide, by decide,
    fun _ _ => le_refl _, by decide, htr, ?_⟩
  rintro ⟨new, hnew, hno⟩
  rw [htr] at hnew
  have := List.append_cancel_left hnew
  subst this
  exact absurd (hno (Event.affinity_set 101 0 0) (by simp)) (by simp [Event.is_affinity_set])

/-- C27: hotplug online of CPU `c` sets `pending` and wakes the worker when the
reservation is enabled and `c` is in `final_reserved_cpus`, and does nothing otherwise; it
changes no mask and no vcpu record.  In the worker pass that follows, with the reservation
enabled, every isolate call succeeding and `c` in `reserve_cpus`, online and not throttled,
`c` is in `our_isolated_cpus` afterwards.  When moreover `c` is in `final_reserved_cpus`,
`our_isolated_cpus` was `final_reserved_cpus` minus `c`, `final_reserved_cpus` has the
weight of `reserve_cpus` and every CPU of `reserve_cpus` outside `final_reserved_cpus` is
throttled, that pass makes no hypercall and leaves `final_reserved_cpus` and the vcpu
table unchanged, `our_isolated_cpus` being `final_reserved_cpus` afterwards. -/
theorem c27_hp_online (M : Machine) (E : Env) (s : State) (c : Nat) :
    (s.reservation_enabled = true → c ∈ s.final_reserved_cpus →
      (hyp_core_ctl_hp_online s c).pending = true ∧
      (hyp_core_ctl_hp_online s c).trace = s.trace ++ [Event.wake_up_process]) ∧
    (¬ (s.reservation_enabled = true ∧ c ∈ s.final_reserved_cpus) →
      hyp_core_ctl_hp_online s c = s) ∧
    ((hyp_core_ctl_hp_online s c).reserve_cpus = s.reserve_cpus ∧
     (hyp_core_ctl_hp_online s c).our_isolated_cpus = s.our_isolated_cpus ∧
     (hyp_core_ctl_hp_online s c).final_reserved_cpus = s.final_reserved_cpus ∧
     (hyp_core_ctl_hp_online s c).cpumap = s.cpumap ∧
     (hyp_core_ctl_hp_online s c).reservation_enabled = s.reservation_enabled) ∧
    (s.reservation_enabled = true → IsolateOK E → c ∈ s.reserve_cpus →
      c ∉ E.thermal_cpus → c ∈ E.cpu_online_mask → c < M.nr_cpu_ids →
      c ∈ (hyp_core_ctl_thread M E (hyp_core_ctl_hp_online s c)).our_isolated_cpus ∧
      (c ∈ s.final_reserved_cpus → s.our_isolated_cpus = s.final_reserved_cpus.erase c →
        s.final_reserved_cpus.card = s.reserve_cpus.card →
        (∀ x ∈ s.reserve_cpus, x ∉ s.final_reserved_cpus → x ∈ E.thermal_cpus) →
        NoHcall (hyp_core_ctl_hp_online s c)
          (hyp_core_ctl_thread M E (hyp_core_ctl_hp_online s c)) ∧
        (hyp_core_ctl_thread M E (hyp_core_ctl_hp_online s c)).our_isolated_cpus =
          s.final_reserved_cpus ∧
        (hyp_core_ctl_thread M E (hyp_core_ctl_hp_online s c)).final_reserved_cpus =
          s.final_reserved_cpus ∧
        (hyp_core_ctl_thread M E (hyp_core_ctl_hp_online s c)).cpumap = s.cpumap)) := by
  have hfields : (hyp_core_ctl_hp_online s c).reserve_cpus = s.reserve_cpus ∧
      (hyp_core_ctl_hp_online s c).our_isolated_cpus = s.our_isolated_cpus ∧
      (hyp_core_ctl_hp_online s c).final_reserved_cpus = s.final_reserved_cpus ∧
      (hyp_core_ctl_hp_online s c).cpumap = s.cpumap ∧
      (hyp_core_ctl_hp_online s c).reservation_enabled = s.reservation_enabled := by
    unfold hyp_core_ctl_hp_online
    split_ifs <;> simp [State.log]
  refine ⟨?_, ?_, hfields, ?_⟩
  · intro hen hc
    unfold hyp_core_ctl_hp_online
    rw [if_neg (by simp [hen]), if_pos hc]
    exact ⟨rfl, rfl⟩
  · intro h
    unfold hyp_core_ctl_hp_online
    by_cases hen : s.reservation_enabled = true
    · rw [if_neg (by simp [hen]), if_neg (fun hc => h ⟨hen, hc⟩)]
    · rw [if_pos (by simpa using hen)]
  · intro hen hI hcr hct hco hcn
    obtain ⟨h1, h2, h3, h4, h5⟩ := hfields
    have hthr : hyp_core_ctl_thread M E (hyp_core_ctl_hp_online s c) =
        hyp_core_ctl_do_reservation M E
          { hyp_core_ctl_hp_online s c with pending := false } := by
      simp only [hyp_core_ctl_thread, h5, hen, if_true]
    rw [hthr]
    constructor
    · unfold hyp_core_ctl_do_reservation
      rw [(finalize_frame M E _ _).2.1]
      exact (do_reservation_isolation_keep M E
        { hyp_core_ctl_hp_online s c with pending := false }).2 hI c
        (by show c ∈ (hyp_core_ctl_hp_online s c).reserve_cpus; rw [h1]; exact hcr)
        hct hco hcn
    · intro hcf hour hw hth
      obtain ⟨f, n, ho⟩ := do_reservation_settles M E
        { hyp_core_ctl_hp_online s c with pending := false } hI
        (by
          intro x hx hxo hxt _
          have hx' : x ∈ s.reserve_cpus := by rw [← h1]; exact hx
          have hxo' : x ∉ s.final_reserved_cpus.erase c := by
            rw [← hour, ← h2]; exact hxo
          by_cases hxc : x = c
          · rw [hxc]; exact hco
          · have : x ∉ s.final_reserved_cpus := fun hm =>
              hxo' (Finset.mem_erase.mpr ⟨hxc, hm⟩)
            exact absurd (hth x hx' this) hxt)
        (by
          intro x
          show x ∈ (hyp_core_ctl_hp_online s c).final_reserved_cpus ↔
            x ∈ (hyp_core_ctl_hp_online s c).our_isolated_cpus ∨
              (x ∈ (hyp_core_ctl_hp_online s c).reserve_cpus ∧ x ∉ E.thermal_cpus ∧
                x < M.nr_cpu_ids)
          rw [h1, h2, h3, hour]
          constructor
          · intro hx
            by_cases hxc : x = c
            · right; rw [hxc]; exact ⟨hcr, hct, hcn⟩
            · left; exact Finset.mem_erase.mpr ⟨hxc, hx⟩
          · rintro (hx | ⟨hx, hxt, _⟩)
            · exact Finset.mem_of_mem_erase hx
            · by_contra hxf
              exact hxt (hth x hx hxf))
        (by
          show (hyp_core_ctl_hp_online s c).final_reserved_cpus.card =
            (hyp_core_ctl_hp_online s c).reserve_cpus.card
          rw [h1, h3]; exact hw)
      refine ⟨?_, ?_, ?_, ?_⟩
      · obtain ⟨new, hnew, hno⟩ := n
        exact ⟨new, hnew, hno⟩
      · rw [ho]; exact h3
      · rw [f.final]; exact h3
      · rw [f.cpumap]; exact h4

/-- C27 on the enabled reservation of CPUs 4 and 5 after CPU 5 went offline: when CPU 5
comes back the worker is woken, and its pass isolates CPU 5 again without a hypercall. -/
theorem c27_hp_online_witness :
    (hyp_core_ctl_hp_offline (okEnv ∅) enabled45 5).our_isolated_cpus = {4} ∧
    (hyp_core_ctl_hp_online (hyp_core_ctl_hp_offline (okEnv ∅) enabled45 5) 5).pending = true ∧
    (hyp_core_ctl_thread M8 (okEnv ∅)
      (hyp_core_ctl_hp_online (hyp_core_ctl_hp_offline (okEnv ∅) enabled45 5) 5)).our_isolated_cpus
      = {4, 5} ∧
    (hyp_core_ctl_thread M8 (okEnv ∅)
      (hyp_core_ctl_hp_online (hyp_core_ctl_hp_offline (okEnv ∅) enabled45 5) 5)).trace =
      (hyp_core_ctl_hp_online (hyp_core_ctl_hp_offline (okEnv ∅) enabled45 5) 5).trace ++
        [Event.isolate 5 0] ∧
    NoHcall (hyp_core_ctl_hp_online (hyp_core_ctl_hp_offline (okEnv ∅) enabled45 5) 5)
      (hyp_core_ctl_thread M8 (okEnv ∅)
        (hyp_core_ctl_hp_online (hyp_core_ctl_hp_offline (okEnv ∅) enabled45 5) 5)) :=
  ⟨by decide,
   ((c27_hp_online M8 (okEnv ∅) (hyp_core_ctl_hp_offline (okEnv ∅) enabled45 5) 5).1
      (by decide) (by decide)).1,
   by decide, by decide,
   (((c27_hp_online M8 (okEnv ∅) (hyp_core_ctl_hp_offline (okEnv ∅) enabled45 5) 5).2.2.2
      (by decide) (fun _ _ => le_refl _) (by decide) (by decide) (by decide) (by decide)).2
      (by decide) (by decide) (by decide) (by decide)).1⟩


end HypCoreCtl
